import Mathlib

/-!
# updown: webhook decoder and date / metrics parsing

A verification development for the Go package `updown` (`src/updown.go`).

The package leans on three library facilities: `encoding/json` (the
`json.Unmarshal` entry point), `time.Parse` and `sort.Slice`.  They are modelled
here as follows.

* JSON text is first checked and turned into a tree (`parseJSON`), the way
  `json.Unmarshal` validates the whole input before it stores anything.  Every
  node keeps the exact text it was read from, because the decoder hands that text
  to `UnmarshalJSON` methods.  Input text is a list of characters: byte sequences
  that are not valid UTF-8 are outside the model.
* Storing a tree into a Go value follows the reflection driven decoder: a type
  mismatch and an error returned by an `UnmarshalJSON` method are recorded (the
  first one wins) and decoding goes on with the next member or element; only a
  panic in an `UnmarshalJSON` method stops the decoding.
* The order in which `range` visits a map and the algorithm behind `sort.Slice`
  are not fixed by Go.  Both are fields of `Runtime`, together with the contract
  they obey.
* A `float64` keeps the decimal value of the literal it was read from; binary
  rounding is not modelled.  A nil slice or map and an empty one are the same
  list.
-/

namespace Updown

/-! ## JSON text -/

/-- A JSON value together with the source text of strings, arrays and objects. -/
inductive JVal where
  | null
  | bool (b : Bool)
  | num (lit : List Char)
  | str (raw : List Char) (s : String)
  | arr (raw : List Char) (items : List JVal)
  | obj (raw : List Char) (members : List (String × JVal))

/-- The exact text a value was read from. -/
def JVal.raw : JVal → List Char
  | .null => "null".toList
  | .bool true => "true".toList
  | .bool false => "false".toList
  | .num lit => lit
  | .str raw _ => raw
  | .arr raw _ => raw
  | .obj raw _ => raw

def isSpace (c : Char) : Bool :=
  c = ' ' || c = '\t' || c = '\r' || c = '\n'

def isDigit (c : Char) : Bool :=
  decide ('0' ≤ c) && decide (c ≤ '9')

def isHex (c : Char) : Bool :=
  isDigit c || (decide ('a' ≤ c) && decide (c ≤ 'f')) || (decide ('A' ≤ c) && decide (c ≤ 'F'))

/-- The scanner's rendering of an offending character (`quoteChar`). -/
def quoteChar (c : Char) : String :=
  if c = '\'' then "'\\''"
  else if c = '\\' then "'\\\\'"
  else if c = '\n' then "'\\n'"
  else if c = '\t' then "'\\t'"
  else if c = '\r' then "'\\r'"
  else "'" ++ String.mk [c] ++ "'"

def eofMsg : String := "unexpected end of JSON input"

def badChar (c : Char) (context : String) : String :=
  "invalid character " ++ quoteChar c ++ " " ++ context

/-- Error at the head of the remaining input; at the end of the input the scanner
is fed one blank, which literals and numbers reject. -/
def badHead (cs : List Char) (context : String) : String :=
  match cs with
  | [] => badChar ' ' context
  | c :: _ => badChar c context

def hexContext : String := "in \\u hexadecimal character escape"

/-- Scans a string body after the opening quote: the body (escapes untouched) and
what follows the closing quote. -/
def scanString : List Char → Except String (List Char × List Char)
  | [] => .error eofMsg
  | c :: rest =>
    if c = '"' then .ok ([], rest)
    else if c = '\\' then
      match rest with
      | [] => .error eofMsg
      | e :: rest1 =>
        if e = 'u' then
          match rest1 with
          | h1 :: h2 :: h3 :: h4 :: rest2 =>
            if !isHex h1 then .error (badChar h1 hexContext)
            else if !isHex h2 then .error (badChar h2 hexContext)
            else if !isHex h3 then .error (badChar h3 hexContext)
            else if !isHex h4 then .error (badChar h4 hexContext)
            else
              match scanString rest2 with
              | .ok (body, after) => .ok (c :: e :: h1 :: h2 :: h3 :: h4 :: body, after)
              | .error m => .error m
          | short =>
            match short.find? (fun h => !isHex h) with
            | some h => .error (badChar h hexContext)
            | none => .error eofMsg
        else if e = 'b' || e = 'f' || e = 'n' || e = 'r' || e = 't' || e = '\\' || e = '/' || e = '"' then
          match scanString rest1 with
          | .ok (body, after) => .ok (c :: e :: body, after)
          | .error m => .error m
        else .error (badChar e "in string escape code")
    else if c.toNat < 32 then .error (badChar c "in string literal")
    else
      match scanString rest with
      | .ok (body, after) => .ok (c :: body, after)
      | .error m => .error m

def hexVal (c : Char) : Nat :=
  if isDigit c then c.toNat - 48
  else if decide ('a' ≤ c) && decide (c ≤ 'f') then c.toNat - 87
  else c.toNat - 55

def u4 (a b c d : Char) : Nat :=
  ((hexVal a * 16 + hexVal b) * 16 + hexVal c) * 16 + hexVal d

def isSurrogate (r : Nat) : Bool := decide (0xD800 ≤ r) && decide (r < 0xE000)

def escapeChar (e : Char) : Char :=
  if e = 'b' then Char.ofNat 8
  else if e = 'f' then Char.ofNat 12
  else if e = 'n' then '\n'
  else if e = 'r' then '\r'
  else if e = 't' then '\t'
  else e

/-- The second half of a surrogate pair, when the text goes on with one. -/
def lowSurrogate (cs : List Char) : Option Nat :=
  match cs with
  | b :: u :: h1 :: h2 :: h3 :: h4 :: _ =>
    if b = '\\' && u = 'u' && isHex h1 && isHex h2 && isHex h3 && isHex h4 then
      let r := u4 h1 h2 h3 h4
      if decide (0xDC00 ≤ r) && decide (r < 0xE000) then some r else none
    else none
  | _ => none

/-- Decodes the escapes of a scanned string body (`unquote`). -/
def unquoteAux : Nat → List Char → List Char
  | 0, _ => []
  | _ + 1, [] => []
  | fuel + 1, c :: rest =>
    if c = '\\' then
      match rest with
      | [] => []
      | e :: rest1 =>
        if e = 'u' then
          match rest1 with
          | h1 :: h2 :: h3 :: h4 :: rest2 =>
            let r := u4 h1 h2 h3 h4
            if isSurrogate r then
              match lowSurrogate rest2 with
              | some r2 =>
                if r < 0xDC00 then
                  Char.ofNat ((r - 0xD800) * 1024 + (r2 - 0xDC00) + 0x10000)
                    :: unquoteAux fuel (rest2.drop 6)
                else Char.ofNat 0xFFFD :: unquoteAux fuel rest2
              | none => Char.ofNat 0xFFFD :: unquoteAux fuel rest2
            else Char.ofNat r :: unquoteAux fuel rest2
          | _ => []
        else escapeChar e :: unquoteAux fuel rest1
    else c :: unquoteAux fuel rest

def unquote (body : List Char) : String :=
  String.mk (unquoteAux body.length body)

def takeDigits : List Char → List Char × List Char
  | [] => ([], [])
  | c :: rest =>
    if isDigit c then
      let r := takeDigits rest
      (c :: r.1, r.2)
    else ([], c :: rest)

/-- Exponent part of a number, after the digits of the mantissa. -/
def scanExponent (cs : List Char) : Except String (List Char × List Char) :=
  match cs with
  | e :: rest =>
    if e = 'e' || e = 'E' then
      let (sign, rest1) :=
        match rest with
        | s :: r => if s = '+' || s = '-' then ([s], r) else ([], rest)
        | [] => ([], rest)
      let (ds, rest2) := takeDigits rest1
      if ds.isEmpty then .error (badHead rest2 "in exponent of numeric literal")
      else .ok (e :: sign ++ ds, rest2)
    else .ok ([], cs)
  | [] => .ok ([], cs)

/-- Fraction and exponent of a number, after the integer part. -/
def scanFraction (cs : List Char) : Except String (List Char × List Char) :=
  match cs with
  | dot :: rest =>
    if dot = '.' then
      let (ds, rest1) := takeDigits rest
      if ds.isEmpty then .error (badHead rest1 "after decimal point in numeric literal")
      else
        match scanExponent rest1 with
        | .ok (ex, rest2) => .ok (dot :: ds ++ ex, rest2)
        | .error m => .error m
    else scanExponent cs
  | [] => .ok ([], cs)

/-- Integer part of a number without the sign, then the rest of the number. -/
def scanUnsigned (cs : List Char) : Except String (List Char × List Char) :=
  match cs with
  | d :: rest =>
    if d = '0' then
      match scanFraction rest with
      | .ok (fr, rest1) => .ok (d :: fr, rest1)
      | .error m => .error m
    else if isDigit d then
      let (ds, rest1) := takeDigits rest
      match scanFraction rest1 with
      | .ok (fr, rest2) => .ok (d :: ds ++ fr, rest2)
      | .error m => .error m
    else .error (badChar d "in numeric literal")
  | [] => .error (badChar ' ' "in numeric literal")

/-- Scans a number literal: the literal and what follows it. -/
def scanNumber (cs : List Char) : Except String (List Char × List Char) :=
  match cs with
  | c :: rest =>
    if c = '-' then
      match scanUnsigned rest with
      | .ok (lit, rest1) => .ok (c :: lit, rest1)
      | .error m => .error m
    else scanUnsigned cs
  | [] => .error eofMsg

/-- Scans the rest of `true`, `false` or `null` after its first letter. -/
def scanWord (word : String) (tail : List Char) (cs : List Char) : Except String (List Char) :=
  match tail with
  | [] => .ok cs
  | t :: tail1 =>
    match cs with
    | c :: rest =>
      if c = t then scanWord word tail1 rest
      else .error (badChar c ("in literal " ++ word ++ " (expecting " ++ quoteChar t ++ ")"))
    | [] => .error (badChar ' ' ("in literal " ++ word ++ " (expecting " ++ quoteChar t ++ ")"))

/-- An open array or object: the text read so far (reversed) and its content. -/
inductive Frame where
  | arr (rawRev : List Char) (items : List JVal)
  | obj (rawRev : List Char) (members : List (String × JVal)) (key : String)

/-- What the scanner is waiting for. -/
inductive Expect where
  | value
  | valueOrEmpty
  | keyOrEmpty
  | key
  | colon
  | endValue
  | top (v : JVal)

def maxNestingDepth : Nat := 10000

/-- Adds consumed text to the innermost open array or object. -/
def feed (txt : List Char) : List Frame → List Frame
  | [] => []
  | .arr rr items :: fs => .arr (txt.reverse ++ rr) items :: fs
  | .obj rr ms k :: fs => .obj (txt.reverse ++ rr) ms k :: fs

/-- A finished value goes into the innermost open array or object, or is the
top-level value. -/
def pushValue (v : JVal) : List Frame → Expect × List Frame
  | [] => (.top v, [])
  | .arr rr items :: fs => (.endValue, .arr (v.raw.reverse ++ rr) (items ++ [v]) :: fs)
  | .obj rr ms k :: fs => (.endValue, .obj (v.raw.reverse ++ rr) (ms ++ [(k, v)]) k :: fs)

/-- Reads one value at the head of the input (the head is not a blank). -/
def beginValue (c : Char) (rest : List Char) (stack : List Frame) :
    Except String (Expect × List Frame × List Char) :=
  if c = '[' then
    if stack.length + 1 ≤ maxNestingDepth then .ok (.valueOrEmpty, .arr [c] [] :: stack, rest)
    else .error (badChar c "exceeded max depth")
  else if c = '\x7b' then
    if stack.length + 1 ≤ maxNestingDepth then .ok (.keyOrEmpty, .obj [c] [] "" :: stack, rest)
    else .error (badChar c "exceeded max depth")
  else if c = '"' then
    match scanString rest with
    | .ok (body, after) =>
      let p := pushValue (.str (c :: body ++ [c]) (unquote body)) stack
      .ok (p.1, p.2, after)
    | .error m => .error m
  else if c = '-' || isDigit c then
    match scanNumber (c :: rest) with
    | .ok (lit, after) =>
      let p := pushValue (.num lit) stack
      .ok (p.1, p.2, after)
    | .error m => .error m
  else if c = 't' then
    match scanWord "true" "rue".toList rest with
    | .ok after => let p := pushValue (.bool true) stack; .ok (p.1, p.2, after)
    | .error m => .error m
  else if c = 'f' then
    match scanWord "false" "alse".toList rest with
    | .ok after => let p := pushValue (.bool false) stack; .ok (p.1, p.2, after)
    | .error m => .error m
  else if c = 'n' then
    match scanWord "null" "ull".toList rest with
    | .ok after => let p := pushValue .null stack; .ok (p.1, p.2, after)
    | .error m => .error m
  else .error (badChar c "looking for beginning of value")

/-- Reads an object key at the head of the input. -/
def beginKey (c : Char) (rest : List Char) (stack : List Frame) :
    Except String (Expect × List Frame × List Char) :=
  if c = '"' then
    match scanString rest with
    | .ok (body, after) =>
      match stack with
      | .obj rr ms _ :: fs =>
        .ok (.colon, .obj ((c :: body ++ [c]).reverse ++ rr) ms (unquote body) :: fs, after)
      | _ => .error "scanner out of step"
    | .error m => .error m
  else .error (badChar c "looking for beginning of object key string")

/-- Closes the innermost open array or object with the bracket `c`. -/
def closeFrame (c : Char) (stack : List Frame) : Except String (Expect × List Frame) :=
  match stack with
  | .arr rr items :: fs => .ok (pushValue (.arr (c :: rr).reverse items) fs)
  | .obj rr ms _ :: fs => .ok (pushValue (.obj (c :: rr).reverse ms) fs)
  | [] => .error "scanner out of step"

/-- One step of the scanner on a non-blank character. -/
def scanStep (e : Expect) (c : Char) (rest : List Char) (stack : List Frame) :
    Except String (Expect × List Frame × List Char) :=
  match e with
  | .value => beginValue c rest stack
  | .valueOrEmpty =>
    if c = ']' then (closeFrame c stack).map (fun p => (p.1, p.2, rest))
    else beginValue c rest stack
  | .keyOrEmpty =>
    if c = '\x7d' then (closeFrame c stack).map (fun p => (p.1, p.2, rest))
    else beginKey c rest stack
  | .key => beginKey c rest stack
  | .colon =>
    if c = ':' then .ok (.value, feed [c] stack, rest)
    else .error (badChar c "after object key")
  | .endValue =>
    match stack with
    | .arr _ _ :: _ =>
      if c = ',' then .ok (.value, feed [c] stack, rest)
      else if c = ']' then (closeFrame c stack).map (fun p => (p.1, p.2, rest))
      else .error (badChar c "after array element")
    | .obj _ _ _ :: _ =>
      if c = ',' then .ok (.key, feed [c] stack, rest)
      else if c = '\x7d' then (closeFrame c stack).map (fun p => (p.1, p.2, rest))
      else .error (badChar c "after object key:value pair")
    | [] => .error "scanner out of step"
  | .top _ => .error (badChar c "after top-level value")

/-- The scanner loop: every round consumes at least one character. -/
def scanLoop : Nat → Expect → List Frame → List Char → Except String JVal
  | 0, _, _, _ => .error "scanner out of fuel"
  | _ + 1, .top v, _, [] => .ok v
  | _ + 1, _, _, [] => .error eofMsg
  | fuel + 1, e, stack, c :: rest =>
    if isSpace c then scanLoop fuel e (feed [c] stack) rest
    else
      match scanStep e c rest stack with
      | .ok (e1, stack1, rest1) => scanLoop fuel e1 stack1 rest1
      | .error m => .error m

/-- Checks that the text is one JSON value and returns its tree, or the message
of the syntax error. -/
def parseJSON (data : List Char) : Except String JVal :=
  scanLoop (data.length + 1) .value [] data

/-! ## Errors and outcomes -/

/-- The error values the package hands back. -/
inductive GoError where
  | syntaxError (msg : String)
  | unmarshalType (value : String) (goType : String)
  | parseError (value : String)
deriving DecidableEq

/-- A call either returns or ends in a run-time panic. -/
inductive Ret (α : Type) where
  | ok (a : α)
  | panic

/-! ## time -/

/-- An instant: seconds from the Unix epoch and nanoseconds within the second. -/
structure Time where
  sec : Int
  nsec : Nat
deriving DecidableEq

/-- The zero instant, January 1 of year 1, 00:00:00 UTC. -/
def Time.zero : Time := ⟨-62135596800, 0⟩

def Time.IsZero (t : Time) : Bool := decide (t.sec = -62135596800) && decide (t.nsec = 0)

def Time.Unix (t : Time) : Int := t.sec

def Time.Before (t u : Time) : Bool :=
  decide (t.sec < u.sec) || (decide (t.sec = u.sec) && decide (t.nsec < u.nsec))

def isLeap (year : Nat) : Bool :=
  decide (year % 4 = 0) && (decide (year % 100 ≠ 0) || decide (year % 400 = 0))

def daysIn (month year : Nat) : Nat :=
  if month = 2 then (if isLeap year then 29 else 28)
  else if month = 4 || month = 6 || month = 9 || month = 11 then 30
  else 31

/-- Days of the year before the first of the month. -/
def daysBefore (month year : Nat) : Nat :=
  ([0, 31, 59, 90, 120, 151, 181, 212, 243, 273, 304, 334].getD (month - 1) 0)
    + (if decide (2 < month) && isLeap year then 1 else 0)

/-- Days from January 1 of year 0 to January 1 of the year. -/
def daysBeforeYear (year : Nat) : Nat :=
  365 * year + (year + 3) / 4 - (year + 99) / 100 + (year + 399) / 400

/-- The instant of a civil date and time of day in UTC (`time.Date`). -/
def civil (year month day hour min sec nsec : Nat) : Time :=
  ⟨(((daysBeforeYear year + daysBefore month year + (day - 1) : Nat) : Int) - 719528) * 86400
      + ((hour * 3600 + min * 60 + sec : Nat) : Int), nsec⟩

def digitVal (c : Char) : Nat := c.toNat - 48

/-- Consumes a literal piece of the layout (`skip`). -/
def skipLit : List Char → List Char → Option (List Char)
  | [], value => some value
  | _ :: _, [] => none
  | p :: ps, v :: value => if v = p then skipLit ps value else none

/-- Reads a one or two digit number, two digits exactly when `fixed` (`getnum`). -/
def getnum (s : List Char) (fixed : Bool) : Option (Nat × List Char) :=
  match s with
  | a :: rest =>
    if !isDigit a then none
    else
      match rest with
      | b :: rest1 =>
        if isDigit b then some (digitVal a * 10 + digitVal b, rest1)
        else if fixed then none else some (digitVal a, rest)
      | [] => if fixed then none else some (digitVal a, rest)
  | [] => none

/-- Reads the four digit year. -/
def getYear (s : List Char) : Option (Nat × List Char) :=
  match s with
  | a :: b :: c :: d :: rest =>
    if isDigit a && isDigit b && isDigit c && isDigit d then
      some (((digitVal a * 10 + digitVal b) * 10 + digitVal c) * 10 + digitVal d, rest)
    else none
  | _ => none

def commaOrPeriod (c : Char) : Bool := c = '.' || c = ','

/-- A fractional second that follows the seconds in the input although the layout
has none: at most nine digits count, all of them are consumed. -/
def getFraction (s : List Char) : Nat × List Char :=
  match s with
  | p :: d :: rest =>
    if commaOrPeriod p && isDigit d then
      let ds := takeDigits (d :: rest)
      let used := ds.1.take 9
      ((used.foldl (fun a c => a * 10 + digitVal c) 0) * 10 ^ (9 - used.length), ds.2)
    else (0, s)
  | _ => (0, s)

/-- A layout of the form `before ++ "2006-01-02T15:04:05" ++ after`, where the
two ends are literal text. -/
structure Layout where
  before : List Char
  after : List Char

/-- The layout `"2006-01-02T15:04:05Z"` with its two double quotes. -/
def layoutQuoted : Layout := ⟨['"'], ['Z', '"']⟩

/-- The layout `2006-01-02T15:04:05Z`. -/
def layoutPlain : Layout := ⟨[], ['Z']⟩

/-- The work of `time.Parse` on such a layout. -/
def timeParse? (layout : Layout) (value : List Char) : Option Time := do
  let v ← skipLit layout.before value
  let (year, v) ← getYear v
  let v ← skipLit ['-'] v
  let (month, v) ← getnum v true
  if month = 0 || 12 < month then none
  let v ← skipLit ['-'] v
  let (day, v) ← getnum v true
  let v ← skipLit ['T'] v
  let (hour, v) ← getnum v false
  if 24 ≤ hour then none
  let v ← skipLit [':'] v
  let (min, v) ← getnum v true
  if 60 ≤ min then none
  let v ← skipLit [':'] v
  let (sec, v) ← getnum v true
  if 60 ≤ sec then none
  let (nsec, v) := getFraction v
  let v ← skipLit layout.after v
  if !v.isEmpty then none
  if day < 1 || daysIn month year < day then none
  pure (civil year month day hour min sec nsec)

def timeParse (layout : Layout) (value : List Char) : Except GoError Time :=
  match timeParse? layout value with
  | some t => .ok t
  | none => .error (.parseError (String.mk value))

/-! ## Date -/

/-- Date is JSON date. -/
structure Date where
  Time : Time := Time.zero
deriving DecidableEq

/-- UnmarshalJSON parses JSON date: the receiver after the call and the error. -/
def Date.UnmarshalJSON (d : Date) (b : List Char) : Date × Option GoError :=
  let data := b
  if data = "null".toList then
    ({ d with Time := Time.zero }, none)
  else
    match timeParse layoutQuoted data with
    | .error err => (d, some err)
    | .ok date => ({ d with Time := date }, none)

/-! ## The decoder of encoding/json -/

/-- A float64 as the decimal it was read from: `mant * 10 ^ exp10`. -/
structure Float64 where
  mant : Int := 0
  exp10 : Int := 0
deriving DecidableEq

def digitsVal (ds : List Char) : Nat :=
  ds.foldl (fun a c => a * 10 + digitVal c) 0

/-- The work of `strconv.ParseInt(lit, 10, 64)` on a JSON number literal. -/
def parseIntLit (lit : List Char) : Option Int :=
  let neg := lit.head? = some '-'
  let ds := if neg then lit.tail else lit
  if ds.isEmpty || !ds.all isDigit then none
  else
    let i : Int := if neg then -(digitsVal ds : Int) else (digitsVal ds : Int)
    if -9223372036854775808 ≤ i ∧ i ≤ 9223372036854775807 then some i else none

/-- Whether a decimal rounds beyond the largest float64: it reaches
`2 ^ 1024 - 2 ^ 970`, half way from the largest float64 to `2 ^ 1024`. -/
def floatOverflows (mant : Nat) (exp10 : Int) : Bool :=
  let bound : Nat := (2 ^ 256) ^ 4 - (2 ^ 194) ^ 5
  if 0 ≤ exp10 then decide (bound ≤ mant * 10 ^ exp10.toNat)
  else decide (bound * 10 ^ (-exp10).toNat ≤ mant)

/-- The work of `strconv.ParseFloat(lit, 64)` on a JSON number literal. -/
def parseFloatLit (lit : List Char) : Option Float64 :=
  let neg := lit.head? = some '-'
  let body := if neg then lit.tail else lit
  let ip := takeDigits body
  let fp := if ip.2.head? = some '.' then takeDigits ip.2.tail else ([], ip.2)
  let ex : Int :=
    match fp.2 with
    | _ :: s :: rest =>
      if s = '-' then -(digitsVal rest : Int)
      else if s = '+' then (digitsVal rest : Int)
      else (digitsVal (s :: rest) : Int)
    | _ => 0
  let mant := digitsVal (ip.1 ++ fp.1)
  let exp10 := ex - (fp.1.length : Int)
  if floatOverflows mant exp10 then none
  else some ⟨if neg then -(mant : Int) else (mant : Int), exp10⟩

/-- Why a decoding stopped before the end of the input: an `UnmarshalJSON` method
panicked. -/
inductive Halt where
  | panic

/-- The state of one `json.Unmarshal` call: the first recorded error (a type
mismatch, or what an `UnmarshalJSON` method returned), and the reason the decoding
stopped, if it did. -/
structure Dec where
  savedError : Option GoError := none
  halt : Option Halt := none

/-- Stores a JSON value into a Go value of type `α`, in place. -/
abbrev Decoder (α : Type) := JVal → α → Dec → α × Dec

def Dec.saveError (st : Dec) (e : GoError) : Dec :=
  match st.savedError with
  | some _ => st
  | none => { st with savedError := some e }

def Dec.stop (st : Dec) (h : Halt) : Dec := { st with halt := some h }

/-- The name of a JSON value in a type mismatch. -/
def JVal.kind : JVal → String
  | .null => "null"
  | .bool _ => "bool"
  | .num _ => "number"
  | .str _ _ => "string"
  | .arr _ _ => "array"
  | .obj _ _ => "object"

def mismatch (v : JVal) (goType : String) : GoError :=
  .unmarshalType v.kind goType

def decodeString : Decoder String
  | .null, s, st => (s, st)
  | .str _ x, _, st => (x, st)
  | v, s, st => (s, st.saveError (mismatch v "string"))

def decodeBool : Decoder Bool
  | .null, b, st => (b, st)
  | .bool x, _, st => (x, st)
  | v, b, st => (b, st.saveError (mismatch v "bool"))

def decodeInt : Decoder Int
  | .null, i, st => (i, st)
  | .num lit, i, st =>
    match parseIntLit lit with
    | some n => (n, st)
    | none => (i, st.saveError (.unmarshalType ("number " ++ String.mk lit) "int"))
  | v, i, st => (i, st.saveError (mismatch v "int"))

def decodeFloat64 : Decoder Float64
  | .null, f, st => (f, st)
  | .num lit, f, st =>
    match parseFloatLit lit with
    | some x => (x, st)
    | none => (f, st.saveError (.unmarshalType ("number " ++ String.mk lit) "float64"))
  | v, f, st => (f, st.saveError (mismatch v "float64"))

/-- A field of type Date: whatever the JSON value is, its text goes to
`Date.UnmarshalJSON`; an error it returns is recorded and the decoding goes on. -/
def decodeDate : Decoder Date :=
  fun v d st =>
    match d.UnmarshalJSON v.raw with
    | (d1, none) => (d1, st)
    | (d1, some err) => (d1, st.saveError err)

/-- A pointer field: null makes it nil, anything else is stored into the value
it points to, which is allocated first when the pointer is nil. -/
def decodePtr {α : Type} (zero : α) (dec : Decoder α) : Decoder (Option α)
  | .null, _, st => (none, st)
  | v, p, st =>
    let r := dec v (p.getD zero) st
    (some r.1, r.2)

/-- Upper-cases ASCII letters and maps the two runes that fold to ASCII letters
(`foldName`). Every field name here is ASCII, so no other rune can make a key
equal to one, and the other runes are left alone. -/
def foldChar (c : Char) : Char :=
  if decide ('a' ≤ c) && decide (c ≤ 'z') then Char.ofNat (c.toNat - 32)
  else if c = Char.ofNat 0x17F then 'S'
  else if c = Char.ofNat 0x212A then 'K'
  else c

def foldName (s : String) : String := String.mk (s.data.map foldChar)

/-- The field a key of the JSON object goes to: the one with that very name,
else the first one equal to it up to case. -/
def lookupField {σ : Type} (fields : List (String × Decoder σ)) (key : String) :
    Option (Decoder σ) :=
  match fields.find? (fun f => f.1 = key) with
  | some f => some f.2
  | none =>
    match fields.find? (fun f => foldName f.1 = foldName key) with
    | some f => some f.2
    | none => none

/-- Stores the members of a JSON object into a struct, in the order of the text. -/
def decodeMembers {σ : Type} (fields : List (String × Decoder σ)) :
    List (String × JVal) → σ → Dec → σ × Dec
  | [], s, st => (s, st)
  | (k, v) :: rest, s, st =>
    match st.halt with
    | some _ => (s, st)
    | none =>
      match lookupField fields k with
      | some dec =>
        let r := dec v s st
        decodeMembers fields rest r.1 r.2
      | none => decodeMembers fields rest s st

def decodeStruct {σ : Type} (goType : String) (fields : List (String × Decoder σ)) : Decoder σ
  | .obj _ ms, s, st => decodeMembers fields ms s st
  | .null, s, st => (s, st)
  | v, s, st => (s, st.saveError (mismatch v goType))

/-- The decoder of one field of a struct. -/
def field {σ α : Type} (get : σ → α) (set : σ → α → σ) (dec : Decoder α) : Decoder σ :=
  fun v s st =>
    let r := dec v (get s) st
    (set s r.1, r.2)

/-- A slice: its backing array as far as it was ever written, and its length. -/
structure GoSlice (α : Type) where
  buf : List α := []
  len : Nat := 0

def GoSlice.elems {α : Type} (s : GoSlice α) : List α := s.buf.take s.len

/-- Stores the elements of a JSON array over a backing array: element `i` goes
into what is at index `i`, or into a zero value. The count is the number of
elements the decoder got to. -/
def decodeItems {α : Type} (zero : α) (dec : Decoder α) :
    List JVal → List α → Dec → List α × Nat × Dec
  | [], old, st => (old, 0, st)
  | v :: rest, old, st =>
    match st.halt with
    | some _ => (old, 0, st)
    | none =>
      let r := dec v (old.headD zero) st
      let t := decodeItems zero dec rest old.tail r.2
      (r.1 :: t.1, t.2.1 + 1, t.2.2)

def decodeSlice {α : Type} (goType : String) (zero : α) (dec : Decoder α) : Decoder (GoSlice α)
  | .null, _, st => ({}, st)
  | .arr _ items, s, st =>
    let r := decodeItems zero dec items s.buf st
    match r.2.2.halt with
    | some _ => (⟨r.1, max s.len r.2.1⟩, r.2.2)
    | none => if r.2.1 = 0 then ({}, r.2.2) else (⟨r.1, r.2.1⟩, r.2.2)
  | v, s, st => (s, st.saveError (mismatch v goType))

/-- A map with string keys, as the list of its entries. -/
abbrev GoMap (β : Type) := List (String × β)

def GoMap.insert {β : Type} (k : String) (v : β) : GoMap β → GoMap β
  | [] => [(k, v)]
  | (k1, v1) :: rest => if k1 = k then (k, v) :: rest else (k1, v1) :: GoMap.insert k v rest

/-- Stores the members of a JSON object into a map: every value is decoded into a
fresh zero value, which then replaces what the map held under the key. -/
def decodeEntries {β : Type} (zero : β) (dec : Decoder β) :
    List (String × JVal) → GoMap β → Dec → GoMap β × Dec
  | [], m, st => (m, st)
  | (k, v) :: rest, m, st =>
    match st.halt with
    | some _ => (m, st)
    | none =>
      let r := dec v zero st
      match r.2.halt with
      | some _ => (m, r.2)
      | none => decodeEntries zero dec rest (GoMap.insert k r.1 m) r.2

def decodeMap {β : Type} (goType : String) (zero : β) (dec : Decoder β) : Decoder (GoMap β)
  | .null, _, st => ([], st)
  | .obj _ ms, m, st => decodeEntries zero dec ms m st
  | v, m, st => (m, st.saveError (mismatch v goType))

/-- The work of `json.Unmarshal(data, &target)`: nothing is stored when the text
is not valid JSON; otherwise the first recorded error is returned, unless a panic
stopped the decoding. -/
def jsonUnmarshal {α : Type} (dec : Decoder α) (data : List Char) (target : α) :
    Ret (α × Option GoError) :=
  match parseJSON data with
  | .error msg => .ok (target, some (.syntaxError msg))
  | .ok v =>
    let r := dec v target {}
    match r.2.halt with
    | some .panic => .panic
    | none => .ok (r.1, r.2.savedError)

/-! ## The data model

Every struct comes with the table of its JSON field names, in the order of its
declaration; the field `Type` is spelled `Type_`. -/

/-- SSLStatus contains info about SSL certificate status. -/
structure SSLStatus where
  TestedAt : Date := {}
  ExpiresAt : Date := {}
  IsValid : Bool := false
  Error : String := ""

def SSLStatus.fields : List (String × Decoder SSLStatus) :=
  [
    ("tested_at", field (fun s => s.TestedAt) (fun s x => { s with TestedAt := x })
      (decodeDate)),
    ("expires_at", field (fun s => s.ExpiresAt) (fun s x => { s with ExpiresAt := x })
      (decodeDate)),
    ("valid", field (fun s => s.IsValid) (fun s x => { s with IsValid := x })
      (decodeBool)),
    ("error", field (fun s => s.Error) (fun s x => { s with Error := x })
      (decodeString)) ]

def SSLStatus.decode : Decoder SSLStatus :=
  decodeStruct "updown.SSLStatus" SSLStatus.fields

/-- Timings check timings info. -/
structure TimingStats where
  Redirect : Int := 0
  NameLookup : Int := 0
  Connection : Int := 0
  Handshake : Int := 0
  Response : Int := 0
  Total : Int := 0

def TimingStats.fields : List (String × Decoder TimingStats) :=
  [
    ("redirect", field (fun s => s.Redirect) (fun s x => { s with Redirect := x })
      (decodeInt)),
    ("namelookup", field (fun s => s.NameLookup) (fun s x => { s with NameLookup := x })
      (decodeInt)),
    ("connection", field (fun s => s.Connection) (fun s x => { s with Connection := x })
      (decodeInt)),
    ("handshake", field (fun s => s.Handshake) (fun s x => { s with Handshake := x })
      (decodeInt)),
    ("response", field (fun s => s.Response) (fun s x => { s with Response := x })
      (decodeInt)),
    ("total", field (fun s => s.Total) (fun s x => { s with Total := x })
      (decodeInt)) ]

def TimingStats.decode : Decoder TimingStats :=
  decodeStruct "updown.TimingStats" TimingStats.fields

/-- ResponseTimeStats contains check response time statistics. -/
structure ResponseTimeStats where
  Under125 : Int := 0
  Under250 : Int := 0
  Under500 : Int := 0
  Under1k : Int := 0
  Under2k : Int := 0
  Under4k : Int := 0
  Under8k : Int := 0
  Under16k : Int := 0
  Under32k : Int := 0

def ResponseTimeStats.fields : List (String × Decoder ResponseTimeStats) :=
  [
    ("under125", field (fun s => s.Under125) (fun s x => { s with Under125 := x })
      (decodeInt)),
    ("under250", field (fun s => s.Under250) (fun s x => { s with Under250 := x })
      (decodeInt)),
    ("under500", field (fun s => s.Under500) (fun s x => { s with Under500 := x })
      (decodeInt)),
    ("under1000", field (fun s => s.Under1k) (fun s x => { s with Under1k := x })
      (decodeInt)),
    ("under2000", field (fun s => s.Under2k) (fun s x => { s with Under2k := x })
      (decodeInt)),
    ("under4000", field (fun s => s.Under4k) (fun s x => { s with Under4k := x })
      (decodeInt)),
    ("under8000", field (fun s => s.Under8k) (fun s x => { s with Under8k := x })
      (decodeInt)),
    ("under16000", field (fun s => s.Under16k) (fun s x => { s with Under16k := x })
      (decodeInt)),
    ("under32000", field (fun s => s.Under32k) (fun s x => { s with Under32k := x })
      (decodeInt)) ]

def ResponseTimeStats.decode : Decoder ResponseTimeStats :=
  decodeStruct "updown.ResponseTimeStats" ResponseTimeStats.fields

/-- RequestStats contains check requests statistics. -/
structure RequestStats where
  Samples : Int := 0
  Failures : Int := 0
  Satisfied : Int := 0
  Tolerated : Int := 0
  ByResponseTime : Option ResponseTimeStats := none

def RequestStats.fields : List (String × Decoder RequestStats) :=
  [
    ("samples", field (fun s => s.Samples) (fun s x => { s with Samples := x })
      (decodeInt)),
    ("failures", field (fun s => s.Failures) (fun s x => { s with Failures := x })
      (decodeInt)),
    ("satisfied", field (fun s => s.Satisfied) (fun s x => { s with Satisfied := x })
      (decodeInt)),
    ("tolerated", field (fun s => s.Tolerated) (fun s x => { s with Tolerated := x })
      (decodeInt)),
    ("by_response_time", field (fun s => s.ByResponseTime) (fun s x => { s with ByResponseTime := x })
      (decodePtr {} ResponseTimeStats.decode)) ]

def RequestStats.decode : Decoder RequestStats :=
  decodeStruct "updown.RequestStats" RequestStats.fields

/-- Metrics is apdex metrics. -/
structure Metrics where
  Uptime : Float64 := {}
  Apdex : Float64 := {}
  Timings : Option TimingStats := none
  Requests : Option RequestStats := none

def Metrics.fields : List (String × Decoder Metrics) :=
  [
    ("uptime", field (fun s => s.Uptime) (fun s x => { s with Uptime := x })
      (decodeFloat64)),
    ("apdex", field (fun s => s.Apdex) (fun s x => { s with Apdex := x })
      (decodeFloat64)),
    ("timings", field (fun s => s.Timings) (fun s x => { s with Timings := x })
      (decodePtr {} TimingStats.decode)),
    ("requests", field (fun s => s.Requests) (fun s x => { s with Requests := x })
      (decodePtr {} RequestStats.decode)) ]

def Metrics.decode : Decoder Metrics :=
  decodeStruct "updown.Metrics" Metrics.fields

/-- Check contains check info. -/
structure Check where
  Token : String := ""
  URL : String := ""
  Alias : String := ""
  LastStatus : Int := 0
  Uptime : Float64 := {}
  IsDown : Bool := false
  DownSince : Date := {}
  UpSince : Date := {}
  Error : String := ""
  Period : Int := 0
  Apdex : Float64 := {}
  StringMatch : String := ""
  IsEnabled : Bool := false
  IsPublished : Bool := false
  LastCheckAt : Date := {}
  NextCheckAt : Date := {}
  CreatedAt : Date := {}
  MuteUntil : Date := {}
  FaviconURL : String := ""
  HTTPVerb : String := ""
  HTTPBody : String := ""
  Recipients : GoSlice String := {}
  DisabledLocations : GoSlice String := {}
  CustomHeaders : GoMap String := []
  SSL : Option SSLStatus := none
  Metrics : Option Metrics := none

def Check.fields : List (String × Decoder Check) :=
  [
    ("token", field (fun s => s.Token) (fun s x => { s with Token := x })
      (decodeString)),
    ("url", field (fun s => s.URL) (fun s x => { s with URL := x })
      (decodeString)),
    ("alias", field (fun s => s.Alias) (fun s x => { s with Alias := x })
      (decodeString)),
    ("last_status", field (fun s => s.LastStatus) (fun s x => { s with LastStatus := x })
      (decodeInt)),
    ("uptime", field (fun s => s.Uptime) (fun s x => { s with Uptime := x })
      (decodeFloat64)),
    ("down", field (fun s => s.IsDown) (fun s x => { s with IsDown := x })
      (decodeBool)),
    ("down_since", field (fun s => s.DownSince) (fun s x => { s with DownSince := x })
      (decodeDate)),
    ("up_since", field (fun s => s.UpSince) (fun s x => { s with UpSince := x })
      (decodeDate)),
    ("error", field (fun s => s.Error) (fun s x => { s with Error := x })
      (decodeString)),
    ("period", field (fun s => s.Period) (fun s x => { s with Period := x })
      (decodeInt)),
    ("apdex_t", field (fun s => s.Apdex) (fun s x => { s with Apdex := x })
      (decodeFloat64)),
    ("string_match", field (fun s => s.StringMatch) (fun s x => { s with StringMatch := x })
      (decodeString)),
    ("enabled", field (fun s => s.IsEnabled) (fun s x => { s with IsEnabled := x })
      (decodeBool)),
    ("published", field (fun s => s.IsPublished) (fun s x => { s with IsPublished := x })
      (decodeBool)),
    ("last_check_at", field (fun s => s.LastCheckAt) (fun s x => { s with LastCheckAt := x })
      (decodeDate)),
    ("next_check_at", field (fun s => s.NextCheckAt) (fun s x => { s with NextCheckAt := x })
      (decodeDate)),
    ("created_at", field (fun s => s.CreatedAt) (fun s x => { s with CreatedAt := x })
      (decodeDate)),
    ("mute_until", field (fun s => s.MuteUntil) (fun s x => { s with MuteUntil := x })
      (decodeDate)),
    ("favicon_url", field (fun s => s.FaviconURL) (fun s x => { s with FaviconURL := x })
      (decodeString)),
    ("http_verb", field (fun s => s.HTTPVerb) (fun s x => { s with HTTPVerb := x })
      (decodeString)),
    ("http_body", field (fun s => s.HTTPBody) (fun s x => { s with HTTPBody := x })
      (decodeString)),
    ("recipients", field (fun s => s.Recipients) (fun s x => { s with Recipients := x })
      (decodeSlice "[]string" "" decodeString)),
    ("disabled_locations", field (fun s => s.DisabledLocations) (fun s x => { s with DisabledLocations := x })
      (decodeSlice "[]string" "" decodeString)),
    ("custom_headers", field (fun s => s.CustomHeaders) (fun s x => { s with CustomHeaders := x })
      (decodeMap "map[string]string" "" decodeString)),
    ("ssl", field (fun s => s.SSL) (fun s x => { s with SSL := x })
      (decodePtr {} SSLStatus.decode)),
    ("metrics", field (fun s => s.Metrics) (fun s x => { s with Metrics := x })
      (decodePtr {} Metrics.decode)) ]

def Check.decode : Decoder Check :=
  decodeStruct "updown.Check" Check.fields

/-- DowntimeRequest contains info with downtime check request. -/
structure DowntimeRequest where
  SentAt : Date := {}
  HTTPMethod : String := ""
  HTTPVersion : String := ""
  SentHeaders : GoMap String := []
  Node : String := ""

def DowntimeRequest.fields : List (String × Decoder DowntimeRequest) :=
  [
    ("sent_at", field (fun s => s.SentAt) (fun s x => { s with SentAt := x })
      (decodeDate)),
    ("http_method", field (fun s => s.HTTPMethod) (fun s x => { s with HTTPMethod := x })
      (decodeString)),
    ("http_version", field (fun s => s.HTTPVersion) (fun s x => { s with HTTPVersion := x })
      (decodeString)),
    ("sent_headers", field (fun s => s.SentHeaders) (fun s x => { s with SentHeaders := x })
      (decodeMap "map[string]string" "" decodeString)),
    ("node", field (fun s => s.Node) (fun s x => { s with Node := x })
      (decodeString)) ]

def DowntimeRequest.decode : Decoder DowntimeRequest :=
  decodeStruct "updown.DowntimeRequest" DowntimeRequest.fields

/-- DowntimeResponse contains info with downtime check response. -/
structure DowntimeResponse where
  ReceivedAt : Date := {}
  FinalURL : String := ""
  Code : Int := 0
  IP : String := ""
  ReceivedHeaders : GoMap String := []

def DowntimeResponse.fields : List (String × Decoder DowntimeResponse) :=
  [
    ("received_at", field (fun s => s.ReceivedAt) (fun s x => { s with ReceivedAt := x })
      (decodeDate)),
    ("final_url", field (fun s => s.FinalURL) (fun s x => { s with FinalURL := x })
      (decodeString)),
    ("code", field (fun s => s.Code) (fun s x => { s with Code := x })
      (decodeInt)),
    ("ip", field (fun s => s.IP) (fun s x => { s with IP := x })
      (decodeString)),
    ("received_headers", field (fun s => s.ReceivedHeaders) (fun s x => { s with ReceivedHeaders := x })
      (decodeMap "map[string]string" "" decodeString)) ]

def DowntimeResponse.decode : Decoder DowntimeResponse :=
  decodeStruct "updown.DowntimeResponse" DowntimeResponse.fields

/-- DowntimeCheck is the result of one node. -/
structure DowntimeCheck where
  ID : String := ""
  Status : String := ""
  DetailsURL : String := ""
  Request : Option DowntimeRequest := none
  Response : Option DowntimeResponse := none

def DowntimeCheck.fields : List (String × Decoder DowntimeCheck) :=
  [
    ("id", field (fun s => s.ID) (fun s x => { s with ID := x })
      (decodeString)),
    ("status", field (fun s => s.Status) (fun s x => { s with Status := x })
      (decodeString)),
    ("details_url", field (fun s => s.DetailsURL) (fun s x => { s with DetailsURL := x })
      (decodeString)),
    ("request", field (fun s => s.Request) (fun s x => { s with Request := x })
      (decodePtr {} DowntimeRequest.decode)),
    ("response", field (fun s => s.Response) (fun s x => { s with Response := x })
      (decodePtr {} DowntimeResponse.decode)) ]

def DowntimeCheck.decode : Decoder DowntimeCheck :=
  decodeStruct "updown.DowntimeCheck" DowntimeCheck.fields

/-- Downtime contains info about downtime. -/
structure Downtime where
  ID : String := ""
  DetailsURL : String := ""
  Error : String := ""
  StartedAt : Date := {}
  EndedAt : Date := {}
  Duration : Int := 0
  IsPartial : Bool := false
  DownResults : GoSlice (Option DowntimeCheck) := {}
  UpResults : GoSlice (Option DowntimeCheck) := {}

def Downtime.fields : List (String × Decoder Downtime) :=
  [
    ("id", field (fun s => s.ID) (fun s x => { s with ID := x })
      (decodeString)),
    ("details_url", field (fun s => s.DetailsURL) (fun s x => { s with DetailsURL := x })
      (decodeString)),
    ("error", field (fun s => s.Error) (fun s x => { s with Error := x })
      (decodeString)),
    ("started_at", field (fun s => s.StartedAt) (fun s x => { s with StartedAt := x })
      (decodeDate)),
    ("ended_at", field (fun s => s.EndedAt) (fun s x => { s with EndedAt := x })
      (decodeDate)),
    ("duration", field (fun s => s.Duration) (fun s x => { s with Duration := x })
      (decodeInt)),
    ("partial", field (fun s => s.IsPartial) (fun s x => { s with IsPartial := x })
      (decodeBool)),
    ("down_results", field (fun s => s.DownResults) (fun s x => { s with DownResults := x })
      (decodeSlice "[]*updown.DowntimeCheck" none (decodePtr {} DowntimeCheck.decode))),
    ("up_results", field (fun s => s.UpResults) (fun s x => { s with UpResults := x })
      (decodeSlice "[]*updown.DowntimeCheck" none (decodePtr {} DowntimeCheck.decode))) ]

def Downtime.decode : Decoder Downtime :=
  decodeStruct "updown.Downtime" Downtime.fields

/-- Cert contains SSL certificate info. -/
structure Cert where
  Subject : String := ""
  Issuer : String := ""
  From : Date := {}
  To : Date := {}
  Algorithm : String := ""

def Cert.fields : List (String × Decoder Cert) :=
  [
    ("subject", field (fun s => s.Subject) (fun s x => { s with Subject := x })
      (decodeString)),
    ("issuer", field (fun s => s.Issuer) (fun s x => { s with Issuer := x })
      (decodeString)),
    ("from", field (fun s => s.From) (fun s x => { s with From := x })
      (decodeDate)),
    ("to", field (fun s => s.To) (fun s x => { s with To := x })
      (decodeDate)),
    ("algorithm", field (fun s => s.Algorithm) (fun s x => { s with Algorithm := x })
      (decodeString)) ]

def Cert.decode : Decoder Cert :=
  decodeStruct "updown.Cert" Cert.fields

/-- SSL contains info about SSL certificate and its status. -/
structure SSL where
  Cert : Option Cert := none
  Error : String := ""
  DaysBeforeExpiration : Int := 0

def SSL.fields : List (String × Decoder SSL) :=
  [
    ("cert", field (fun s => s.Cert) (fun s x => { s with Cert := x })
      (decodePtr {} Cert.decode)),
    ("error", field (fun s => s.Error) (fun s x => { s with Error := x })
      (decodeString)),
    ("days_before_expiration", field (fun s => s.DaysBeforeExpiration) (fun s x => { s with DaysBeforeExpiration := x })
      (decodeInt)) ]

def SSL.decode : Decoder SSL :=
  decodeStruct "updown.SSL" SSL.fields

/-- SSLRenew contains info about renewed certificate. -/
structure SSLRenew where
  NewCert : Option Cert := none
  OldCert : Option Cert := none

def SSLRenew.fields : List (String × Decoder SSLRenew) :=
  [
    ("new_cert", field (fun s => s.NewCert) (fun s x => { s with NewCert := x })
      (decodePtr {} Cert.decode)),
    ("old_cert", field (fun s => s.OldCert) (fun s x => { s with OldCert := x })
      (decodePtr {} Cert.decode)) ]

def SSLRenew.decode : Decoder SSLRenew :=
  decodeStruct "updown.SSLRenew" SSLRenew.fields

/-- Event contains basic event data. -/
structure Event where
  Type_ : String := ""
  Time : Date := {}
  Description : String := ""
  Check : Option Check := none

def Event.fields : List (String × Decoder Event) :=
  [
    ("event", field (fun s => s.Type_) (fun s x => { s with Type_ := x })
      (decodeString)),
    ("time", field (fun s => s.Time) (fun s x => { s with Time := x })
      (decodeDate)),
    ("description", field (fun s => s.Description) (fun s x => { s with Description := x })
      (decodeString)),
    ("check", field (fun s => s.Check) (fun s x => { s with Check := x })
      (decodePtr {} Check.decode)) ]

def Event.decode : Decoder Event :=
  decodeStruct "updown.Event" Event.fields

/-- EventDown sent when a check goes down (after confirmation). -/
structure EventDown extends Event where
  Downtime : Option Downtime := none

def EventDown.fields : List (String × Decoder EventDown) :=
  (Event.fields.map (fun f => (f.1, field (fun s => s.toEvent) (fun s x => { s with toEvent := x }) f.2))) ++
  [
    ("downtime", field (fun s => s.Downtime) (fun s x => { s with Downtime := x })
      (decodePtr {} Downtime.decode)) ]

def EventDown.decode : Decoder EventDown :=
  decodeStruct "updown.EventDown" EventDown.fields

/-- EventUp sent when a check is back up. -/
structure EventUp extends Event where
  Downtime : Option Downtime := none

def EventUp.fields : List (String × Decoder EventUp) :=
  (Event.fields.map (fun f => (f.1, field (fun s => s.toEvent) (fun s x => { s with toEvent := x }) f.2))) ++
  [
    ("downtime", field (fun s => s.Downtime) (fun s x => { s with Downtime := x })
      (decodePtr {} Downtime.decode)) ]

def EventUp.decode : Decoder EventUp :=
  decodeStruct "updown.EventUp" EventUp.fields

/-- EventSSLInvalid sent when the SSL certificate is considered invalid. -/
structure EventSSLInvalid extends Event where
  SSL : Option SSL := none

def EventSSLInvalid.fields : List (String × Decoder EventSSLInvalid) :=
  (Event.fields.map (fun f => (f.1, field (fun s => s.toEvent) (fun s x => { s with toEvent := x }) f.2))) ++
  [
    ("ssl", field (fun s => s.SSL) (fun s x => { s with SSL := x })
      (decodePtr {} SSL.decode)) ]

def EventSSLInvalid.decode : Decoder EventSSLInvalid :=
  decodeStruct "updown.EventSSLInvalid" EventSSLInvalid.fields

/-- EventSSLValid sent when SSL certificate is valid again. -/
structure EventSSLValid extends Event where
  SSL : Option SSL := none

def EventSSLValid.fields : List (String × Decoder EventSSLValid) :=
  (Event.fields.map (fun f => (f.1, field (fun s => s.toEvent) (fun s x => { s with toEvent := x }) f.2))) ++
  [
    ("ssl", field (fun s => s.SSL) (fun s x => { s with SSL := x })
      (decodePtr {} SSL.decode)) ]

def EventSSLValid.decode : Decoder EventSSLValid :=
  decodeStruct "updown.EventSSLValid" EventSSLValid.fields

/-- EventSSLExpiration sent when your SSL certificate approaches expiration date. -/
structure EventSSLExpiration extends Event where
  SSL : Option SSL := none

def EventSSLExpiration.fields : List (String × Decoder EventSSLExpiration) :=
  (Event.fields.map (fun f => (f.1, field (fun s => s.toEvent) (fun s x => { s with toEvent := x }) f.2))) ++
  [
    ("ssl", field (fun s => s.SSL) (fun s x => { s with SSL := x })
      (decodePtr {} SSL.decode)) ]

def EventSSLExpiration.decode : Decoder EventSSLExpiration :=
  decodeStruct "updown.EventSSLExpiration" EventSSLExpiration.fields

/-- EventSSLRenewed sent when the SSL certificate was renewed close to expiration. -/
structure EventSSLRenewed extends Event where
  SSL : Option SSLRenew := none

def EventSSLRenewed.fields : List (String × Decoder EventSSLRenewed) :=
  (Event.fields.map (fun f => (f.1, field (fun s => s.toEvent) (fun s x => { s with toEvent := x }) f.2))) ++
  [
    ("ssl", field (fun s => s.SSL) (fun s x => { s with SSL := x })
      (decodePtr {} SSLRenew.decode)) ]

def EventSSLRenewed.decode : Decoder EventSSLRenewed :=
  decodeStruct "updown.EventSSLRenewed" EventSSLRenewed.fields

/-- The basicEvent is basic event type. -/
structure basicEvent where
  Type_ : String := ""

def basicEvent.fields : List (String × Decoder basicEvent) :=
  [
    ("event", field (fun s => s.Type_) (fun s x => { s with Type_ := x })
      (decodeString)) ]

def basicEvent.decode : Decoder basicEvent :=
  decodeStruct "updown.basicEvent" basicEvent.fields

/-- The apdexInfo contains basic apdex info. -/
structure apdexInfo where
  Apdex : Float64 := {}

def apdexInfo.fields : List (String × Decoder apdexInfo) :=
  [
    ("apdex", field (fun s => s.Apdex) (fun s x => { s with Apdex := x })
      (decodeFloat64)) ]

def apdexInfo.decode : Decoder apdexInfo :=
  decodeStruct "updown.apdexInfo" apdexInfo.fields

/-- The apdexMap is map with apdex info for specific date. -/
abbrev apdexMap := GoMap (Option apdexInfo)

def apdexMap.decode : Decoder apdexMap :=
  decodeMap "updown.apdexMap" none (decodePtr {} apdexInfo.decode)

/-- PerformanceApdex contains apdex metric. -/
structure PerformanceApdex where
  Date : Time
  Apdex : Float64
deriving DecidableEq

/-- PerformanceMetrics is performance drop metrics. -/
structure PerformanceMetrics where
  Metrics : List PerformanceApdex := []
deriving DecidableEq

/-! ## What Go leaves open -/

/-- The requirement of `sort.Slice` on its `less`: a strict weak ordering. -/
def StrictWeak {α : Type} (less : α → α → Bool) : Prop :=
  (∀ a, less a a = false) ∧
  (∀ a b c, less a b = true → less b c = true → less a c = true) ∧
  (∀ a b c, less a b = false → less b c = false → less a c = false)

/-- The two things the language leaves open: the order in which `range` visits
the entries of a map (every entry once), and the algorithm of `sort.Slice` (it
permutes the slice, and the result is in order when `less` is a strict weak
ordering). -/
structure Runtime where
  mapRange : apdexMap → apdexMap
  mapRange_perm : ∀ m, (mapRange m).Perm m
  sortSlice : (PerformanceApdex → PerformanceApdex → Bool) →
    List PerformanceApdex → List PerformanceApdex
  sortSlice_perm : ∀ less l, (sortSlice less l).Perm l
  sortSlice_sorted : ∀ less l, StrictWeak less →
    (sortSlice less l).Pairwise (fun a b => less b a = false)

/-! ## PerformanceMetrics.UnmarshalJSON -/

/-- The loop `for k, v := range metrics` of UnmarshalJSON over the entries in the
order they are visited: a key that does not parse returns its error, and reading
`v.Apdex` through a nil `v` panics. -/
def appendMetrics : List (String × Option apdexInfo) → PerformanceMetrics →
    Ret (PerformanceMetrics × Option GoError)
  | [], d => .ok (d, none)
  | (k, v) :: rest, d =>
    match timeParse layoutPlain k.data with
    | .error err => .ok (d, some err)
    | .ok dt =>
      match v with
      | none => .panic
      | some info => appendMetrics rest { d with Metrics := d.Metrics ++ [⟨dt, info.Apdex⟩] }

/-- UnmarshalJSON parses performance metrics: the receiver after the call and
the error. -/
def PerformanceMetrics.UnmarshalJSON (rt : Runtime) (d : PerformanceMetrics) (b : List Char) :
    Ret (PerformanceMetrics × Option GoError) :=
  if b.length = 0 || b = "null".toList then .ok (d, none)
  else
    match jsonUnmarshal apdexMap.decode b [] with
    | .panic => .panic
    | .ok (_, some err) => .ok (d, some err)
    | .ok (metrics, none) =>
      match appendMetrics (rt.mapRange metrics) d with
      | .panic => .panic
      | .ok (d1, some err) => .ok (d1, some err)
      | .ok (d1, none) =>
        .ok ({ d1 with Metrics := rt.sortSlice (fun x y => x.Date.Before y.Date) d1.Metrics }, none)

/-- A field of type PerformanceMetrics: the text of the value goes to its
UnmarshalJSON; an error it returns is recorded and the decoding goes on, a panic
stops the decoding. -/
def decodePerformanceMetrics (rt : Runtime) : Decoder PerformanceMetrics :=
  fun v d st =>
    match d.UnmarshalJSON rt v.raw with
    | .panic => (d, st.stop .panic)
    | .ok (d1, none) => (d1, st)
    | .ok (d1, some err) => (d1, st.saveError err)

/-- EventPerformanceDrop sent when the Apdex drops more than 30% below the lowest
of the last 5 hours. -/
structure EventPerformanceDrop extends Event where
  ApdexDropped : String := ""
  LastMetrics : Option PerformanceMetrics := none

def EventPerformanceDrop.fields (rt : Runtime) : List (String × Decoder EventPerformanceDrop) :=
  (Event.fields.map (fun f => (f.1, field (fun s => s.toEvent) (fun s x => { s with toEvent := x }) f.2))) ++
  [
    ("apdex_dropped", field (fun s => s.ApdexDropped) (fun s x => { s with ApdexDropped := x })
      (decodeString)),
    ("last_metrics", field (fun s => s.LastMetrics) (fun s x => { s with LastMetrics := x })
      (decodePtr {} (decodePerformanceMetrics rt))) ]

def EventPerformanceDrop.decode (rt : Runtime) : Decoder EventPerformanceDrop :=
  decodeStruct "updown.EventPerformanceDrop" (EventPerformanceDrop.fields rt)

/-! ## ParseWebhook -/

def EVENT_DOWN : String := "check.down"
def EVENT_UP : String := "check.up"
def EVENT_SSL_INVALID : String := "check.ssl_invalid"
def EVENT_SSL_VALID : String := "check.ssl_valid"
def EVENT_SSL_EXPIRTAION : String := "check.ssl_expiration"
def EVENT_SSL_RENEWED : String := "check.ssl_renewed"
def EVENT_PERFORMANCE_DROP : String := "check.performance_drop"

/-- A value of type `any` in the slice `events`: nil, a pointer to one of the
seven event structs, or what the decoder stores into an empty interface (kept as
the JSON value). -/
inductive AnyEvent where
  | nil
  | generic (v : JVal)
  | down (e : EventDown)
  | up (e : EventUp)
  | sslInvalid (e : EventSSLInvalid)
  | sslValid (e : EventSSLValid)
  | sslRenewed (e : EventSSLRenewed)
  | sslExpiration (e : EventSSLExpiration)
  | performanceDrop (e : EventPerformanceDrop)

/-- WebhookEvent contains webhook event data. -/
structure WebhookEvent where
  Type_ : String
  Event : AnyEvent

/-- Webhook contains webhook payload. -/
abbrev Webhook := List WebhookEvent

mutual
/-- The first number of a value that does not fit a float64: storing the value
into an empty interface records it as a type mismatch. -/
def JVal.badNumber : JVal → Option GoError
  | .num lit =>
    match parseFloatLit lit with
    | some _ => none
    | none => some (.unmarshalType ("number " ++ String.mk lit) "float64")
  | .arr _ items => badNumberItems items
  | .obj _ ms => badNumberMembers ms
  | _ => none
def badNumberItems : List JVal → Option GoError
  | [] => none
  | v :: rest =>
    match JVal.badNumber v with
    | some e => some e
    | none => badNumberItems rest
def badNumberMembers : List (String × JVal) → Option GoError
  | [] => none
  | (_, v) :: rest =>
    match JVal.badNumber v with
    | some e => some e
    | none => badNumberMembers rest
end

/-- Stores a JSON value into an element of `events`: null makes it nil, a pointer
to a struct is decoded into, a nil interface gets the generic value. -/
def decodeAny (rt : Runtime) : Decoder AnyEvent
  | .null, _, st => (.nil, st)
  | v, .down e, st => let r := EventDown.decode v e st; (.down r.1, r.2)
  | v, .up e, st => let r := EventUp.decode v e st; (.up r.1, r.2)
  | v, .sslInvalid e, st => let r := EventSSLInvalid.decode v e st; (.sslInvalid r.1, r.2)
  | v, .sslValid e, st => let r := EventSSLValid.decode v e st; (.sslValid r.1, r.2)
  | v, .sslRenewed e, st => let r := EventSSLRenewed.decode v e st; (.sslRenewed r.1, r.2)
  | v, .sslExpiration e, st => let r := EventSSLExpiration.decode v e st; (.sslExpiration r.1, r.2)
  | v, .performanceDrop e, st =>
    let r := EventPerformanceDrop.decode rt v e st; (.performanceDrop r.1, r.2)
  | v, _, st =>
    (.generic v,
      match v.badNumber with
      | some err => st.saveError err
      | none => st)

/-- The decoder of `[]*basicEvent`, the target of the first pass. -/
def decodeTypes : Decoder (GoSlice (Option basicEvent)) :=
  decodeSlice "[]*updown.basicEvent" none (decodePtr {} basicEvent.decode)

/-- The decoder of `[]any`, the target of the second pass. -/
def decodeEvents (rt : Runtime) : Decoder (GoSlice AnyEvent) :=
  decodeSlice "[]interface \x7b\x7d" .nil (decodeAny rt)

/-- The switch of the first loop: the value appended to `events` for a kind. -/
def newEvent (kind : String) : AnyEvent :=
  if kind = EVENT_DOWN then .down {}
  else if kind = EVENT_UP then .up {}
  else if kind = EVENT_SSL_INVALID then .sslInvalid {}
  else if kind = EVENT_SSL_VALID then .sslValid {}
  else if kind = EVENT_SSL_RENEWED then .sslRenewed {}
  else if kind = EVENT_SSL_EXPIRTAION then .sslExpiration {}
  else if kind = EVENT_PERFORMANCE_DROP then .performanceDrop {}
  else .nil

/-- The first loop over `types`; `ev.Type` panics on a nil `ev`. -/
def newEvents : List (Option basicEvent) → List AnyEvent → Ret (List AnyEvent)
  | [], events => .ok events
  | none :: _, _ => .panic
  | some ev :: rest, events => newEvents rest (events ++ [newEvent ev.Type_])

/-- The case list of the switch in the last loop. -/
def isKnown (kind : String) : Bool :=
  kind = EVENT_DOWN || kind = EVENT_UP || kind = EVENT_SSL_INVALID || kind = EVENT_SSL_VALID ||
  kind = EVENT_SSL_RENEWED || kind = EVENT_SSL_EXPIRTAION || kind = EVENT_PERFORMANCE_DROP

/-- The last loop over `types` from index `i` on: append to result only known
event types. -/
def collect : List (Option basicEvent) → Nat → List AnyEvent → Webhook → Ret Webhook
  | [], _, _, result => .ok result
  | none :: _, _, _, _ => .panic
  | some ev :: rest, i, events, result =>
    if isKnown ev.Type_ then
      match events[i]? with
      | none => .panic
      | some e => collect rest (i + 1) events (result ++ [⟨ev.Type_, e⟩])
    else collect rest (i + 1) events result

/-- ParseWebhook parses webhook data: the result and the error, or a panic. The
error of the second `json.Unmarshal` is not looked at. -/
def ParseWebhook (rt : Runtime) (data : List Char) : Ret (Webhook × Option GoError) :=
  match jsonUnmarshal decodeTypes data {} with
  | .panic => .panic
  | .ok (_, some err) => .ok ([], some err)
  | .ok (types, none) =>
    match newEvents types.elems [] with
    | .panic => .panic
    | .ok events =>
      match jsonUnmarshal (decodeEvents rt) data ⟨events, events.length⟩ with
      | .panic => .panic
      | .ok (decoded, _) =>
        match collect types.elems 0 decoded.elems [] with
        | .panic => .panic
        | .ok result => .ok (result, none)

/-! ## A runtime to evaluate with -/

/-- A runtime that visits a map in the order of insertion and sorts by insertion. -/
def stdRuntime : Runtime where
  mapRange := fun m => m
  mapRange_perm := fun m => List.Perm.refl m
  sortSlice := fun less l => l.insertionSort (fun a b => less b a = false)
  sortSlice_perm := fun less l => List.perm_insertionSort (fun a b => less b a = false) l
  sortSlice_sorted := fun less l h => by
    obtain ⟨hirr, htr, hneg⟩ := h
    haveI : IsTotal PerformanceApdex (fun a b => less b a = false) := ⟨fun a b => by
      by_cases hba : less b a = true
      · right
        cases hab : less a b with
        | false => rfl
        | true => exact absurd (htr a b a hab hba) (by simp [hirr a])
      · left
        simpa using hba⟩
    haveI : IsTrans PerformanceApdex (fun a b => less b a = false) :=
      ⟨fun a b c hab hbc => hneg c b a hbc hab⟩
    exact List.sorted_insertionSort (fun a b => less b a = false) l

/-- A runtime that visits a map in the reverse order of insertion. -/
def revRuntime : Runtime :=
  { stdRuntime with
    mapRange := fun m => m.reverse
    mapRange_perm := fun m => List.reverse_perm m }

/-! ## Reading the claims: elements and event kinds -/

/-- The elements of the input array; a top-level null has none. -/
def elements : JVal → List JVal
  | .arr _ items => items
  | _ => []

/-- The string of the last member named `event` (up to case) that holds a
string, starting from `kind`. -/
def kindOfMembers : List (String × JVal) → String → String
  | [], kind => kind
  | (key, .str _ s) :: rest, kind =>
    if foldName key = "EVENT" then kindOfMembers rest s else kindOfMembers rest kind
  | _ :: rest, kind => kindOfMembers rest kind

/-- The event kind of an element of the input array. -/
def eventKind : JVal → String
  | .obj _ ms => kindOfMembers ms ""
  | _ => ""

def isStringOrNull : JVal → Bool
  | .str _ _ => true
  | .null => true
  | _ => false

/-- An element that exposes an event kind: an object in which every member named
`event` (up to case) holds a string or null. -/
def isEventObject : JVal → Bool
  | .obj _ ms => ms.all (fun kv => foldName kv.1 != "EVENT" || isStringOrNull kv.2)
  | _ => false

/-- What the first pass stores for an element of the array. -/
def firstPassEntry : JVal → Option basicEvent
  | .null => none
  | .obj _ ms => some ⟨kindOfMembers ms ""⟩
  | _ => some {}

/-- An element the first pass takes without a type mismatch. -/
def firstPassOk : JVal → Bool
  | .null => true
  | v => isEventObject v

/-- The kind whose struct an element of `events` points to, if it points to one. -/
def AnyEvent.shape : AnyEvent → Option String
  | .down _ => some EVENT_DOWN
  | .up _ => some EVENT_UP
  | .sslInvalid _ => some EVENT_SSL_INVALID
  | .sslValid _ => some EVENT_SSL_VALID
  | .sslRenewed _ => some EVENT_SSL_RENEWED
  | .sslExpiration _ => some EVENT_SSL_EXPIRTAION
  | .performanceDrop _ => some EVENT_PERFORMANCE_DROP
  | .nil => none
  | .generic _ => none

/-- The envelopes in the order of the array: one per element of a known kind,
with the value at the same index of `events`. -/
def envelopes (items : List JVal) (events : List AnyEvent) : Webhook :=
  (items.zip events).filterMap
    (fun p => if isKnown (eventKind p.1) then some ⟨eventKind p.1, p.2⟩ else none)

/-! ## Reading the claims: metrics objects -/

/-- A key that matches the timestamp pattern: `time.Parse` takes it. -/
def validKey (k : String) : Bool := (timeParse? layoutPlain k.data).isSome

/-- The instant a key stands for. -/
def keyInstant (k : String) : Time := (timeParse? layoutPlain k.data).getD Time.zero

/-- The number of the last member named `apdex` (up to case) that holds a number
a float64 can take, starting from `a`. -/
def apdexOfMembers : List (String × JVal) → Float64 → Float64
  | [], a => a
  | (key, .num lit) :: rest, a =>
    if foldName key = "APDEX" then apdexOfMembers rest ((parseFloatLit lit).getD a)
    else apdexOfMembers rest a
  | _ :: rest, a => apdexOfMembers rest a

/-- The apdex value stored in a value of the metrics object. -/
def apdexOf : JVal → Float64
  | .obj _ ms => apdexOfMembers ms {}
  | _ => {}

def isNumberOrNull : JVal → Bool
  | .num lit => (parseFloatLit lit).isSome
  | .null => true
  | _ => false

/-- A value of the shape `{apdex: number}`: an object in which every member named
`apdex` (up to case) holds null or a number a float64 can take. -/
def isApdexObject : JVal → Bool
  | .obj _ ms => ms.all (fun kv => foldName kv.1 != "APDEX" || isNumberOrNull kv.2)
  | _ => false

/-- The entries of a JSON object as a map holds them: one per key, a later member
replacing an earlier one with the same key. -/
def objectEntries (ms : List (String × JVal)) : List (String × JVal) :=
  ms.foldl (fun m kv => GoMap.insert kv.1 kv.2 m) []

/-- The element of the series an entry of the metrics object stands for. -/
def pointOf (kv : String × JVal) : PerformanceApdex := ⟨keyInstant kv.1, apdexOf kv.2⟩

/-- What decoding stores into the map for a value of the object. -/
def apdexEntry : JVal → Option apdexInfo
  | .null => none
  | .obj _ ms => some ⟨apdexOfMembers ms {}⟩
  | _ => some {}

/-- A value the map takes without a type mismatch. -/
def apdexEntryOk : JVal → Bool
  | .null => true
  | v => isApdexObject v

/-- The order of a series: no element is before the one preceding it. -/
def Ascending (series : List PerformanceApdex) : Prop :=
  series.Pairwise (fun a b => b.Date.Before a.Date = false)

/-- The element of the series an entry of the decoded map stands for. -/
def entryPoint (e : String × Option apdexInfo) : PerformanceApdex :=
  ⟨keyInstant e.1, (e.2.getD {}).Apdex⟩

/-- The map the decoder builds from the members of a metrics object. -/
def metricsOf (ms : List (String × JVal)) : apdexMap :=
  (objectEntries ms).map (fun kv => (kv.1, apdexEntry kv.2))

/-! ## Sample inputs -/

/-- Three elements, the second of an unknown kind. -/
def sampleMixed : List Char :=
  "[\x7b\"event\": \"check.up\"\x7d, \x7b\"event\": \"check.unknown\"\x7d, \x7b\"event\": \"check.down\"\x7d]".toList

/-- A check.down element whose `time` is not a timestamp, then a check.up
element. -/
def sampleBadTimeThenUp : List Char :=
  "[\x7b\"event\": \"check.down\", \"time\": \"oops\"\x7d, \x7b\"event\": \"check.up\", \"description\": \"back up\"\x7d]".toList

/-- A renewed certificate and a performance drop. -/
def sampleShapes : List Char :=
  "[\x7b\"event\": \"check.ssl_renewed\"\x7d, \x7b\"event\": \"check.performance_drop\"\x7d]".toList

/-- A check.down element whose `time` does not match the fixed format. -/
def sampleBadTime : List Char :=
  "[\x7b\"event\": \"check.down\", \"time\": \"2025-02-14 09:26:44\", \"description\": \"DOWN\"\x7d]".toList

/-- The payload an element decodes to on its own: what the decoder stores into a
fresh struct of the element's kind. -/
def payloadOf (rt : Runtime) (w : JVal) : AnyEvent :=
  (decodeAny rt w (newEvent (eventKind w)) {}).1

/-- A value `{ "apdex": lit }` of a metrics object, as the scanner reads it. -/
def apdexValue (lit : String) : JVal :=
  .obj ("\x7b \"apdex\": " ++ lit ++ " \x7d").toList [("apdex", .num lit.toList)]

/-- The metrics object of the test, with its six keys. -/
def sampleSix : List Char :=
  ("\x7b\"2023-03-12T02:00:00Z\": \x7b \"apdex\": 0.975 \x7d, " ++
    "\"2023-03-12T03:00:00Z\": \x7b \"apdex\": 1 \x7d, " ++
    "\"2023-03-12T04:00:00Z\": \x7b \"apdex\": 0.98 \x7d, " ++
    "\"2023-03-12T05:00:00Z\": \x7b \"apdex\": 1 \x7d, " ++
    "\"2023-03-12T06:00:00Z\": \x7b \"apdex\": 1 \x7d, " ++
    "\"2023-03-12T07:00:00Z\": \x7b \"apdex\": 0.51 \x7d\x7d").toList

/-- The members of `sampleSix`. -/
def sampleSixMembers : List (String × JVal) :=
  [("2023-03-12T02:00:00Z", apdexValue "0.975"),
   ("2023-03-12T03:00:00Z", apdexValue "1"),
   ("2023-03-12T04:00:00Z", apdexValue "0.98"),
   ("2023-03-12T05:00:00Z", apdexValue "1"),
   ("2023-03-12T06:00:00Z", apdexValue "1"),
   ("2023-03-12T07:00:00Z", apdexValue "0.51")]

/-- A metrics object with a timestamp key that holds null. -/
def sampleNullEntry : List Char :=
  "\x7b\"2023-03-12T02:00:00Z\": null\x7d".toList

/-- A metrics object with a timestamp key that holds a number. -/
def sampleNumberValue : List Char :=
  "\x7b\"2023-03-12T02:00:00Z\": 5\x7d".toList

/-- A metrics object with a timestamp key that holds null, then the key of the
test that does not match the timestamp pattern. -/
def sampleNullThenBadKey : List Char :=
  "\x7b\"2023-03-12T02:00:00Z\": null, \"2023-03-12K02:00:00Z\": \x7b \"apdex\": 0.975 \x7d\x7d".toList

/-- The metrics object of the test whose key does not match the timestamp
pattern. -/
def sampleBadKey : List Char :=
  "\x7b\"2023-03-12K02:00:00Z\": \x7b \"apdex\": 0.975 \x7d\x7d".toList

/-! ## Reading the claims: dates -/

/-- Days of a year of the proleptic Gregorian calendar. -/
def daysInYear (year : Nat) : Nat := if isLeap year then 366 else 365

/-- Days from January 1 of year 0 to the date, counted year by year and month by month. -/
def daysToDate (year month day : Nat) : Nat :=
  ((List.range year).map daysInYear).sum
    + ((List.range (month - 1)).map (fun m => daysIn (m + 1) year)).sum + (day - 1)

/-- The civil-date-to-epoch conversion: seconds from 1970-01-01T00:00:00Z to the date and
time of day. -/
def epochSeconds (year month day hour min sec : Nat) : Int :=
  ((daysToDate year month day : Int) - (daysToDate 1970 1 1 : Int)) * 86400
    + ((hour * 3600 + min * 60 + sec : Nat) : Int)

/-- The number two digits denote. -/
def num2 (a b : Char) : Nat := digitVal a * 10 + digitVal b

/-- The number four digits denote. -/
def num4 (a b c d : Char) : Nat :=
  ((digitVal a * 10 + digitVal b) * 10 + digitVal c) * 10 + digitVal d

/-- The text `"YYYY-MM-DDTHH:MM:SSZ"`, quotes included, from its fourteen digits. -/
def stampText (y1 y2 y3 y4 m1 m2 d1 d2 h1 h2 n1 n2 s1 s2 : Char) : List Char :=
  ['"', y1, y2, y3, y4, '-', m1, m2, '-', d1, d2, 'T', h1, h2, ':', n1, n2, ':', s1, s2, 'Z', '"']

/-- The texts `Date.UnmarshalJSON` can accept besides `null`: a double-quoted
`YYYY-MM-DDTh:MM:SS` with an hour of one or two digits, then an optional fraction of a
second (a period or a comma and digits), then the `Z`. -/
def LenientStamp (b : List Char) : Prop :=
  ∃ (y1 y2 y3 y4 m1 m2 d1 d2 n1 n2 s1 s2 : Char) (hour frac : List Char),
    b = ['"', y1, y2, y3, y4, '-', m1, m2, '-', d1, d2, 'T'] ++ hour
          ++ [':', n1, n2, ':', s1, s2] ++ frac ++ ['Z', '"'] ∧
      [y1, y2, y3, y4, m1, m2, d1, d2, n1, n2, s1, s2].all isDigit = true ∧
      (hour.length = 1 ∨ hour.length = 2) ∧ hour.all isDigit = true ∧
      (frac = [] ∨
        ∃ (p : Char) (ds : List Char),
          frac = p :: ds ∧ commaOrPeriod p = true ∧ ds ≠ [] ∧ ds.all isDigit = true)

/-- The texts of the fixed pattern `"YYYY-MM-DDTHH:MM:SSZ"`. -/
def StrictStamp (b : List Char) : Prop :=
  ∃ (y1 y2 y3 y4 m1 m2 d1 d2 h1 h2 n1 n2 s1 s2 : Char),
    b = stampText y1 y2 y3 y4 m1 m2 d1 d2 h1 h2 n1 n2 s1 s2 ∧
      [y1, y2, y3, y4, m1, m2, d1, d2, h1, h2, n1, n2, s1, s2].all isDigit = true

def sampleStamp : List Char := "\"2025-01-22T21:52:41Z\"".toList

def sampleFraction : List Char := "\"2025-01-22T21:52:41.5Z\"".toList

def sampleShortHour : List Char := "\"2025-01-22T1:52:41Z\"".toList

def sampleOffset : List Char := "\"2025-01-22T21:52:41+01:00\"".toList

/-! ## The client -/

/-- Node contains info about check node. -/
structure Node where
  IP : String := ""
  IPv6 : String := ""
  City : String := ""
  Country : String := ""
  CountryCode : String := ""
  Lat : Float64 := {}
  Lon : Float64 := {}

/-- Recipient contains info about alert recipient. -/
structure Recipient where
  ID : String := ""
  Type_ : String := ""
  Name : String := ""
  Value : String := ""

/-- StatusPage contains info about status check. -/
structure StatusPage where
  Token : String := ""
  URL : String := ""
  Name : String := ""
  Description : String := ""
  Visibility : String := ""
  AccessKey : String := ""
  Checks : Option (List String) := none

/-- Result slices and maps of the accessors; `none` is the nil slice or map. -/
abbrev Checks := Option (List (Option Check))

abbrev Downtimes := Option (List (Option Downtime))

abbrev Nodes := Option (GoMap (Option Node))

abbrev Recipients := Option (List (Option Recipient))

abbrev StatusPages := Option (List (Option StatusPage))

/-- The builtin `len` of a slice that may be nil. -/
def sliceLen {α : Type} (s : Option (List α)) : Nat := (s.getD []).length

/-- The work of `append(s, t...)`: a nil slice stays nil when nothing is appended. -/
def sliceAppend {α : Type} (s t : Option (List α)) : Option (List α) :=
  match s, t.getD [] with
  | none, [] => none
  | s, xs => some (s.getD [] ++ xs)

/-- MetricsOptions is options for metrics request. -/
structure MetricsOptions where
  From : Time := Time.zero
  To : Time := Time.zero
  GroupBy : String := ""

/-- The errors of the client: the three errors the package declares, and the three that
`sendRequest` builds around a cause or a status code. -/
inductive APIError where
  | named (text : String)
  | cantSend (cause : String)
  | badStatus (code : Int)
  | cantDecode (cause : String)
deriving DecidableEq

def ErrEmptyAPIKey : APIError := .named "API key is empty"

def ErrNilClient : APIError := .named "Client is nil"

def ErrEmptyToken : APIError := .named "Token is empty"

/-- A value of a request query (`req.Query` is `map[string]any`); a formatted time is kept
as the layout and the instant. -/
inductive QueryValue where
  | bool (b : Bool)
  | int (n : Int)
  | str (s : String)
  | formatted (layout : String) (t : Time)
deriving DecidableEq

/-- The request handed to the engine (`req.Request`); a nil query is `none`. -/
structure Request where
  Method : String
  URL : String
  Query : Option (GoMap QueryValue)
  Accept : String
  Headers : GoMap String
  Auth : String
deriving DecidableEq

/-- The response of the engine (`req.Response`) as far as `sendRequest` reads it: the status
code, and what `JSON` makes of the value behind the pointer it is given. -/
structure Response (α : Type) where
  StatusCode : Int
  JSON : α → α × Option String

/-- The engine (`req.Engine`) as far as the client writes it. -/
structure Engine where
  UserAgent : List String := []
deriving DecidableEq

def Engine.SetUserAgent (e : Engine) (app version : String) (subs : List String) : Engine :=
  { e with UserAgent := app :: version :: subs }

/-- What `Engine.Do` answers: it may depend on the engine, on the requests sent before and
on the request. The network and the library are not part of this repository. -/
abbrev Transport (α : Type) := Option Engine → List Request → Request → Except String (Response α)

/-- Client is Updown API client; `calls` is a `uint`. -/
structure Client where
  engine : Option Engine := none
  apiKey : String := ""
  calls : Nat := 0
deriving DecidableEq

def GET : String := "GET"

def STATUS_OK : Int := 200

def CONTENT_TYPE_JSON : String := "application/json"

def apiURL : String := "https://updown.io/api"

def defaultHeaders : GoMap String := [("Accept-Encoding", "gzip")]

/-- The values of a `uint` on a 64 bit platform. -/
def uintSize : Nat := 2 ^ 64

/-- SetUserAgent sets client user agent; the handle `none` is the nil client. -/
def Client.SetUserAgent (c : Option Client) (app version : String) : Option Client :=
  match c with
  | none => none
  | some cl =>
    match cl.engine with
    | none => some cl
    | some e =>
      if app = "" || version = "" then
        some { cl with engine := some (e.SetUserAgent "EK|Updown.go" "1" []) }
      else
        some { cl with engine := some (e.SetUserAgent app version ["EK|Updown.go/1"]) }

/-- NewClient creates new client instance. -/
def NewClient (apiKey : String) : Option Client × Option APIError :=
  if apiKey = "" then (none, some ErrEmptyAPIKey)
  else
    let c : Option Client := some { engine := some {}, apiKey := apiKey }
    let c := Client.SetUserAgent c "" ""
    (c, none)

/-- Calls returns total number of API calls made by the client. -/
def Client.Calls (c : Option Client) : Nat :=
  match c with
  | none => 0
  | some cl => cl.calls

/-- What a call leaves behind: the client behind the handle, the requests sent so far, the
returned value and the returned error. -/
structure Reply (α : Type) where
  client : Option Client
  sent : List Request
  result : α
  err : Option APIError

/-- The outcome of `sendRequest`: the client, the requests sent so far, the value behind the
response pointer, and the error. -/
structure Sent (α : Type) where
  client : Client
  sent : List Request
  response : Option α
  err : Option APIError

/-- The work of `sendRequest`, which sends request to API. The payload is never read. The
value behind `response` is what `JSON` left there, also when `JSON` failed. -/
def Client.sendRequest {α : Type} (net : Transport α) (c : Client) (sent : List Request)
    (method endpoint : String) (response : Option α) (query : Option (GoMap QueryValue)) :
    Sent α :=
  let c := { c with calls := (c.calls + 1) % uintSize }
  let r : Request :=
    { Method := method, URL := apiURL ++ endpoint, Query := query,
      Accept := CONTENT_TYPE_JSON, Headers := defaultHeaders, Auth := c.apiKey }
  match net c.engine sent r with
  | .error err => ⟨c, sent ++ [r], response, some (.cantSend err)⟩
  | .ok resp =>
    if resp.StatusCode ≠ STATUS_OK then
      ⟨c, sent ++ [r], response, some (.badStatus resp.StatusCode)⟩
    else
      match response with
      | none => ⟨c, sent ++ [r], none, none⟩
      | some v =>
        let d := resp.JSON v
        match d.2 with
        | some err => ⟨c, sent ++ [r], some d.1, some (.cantDecode err)⟩
        | none => ⟨c, sent ++ [r], some d.1, none⟩

/-- GetChecks returns info about all checks. -/
def Client.GetChecks (net : Transport Checks) (c : Option Client) (sent : List Request) :
    Reply Checks :=
  match c with
  | none => ⟨c, sent, none, some ErrNilClient⟩
  | some cl =>
    if cl.engine = none then ⟨c, sent, none, some ErrNilClient⟩
    else
      let result : Checks := some []
      let s := cl.sendRequest net sent GET "/checks" (some result) none
      match s.err with
      | some err => ⟨some s.client, s.sent, none, some err⟩
      | none => ⟨some s.client, s.sent, s.response.getD result, none⟩

/-- GetCheck returns info about check with given token. -/
def Client.GetCheck (net : Transport (Option Check)) (c : Option Client) (sent : List Request)
    (token : String) (withMetrics : Bool) : Reply (Option Check) :=
  match c with
  | none => ⟨c, sent, none, some ErrNilClient⟩
  | some cl =>
    if cl.engine = none then ⟨c, sent, none, some ErrNilClient⟩
    else if token = "" then ⟨c, sent, none, some ErrEmptyToken⟩
    else
      let query : Option (GoMap QueryValue) :=
        if withMetrics then some [("metrics", .bool true)] else none
      let result : Option Check := some {}
      let s := cl.sendRequest net sent GET ("/checks/" ++ token) (some result) query
      match s.err with
      | some err => ⟨some s.client, s.sent, none, some err⟩
      | none => ⟨some s.client, s.sent, s.response.getD result, none⟩

/-- The loop of `GetDowntimes` over the pages still to visit. -/
def Client.downtimesLoop (net : Transport Downtimes) (token : String) :
    List Nat → Client → List Request → GoMap QueryValue → Downtimes → Reply Downtimes
  | [], c, sent, _, result => ⟨some c, sent, result, none⟩
  | page :: more, c, sent, query, result =>
    let query := GoMap.insert "page" (.int page) query
    let downtimes : Downtimes := some []
    let s := c.sendRequest net sent GET ("/checks/" ++ token ++ "/downtimes") (some downtimes)
      (some query)
    match s.err with
    | some err => ⟨some s.client, s.sent, none, some err⟩
    | none =>
      let downtimes := s.response.getD downtimes
      let result := sliceAppend result downtimes
      if sliceLen downtimes ≠ 100 then ⟨some s.client, s.sent, result, none⟩
      else Client.downtimesLoop net token more s.client s.sent query result

/-- GetDowntimes returns all the downtimes of a check; the pages of the loop are 1 to 99. -/
def Client.GetDowntimes (net : Transport Downtimes) (c : Option Client) (sent : List Request)
    (token : String) (detailed : Bool) : Reply Downtimes :=
  match c with
  | none => ⟨c, sent, none, some ErrNilClient⟩
  | some cl =>
    if cl.engine = none then ⟨c, sent, none, some ErrNilClient⟩
    else if token = "" then ⟨c, sent, none, some ErrEmptyToken⟩
    else
      let result : Downtimes := none
      let query : GoMap QueryValue := []
      let query := if detailed then GoMap.insert "results" (.bool true) query else query
      Client.downtimesLoop net token (List.range' 1 99) cl sent query result

/-- The layout `toQuery` formats the two instants with. -/
def ISO8601 : String := "2006-01-02T15:04:05-07:00"

/-- The method toQuery converts options into request query. -/
def MetricsOptions.toQuery (o : MetricsOptions) : Option (GoMap QueryValue) :=
  if o.From.IsZero && o.To.IsZero && o.GroupBy = "" then none
  else
    let query : GoMap QueryValue := []
    let query := if o.GroupBy ≠ "" then GoMap.insert "group" (.str o.GroupBy) query else query
    let query :=
      if !o.From.IsZero then GoMap.insert "from" (.formatted ISO8601 o.From) query else query
    let query :=
      if !o.From.IsZero then GoMap.insert "to" (.formatted ISO8601 o.To) query else query
    some query

/-- GetMetrics returns detailed metrics about the check. -/
def Client.GetMetrics (net : Transport (Option Metrics)) (c : Option Client)
    (sent : List Request) (token : String) (options : MetricsOptions) : Reply (Option Metrics) :=
  match c with
  | none => ⟨c, sent, none, some ErrNilClient⟩
  | some cl =>
    if cl.engine = none then ⟨c, sent, none, some ErrNilClient⟩
    else if token = "" then ⟨c, sent, none, some ErrEmptyToken⟩
    else
      let query := options.toQuery
      let result : Option Metrics := some {}
      let s := cl.sendRequest net sent GET ("/checks/" ++ token ++ "/metrics") (some result) query
      match s.err with
      | some err => ⟨some s.client, s.sent, none, some err⟩
      | none => ⟨some s.client, s.sent, s.response.getD result, none⟩

/-- GetNodes return list of all updown.io servers (monitoring and webhooks). -/
def Client.GetNodes (net : Transport Nodes) (c : Option Client) (sent : List Request) :
    Reply Nodes :=
  match c with
  | none => ⟨c, sent, none, some ErrNilClient⟩
  | some cl =>
    if cl.engine = none then ⟨c, sent, none, some ErrNilClient⟩
    else
      let result : Nodes := some []
      let s := cl.sendRequest net sent GET "/nodes" (some result) none
      match s.err with
      | some err => ⟨some s.client, s.sent, none, some err⟩
      | none => ⟨some s.client, s.sent, s.response.getD result, none⟩

/-- GetNodesIPs returns list all updown.io servers addresses. -/
def Client.GetNodesIPs (net : Transport (Option (List String))) (c : Option Client) (sent : List Request) :
    Reply (Option (List String)) :=
  match c with
  | none => ⟨c, sent, none, some ErrNilClient⟩
  | some cl =>
    if cl.engine = none then ⟨c, sent, none, some ErrNilClient⟩
    else
      let result : (Option (List String)) := some []
      let s := cl.sendRequest net sent GET "/nodes/ips" (some result) none
      match s.err with
      | some err => ⟨some s.client, s.sent, none, some err⟩
      | none => ⟨some s.client, s.sent, s.response.getD result, none⟩

/-- GetNodesIPsV4 returns list all updown.io servers IPv4 addresses. -/
def Client.GetNodesIPsV4 (net : Transport (Option (List String))) (c : Option Client) (sent : List Request) :
    Reply (Option (List String)) :=
  match c with
  | none => ⟨c, sent, none, some ErrNilClient⟩
  | some cl =>
    if cl.engine = none then ⟨c, sent, none, some ErrNilClient⟩
    else
      let result : (Option (List String)) := some []
      let s := cl.sendRequest net sent GET "/nodes/ipv4" (some result) none
      match s.err with
      | some err => ⟨some s.client, s.sent, none, some err⟩
      | none => ⟨some s.client, s.sent, s.response.getD result, none⟩

/-- GetNodesIPsV6 returns list all updown.io servers IPv6 addresses. -/
def Client.GetNodesIPsV6 (net : Transport (Option (List String))) (c : Option Client) (sent : List Request) :
    Reply (Option (List String)) :=
  match c with
  | none => ⟨c, sent, none, some ErrNilClient⟩
  | some cl =>
    if cl.engine = none then ⟨c, sent, none, some ErrNilClient⟩
    else
      let result : (Option (List String)) := some []
      let s := cl.sendRequest net sent GET "/nodes/ipv6" (some result) none
      match s.err with
      | some err => ⟨some s.client, s.sent, none, some err⟩
      | none => ⟨some s.client, s.sent, s.response.getD result, none⟩

/-- GetRecipients returns list all the possible alert recipients/channels on your account. -/
def Client.GetRecipients (net : Transport Recipients) (c : Option Client) (sent : List Request) :
    Reply Recipients :=
  match c with
  | none => ⟨c, sent, none, some ErrNilClient⟩
  | some cl =>
    if cl.engine = none then ⟨c, sent, none, some ErrNilClient⟩
    else
      let result : Recipients := some []
      let s := cl.sendRequest net sent GET "/recipients" (some result) none
      match s.err with
      | some err => ⟨some s.client, s.sent, none, some err⟩
      | none => ⟨some s.client, s.sent, s.response.getD result, none⟩

/-- GetStatusPages returns list all your status pages. -/
def Client.GetStatusPages (net : Transport StatusPages) (c : Option Client) (sent : List Request) :
    Reply StatusPages :=
  match c with
  | none => ⟨c, sent, none, some ErrNilClient⟩
  | some cl =>
    if cl.engine = none then ⟨c, sent, none, some ErrNilClient⟩
    else
      let result : StatusPages := some []
      let s := cl.sendRequest net sent GET "/status-pages" (some result) none
      match s.err with
      | some err => ⟨some s.client, s.sent, none, some err⟩
      | none => ⟨some s.client, s.sent, s.response.getD result, none⟩

/-! ## Reading the claims: the pages of GetDowntimes -/

/-- The query of the request for a page. -/
def pageQuery (detailed : Bool) (page : Nat) : GoMap QueryValue :=
  if detailed then [("results", .bool true), ("page", .int page)] else [("page", .int page)]

/-- The request for a page of the downtimes of a check. -/
def pageRequest (apiKey token : String) (detailed : Bool) (page : Nat) : Request :=
  { Method := "GET", URL := "https://updown.io/api/checks/" ++ token ++ "/downtimes",
    Query := some (pageQuery detailed page), Accept := "application/json",
    Headers := [("Accept-Encoding", "gzip")], Auth := apiKey }

/-- The requests for the pages 1 to `k`, in this order. -/
def pageRequests (apiKey token : String) (detailed : Bool) (k : Nat) : List Request :=
  (List.range' 1 k).map (pageRequest apiKey token detailed)

/-- The records of a page: what the transport answers to the request for the page when the
pages before it were requested in order, if that answer has status 200 and decodes. -/
def pageRecords (net : Transport Downtimes) (e : Option Engine) (sent : List Request)
    (apiKey token : String) (detailed : Bool) (page : Nat) : Option Downtimes :=
  match net e (sent ++ pageRequests apiKey token detailed (page - 1))
      (pageRequest apiKey token detailed page) with
  | .error _ => none
  | .ok resp =>
    if resp.StatusCode = 200 then
      match (resp.JSON (some [])).2 with
      | some _ => none
      | none => some (resp.JSON (some [])).1
    else none

/-- The records of the pages `p`, `p + 1`, ... (`n` of them) appended to `result`. -/
def pagesFrom (net : Transport Downtimes) (e : Option Engine) (sent : List Request)
    (apiKey token : String) (detailed : Bool) (result : Downtimes) (p n : Nat) : Downtimes :=
  ((List.range' p n).map
    (fun j => (pageRecords net e sent apiKey token detailed j).getD none)).foldl sliceAppend result

/-- A transport whose every page holds `n` nil records. -/
def netOfSize (n : Nat) : Transport Downtimes :=
  fun _ _ _ => .ok { StatusCode := 200, JSON := fun _ => (some (List.replicate n none), none) }

/-- A transport whose first two pages hold 100 records and whose third holds 7. -/
def netThreePages : Transport Downtimes :=
  fun _ sent _ =>
    .ok { StatusCode := 200,
          JSON := fun _ => (some (List.replicate (if sent.length < 2 then 100 else 7) none), none) }

/-- A transport that fails on the second request. -/
def netFailsSecond : Transport Downtimes :=
  fun _ sent _ =>
    if sent.length = 1 then .error "timeout"
    else .ok { StatusCode := 200, JSON := fun _ => (some (List.replicate 100 none), none) }

/-! ## Reading the claims: the members of a payload -/

/-- A member whose key is the name, up to case. -/
def keyIs (name : String) (m : String × JVal) : Bool := foldName m.1 = foldName name

def JVal.isNull : JVal → Bool
  | .null => true
  | _ => false

/-- Fourteen digits that denote a valid calendar date and time of day. -/
def validStamp (y1 y2 y3 y4 m1 m2 d1 d2 h1 h2 n1 n2 s1 s2 : Char) : Bool :=
  [y1, y2, y3, y4, m1, m2, d1, d2, h1, h2, n1, n2, s1, s2].all isDigit &&
    decide (1 ≤ num2 m1 m2) && decide (num2 m1 m2 ≤ 12) && decide (1 ≤ num2 d1 d2) &&
    decide (num2 d1 d2 ≤ daysIn (num2 m1 m2) (num4 y1 y2 y3 y4)) &&
    decide (num2 h1 h2 < 24) && decide (num2 n1 n2 < 60) && decide (num2 s1 s2 < 60)

/-- A downtime object that is still open: every member named `ended_at`, `duration` or
`partial` holds null, and there is a member named `started_at`, all of which hold the given
text. -/
def isOpenDowntime (stamp : List Char) : JVal → Bool
  | .obj _ ms =>
    ms.all (fun m =>
        !(keyIs "ended_at" m || keyIs "duration" m || keyIs "partial" m) || m.2.isNull) &&
      ms.all (fun m => !keyIs "started_at" m || decide (m.2.raw = stamp)) &&
      ms.any (keyIs "started_at")
  | _ => false

/-- An element that has a member named `downtime`, all of which hold an open downtime. -/
def hasOpenDowntime (stamp : List Char) : JVal → Bool
  | .obj _ ms =>
    ms.all (fun m => !keyIs "downtime" m || isOpenDowntime stamp m.2) &&
      ms.any (keyIs "downtime")
  | _ => false

/-- The three fields an open downtime leaves at their zero values. -/
def Downtime.isOpen (d : Downtime) : Prop :=
  d.EndedAt = {} ∧ d.Duration = 0 ∧ d.IsPartial = false

/-- The elements of the array the text denotes. -/
def elementsOf (data : List Char) : List JVal :=
  match parseJSON data with
  | .ok v => elements v
  | .error _ => []

/-- What the second `json.Unmarshal` of `ParseWebhook` returns, if the call gets to it. -/
def secondPass (rt : Runtime) (data : List Char) :
    Option (Ret (GoSlice AnyEvent × Option GoError)) :=
  match jsonUnmarshal decodeTypes data {} with
  | .ok (types, none) =>
    match newEvents types.elems [] with
    | .ok events => some (jsonUnmarshal (decodeEvents rt) data ⟨events, events.length⟩)
    | .panic => none
  | _ => none

/-- The second pass returned no error. -/
def secondPassClean (rt : Runtime) (data : List Char) : Bool :=
  match secondPass rt data with
  | some (.ok (_, none)) => true
  | _ => false

/-- The slice `events` after the second pass. -/
def secondPassEvents (rt : Runtime) (data : List Char) : List AnyEvent :=
  match secondPass rt data with
  | some (.ok (decoded, _)) => decoded.elems
  | _ => []

/-- A `check.down` element with an open downtime, after an element that is a number. -/
def sampleDownAfterNumber : List Char :=
  ("[5, \x7b\"event\": \"check.down\", " ++
    "\"downtime\": \x7b\"started_at\": \"2025-02-14T09:16:44Z\", \"ended_at\": null, " ++
    "\"duration\": null, \"partial\": null\x7d\x7d]").toList

/-- The downtime a payload carries, if it is a down or an up event that has one. -/
def AnyEvent.downtime : AnyEvent → Option Downtime
  | .down e => e.Downtime
  | .up e => e.Downtime
  | _ => none

/-- The webhook of the test for `check.down`, shortened to the members of the claim. -/
def sampleDown : List Char :=
  ("[\x7b\"event\": \"check.down\", \"time\": \"2025-02-14T09:26:44Z\", " ++
    "\"description\": \"DOWN\", \"downtime\": \x7b\"id\": \"67af0bc0\", " ++
    "\"error\": \"500\", \"started_at\": \"2025-02-14T09:16:44Z\", \"ended_at\": null, " ++
    "\"duration\": null, \"partial\": null\x7d\x7d]").toList

/-- The value of the only member with the name (up to case), if there is exactly one. -/
def onlyMember (name : String) (ms : List (String × JVal)) : Option JVal :=
  match ms.filter (keyIs name) with
  | [m] => some m.2
  | _ => none

/-- The members of the metrics object of an element: the element has exactly one member
named `last_metrics`, and its text is that of a JSON object. -/
def lastMetricsOf : JVal → Option (List (String × JVal))
  | .obj _ ms =>
    match onlyMember "last_metrics" ms with
    | some lm =>
      match parseJSON lm.raw with
      | .ok (.obj _ entries) => some entries
      | _ => none
    | none => none
  | _ => none

def JVal.isString (s : String) : JVal → Bool
  | .str _ x => x = s
  | _ => false

/-- An element that has a member named `apdex_dropped`, all of which hold the string. -/
def hasApdexDropped (s : String) : JVal → Bool
  | .obj _ ms =>
    ms.all (fun m => !keyIs "apdex_dropped" m || m.2.isString s) &&
      ms.any (keyIs "apdex_dropped")
  | _ => false

/-- The performance drop a payload is, if it is one. -/
def AnyEvent.performanceDrop? : AnyEvent → Option EventPerformanceDrop
  | .performanceDrop e => some e
  | _ => none

/-- The webhook of the test for `check.performance_drop`. -/
def samplePerformanceDrop : List Char :=
  ("[\x7b\n  \"event\": \"check.performance_drop\",\n  \"time\": \"2025-02-14T09:26:44Z\",\n" ++
    "  \"description\": \"Apdex of https://updown.io/ dropped 47%\",\n  \"check\": \x7b\x7d,\n" ++
    "  \"apdex_dropped\": \"47%\",\n  \"last_metrics\": \x7b\n" ++
    "    \"2023-03-12T02:00:00Z\": \x7b \"apdex\": 0.975 \x7d,\n" ++
    "    \"2023-03-12T03:00:00Z\": \x7b \"apdex\": 1 \x7d,\n" ++
    "    \"2023-03-12T04:00:00Z\": \x7b \"apdex\": 0.98 \x7d,\n" ++
    "    \"2023-03-12T05:00:00Z\": \x7b \"apdex\": 1 \x7d,\n" ++
    "    \"2023-03-12T06:00:00Z\": \x7b \"apdex\": 1 \x7d,\n" ++
    "    \"2023-03-12T07:00:00Z\": \x7b \"apdex\": 0.51 \x7d\n  \x7d\n\x7d]").toList

/-- A `check.performance_drop` element whose metrics object holds a number under a valid
key. -/
def sampleDropNumber : List Char :=
  ("[\x7b\"event\": \"check.performance_drop\", \"apdex_dropped\": \"47%\", " ++
    "\"last_metrics\": \x7b\"2023-03-12T02:00:00Z\": 5\x7d\x7d]").toList

/-- A `check.performance_drop` element whose metrics object holds null under a valid key. -/
def sampleDropNull : List Char :=
  ("[\x7b\"event\": \"check.performance_drop\", \"apdex_dropped\": \"47%\", " ++
    "\"last_metrics\": \x7b\"2023-03-12T02:00:00Z\": null\x7d\x7d]").toList

/-! ## Reading the claims: the outcome of an accessor -/

/-- The message of an error (`Error`): the text of a named error, or what `fmt.Errorf` makes
of the format of `sendRequest` and its argument. -/
def APIError.Error : APIError → String
  | .named text => text
  | .cantSend cause => "Can't send request to API: " ++ cause
  | .badStatus code => "API returned non-ok status code " ++ toString code
  | .cantDecode cause => "Can't decode API response: " ++ cause

/-- The return of an accessor after its one request: nil and the error of the request, or
the value behind the response pointer. -/
def Sent.reply {β : Type} (s : Sent (Option β)) (zero : Option β) : Reply (Option β) :=
  match s.err with
  | some err => ⟨some s.client, s.sent, none, some err⟩
  | none => ⟨some s.client, s.sent, s.response.getD zero, none⟩

/-- The call sent the requests `extra` and no other, and counted each of them: the counter,
a `uint`, went up by their number. -/
def Reply.counts {α : Type} (c : Option Client) (sent : List Request) (r : Reply α) : Prop :=
  ∃ extra : List Request, r.sent = sent ++ extra ∧
    Client.Calls r.client =
      if extra = [] then Client.Calls c else (Client.Calls c + extra.length) % uintSize

/-- The call failed: it returns an error and a nil result. -/
def Reply.failed {β : Type} (r : Reply (Option β)) : Prop :=
  r.err ≠ none ∧ r.result = none

/-- The call sent one request, the transport answered it with status 200, and the result is
what `JSON` made of `zero` without an error; no error is returned. -/
def Reply.decoded {α : Type} (net : Transport α) (c : Option Client) (sent : List Request)
    (zero : α) (r : Reply α) : Prop :=
  r.err = none ∧
    ∃ (cl : Client) (req : Request) (resp : Response α),
      c = some cl ∧ net cl.engine sent req = .ok resp ∧ resp.StatusCode = 200 ∧
        resp.JSON zero = (r.result, none) ∧ r.sent = sent ++ [req]

/-- The transport answers every request with a response of the status code. -/
def Transport.delivers {α : Type} (net : Transport α) (e : Option Engine) (code : Int) : Prop :=
  ∀ (log : List Request) (r : Request), ∃ resp, net e log r = .ok resp ∧ resp.StatusCode = code

/-- The status rule of a call: it fails with the status error that carries the code exactly
when the code is not 200, and then the result is nil. -/
def Reply.statusRule {β : Type} (code : Int) (r : Reply (Option β)) : Prop :=
  (r.err = some (.badStatus code) ↔ code ≠ 200) ∧ (code ≠ 200 → r.result = none)

/-- The error of the request for a page, if it fails: in transport, by its status or in
decoding. -/
def pageError (net : Transport Downtimes) (e : Option Engine) (sent : List Request)
    (apiKey token : String) (detailed : Bool) (page : Nat) : Option APIError :=
  match net e (sent ++ pageRequests apiKey token detailed (page - 1))
      (pageRequest apiKey token detailed page) with
  | .error err => some (.cantSend err)
  | .ok resp =>
    if resp.StatusCode = 200 then (resp.JSON (some [])).2.map .cantDecode
    else some (.badStatus resp.StatusCode)

/-- The pages 1 to `k` were requested in order and no other; the pages before `k` held
exactly 100 records; page `k` answered with a number of records other than 100, or is page
99; the result holds the records of these pages in page order, and no error is returned. -/
def Reply.fetched (net : Transport Downtimes) (cl : Client) (sent : List Request)
    (token : String) (detailed : Bool) (k : Nat) (r : Reply Downtimes) : Prop :=
  r.err = none ∧ r.sent = sent ++ pageRequests cl.apiKey token detailed k ∧
    (∀ j, 1 ≤ j → j < k →
      ∃ ds, pageRecords net cl.engine sent cl.apiKey token detailed j = some ds ∧
        sliceLen ds = 100) ∧
    r.result = pagesFrom net cl.engine sent cl.apiKey token detailed none 1 k ∧
    ∃ ds, pageRecords net cl.engine sent cl.apiKey token detailed k = some ds ∧
      (sliceLen ds ≠ 100 ∨ k = 99)

/-- The pages 1 to `k` were requested in order and no other; the pages before `k` held
exactly 100 records; the request for page `k` failed; its error is returned with a nil
result. -/
def Reply.brokeAt (net : Transport Downtimes) (cl : Client) (sent : List Request)
    (token : String) (detailed : Bool) (k : Nat) (r : Reply Downtimes) : Prop :=
  r.result = none ∧ r.sent = sent ++ pageRequests cl.apiKey token detailed k ∧
    (∀ j, 1 ≤ j → j < k →
      ∃ ds, pageRecords net cl.engine sent cl.apiKey token detailed j = some ds ∧
        sliceLen ds = 100) ∧
    r.err ≠ none ∧ r.err = pageError net cl.engine sent cl.apiKey token detailed k

/-- A transport that answers every request with a list of one check. -/
def netChecks : Transport Checks :=
  fun _ _ _ => .ok { StatusCode := 200, JSON := fun _ => (some [some { Token := "ngg8" }], none) }

/-- A transport that answers every request with the status code, and with a body that does
not decode. -/
def netStatus {α : Type} (code : Int) : Transport α :=
  fun _ _ _ => .ok { StatusCode := code, JSON := fun v => (v, some "the body was read") }

/-- A transport that answers every request with status 200 and the body `null`. -/
def netNull {β : Type} : Transport (Option β) :=
  fun _ _ _ => .ok { StatusCode := 200, JSON := fun _ => (none, none) }

/-- A client as `NewClient` returns it for the key of the tests. -/
def sampleClient : Client :=
  { engine := some (Engine.SetUserAgent {} "EK|Updown.go" "1" []), apiKey := "test1234" }

/-! ## Reading the claims: the query of a metrics request -/

/-- The value a query holds under a key; none when there is no query or no such key. -/
def queryGet (q : Option (GoMap QueryValue)) (key : String) : Option QueryValue :=
  match q with
  | none => none
  | some m => List.lookup key m

/-- The keys of a query, in the order they were set. -/
def queryKeys (q : Option (GoMap QueryValue)) : List String :=
  match q with
  | none => []
  | some m => m.map (fun kv => kv.1)

/-- An instant that is not the zero instant: 2021-06-22 00:00:00 UTC. -/
def sampleInstant : Time := ⟨1624320000, 0⟩

/-! ## Reading the claims: the Type inside a payload -/

/-- The Type stored inside the struct an element of `events` points to, if it points to
one. -/
def AnyEvent.payloadType : AnyEvent → Option String
  | .down e => some e.Type_
  | .up e => some e.Type_
  | .sslInvalid e => some e.Type_
  | .sslValid e => some e.Type_
  | .sslRenewed e => some e.Type_
  | .sslExpiration e => some e.Type_
  | .performanceDrop e => some e.Type_
  | .nil => none
  | .generic _ => none

/-- A `check.down` element whose `time` is malformed and stands before `event`. -/
def sampleTimeBeforeEvent : List Char :=
  "[\x7b\"time\": \"oops\", \"event\": \"check.down\"\x7d]".toList

/-! ## Reading the claims: the receiver of the metrics decoder -/

/-- The series of the six-key object of the test. -/
def sampleSixSeries : List PerformanceApdex :=
  [⟨⟨1678586400, 0⟩, ⟨975, -3⟩⟩, ⟨⟨1678590000, 0⟩, ⟨1, 0⟩⟩, ⟨⟨1678593600, 0⟩, ⟨98, -2⟩⟩,
    ⟨⟨1678597200, 0⟩, ⟨1, 0⟩⟩, ⟨⟨1678600800, 0⟩, ⟨1, 0⟩⟩, ⟨⟨1678604400, 0⟩, ⟨51, -2⟩⟩]

/-- A metrics object with a key that matches the timestamp pattern, then the key of the
test that does not match it. -/
def sampleValidThenBadKey : List Char :=
  ("\x7b\"2023-03-12T02:00:00Z\": \x7b \"apdex\": 0.975 \x7d, " ++
    "\"2023-03-12K02:00:00Z\": \x7b \"apdex\": 1 \x7d\x7d").toList

/-! ## The decoder: what a step does to the state -/

/-- The state after a step that started in `st` and did to the empty state what `out` says:
the error recorded first wins, the halt is the one of the step. -/
def Dec.join (st out : Dec) : Dec :=
  { savedError :=
      match st.savedError with
      | some e => some e
      | none => out.savedError,
    halt := out.halt }

/-- A decoder that uses the state only to record into it: started in a state that is not
stopped, it stores what it stores when started in the empty state, and leaves the state
joined with what it leaves of the empty state. -/
def Decoder.Tame {α : Type} (dec : Decoder α) : Prop :=
  ∀ v s st, st.halt = none → dec v s st = ((dec v s {}).1, st.join (dec v s {}).2)

set_option maxRecDepth 100000

/-! ## The first pass of ParseWebhook -/

theorem foldName_event : foldName "event" = "EVENT" := by decide

theorem lookupField_basicEvent (k : String) :
    lookupField basicEvent.fields k =
      if foldName k = "EVENT" then
        some (field (fun s => s.Type_) (fun s x => { s with Type_ := x }) decodeString)
      else none := by
  unfold lookupField basicEvent.fields
  by_cases h : "event" = k
  · subst h
    simp [List.find?, foldName_event]
  · have h2 : ("event" == k) = false := by simpa using h
    have h4 : decide ("event" = k) = false := by simpa using h
    simp only [List.find?, h2, h4, foldName_event]
    by_cases h3 : foldName k = "EVENT"
    · simp [h3]
    · have : ¬ ("EVENT" = foldName k) := fun e => h3 e.symm
      simp [h3, this]

theorem saveError_halt (st : Dec) (e : GoError) : (st.saveError e).halt = st.halt := by
  unfold Dec.saveError
  cases st.savedError <;> rfl

theorem saveError_saved_ne (st : Dec) (e : GoError) : (st.saveError e).savedError ≠ none := by
  unfold Dec.saveError
  cases h : st.savedError <;> simp [h]

theorem decodeMembers_basicEvent (ms : List (String × JVal)) (s : basicEvent) (st : Dec)
    (hh : st.halt = none) :
    (decodeMembers basicEvent.fields ms s st).1 = ⟨kindOfMembers ms s.Type_⟩ ∧
    (decodeMembers basicEvent.fields ms s st).2.halt = none ∧
    ((decodeMembers basicEvent.fields ms s st).2.savedError = none ↔
      st.savedError = none ∧
        ms.all (fun kv => foldName kv.1 != "EVENT" || isStringOrNull kv.2) = true) := by
  induction ms generalizing s st with
  | nil => simp [decodeMembers, kindOfMembers, hh]
  | cons kv rest ih =>
    obtain ⟨k, v⟩ := kv
    unfold decodeMembers
    simp only [hh, lookupField_basicEvent]
    by_cases hk : foldName k = "EVENT"
    · simp only [hk, if_true]
      cases v with
      | str raw x =>
        have := ih ⟨x⟩ st hh
        simpa [field, decodeString, kindOfMembers, hk, isStringOrNull] using this
      | null =>
        have := ih s st hh
        simpa [field, decodeString, kindOfMembers, hk, isStringOrNull] using this
      | bool b =>
        have := ih s (st.saveError (mismatch (.bool b) "string")) (by rw [saveError_halt]; exact hh)
        simp only [field, decodeString, kindOfMembers]
        refine ⟨this.1, this.2.1, ?_⟩
        rw [this.2.2]
        simp [saveError_saved_ne, hk, isStringOrNull]
      | num l =>
        have := ih s (st.saveError (mismatch (.num l) "string")) (by rw [saveError_halt]; exact hh)
        simp only [field, decodeString, kindOfMembers]
        refine ⟨this.1, this.2.1, ?_⟩
        rw [this.2.2]
        simp [saveError_saved_ne, hk, isStringOrNull]
      | arr r l =>
        have := ih s (st.saveError (mismatch (.arr r l) "string")) (by rw [saveError_halt]; exact hh)
        simp only [field, decodeString, kindOfMembers]
        refine ⟨this.1, this.2.1, ?_⟩
        rw [this.2.2]
        simp [saveError_saved_ne, hk, isStringOrNull]
      | obj r l =>
        have := ih s (st.saveError (mismatch (.obj r l) "string")) (by rw [saveError_halt]; exact hh)
        simp only [field, decodeString, kindOfMembers]
        refine ⟨this.1, this.2.1, ?_⟩
        rw [this.2.2]
        simp [saveError_saved_ne, hk, isStringOrNull]
    · have := ih s st hh
      simp only [hk, if_false]
      cases v <;> simpa [kindOfMembers, hk] using this

theorem decodePtr_basicEvent (v : JVal) (st : Dec) (hh : st.halt = none) :
    (decodePtr {} basicEvent.decode v none st).1 = firstPassEntry v ∧
    (decodePtr {} basicEvent.decode v none st).2.halt = none ∧
    ((decodePtr {} basicEvent.decode v none st).2.savedError = none ↔
      st.savedError = none ∧ firstPassOk v = true) := by
  cases v with
  | null => simp [decodePtr, firstPassEntry, firstPassOk, hh]
  | obj raw ms =>
    have := decodeMembers_basicEvent ms {} st hh
    simpa [decodePtr, basicEvent.decode, decodeStruct, firstPassEntry, firstPassOk,
      isEventObject] using this
  | bool b =>
    simp [decodePtr, basicEvent.decode, decodeStruct, firstPassEntry, firstPassOk,
      isEventObject, saveError_halt, saveError_saved_ne, hh]
  | num l =>
    simp [decodePtr, basicEvent.decode, decodeStruct, firstPassEntry, firstPassOk,
      isEventObject, saveError_halt, saveError_saved_ne, hh]
  | str r x =>
    simp [decodePtr, basicEvent.decode, decodeStruct, firstPassEntry, firstPassOk,
      isEventObject, saveError_halt, saveError_saved_ne, hh]
  | arr r l =>
    simp [decodePtr, basicEvent.decode, decodeStruct, firstPassEntry, firstPassOk,
      isEventObject, saveError_halt, saveError_saved_ne, hh]

theorem decodeItems_basicEvent (items : List JVal) (st : Dec) (hh : st.halt = none) :
    (decodeItems none (decodePtr {} basicEvent.decode) items [] st).1 = items.map firstPassEntry ∧
    (decodeItems none (decodePtr {} basicEvent.decode) items [] st).2.1 = items.length ∧
    (decodeItems none (decodePtr {} basicEvent.decode) items [] st).2.2.halt = none ∧
    ((decodeItems none (decodePtr {} basicEvent.decode) items [] st).2.2.savedError = none ↔
      st.savedError = none ∧ items.all firstPassOk = true) := by
  induction items generalizing st with
  | nil => simp [decodeItems, hh]
  | cons v rest ih =>
    obtain ⟨h1, h2, h3⟩ := decodePtr_basicEvent v st hh
    obtain ⟨i1, i2, i3, i4⟩ := ih (decodePtr {} basicEvent.decode v none st).2 h2
    unfold decodeItems
    simp only [hh, List.headD_nil, List.tail_nil, List.map_cons, List.length_cons,
      List.all_cons, Bool.and_eq_true]
    refine ⟨by rw [h1, i1], by rw [i2], i3, ?_⟩
    rw [i4, h3]
    simp [and_assoc]

/-- The first pass without an error: the input is null or an array of elements
taken without a type mismatch, and `types` holds one entry per element. -/
theorem firstPass_ok (v : JVal) :
    ((decodeTypes v {} {}).2.halt = none) ∧
    ((decodeTypes v {} {}).2.savedError = none →
      (elements v).all firstPassOk = true ∧
      (decodeTypes v {} {}).1.elems = (elements v).map firstPassEntry) ∧
    (((v = .null) ∨ ∃ raw items, v = .arr raw items ∧ items.all firstPassOk = true) →
      (decodeTypes v {} {}).2.savedError = none) := by
  cases v with
  | null => simp [decodeTypes, decodeSlice, elements, GoSlice.elems]
  | arr raw items =>
    obtain ⟨i1, i2, i3, i4⟩ := decodeItems_basicEvent items {} rfl
    have e1 : (({} : GoSlice (Option basicEvent))).buf = [] := rfl
    simp only [decodeTypes, decodeSlice, e1, i3, i2, elements]
    refine ⟨?_, ?_, ?_⟩
    · split <;> simp [i3]
    · intro h
      by_cases h0 : items.length = 0
      · have : items = [] := List.length_eq_zero.mp h0
        subst this
        simp [GoSlice.elems]
      · simp only [h0, if_false] at h ⊢
        have h5 := i4.mp h
        refine ⟨h5.2, ?_⟩
        simp [GoSlice.elems, i1]
    · intro h
      have hall : items.all firstPassOk = true := by
        rcases h with h | ⟨r, it, h, h2⟩
        · cases h
        · cases h; exact h2
      split
      · rename_i h0
        have : items = [] := List.length_eq_zero.mp h0
        subst this
        rfl
      · exact i4.mpr ⟨rfl, hall⟩
  | bool b => simp [decodeTypes, decodeSlice, elements, saveError_halt, saveError_saved_ne]
  | num l => simp [decodeTypes, decodeSlice, elements, saveError_halt, saveError_saved_ne]
  | str r x => simp [decodeTypes, decodeSlice, elements, saveError_halt, saveError_saved_ne]
  | obj r l => simp [decodeTypes, decodeSlice, elements, saveError_halt, saveError_saved_ne]

theorem firstPassEntry_of_ne_null {v : JVal} (h : v ≠ .null) :
    firstPassEntry v = some ⟨eventKind v⟩ := by
  cases v <;> first | exact absurd rfl h | rfl

theorem newEvents_ok (items : List JVal) (acc events : List AnyEvent)
    (h : newEvents (items.map firstPassEntry) acc = .ok events) :
    (∀ v ∈ items, v ≠ .null) ∧ events = acc ++ items.map (fun v => newEvent (eventKind v)) := by
  induction items generalizing acc with
  | nil =>
    simp only [List.map_nil, newEvents, Ret.ok.injEq] at h
    simp [h]
  | cons v rest ih =>
    by_cases hv : v = .null
    · subst hv
      simp [firstPassEntry, newEvents] at h
    · rw [List.map_cons, firstPassEntry_of_ne_null hv] at h
      simp only [newEvents] at h
      obtain ⟨h1, h2⟩ := ih _ h
      refine ⟨?_, ?_⟩
      · intro w hw
        rcases List.mem_cons.mp hw with rfl | hw
        · exact hv
        · exact h1 w hw
      · simp [h2]

theorem newEvents_of_ne_null (items : List JVal) (acc : List AnyEvent)
    (h : ∀ v ∈ items, v ≠ .null) :
    newEvents (items.map firstPassEntry) acc =
      .ok (acc ++ items.map (fun v => newEvent (eventKind v))) := by
  induction items generalizing acc with
  | nil => simp [newEvents]
  | cons v rest ih =>
    rw [List.map_cons, firstPassEntry_of_ne_null (h v (List.mem_cons_self _ _))]
    simp only [newEvents]
    rw [ih _ (fun w hw => h w (List.mem_cons_of_mem _ hw))]
    simp

theorem decodeAny_shape (rt : Runtime) (v : JVal) (e : AnyEvent) (st : Dec) (h : v ≠ .null) :
    (decodeAny rt v e st).1.shape = e.shape := by
  cases v with
  | null => exact absurd rfl h
  | bool b => cases e <;> simp only [decodeAny, AnyEvent.shape]
  | num l => cases e <;> simp only [decodeAny, AnyEvent.shape]
  | str r x => cases e <;> simp only [decodeAny, AnyEvent.shape]
  | arr r l => cases e <;> simp only [decodeAny, AnyEvent.shape]
  | obj r l => cases e <;> simp only [decodeAny, AnyEvent.shape]

theorem decodeItems_count_le {α : Type} (zero : α) (dec : Decoder α) (items : List JVal)
    (old : List α) (st : Dec) :
    (decodeItems zero dec items old st).2.1 ≤ items.length := by
  induction items generalizing old st with
  | nil => simp [decodeItems]
  | cons v rest ih =>
    unfold decodeItems
    cases st.halt with
    | some _ => simp
    | none =>
      simp only [List.length_cons]
      exact Nat.succ_le_succ (ih _ _)

theorem decodeItems_count_of_running {α : Type} (zero : α) (dec : Decoder α) (items : List JVal)
    (old : List α) (st : Dec) (h : (decodeItems zero dec items old st).2.2.halt = none) :
    (decodeItems zero dec items old st).2.1 = items.length := by
  induction items generalizing old st with
  | nil => simp [decodeItems]
  | cons v rest ih =>
    unfold decodeItems at h ⊢
    cases hs : st.halt with
    | some x => simp [hs] at h
    | none =>
      simp only [hs] at h ⊢
      simp only [List.length_cons]
      rw [ih _ _ h]

/-- The second pass keeps the length of `events` and what every element points
to, when the array has as many elements as `events` and none of them is null. -/
theorem decodeItems_shape (rt : Runtime) (items : List JVal) (old : List AnyEvent) (st : Dec)
    (hn : ∀ v ∈ items, v ≠ .null) (hl : items.length = old.length) :
    (decodeItems .nil (decodeAny rt) items old st).1.map AnyEvent.shape =
      old.map AnyEvent.shape := by
  induction items generalizing old st with
  | nil => simp [decodeItems]
  | cons v rest ih =>
    cases old with
    | nil => simp at hl
    | cons o os =>
      unfold decodeItems
      cases st.halt with
      | some _ => rfl
      | none =>
        simp only [List.headD_cons, List.tail_cons, List.map_cons]
        rw [decodeAny_shape rt v o st (hn v (List.mem_cons_self _ _)),
          ih os _ (fun w hw => hn w (List.mem_cons_of_mem _ hw)) (by simpa using hl)]

theorem decodeEvents_shape (rt : Runtime) (v : JVal) (events : List AnyEvent) (st : Dec)
    (hn : ∀ w ∈ elements v, w ≠ .null) (hl : (elements v).length = events.length) :
    ((decodeEvents rt v ⟨events, events.length⟩ st).1.elems).map AnyEvent.shape =
      events.map AnyEvent.shape := by
  cases v with
  | null =>
    have : events = [] := by simpa [elements] using hl.symm
    subst this
    rfl
  | arr raw items =>
    simp only [elements] at hn hl
    have hs := decodeItems_shape rt items events st hn hl
    have hlen : (decodeItems .nil (decodeAny rt) items events st).1.length = events.length := by
      simpa using congrArg List.length hs
    have hle := decodeItems_count_le .nil (decodeAny rt) items events st
    simp only [decodeEvents, decodeSlice]
    cases hh : (decodeItems .nil (decodeAny rt) items events st).2.2.halt with
    | some x =>
      simp only [GoSlice.elems]
      rw [Nat.max_eq_left (by omega), List.take_of_length_le (by omega)]
      exact hs
    | none =>
      have hc := decodeItems_count_of_running .nil (decodeAny rt) items events st hh
      by_cases h0 : (decodeItems .nil (decodeAny rt) items events st).2.1 = 0
      · simp only [h0, if_true]
        have : events = [] := List.length_eq_zero.mp (by omega)
        subst this
        rfl
      · simp only [h0, if_false, GoSlice.elems]
        rw [List.take_of_length_le (by omega)]
        exact hs
  | bool b => simp [decodeEvents, decodeSlice, GoSlice.elems]
  | num l => simp [decodeEvents, decodeSlice, GoSlice.elems]
  | str r x => simp [decodeEvents, decodeSlice, GoSlice.elems]
  | obj r l => simp [decodeEvents, decodeSlice, GoSlice.elems]

theorem collect_eq (items : List JVal) (pre evs : List AnyEvent) (acc : Webhook)
    (hl : items.length = evs.length) :
    collect (items.map (fun v => some ⟨eventKind v⟩)) pre.length (pre ++ evs) acc =
      .ok (acc ++ envelopes items evs) := by
  induction items generalizing pre evs acc with
  | nil => simp [collect, envelopes]
  | cons v rest ih =>
    cases evs with
    | nil => simp at hl
    | cons e es =>
      have hl2 : rest.length = es.length := by simpa using hl
      have key := ih (pre ++ [e]) es
      simp only [List.length_append, List.length_singleton, List.append_assoc,
        List.singleton_append] at key
      simp only [List.map_cons, collect]
      by_cases hk : isKnown (eventKind v) = true
      · simp only [hk, if_true]
        have : (pre ++ e :: es)[pre.length]? = some e := by
          rw [List.getElem?_append_right (Nat.le_refl _)]
          simp
        simp only [this]
        rw [key _ hl2]
        simp [envelopes, hk]
      · simp only [hk]
        rw [key _ hl2]
        simp [envelopes, hk]

theorem jsonUnmarshal_of_parse {α : Type} (dec : Decoder α) (data : List Char) (v : JVal)
    (target : α) (hp : parseJSON data = .ok v) :
    jsonUnmarshal dec data target =
      match (dec v target {}).2.halt with
      | some .panic => .panic
      | none => .ok ((dec v target {}).1, (dec v target {}).2.savedError) := by
  simp only [jsonUnmarshal, hp]
  try rfl

theorem firstPassOk_of_ne_null {v : JVal} (h : v ≠ .null) (hk : firstPassOk v = true) :
    isEventObject v = true := by
  cases v <;> first | exact absurd rfl h | exact hk

/-- What a call of ParseWebhook that returns without an error has done: the input
is valid JSON, every element of the array exposes an event kind, `events` holds
for every element what the first loop put there (decoded into or not), and the
result pairs the known kinds with the values at their index. -/
theorem ParseWebhook_ok (rt : Runtime) (data : List Char) (result : Webhook)
    (h : ParseWebhook rt data = .ok (result, none)) :
    ∃ v events, parseJSON data = .ok v ∧
      (∀ w ∈ elements v, isEventObject w = true) ∧
      events.map AnyEvent.shape = (elements v).map (fun w => (newEvent (eventKind w)).shape) ∧
      result = envelopes (elements v) events := by
  cases hp : parseJSON data with
  | error m => simp [ParseWebhook, jsonUnmarshal, hp] at h
  | ok v =>
    obtain ⟨f1, f2, _⟩ := firstPass_ok v
    unfold ParseWebhook at h
    rw [jsonUnmarshal_of_parse _ _ _ _ hp, f1] at h
    cases hs : (decodeTypes v {} {}).2.savedError with
    | some e => simp [hs] at h
    | none =>
      obtain ⟨g1, g2⟩ := f2 hs
      simp only [hs, g2] at h
      cases hn : newEvents ((elements v).map firstPassEntry) [] with
      | panic => simp [hn] at h
      | ok events =>
        obtain ⟨n1, n2⟩ := newEvents_ok _ _ _ hn
        simp only [List.nil_append] at n2
        simp only [hn] at h
        rw [jsonUnmarshal_of_parse _ _ _ _ hp] at h
        have hl : (elements v).length = events.length := by simp [n2]
        have hsh := decodeEvents_shape rt v events {} n1 hl
        have hty : (elements v).map firstPassEntry =
            (elements v).map (fun w => some ⟨eventKind w⟩) :=
          List.map_congr_left (fun w hw => firstPassEntry_of_ne_null (n1 w hw))
        have hl2 : (elements v).length =
            ((decodeEvents rt v ⟨events, events.length⟩ {}).1.elems).length := by
          have := congrArg List.length hsh
          simp only [List.length_map] at this
          omega
        have hc := collect_eq (elements v) []
          ((decodeEvents rt v ⟨events, events.length⟩ {}).1.elems) [] hl2
        simp only [List.length_nil, List.nil_append] at hc
        rw [hty] at h
        refine ⟨v, (decodeEvents rt v ⟨events, events.length⟩ {}).1.elems, rfl, ?_, ?_, ?_⟩
        · intro w hw
          have : firstPassOk w = true := (List.all_eq_true.mp g1) w hw
          exact firstPassOk_of_ne_null (n1 w hw) this
        · rw [hsh, n2, List.map_map]
          rfl
        · cases hh : (decodeEvents rt v ⟨events, events.length⟩ {}).2.halt with
          | some x =>
            cases x with
            | panic => simp [hh] at h
          | none =>
            simp only [hh, hc] at h
            simpa using h.symm

theorem envelopes_length (items : List JVal) (events : List AnyEvent)
    (hl : items.length = events.length) :
    (envelopes items events).length = items.countP (fun w => isKnown (eventKind w)) := by
  induction items generalizing events with
  | nil => simp [envelopes]
  | cons v rest ih =>
    cases events with
    | nil => simp at hl
    | cons e es =>
      have := ih es (by simpa using hl)
      unfold envelopes at this ⊢
      by_cases hk : isKnown (eventKind v) = true
      · simp [List.filterMap_cons, hk, this]
      · simp [List.filterMap_cons, hk, this]

theorem envelopes_types (items : List JVal) (events : List AnyEvent)
    (hl : items.length = events.length) :
    (envelopes items events).map (fun w => w.Type_) = (items.map eventKind).filter isKnown := by
  induction items generalizing events with
  | nil => simp [envelopes]
  | cons v rest ih =>
    cases events with
    | nil => simp at hl
    | cons e es =>
      have := ih es (by simpa using hl)
      unfold envelopes at this ⊢
      by_cases hk : isKnown (eventKind v) = true
      · simp [List.filterMap_cons, hk, this, List.filter_cons]
      · simp [List.filterMap_cons, hk, this, List.filter_cons]

theorem newEvent_shape (kind : String) (h : isKnown kind = true) :
    (newEvent kind).shape = some kind := by
  unfold isKnown at h
  simp only [Bool.or_eq_true, decide_eq_true_eq] at h
  rcases h with (((((h | h) | h) | h) | h) | h) | h <;> subst h <;> rfl

theorem newEvent_unknown (kind : String) (h : isKnown kind = false) : newEvent kind = .nil := by
  unfold isKnown at h
  simp only [Bool.or_eq_false_iff, decide_eq_false_iff_not] at h
  obtain ⟨⟨⟨⟨⟨⟨h1, h2⟩, h3⟩, h4⟩, h5⟩, h6⟩, h7⟩ := h
  simp [newEvent, h1, h2, h3, h4, h5, h6, h7]

theorem envelopes_shape (items : List JVal) (events : List AnyEvent)
    (h : events.map AnyEvent.shape = items.map (fun w => (newEvent (eventKind w)).shape)) :
    ∀ w ∈ envelopes items events, w.Event.shape = some w.Type_ := by
  induction items generalizing events with
  | nil => simp [envelopes]
  | cons v rest ih =>
    cases events with
    | nil => simp at h
    | cons e es =>
      simp only [List.map_cons, List.cons.injEq] at h
      have := ih es h.2
      unfold envelopes at this ⊢
      intro w hw
      by_cases hk : isKnown (eventKind v) = true
      · simp only [List.zip_cons_cons, List.filterMap_cons, hk, if_true, List.mem_cons] at hw
        rcases hw with rfl | hw
        · simp only
          rw [h.1, newEvent_shape _ hk]
        · exact this w hw
      · simp only [List.zip_cons_cons, List.filterMap_cons, hk] at hw
        exact this w hw

theorem ParseWebhook_error_nil (rt : Runtime) (data : List Char) (result : Webhook)
    (err : GoError) (h : ParseWebhook rt data = .ok (result, some err)) :
    result = [] ∧ ∃ types, jsonUnmarshal decodeTypes data {} = .ok (types, some err) := by
  unfold ParseWebhook at h
  split at h
  · cases h
  · rename_i t e he
    simp only [Ret.ok.injEq, Prod.mk.injEq, Option.some.injEq] at h
    exact ⟨h.1.symm, t, by rw [he, h.2]⟩
  · split at h
    · cases h
    · split at h
      · cases h
      · split at h
        · cases h
        · simp at h

theorem decodeAny_nil_halt (rt : Runtime) (v : JVal) (st : Dec) :
    (decodeAny rt v .nil st).2.halt = st.halt := by
  cases v <;> simp only [decodeAny] <;> split <;> simp [saveError_halt]

theorem decodeItems_nil_halt (rt : Runtime) (items : List JVal) (old : List AnyEvent) (st : Dec)
    (hold : ∀ e ∈ old, e = .nil) (hh : st.halt = none) :
    (decodeItems .nil (decodeAny rt) items old st).2.2.halt = none := by
  induction items generalizing old st with
  | nil => simpa [decodeItems] using hh
  | cons v rest ih =>
    unfold decodeItems
    simp only [hh]
    have h0 : old.headD .nil = .nil := by
      cases old with
      | nil => rfl
      | cons o os => exact hold o (List.mem_cons_self _ _)
    rw [h0]
    exact ih old.tail _ (fun e he => hold e (List.mem_of_mem_tail he))
      (by rw [decodeAny_nil_halt]; exact hh)

theorem collect_unknown (items : List JVal) (i : Nat) (events : List AnyEvent) (acc : Webhook)
    (hk : ∀ w ∈ items, isKnown (eventKind w) = false) :
    collect (items.map (fun v => some ⟨eventKind v⟩)) i events acc = .ok acc := by
  induction items generalizing i with
  | nil => simp [collect]
  | cons v rest ih =>
    simp only [List.map_cons, collect, hk v (List.mem_cons_self _ _)]
    exact ih (i + 1) (fun w hw => hk w (List.mem_cons_of_mem _ hw))

theorem isEventObject_ne_null {w : JVal} (h : isEventObject w = true) : w ≠ .null := by
  intro e
  subst e
  simp [isEventObject] at h

theorem firstPassOk_of_isEventObject {w : JVal} (h : isEventObject w = true) :
    firstPassOk w = true := by
  cases w <;> first | rfl | exact h

/-! ## ParseWebhook: the claims -/

/-- C1: for every input that is not valid JSON, ParseWebhook returns the JSON
syntax error as its error and no envelopes. -/
theorem ParseWebhook_invalid_json (rt : Runtime) (data : List Char) (msg : String)
    (h : parseJSON data = .error msg) :
    ParseWebhook rt data = .ok ([], some (.syntaxError msg)) := by
  simp [ParseWebhook, jsonUnmarshal, h]

/-- The input `FFFF` of the test is not valid JSON and comes back with the
message of the scanner. -/
theorem ParseWebhook_invalid_json_witness :
    parseJSON "FFFF".toList = .error "invalid character 'F' looking for beginning of value" ∧
    ParseWebhook stdRuntime "FFFF".toList =
      .ok ([], some (.syntaxError "invalid character 'F' looking for beginning of value")) :=
  ⟨rfl, ParseWebhook_invalid_json stdRuntime _ _ rfl⟩

/-- C2: when ParseWebhook returns without an error, the number of envelopes is at
most the number of elements of the input array, and equals that number minus the
number of elements whose event kind is not one of the seven known kinds. -/
theorem ParseWebhook_length (rt : Runtime) (data : List Char) (result : Webhook)
    (h : ParseWebhook rt data = .ok (result, none)) :
    ∃ v, parseJSON data = .ok v ∧
      result.length ≤ (elements v).length ∧
      result.length =
        (elements v).length - (elements v).countP (fun w => !isKnown (eventKind w)) := by
  obtain ⟨v, events, hp, _, hsh, hres⟩ := ParseWebhook_ok rt data result h
  have hl : (elements v).length = events.length := by
    simpa using (congrArg List.length hsh).symm
  have h1 := envelopes_length (elements v) events hl
  have h2 := List.length_eq_countP_add_countP (p := fun w => isKnown (eventKind w)) (elements v)
  have h3 : (elements v).countP (fun w => !isKnown (eventKind w)) =
      (elements v).countP (fun a => decide ¬ (isKnown (eventKind a) = true)) := by
    congr 1
    funext w
    cases isKnown (eventKind w) <;> rfl
  refine ⟨v, hp, ?_, ?_⟩
  · rw [hres, h1]; omega
  · rw [hres, h1, h3]; omega

/-- Three elements, the second of an unknown kind: two envelopes. -/
theorem ParseWebhook_length_witness :
    ParseWebhook stdRuntime sampleMixed =
      .ok ([⟨"check.up", .up { Type_ := "check.up" }⟩,
            ⟨"check.down", .down { Type_ := "check.down" }⟩], none) ∧
    ∃ v, parseJSON sampleMixed = .ok v ∧
      (2 : Nat) ≤ (elements v).length ∧
      (2 : Nat) = (elements v).length - (elements v).countP (fun w => !isKnown (eventKind w)) :=
  ⟨rfl, ParseWebhook_length stdRuntime sampleMixed
    [⟨"check.up", .up { Type_ := "check.up" }⟩, ⟨"check.down", .down { Type_ := "check.down" }⟩]
    rfl⟩

/-- The kinds of the envelopes are the known kinds of the elements of the input
array, in the order of the array. -/
theorem ParseWebhook_types (rt : Runtime) (data : List Char) (result : Webhook)
    (h : ParseWebhook rt data = .ok (result, none)) :
    ∃ v, parseJSON data = .ok v ∧
      result.map (fun w => w.Type_) = ((elements v).map eventKind).filter isKnown := by
  obtain ⟨v, events, hp, _, hsh, hres⟩ := ParseWebhook_ok rt data result h
  have hl : (elements v).length = events.length := by
    simpa using (congrArg List.length hsh).symm
  exact ⟨v, hp, by rw [hres, envelopes_types _ _ hl]⟩

/-- C4: every envelope ParseWebhook returns carries a pointer to the struct fixed
for its kind (`shape` names the kind of the struct behind the pointer; nil and a
generic value have none). -/
theorem ParseWebhook_payload_shape (rt : Runtime) (data : List Char) (result : Webhook)
    (err : Option GoError) (h : ParseWebhook rt data = .ok (result, err)) :
    ∀ w ∈ result, w.Event.shape = some w.Type_ := by
  cases err with
  | some e =>
    rw [(ParseWebhook_error_nil rt data result e h).1]
    simp
  | none =>
    obtain ⟨v, events, _, _, hsh, hres⟩ := ParseWebhook_ok rt data result h
    rw [hres]
    exact envelopes_shape _ _ hsh

/-- A renewed certificate and a performance drop come back as EventSSLRenewed and
EventPerformanceDrop. -/
theorem ParseWebhook_payload_shape_witness :
    ParseWebhook stdRuntime sampleShapes =
      .ok ([⟨"check.ssl_renewed", .sslRenewed { Type_ := "check.ssl_renewed" }⟩,
            ⟨"check.performance_drop", .performanceDrop { Type_ := "check.performance_drop" }⟩],
        none) ∧
    ∀ w ∈ ([⟨"check.ssl_renewed", .sslRenewed { Type_ := "check.ssl_renewed" }⟩,
            ⟨"check.performance_drop", .performanceDrop { Type_ := "check.performance_drop" }⟩] :
            Webhook),
      w.Event.shape = some w.Type_ :=
  ⟨rfl, ParseWebhook_payload_shape stdRuntime sampleShapes _ none rfl⟩

/-- C5: for every JSON array all of whose elements expose an event kind that is
not one of the seven known kinds, the empty array included, ParseWebhook returns
no envelopes and no error. -/
theorem ParseWebhook_unknown_kinds (rt : Runtime) (data : List Char) (raw : List Char)
    (items : List JVal) (hp : parseJSON data = .ok (.arr raw items))
    (hk : ∀ w ∈ items, isEventObject w = true ∧ isKnown (eventKind w) = false) :
    ParseWebhook rt data = .ok ([], none) := by
  obtain ⟨f1, f2, f3⟩ := firstPass_ok (.arr raw items)
  have hall : items.all firstPassOk = true :=
    List.all_eq_true.mpr (fun w hw => firstPassOk_of_isEventObject (hk w hw).1)
  have hs := f3 (Or.inr ⟨raw, items, rfl, hall⟩)
  have hne : ∀ w ∈ items, w ≠ .null := fun w hw => isEventObject_ne_null (hk w hw).1
  have hev : items.map (fun v => newEvent (eventKind v)) = items.map (fun _ => AnyEvent.nil) :=
    List.map_congr_left (fun w hw => newEvent_unknown _ (hk w hw).2)
  have hty : items.map firstPassEntry = items.map (fun w => some ⟨eventKind w⟩) :=
    List.map_congr_left (fun w hw => firstPassEntry_of_ne_null (hne w hw))
  unfold ParseWebhook
  rw [jsonUnmarshal_of_parse _ _ _ _ hp, f1]
  simp only [hs, (f2 hs).2, elements]
  rw [newEvents_of_ne_null items [] hne]
  simp only [List.nil_append, hev]
  rw [jsonUnmarshal_of_parse _ _ _ _ hp]
  have hh : (decodeEvents rt (.arr raw items)
      ⟨items.map (fun _ => AnyEvent.nil), (items.map (fun _ => AnyEvent.nil)).length⟩ {}).2.halt
        = none := by
    have := decodeItems_nil_halt rt items (items.map (fun _ => AnyEvent.nil)) {}
      (by intro e he; simp only [List.mem_map] at he; obtain ⟨_, _, rfl⟩ := he; rfl) rfl
    simp only [decodeEvents, decodeSlice, this]
    split <;> exact this
  simp only [hh, hty]
  rw [collect_unknown items 0 _ [] (fun w hw => (hk w hw).2)]

/-- The array of the test with one element of kind `check.unknown`, and the empty
array. -/
theorem ParseWebhook_unknown_kinds_witness :
    ParseWebhook stdRuntime "[\x7b\"event\": \"check.unknown\"\x7d]".toList = .ok ([], none) ∧
    ParseWebhook stdRuntime "[]".toList = .ok ([], none) :=
  ⟨ParseWebhook_unknown_kinds stdRuntime "[\x7b\"event\": \"check.unknown\"\x7d]".toList
      "[\x7b\"event\": \"check.unknown\"\x7d]".toList
      [.obj "\x7b\"event\": \"check.unknown\"\x7d".toList
        [("event", .str "\"check.unknown\"".toList "check.unknown")]] rfl (by
      intro w hw
      simp only [List.mem_singleton] at hw
      subst hw
      exact ⟨rfl, rfl⟩),
   ParseWebhook_unknown_kinds stdRuntime "[]".toList "[]".toList [] rfl (by simp)⟩

/-- C6, at an input where the claim fails: the `time` of a check.down element
does not match the fixed format, the second `json.Unmarshal` returns the error
of `time.Parse`, and ParseWebhook still returns one envelope, whose `Time` is the
zero instant, and no error. -/
theorem ParseWebhook_drops_decode_error :
    (∃ decoded, jsonUnmarshal (decodeEvents stdRuntime) sampleBadTime ⟨[.down {}], 1⟩ =
      .ok (decoded, some (.parseError "\"2025-02-14 09:26:44\""))) ∧
    ParseWebhook stdRuntime sampleBadTime =
      .ok ([⟨"check.down", .down { Type_ := "check.down", Description := "DOWN" }⟩],
        none) :=
  ⟨⟨_, rfl⟩, rfl⟩

/-- An error ParseWebhook returns is always the error of the first
`json.Unmarshal`, and comes with no envelopes. -/
theorem ParseWebhook_error_is_first_pass (rt : Runtime) (data : List Char) (result : Webhook)
    (err : GoError) (h : ParseWebhook rt data = .ok (result, some err)) :
    result = [] ∧ ∃ types, jsonUnmarshal decodeTypes data {} = .ok (types, some err) :=
  ParseWebhook_error_nil rt data result err h

/-! ## Decoding the metrics object -/

theorem foldName_apdex : foldName "apdex" = "APDEX" := by decide

theorem lookupField_apdexInfo (k : String) :
    lookupField apdexInfo.fields k =
      if foldName k = "APDEX" then
        some (field (fun s => s.Apdex) (fun s x => { s with Apdex := x }) decodeFloat64)
      else none := by
  unfold lookupField apdexInfo.fields
  by_cases h : "apdex" = k
  · subst h
    simp [List.find?, foldName_apdex]
  · have h2 : ("apdex" == k) = false := by simpa using h
    have h4 : decide ("apdex" = k) = false := by simpa using h
    simp only [List.find?, h2, h4, foldName_apdex]
    by_cases h3 : foldName k = "APDEX"
    · simp [h3]
    · have : ¬ ("APDEX" = foldName k) := fun e => h3 e.symm
      simp [h3, this]

theorem decodeMembers_apdexInfo (ms : List (String × JVal)) (s : apdexInfo) (st : Dec)
    (hh : st.halt = none) :
    (decodeMembers apdexInfo.fields ms s st).1 = ⟨apdexOfMembers ms s.Apdex⟩ ∧
    (decodeMembers apdexInfo.fields ms s st).2.halt = none ∧
    ((decodeMembers apdexInfo.fields ms s st).2.savedError = none ↔
      st.savedError = none ∧
        ms.all (fun kv => foldName kv.1 != "APDEX" || isNumberOrNull kv.2) = true) := by
  induction ms generalizing s st with
  | nil => simp [decodeMembers, apdexOfMembers, hh]
  | cons kv rest ih =>
    obtain ⟨k, v⟩ := kv
    unfold decodeMembers
    simp only [hh, lookupField_apdexInfo]
    by_cases hk : foldName k = "APDEX"
    · simp only [hk, if_true]
      have bad : ∀ (e : GoError), isNumberOrNull v = false →
          apdexOfMembers ((k, v) :: rest) s.Apdex = apdexOfMembers rest s.Apdex →
          (decodeMembers apdexInfo.fields rest s (st.saveError e)).1 =
              ⟨apdexOfMembers ((k, v) :: rest) s.Apdex⟩ ∧
          (decodeMembers apdexInfo.fields rest s (st.saveError e)).2.halt = none ∧
          ((decodeMembers apdexInfo.fields rest s (st.saveError e)).2.savedError = none ↔
            st.savedError = none ∧
              ((k, v) :: rest).all
                (fun kv => foldName kv.1 != "APDEX" || isNumberOrNull kv.2) = true) := by
        intro e hv ha
        have := ih s (st.saveError e) (by rw [saveError_halt]; exact hh)
        refine ⟨by rw [this.1, ha], this.2.1, ?_⟩
        rw [this.2.2]
        simp [saveError_saved_ne, hk, hv]
      cases v with
      | num lit =>
        cases hp : parseFloatLit lit with
        | some x =>
          have := ih ⟨x⟩ st hh
          simpa [field, decodeFloat64, apdexOfMembers, hk, isNumberOrNull, hp] using this
        | none =>
          simp only [field, decodeFloat64, hp]
          exact bad _ (by simp [isNumberOrNull, hp]) (by simp [apdexOfMembers, hk, hp])
      | null =>
        have := ih s st hh
        simpa [field, decodeFloat64, apdexOfMembers, hk, isNumberOrNull] using this
      | bool b =>
        simp only [field, decodeFloat64]
        exact bad _ rfl (by simp [apdexOfMembers])
      | str r x =>
        simp only [field, decodeFloat64]
        exact bad _ rfl (by simp [apdexOfMembers])
      | arr r l =>
        simp only [field, decodeFloat64]
        exact bad _ rfl (by simp [apdexOfMembers])
      | obj r l =>
        simp only [field, decodeFloat64]
        exact bad _ rfl (by simp [apdexOfMembers])
    · have := ih s st hh
      simp only [hk, if_false]
      cases v <;> simpa [apdexOfMembers, hk] using this

theorem decodePtr_apdexInfo (v : JVal) (st : Dec) (hh : st.halt = none) :
    (decodePtr {} apdexInfo.decode v none st).1 = apdexEntry v ∧
    (decodePtr {} apdexInfo.decode v none st).2.halt = none ∧
    ((decodePtr {} apdexInfo.decode v none st).2.savedError = none ↔
      st.savedError = none ∧ apdexEntryOk v = true) := by
  cases v with
  | null => simp [decodePtr, apdexEntry, apdexEntryOk, hh]
  | obj raw ms =>
    have := decodeMembers_apdexInfo ms {} st hh
    simpa [decodePtr, apdexInfo.decode, decodeStruct, apdexEntry, apdexEntryOk,
      isApdexObject] using this
  | bool b =>
    simp [decodePtr, apdexInfo.decode, decodeStruct, apdexEntry, apdexEntryOk,
      isApdexObject, saveError_halt, saveError_saved_ne, hh]
  | num l =>
    simp [decodePtr, apdexInfo.decode, decodeStruct, apdexEntry, apdexEntryOk,
      isApdexObject, saveError_halt, saveError_saved_ne, hh]
  | str r x =>
    simp [decodePtr, apdexInfo.decode, decodeStruct, apdexEntry, apdexEntryOk,
      isApdexObject, saveError_halt, saveError_saved_ne, hh]
  | arr r l =>
    simp [decodePtr, apdexInfo.decode, decodeStruct, apdexEntry, apdexEntryOk,
      isApdexObject, saveError_halt, saveError_saved_ne, hh]

theorem decodeEntries_apdex (ms : List (String × JVal)) (m : apdexMap) (st : Dec)
    (hh : st.halt = none) :
    (decodeEntries none (decodePtr {} apdexInfo.decode) ms m st).1 =
        ms.foldl (fun m kv => GoMap.insert kv.1 (apdexEntry kv.2) m) m ∧
    (decodeEntries none (decodePtr {} apdexInfo.decode) ms m st).2.halt = none ∧
    ((decodeEntries none (decodePtr {} apdexInfo.decode) ms m st).2.savedError = none ↔
      st.savedError = none ∧ ms.all (fun kv => apdexEntryOk kv.2) = true) := by
  induction ms generalizing m st with
  | nil => simp [decodeEntries, hh]
  | cons kv rest ih =>
    obtain ⟨k, v⟩ := kv
    obtain ⟨h1, h2, h3⟩ := decodePtr_apdexInfo v st hh
    obtain ⟨i1, i2, i3⟩ := ih (GoMap.insert k (apdexEntry v) m)
      (decodePtr {} apdexInfo.decode v none st).2 h2
    unfold decodeEntries
    simp only [hh, h2, h1, List.foldl_cons, List.all_cons, Bool.and_eq_true]
    refine ⟨i1, i2, ?_⟩
    rw [i3, h3]
    simp [and_assoc]

theorem insert_map {β γ : Type} (f : β → γ) (k : String) (v : β) (m : GoMap β) :
    GoMap.insert k (f v) (m.map (fun kv => (kv.1, f kv.2))) =
      (GoMap.insert k v m).map (fun kv => (kv.1, f kv.2)) := by
  induction m with
  | nil => rfl
  | cons p rest ih =>
    obtain ⟨k1, v1⟩ := p
    simp only [List.map_cons, GoMap.insert]
    by_cases h : k1 = k
    · simp [h]
    · simp [h, ih]

theorem foldl_insert_map {β γ : Type} (f : β → γ) (ms : List (String × β)) (m : GoMap β) :
    ms.foldl (fun m kv => GoMap.insert kv.1 (f kv.2) m) (m.map (fun kv => (kv.1, f kv.2))) =
      (ms.foldl (fun m kv => GoMap.insert kv.1 kv.2 m) m).map (fun kv => (kv.1, f kv.2)) := by
  induction ms generalizing m with
  | nil => rfl
  | cons p rest ih =>
    simp only [List.foldl_cons]
    rw [insert_map, ih]

theorem mem_insert {β : Type} (k : String) (v : β) (m : GoMap β) (p : String × β)
    (h : p ∈ GoMap.insert k v m) : p = (k, v) ∨ p ∈ m := by
  induction m with
  | nil => simpa [GoMap.insert] using h
  | cons q rest ih =>
    obtain ⟨k1, v1⟩ := q
    simp only [GoMap.insert] at h
    by_cases hk : k1 = k
    · simp only [hk, if_true, List.mem_cons] at h
      rcases h with h | h
      · exact Or.inl h
      · exact Or.inr (List.mem_cons_of_mem _ h)
    · simp only [hk, if_false, List.mem_cons] at h
      rcases h with h | h
      · exact Or.inr (h ▸ List.mem_cons_self _ _)
      · rcases ih h with h | h
        · exact Or.inl h
        · exact Or.inr (List.mem_cons_of_mem _ h)

theorem key_mem_insert {β : Type} (k : String) (v : β) (m : GoMap β) (k1 : String)
    (h : k1 = k ∨ k1 ∈ m.map Prod.fst) : k1 ∈ (GoMap.insert k v m).map Prod.fst := by
  induction m with
  | nil =>
    rcases h with h | h
    · simp [GoMap.insert, h]
    · simp at h
  | cons q rest ih =>
    obtain ⟨k2, v2⟩ := q
    simp only [GoMap.insert]
    by_cases hk : k2 = k
    · simp only [hk, if_true, List.map_cons, List.mem_cons]
      rcases h with h | h
      · exact Or.inl h
      · simp only [List.map_cons, List.mem_cons] at h
        rcases h with h | h
        · exact Or.inl (h.trans hk)
        · exact Or.inr h
    · simp only [hk, if_false, List.map_cons, List.mem_cons]
      rcases h with h | h
      · exact Or.inr (ih (Or.inl h))
      · simp only [List.map_cons, List.mem_cons] at h
        rcases h with h | h
        · exact Or.inl h
        · exact Or.inr (ih (Or.inr h))

theorem mem_objectEntries_aux (ms : List (String × JVal)) (m : GoMap JVal) (p : String × JVal)
    (h : p ∈ ms.foldl (fun m kv => GoMap.insert kv.1 kv.2 m) m) : p ∈ ms ∨ p ∈ m := by
  induction ms generalizing m with
  | nil => exact Or.inr h
  | cons q rest ih =>
    simp only [List.foldl_cons] at h
    rcases ih _ h with h | h
    · exact Or.inl (List.mem_cons_of_mem _ h)
    · rcases mem_insert _ _ _ _ h with h | h
      · exact Or.inl (h ▸ List.mem_cons_self _ _)
      · exact Or.inr h

/-- Every entry of the map is a member of the object. -/
theorem mem_objectEntries (ms : List (String × JVal)) (p : String × JVal)
    (h : p ∈ objectEntries ms) : p ∈ ms := by
  rcases mem_objectEntries_aux ms [] p h with h | h
  · exact h
  · simp at h

theorem key_mem_objectEntries_aux (ms : List (String × JVal)) (m : GoMap JVal) (k : String)
    (h : k ∈ ms.map Prod.fst ∨ k ∈ m.map Prod.fst) :
    k ∈ (ms.foldl (fun m kv => GoMap.insert kv.1 kv.2 m) m).map Prod.fst := by
  induction ms generalizing m with
  | nil => simpa using h
  | cons q rest ih =>
    simp only [List.foldl_cons]
    apply ih
    rcases h with h | h
    · simp only [List.map_cons, List.mem_cons] at h
      rcases h with h | h
      · exact Or.inr (key_mem_insert _ _ _ _ (Or.inl h))
      · exact Or.inl h
    · exact Or.inr (key_mem_insert _ _ _ _ (Or.inr h))

/-- Every key of the object is a key of the map. -/
theorem key_mem_objectEntries (ms : List (String × JVal)) (k : String)
    (h : k ∈ ms.map Prod.fst) : k ∈ (objectEntries ms).map Prod.fst :=
  key_mem_objectEntries_aux ms [] k (Or.inl h)

/-! ## PerformanceMetrics.UnmarshalJSON: the loop and the sort -/

theorem before_strictWeak : StrictWeak (fun x y : PerformanceApdex => x.Date.Before y.Date) := by
  refine ⟨?_, ?_, ?_⟩
  · intro a
    simp [Time.Before]
  · intro a b c h1 h2
    simp only [Time.Before, Bool.or_eq_true, Bool.and_eq_true, decide_eq_true_eq] at h1 h2 ⊢
    omega
  · intro a b c h1 h2
    simp only [Time.Before, Bool.or_eq_false_iff, Bool.and_eq_false_iff,
      decide_eq_false_iff_not] at h1 h2 ⊢
    omega

theorem unmarshal_apdexMap (b raw : List Char) (ms : List (String × JVal))
    (hp : parseJSON b = .ok (.obj raw ms)) :
    ∃ err, jsonUnmarshal apdexMap.decode b [] = .ok (metricsOf ms, err) ∧
      (err = none ↔ ms.all (fun kv => apdexEntryOk kv.2) = true) := by
  obtain ⟨h1, h2, h3⟩ := decodeEntries_apdex ms [] {} rfl
  have hm : ms.foldl (fun m kv => GoMap.insert kv.1 (apdexEntry kv.2) m) [] = metricsOf ms :=
    foldl_insert_map apdexEntry ms []
  refine ⟨(decodeEntries none (decodePtr {} apdexInfo.decode) ms [] {}).2.savedError, ?_, ?_⟩
  · rw [jsonUnmarshal_of_parse _ _ _ _ hp]
    simp only [apdexMap.decode, decodeMap, h2]
    rw [h1, hm]
  · rw [h3]
    simp

theorem not_null_input (b raw : List Char) (ms : List (String × JVal))
    (hp : parseJSON b = .ok (.obj raw ms)) :
    (decide (b.length = 0) || decide (b = "null".toList)) = false := by
  have h1 : b ≠ [] := by
    intro e
    subst e
    cases hp
  have h2 : b ≠ "null".toList := by
    intro e
    subst e
    cases hp
  rw [Bool.or_eq_false_iff]
  exact ⟨decide_eq_false (by simpa [List.length_eq_zero] using h1), decide_eq_false h2⟩

theorem appendMetrics_valid (vis : List (String × Option apdexInfo)) (d : PerformanceMetrics)
    (hk : ∀ e ∈ vis, validKey e.1 = true) :
    (appendMetrics vis d = .panic ∧ ∃ e ∈ vis, e.2 = none) ∨
    (appendMetrics vis d = .ok (⟨d.Metrics ++ vis.map entryPoint⟩, none) ∧
      ∀ e ∈ vis, e.2 ≠ none) := by
  induction vis generalizing d with
  | nil => right; simp [appendMetrics]
  | cons e rest ih =>
    obtain ⟨k, v⟩ := e
    have hv : validKey k = true := hk (k, v) (List.mem_cons_self _ _)
    unfold validKey at hv
    obtain ⟨t, ht⟩ := Option.isSome_iff_exists.mp hv
    unfold appendMetrics
    simp only [timeParse, ht]
    cases v with
    | none => left; exact ⟨rfl, (k, none), List.mem_cons_self _ _, rfl⟩
    | some info =>
      rcases ih ⟨d.Metrics ++ [⟨t, info.Apdex⟩]⟩
        (fun e he => hk e (List.mem_cons_of_mem _ he)) with ⟨h1, e, he, h2⟩ | ⟨h1, h2⟩
      · left
        exact ⟨by dsimp only; exact h1, e, List.mem_cons_of_mem _ he, h2⟩
      · right
        refine ⟨?_, ?_⟩
        · dsimp only
          rw [h1]
          simp [entryPoint, keyInstant, ht]
        · intro e he
          rcases List.mem_cons.mp he with rfl | he
          · simp
          · exact h2 e he

theorem appendMetrics_bad_key (vis : List (String × Option apdexInfo)) (d : PerformanceMetrics)
    (hbad : ∃ e ∈ vis, validKey e.1 = false) (hv : ∀ e ∈ vis, e.2 ≠ none) :
    ∃ d1 err, appendMetrics vis d = .ok (d1, some err) := by
  induction vis generalizing d with
  | nil => simp at hbad
  | cons e rest ih =>
    obtain ⟨k, v⟩ := e
    unfold appendMetrics
    cases ht : timeParse? layoutPlain k.data with
    | none => exact ⟨d, .parseError (String.mk k.data), by simp [timeParse, ht]⟩
    | some t =>
      simp only [timeParse, ht]
      cases v with
      | none => exact absurd rfl (hv (k, none) (List.mem_cons_self _ _))
      | some info =>
        apply ih
        · obtain ⟨e, he, hb⟩ := hbad
          rcases List.mem_cons.mp he with rfl | he
          · simp [validKey, ht] at hb
          · exact ⟨e, he, hb⟩
        · exact fun e he => hv e (List.mem_cons_of_mem _ he)

theorem metricsOf_keys_valid (ms : List (String × JVal))
    (hk : ∀ kv ∈ ms, validKey kv.1 = true) : ∀ e ∈ metricsOf ms, validKey e.1 = true := by
  intro e he
  simp only [metricsOf, List.mem_map] at he
  obtain ⟨kv, hkv, rfl⟩ := he
  exact hk kv (mem_objectEntries ms kv hkv)

theorem entryPoint_apdexEntry (kv : String × JVal) (h : isApdexObject kv.2 = true) :
    entryPoint (kv.1, apdexEntry kv.2) = pointOf kv := by
  obtain ⟨k, v⟩ := kv
  cases v <;> first | (simp [isApdexObject] at h; done) | rfl

/-- What UnmarshalJSON does on a fresh receiver with a JSON object whose keys all
match the timestamp pattern: a type mismatch in a value is returned with the
series untouched, a null value makes the loop panic, and otherwise the series
holds one element per entry of the map, in ascending order. -/
theorem UnmarshalJSON_valid_keys (rt : Runtime) (b raw : List Char) (ms : List (String × JVal))
    (hp : parseJSON b = .ok (.obj raw ms)) (hk : ∀ kv ∈ ms, validKey kv.1 = true) :
    (∃ err, PerformanceMetrics.UnmarshalJSON rt {} b = .ok ({}, some err) ∧
      ms.all (fun kv => apdexEntryOk kv.2) = false) ∨
    (PerformanceMetrics.UnmarshalJSON rt {} b = .panic ∧ ∃ kv ∈ ms, kv.2 = .null) ∨
    (∃ series, PerformanceMetrics.UnmarshalJSON rt {} b = .ok (⟨series⟩, none) ∧
      series.Perm ((metricsOf ms).map entryPoint) ∧ Ascending series ∧
      ms.all (fun kv => apdexEntryOk kv.2) = true ∧ ∀ e ∈ metricsOf ms, e.2 ≠ none) := by
  obtain ⟨err, hu, herr⟩ := unmarshal_apdexMap b raw ms hp
  unfold PerformanceMetrics.UnmarshalJSON
  rw [if_neg (by rw [not_null_input b raw ms hp]; simp), hu]
  cases err with
  | some e =>
    left
    refine ⟨e, rfl, ?_⟩
    cases hall : ms.all (fun kv => apdexEntryOk kv.2) with
    | false => rfl
    | true => exact absurd (herr.mpr hall) (by simp)
  | none =>
    right
    have hall := herr.mp rfl
    have hperm := rt.mapRange_perm (metricsOf ms)
    have hvalid : ∀ e ∈ rt.mapRange (metricsOf ms), validKey e.1 = true :=
      fun e he => metricsOf_keys_valid ms hk e (hperm.subset he)
    rcases appendMetrics_valid (rt.mapRange (metricsOf ms)) {} hvalid with
      ⟨h1, e, he, h2⟩ | ⟨h1, h2⟩
    · left
      refine ⟨by simp only [h1], ?_⟩
      have he2 := hperm.subset he
      simp only [metricsOf, List.mem_map] at he2
      obtain ⟨kv, hkv, hkv2⟩ := he2
      refine ⟨kv, mem_objectEntries ms kv hkv, ?_⟩
      have : apdexEntry kv.2 = none := by rw [← h2, ← hkv2]
      cases hv : kv.2 <;> simp [hv, apdexEntry] at this ⊢
    · right
      refine ⟨rt.sortSlice (fun x y => x.Date.Before y.Date)
        ((rt.mapRange (metricsOf ms)).map entryPoint), ?_, ?_, ?_, hall, ?_⟩
      · simp only [h1]
        simp
      · exact (rt.sortSlice_perm _ _).trans (hperm.map entryPoint)
      · exact rt.sortSlice_sorted _ _ before_strictWeak
      · exact fun e he => h2 e (hperm.symm.subset he)

/-! ## PerformanceMetrics.UnmarshalJSON: the claims -/

/-- C7, at an input where the claim fails: the only key of the object matches
the timestamp pattern and holds null; the decoded map has a nil pointer under
it, and the loop panics on `v.Apdex` instead of leaving a sorted series, whatever
the runtime. -/
theorem UnmarshalJSON_null_entry_panics (rt : Runtime) :
    validKey "2023-03-12T02:00:00Z" = true ∧
    PerformanceMetrics.UnmarshalJSON rt {} sampleNullEntry = .panic := by
  refine ⟨by decide, ?_⟩
  have hm : rt.mapRange [("2023-03-12T02:00:00Z", none)] = [("2023-03-12T02:00:00Z", none)] :=
    List.perm_singleton.mp (rt.mapRange_perm _)
  have hu : jsonUnmarshal apdexMap.decode sampleNullEntry [] =
      .ok ([("2023-03-12T02:00:00Z", none)], none) := rfl
  unfold PerformanceMetrics.UnmarshalJSON
  rw [if_neg (by decide), hu]
  simp only [hm]
  rfl

/-- On a fresh receiver and a JSON object whose keys all match the timestamp
pattern and whose values all have the shape `{apdex: number}`, UnmarshalJSON
returns no error and leaves a series that is a permutation of the entries of the
object and is in ascending order. -/
theorem UnmarshalJSON_apdex_objects (rt : Runtime) (b raw : List Char)
    (ms : List (String × JVal)) (hp : parseJSON b = .ok (.obj raw ms))
    (hk : ∀ kv ∈ ms, validKey kv.1 = true) (hv : ∀ kv ∈ ms, isApdexObject kv.2 = true) :
    ∃ series, PerformanceMetrics.UnmarshalJSON rt {} b = .ok (⟨series⟩, none) ∧
      series.Perm ((objectEntries ms).map pointOf) ∧ Ascending series := by
  rcases UnmarshalJSON_valid_keys rt b raw ms hp hk with ⟨e, _, h⟩ | ⟨_, kv, hkv, h⟩ |
    ⟨series, h1, hperm, h3, _⟩
  · have : ms.all (fun kv => apdexEntryOk kv.2) = true :=
      List.all_eq_true.mpr (fun kv hkv => by
        have := hv kv hkv
        cases hx : kv.2 <;> simp [hx, apdexEntryOk, isApdexObject] at this ⊢
        exact this)
    rw [this] at h
    cases h
  · have := hv kv hkv
    rw [h] at this
    simp [isApdexObject] at this
  · have hmap : (metricsOf ms).map entryPoint = (objectEntries ms).map pointOf := by
      simp only [metricsOf, List.map_map]
      exact List.map_congr_left (fun kv hkv =>
        entryPoint_apdexEntry kv (hv kv (mem_objectEntries ms kv hkv)))
    rw [hmap] at hperm
    exact ⟨series, h1, hperm, h3⟩

/-- When every key of the object matches the timestamp pattern and every value
has the shape `{apdex: number}`, UnmarshalJSON on a fresh receiver returns no
error and leaves the series in ascending order, whatever the order in which the
map is visited. -/
theorem UnmarshalJSON_ascending (rt : Runtime) (b raw : List Char) (ms : List (String × JVal))
    (hp : parseJSON b = .ok (.obj raw ms)) (hk : ∀ kv ∈ ms, validKey kv.1 = true)
    (hv : ∀ kv ∈ ms, isApdexObject kv.2 = true) :
    ∃ series, PerformanceMetrics.UnmarshalJSON rt {} b = .ok (⟨series⟩, none) ∧
      Ascending series := by
  obtain ⟨series, h1, _, h3⟩ := UnmarshalJSON_apdex_objects rt b raw ms hp hk hv
  exact ⟨series, h1, h3⟩

/-- Whenever UnmarshalJSON returns, with an error or without, on a fresh receiver
and a JSON object whose keys all match the timestamp pattern, the series it
leaves is in ascending order. -/
theorem UnmarshalJSON_ascending_of_returns (rt : Runtime) (b raw : List Char)
    (ms : List (String × JVal)) (d : PerformanceMetrics) (err : Option GoError)
    (hp : parseJSON b = .ok (.obj raw ms)) (hk : ∀ kv ∈ ms, validKey kv.1 = true)
    (h : PerformanceMetrics.UnmarshalJSON rt {} b = .ok (d, err)) :
    Ascending d.Metrics := by
  rcases UnmarshalJSON_valid_keys rt b raw ms hp hk with ⟨e, h1, _⟩ | ⟨h1, _⟩ |
    ⟨series, h1, _, h3, _⟩
  · rw [h1] at h
    cases h
    exact List.Pairwise.nil
  · rw [h1] at h
    cases h
  · rw [h1] at h
    cases h
    exact h3

/-- C8, at an input where the claim fails: the only key of the object matches
the timestamp pattern and holds the number 5; UnmarshalJSON returns the type
mismatch of `json.Unmarshal` and leaves the series empty, so the series has no
element for the one key. -/
theorem UnmarshalJSON_number_value :
    (∃ raw ms, parseJSON sampleNumberValue = .ok (.obj raw ms) ∧
      (∀ kv ∈ ms, validKey kv.1 = true) ∧ (objectEntries ms).length = 1) ∧
    PerformanceMetrics.UnmarshalJSON stdRuntime {} sampleNumberValue =
      .ok (⟨[]⟩, some (.unmarshalType "number" "updown.apdexInfo")) :=
  ⟨⟨sampleNumberValue, [("2023-03-12T02:00:00Z", .num ['5'])], rfl, by decide, rfl⟩, rfl⟩

/-- C8, amended: for every JSON object whose keys all match the timestamp pattern
and whose values all have the shape `{apdex: number}`, UnmarshalJSON on a fresh
receiver returns no error and leaves a series that is a permutation of the
entries of the object, one element per key, with the instant parsed from the key
and the apdex value stored under it; the length of the series is the number of
keys. -/
theorem UnmarshalJSON_one_pair_per_key (rt : Runtime) (b raw : List Char)
    (ms : List (String × JVal)) (hp : parseJSON b = .ok (.obj raw ms))
    (hk : ∀ kv ∈ ms, validKey kv.1 = true) (hv : ∀ kv ∈ ms, isApdexObject kv.2 = true) :
    ∃ series, PerformanceMetrics.UnmarshalJSON rt {} b = .ok (⟨series⟩, none) ∧
      series.Perm ((objectEntries ms).map pointOf) ∧
      series.length = (objectEntries ms).length := by
  obtain ⟨series, h1, hperm, _⟩ := UnmarshalJSON_apdex_objects rt b raw ms hp hk hv
  exact ⟨series, h1, hperm, by simpa using hperm.length_eq⟩

/-- The six-key object of the test, visited in reverse order: six elements. -/
theorem UnmarshalJSON_one_pair_per_key_witness :
    (parseJSON sampleSix = .ok (.obj sampleSix sampleSixMembers) ∧
      (∀ kv ∈ sampleSixMembers, validKey kv.1 = true) ∧
      (∀ kv ∈ sampleSixMembers, isApdexObject kv.2 = true) ∧
      (objectEntries sampleSixMembers).length = 6) ∧
    ∃ series, PerformanceMetrics.UnmarshalJSON revRuntime {} sampleSix = .ok (⟨series⟩, none) ∧
      series.Perm ((objectEntries sampleSixMembers).map pointOf) ∧
      series.length = (objectEntries sampleSixMembers).length :=
  ⟨⟨rfl, by decide, by decide, rfl⟩,
    UnmarshalJSON_one_pair_per_key revRuntime sampleSix sampleSix sampleSixMembers rfl
      (by decide) (by decide)⟩

/-- The series of the six-key object of the test, visited in reverse order:
ascending, first apdex 0.975, last apdex 0.51. -/
theorem UnmarshalJSON_six_keys :
    PerformanceMetrics.UnmarshalJSON revRuntime {} sampleSix =
      .ok (⟨[⟨⟨1678586400, 0⟩, ⟨975, -3⟩⟩, ⟨⟨1678590000, 0⟩, ⟨1, 0⟩⟩,
             ⟨⟨1678593600, 0⟩, ⟨98, -2⟩⟩, ⟨⟨1678597200, 0⟩, ⟨1, 0⟩⟩,
             ⟨⟨1678600800, 0⟩, ⟨1, 0⟩⟩, ⟨⟨1678604400, 0⟩, ⟨51, -2⟩⟩]⟩, none) :=
  rfl

/-- C9: on a fresh receiver, the null token, a zero-length input and an empty
JSON object all return no error and leave an empty series. -/
theorem UnmarshalJSON_empty (rt : Runtime) :
    PerformanceMetrics.UnmarshalJSON rt {} "null".toList = .ok ({}, none) ∧
    PerformanceMetrics.UnmarshalJSON rt {} [] = .ok ({}, none) ∧
    ∀ b raw, parseJSON b = .ok (.obj raw []) →
      PerformanceMetrics.UnmarshalJSON rt {} b = .ok ({}, none) := by
  refine ⟨rfl, rfl, ?_⟩
  intro b raw hp
  rcases UnmarshalJSON_valid_keys rt b raw [] hp (by simp) with ⟨e, _, h⟩ | ⟨_, kv, hkv, _⟩ |
    ⟨series, h1, hperm, _⟩
  · simp at h
  · simp at hkv
  · have : series = [] := by simpa [metricsOf, objectEntries] using hperm
    rw [h1, this]

/-- The empty object, also with blanks inside. -/
theorem UnmarshalJSON_empty_witness :
    (parseJSON "\x7b\x7d".toList = .ok (.obj "\x7b\x7d".toList []) ∧
      PerformanceMetrics.UnmarshalJSON stdRuntime {} "\x7b\x7d".toList = .ok ({}, none)) ∧
    (parseJSON "\x7b \x7d".toList = .ok (.obj "\x7b \x7d".toList []) ∧
      PerformanceMetrics.UnmarshalJSON stdRuntime {} "\x7b \x7d".toList = .ok ({}, none)) :=
  ⟨⟨rfl, (UnmarshalJSON_empty stdRuntime).2.2 _ _ rfl⟩,
   ⟨rfl, (UnmarshalJSON_empty stdRuntime).2.2 "\x7b \x7d".toList "\x7b \x7d".toList rfl⟩⟩

/-- C10, at an input where the claim fails: the object has a key that does not
match the timestamp pattern, and a key that does and holds null. Visited in the
order of the text, the null entry comes first and the loop panics instead of
returning an error; visited in reverse order, the error of `time.Parse` is
returned. -/
theorem UnmarshalJSON_null_before_bad_key :
    validKey "2023-03-12K02:00:00Z" = false ∧
    PerformanceMetrics.UnmarshalJSON stdRuntime {} sampleNullThenBadKey = .panic ∧
    PerformanceMetrics.UnmarshalJSON revRuntime {} sampleNullThenBadKey =
      .ok ({}, some (.parseError "2023-03-12K02:00:00Z")) :=
  ⟨by decide, rfl, rfl⟩

/-- When a key of the object does not match the timestamp pattern and no value
is null, UnmarshalJSON returns an error, whatever the other keys are, whatever
the receiver holds and whatever the order in which the map is visited. -/
theorem UnmarshalJSON_bad_key (rt : Runtime) (d : PerformanceMetrics) (b raw : List Char)
    (ms : List (String × JVal)) (hp : parseJSON b = .ok (.obj raw ms))
    (hbad : ∃ kv ∈ ms, validKey kv.1 = false) (hnn : ∀ kv ∈ ms, kv.2 ≠ .null) :
    ∃ d1 err, PerformanceMetrics.UnmarshalJSON rt d b = .ok (d1, some err) := by
  obtain ⟨err, hu, _⟩ := unmarshal_apdexMap b raw ms hp
  unfold PerformanceMetrics.UnmarshalJSON
  rw [if_neg (by rw [not_null_input b raw ms hp]; simp), hu]
  cases err with
  | some e => exact ⟨d, e, rfl⟩
  | none =>
    have hperm := rt.mapRange_perm (metricsOf ms)
    have hb : ∃ e ∈ rt.mapRange (metricsOf ms), validKey e.1 = false := by
      obtain ⟨kv, hkv, hk⟩ := hbad
      have := key_mem_objectEntries ms kv.1 (List.mem_map_of_mem _ hkv)
      obtain ⟨p, hp1, hp2⟩ := List.mem_map.mp this
      refine ⟨(p.1, apdexEntry p.2), hperm.symm.subset ?_, by rw [hp2]; exact hk⟩
      simp only [metricsOf, List.mem_map]
      exact ⟨p, hp1, rfl⟩
    have hs : ∀ e ∈ rt.mapRange (metricsOf ms), e.2 ≠ none := by
      intro e he
      have he2 := hperm.subset he
      simp only [metricsOf, List.mem_map] at he2
      obtain ⟨kv, hkv, rfl⟩ := he2
      have := hnn kv (mem_objectEntries ms kv hkv)
      cases hx : kv.2 <;> simp [hx, apdexEntry] at this ⊢
    obtain ⟨d1, e, h⟩ := appendMetrics_bad_key (rt.mapRange (metricsOf ms)) d hb hs
    exact ⟨d1, e, by simp only [h]⟩

/-- The key of the test with the wrong delimiter, and the input `ABCD` that is
not valid JSON, are rejected. -/
theorem UnmarshalJSON_rejects_test_inputs :
    PerformanceMetrics.UnmarshalJSON stdRuntime {} sampleBadKey =
      .ok ({}, some (.parseError "2023-03-12K02:00:00Z")) ∧
    PerformanceMetrics.UnmarshalJSON stdRuntime {} "ABCD".toList =
      .ok ({}, some (.syntaxError "invalid character 'A' looking for beginning of value")) :=
  ⟨rfl, rfl⟩

/-! ## Date.UnmarshalJSON: the calendar -/

theorem isLeap_iff (y : Nat) : isLeap y = true ↔ (y % 4 = 0 ∧ (y % 100 ≠ 0 ∨ y % 400 = 0)) := by
  simp [isLeap]

theorem daysBeforeYear_succ (y : Nat) :
    daysBeforeYear (y + 1) = daysBeforeYear y + daysInYear y := by
  have e4 : (y + 1 + 3) / 4 = (y + 3) / 4 + (if y % 4 = 0 then 1 else 0) := by
    split <;> omega
  have e100 : (y + 1 + 99) / 100 = (y + 99) / 100 + (if y % 100 = 0 then 1 else 0) := by
    split <;> omega
  have e400 : (y + 1 + 399) / 400 = (y + 399) / 400 + (if y % 400 = 0 then 1 else 0) := by
    split <;> omega
  have m1 : y % 100 = 0 → y % 4 = 0 := by omega
  have m2 : y % 400 = 0 → y % 100 = 0 := by omega
  have b1 : (y + 99) / 100 ≤ (y + 3) / 4 := by omega
  have hl := isLeap_iff y
  unfold daysInYear daysBeforeYear
  rw [e4, e100, e400]
  generalize (y + 3) / 4 = a at *
  generalize (y + 99) / 100 = b at *
  generalize (y + 399) / 400 = c at *
  by_cases h : isLeap y = true
  · have := hl.mp h
    rw [if_pos h]
    split_ifs <;> omega
  · have := mt hl.mpr h
    rw [if_neg h]
    split_ifs <;> omega

theorem daysBeforeYear_eq_sum (y : Nat) :
    daysBeforeYear y = ((List.range y).map daysInYear).sum := by
  induction y with
  | zero => rfl
  | succ n ih => rw [daysBeforeYear_succ, ih, List.range_succ]; simp

theorem daysBefore_eq_sum (m y : Nat) (h1 : 1 ≤ m) (h2 : m ≤ 12) :
    daysBefore m y = ((List.range (m - 1)).map (fun j => daysIn (j + 1) y)).sum := by
  unfold daysBefore
  cases hl : isLeap y <;> interval_cases m <;> simp [List.range_succ, daysIn, hl]

theorem civil_sec (y m d h mi s ns : Nat) (h1 : 1 ≤ m) (h2 : m ≤ 12) :
    (civil y m d h mi s ns).sec = epochSeconds y m d h mi s := by
  have e : daysToDate 1970 1 1 = 719528 := by
    unfold daysToDate
    rw [← daysBeforeYear_eq_sum]
    rfl
  unfold civil epochSeconds
  rw [e]
  unfold daysToDate
  rw [← daysBeforeYear_eq_sum, ← daysBefore_eq_sum m y h1 h2]
  simp

theorem stampText_ne_null (y1 y2 y3 y4 m1 m2 d1 d2 h1 h2 n1 n2 s1 s2 : Char) :
    stampText y1 y2 y3 y4 m1 m2 d1 d2 h1 h2 n1 n2 s1 s2 ≠ "null".toList := by
  intro h
  have := congrArg List.length h
  simp [stampText] at this

/-! ## Date.UnmarshalJSON: accepted texts -/

theorem timeParse?_eq (L : Layout) (value : List Char) :
    timeParse? L value =
      (skipLit L.before value).bind fun v0 =>
      (getYear v0).bind fun y =>
      (skipLit ['-'] y.2).bind fun v2 =>
      (getnum v2 true).bind fun m =>
      if (decide (m.1 = 0) || decide (12 < m.1)) = true then none else
      (skipLit ['-'] m.2).bind fun v4 =>
      (getnum v4 true).bind fun d =>
      (skipLit ['T'] d.2).bind fun v6 =>
      (getnum v6 false).bind fun h =>
      if 24 ≤ h.1 then none else
      (skipLit [':'] h.2).bind fun v8 =>
      (getnum v8 true).bind fun n =>
      if 60 ≤ n.1 then none else
      (skipLit [':'] n.2).bind fun v10 =>
      (getnum v10 true).bind fun s =>
      if 60 ≤ s.1 then none else
      (skipLit L.after (getFraction s.2).2).bind fun v13 =>
      if (!v13.isEmpty) = true then none else
      if (decide (d.1 < 1) || decide (daysIn m.1 y.1 < d.1)) = true then none else
      some (civil y.1 m.1 d.1 h.1 n.1 s.1 (getFraction s.2).1) := by
  unfold timeParse?
  cases skipLit L.before value with
  | none => rfl
  | some v0 =>
  cases getYear v0 with
  | none => rfl
  | some y =>
  cases skipLit ['-'] y.2 with
  | none => rfl
  | some v2 =>
  cases getnum v2 true with
  | none => rfl
  | some m =>
  rfl

theorem timeParse?_steps (L : Layout) (value v0 v1 v2 v3 v4 v5 v6 v7 v8 v9 v10 v11 v12 : List Char)
    (year month day hour min sec nsec : Nat)
    (e0 : skipLit L.before value = some v0) (e1 : getYear v0 = some (year, v1))
    (e2 : skipLit ['-'] v1 = some v2) (e3 : getnum v2 true = some (month, v3))
    (e4 : skipLit ['-'] v3 = some v4) (e5 : getnum v4 true = some (day, v5))
    (e6 : skipLit ['T'] v5 = some v6) (e7 : getnum v6 false = some (hour, v7))
    (e8 : skipLit [':'] v7 = some v8) (e9 : getnum v8 true = some (min, v9))
    (e10 : skipLit [':'] v9 = some v10) (e11 : getnum v10 true = some (sec, v11))
    (e12 : getFraction v11 = (nsec, v12)) (e13 : skipLit L.after v12 = some [])
    (c1 : (decide (month = 0) || decide (12 < month)) = false)
    (c2 : ¬ (24 ≤ hour)) (c3 : ¬ (60 ≤ min)) (c4 : ¬ (60 ≤ sec))
    (c5 : (decide (day < 1) || decide (daysIn month year < day)) = false) :
    timeParse? L value = some (civil year month day hour min sec nsec) := by
  rw [timeParse?_eq]
  simp only [e0, e1, e2, e3, e4, e5, e6, e7, e8, e9, e10, e11, e12, e13, c1, c2, c3, c4, c5,
    Option.some_bind, if_false, List.isEmpty_nil,
    Bool.not_true, Bool.false_eq_true]

theorem timeParse_stamp (y1 y2 y3 y4 m1 m2 d1 d2 h1 h2 n1 n2 s1 s2 : Char)
    (hdig : [y1, y2, y3, y4, m1, m2, d1, d2, h1, h2, n1, n2, s1, s2].all isDigit = true)
    (hm : 1 ≤ num2 m1 m2 ∧ num2 m1 m2 ≤ 12)
    (hd : 1 ≤ num2 d1 d2 ∧ num2 d1 d2 ≤ daysIn (num2 m1 m2) (num4 y1 y2 y3 y4))
    (hh : num2 h1 h2 < 24) (hn : num2 n1 n2 < 60) (hs : num2 s1 s2 < 60) :
    timeParse? layoutQuoted (stampText y1 y2 y3 y4 m1 m2 d1 d2 h1 h2 n1 n2 s1 s2) =
      some (civil (num4 y1 y2 y3 y4) (num2 m1 m2) (num2 d1 d2) (num2 h1 h2) (num2 n1 n2)
        (num2 s1 s2) 0) := by
  simp only [List.all_cons, List.all_nil, Bool.and_true, Bool.and_eq_true] at hdig
  obtain ⟨a1, a2, a3, a4, a5, a6, a7, a8, a9, a10, a11, a12, a13, a14⟩ := hdig
  have c1 : (decide (num2 m1 m2 = 0) || decide (12 < num2 m1 m2)) = false := by
    clear hd
    generalize num2 m1 m2 = m at hm ⊢
    simp; omega
  have c2 : ¬ (24 ≤ num2 h1 h2) := Nat.not_le.mpr hh
  have c3 : ¬ (60 ≤ num2 n1 n2) := Nat.not_le.mpr hn
  have c4 : ¬ (60 ≤ num2 s1 s2) := Nat.not_le.mpr hs
  have c5 : (decide (num2 d1 d2 < 1) ||
      decide (daysIn (num2 m1 m2) (num4 y1 y2 y3 y4) < num2 d1 d2)) = false := by
    generalize daysIn (num2 m1 m2) (num4 y1 y2 y3 y4) = k at hd ⊢
    generalize num2 d1 d2 = m at hd ⊢
    clear hm hh hn hs
    simp; omega
  have g1 : getYear
      [y1, y2, y3, y4, '-', m1, m2, '-', d1, d2, 'T', h1, h2, ':', n1, n2, ':', s1, s2, 'Z', '"'] =
      some (num4 y1 y2 y3 y4,
        ['-', m1, m2, '-', d1, d2, 'T', h1, h2, ':', n1, n2, ':', s1, s2, 'Z', '"']) := by
    simp [getYear, a1, a2, a3, a4, num4]
  have g2 : ∀ (a b : Char) (rest : List Char) (fixed : Bool), isDigit a = true → isDigit b = true →
      getnum (a :: b :: rest) fixed = some (num2 a b, rest) := by
    intro a b rest fixed ha hb
    simp [getnum, ha, hb, num2]
  have g3 : getFraction ['Z', '"'] = (0, ['Z', '"']) := by
    simp [getFraction, commaOrPeriod]
  have k1 : ∀ (c : Char) (v : List Char), skipLit [c] (c :: v) = some v := by
    intro c v; simp [skipLit]
  have k2 : skipLit ['Z', '"'] ['Z', '"'] = some [] := by
    simp [skipLit]
  exact timeParse?_steps layoutQuoted _ _ _ _ _ _ _ _ _ _ _ _ _ _ _ _ _ _ _ _ _
    (k1 _ _) g1 (k1 _ _) (g2 _ _ _ _ a5 a6) (k1 _ _) (g2 _ _ _ _ a7 a8) (k1 _ _)
    (g2 _ _ _ _ a9 a10) (k1 _ _) (g2 _ _ _ _ a11 a12) (k1 _ _) (g2 _ _ _ _ a13 a14) g3 k2
    c1 c2 c3 c4 c5

theorem UnmarshalJSON_stampText (d : Date) (y1 y2 y3 y4 m1 m2 d1 d2 h1 h2 n1 n2 s1 s2 : Char)
    (hdig : [y1, y2, y3, y4, m1, m2, d1, d2, h1, h2, n1, n2, s1, s2].all isDigit = true)
    (hm : 1 ≤ num2 m1 m2 ∧ num2 m1 m2 ≤ 12)
    (hd : 1 ≤ num2 d1 d2 ∧ num2 d1 d2 ≤ daysIn (num2 m1 m2) (num4 y1 y2 y3 y4))
    (hh : num2 h1 h2 < 24) (hn : num2 n1 n2 < 60) (hs : num2 s1 s2 < 60) :
    d.UnmarshalJSON (stampText y1 y2 y3 y4 m1 m2 d1 d2 h1 h2 n1 n2 s1 s2) =
      ({ Time := ⟨epochSeconds (num4 y1 y2 y3 y4) (num2 m1 m2) (num2 d1 d2) (num2 h1 h2)
          (num2 n1 n2) (num2 s1 s2), 0⟩ }, none) := by
  have hp := timeParse_stamp y1 y2 y3 y4 m1 m2 d1 d2 h1 h2 n1 n2 s1 s2 hdig hm hd hh hn hs
  have hc := civil_sec (num4 y1 y2 y3 y4) (num2 m1 m2) (num2 d1 d2) (num2 h1 h2)
    (num2 n1 n2) (num2 s1 s2) 0 hm.1 hm.2
  have hne := stampText_ne_null y1 y2 y3 y4 m1 m2 d1 d2 h1 h2 n1 n2 s1 s2
  unfold Date.UnmarshalJSON timeParse
  simp only [hne, if_false, hp]
  rw [← hc]
  rfl

/-- C11: for every double-quoted text `"YYYY-MM-DDTHH:MM:SSZ"` of fourteen digits whose
fields are a valid calendar date and time of day, `Date.UnmarshalJSON` returns no error and
stores the instant whose Unix seconds are the civil-date-to-epoch conversion of the fields,
with no nanoseconds, whatever the receiver held. -/
theorem Date_UnmarshalJSON_stamp (d : Date) (y1 y2 y3 y4 m1 m2 d1 d2 h1 h2 n1 n2 s1 s2 : Char)
    (hdig : [y1, y2, y3, y4, m1, m2, d1, d2, h1, h2, n1, n2, s1, s2].all isDigit = true)
    (hm : 1 ≤ num2 m1 m2 ∧ num2 m1 m2 ≤ 12)
    (hd : 1 ≤ num2 d1 d2 ∧ num2 d1 d2 ≤ daysIn (num2 m1 m2) (num4 y1 y2 y3 y4))
    (hh : num2 h1 h2 < 24) (hn : num2 n1 n2 < 60) (hs : num2 s1 s2 < 60) :
    d.UnmarshalJSON (stampText y1 y2 y3 y4 m1 m2 d1 d2 h1 h2 n1 n2 s1 s2) =
        ({ Time := ⟨epochSeconds (num4 y1 y2 y3 y4) (num2 m1 m2) (num2 d1 d2) (num2 h1 h2)
            (num2 n1 n2) (num2 s1 s2), 0⟩ }, none) ∧
      (d.UnmarshalJSON (stampText y1 y2 y3 y4 m1 m2 d1 d2 h1 h2 n1 n2 s1 s2)).1.Time.Unix =
        epochSeconds (num4 y1 y2 y3 y4) (num2 m1 m2) (num2 d1 d2) (num2 h1 h2)
          (num2 n1 n2) (num2 s1 s2) := by
  have e := UnmarshalJSON_stampText d y1 y2 y3 y4 m1 m2 d1 d2 h1 h2 n1 n2 s1 s2 hdig hm hd hh
    hn hs
  exact ⟨e, by rw [e]; rfl⟩

theorem Date_UnmarshalJSON_stamp_witness :
    stampText '2' '0' '2' '5' '0' '1' '2' '2' '2' '1' '5' '2' '4' '1' =
        "\"2025-01-22T21:52:41Z\"".toList ∧
      (Date.UnmarshalJSON {} (stampText '2' '0' '2' '5' '0' '1' '2' '2' '2' '1' '5' '2' '4' '1')
        ).1.Time.Unix = 1737582761 :=
  ⟨by decide,
    (Date_UnmarshalJSON_stamp {} '2' '0' '2' '5' '0' '1' '2' '2' '2' '1' '5' '2' '4' '1'
      (by decide) (by decide) (by decide) (by decide) (by decide) (by decide)).2.trans
      ((civil_sec 2025 1 22 21 52 41 0 (by decide) (by decide)).symm.trans (by rfl))⟩

/-! ## Date.UnmarshalJSON: rejected texts -/

theorem skipLit_one (c : Char) (v w : List Char) (h : skipLit [c] v = some w) : v = c :: w := by
  cases v with
  | nil => simp [skipLit] at h
  | cons a rest =>
    simp only [skipLit] at h
    split at h
    · subst_vars; simp_all
    · simp at h

theorem getYear_some (v w : List Char) (n : Nat) (h : getYear v = some (n, w)) :
    ∃ a b c d, v = a :: b :: c :: d :: w ∧ [a, b, c, d].all isDigit = true := by
  unfold getYear at h
  split at h
  · split at h
    · rename_i a b c d rest hd
      simp only [Option.some.injEq, Prod.mk.injEq] at h
      refine ⟨a, b, c, d, by rw [h.2], ?_⟩
      simpa [Bool.and_assoc] using hd
    · simp at h
  · simp at h

theorem getnum_fixed_some (v w : List Char) (n : Nat) (h : getnum v true = some (n, w)) :
    ∃ a b, v = a :: b :: w ∧ [a, b].all isDigit = true := by
  unfold getnum at h
  split at h
  · rename_i a rest
    split at h
    · simp at h
    · rename_i ha
      split at h
      · rename_i b rest1
        split at h
        · rename_i hb
          simp only [Option.some.injEq, Prod.mk.injEq] at h
          refine ⟨a, b, by rw [h.2], ?_⟩
          simp_all
        · simp at h
      · simp at h
  · simp at h

theorem getnum_free_some (v w : List Char) (n : Nat) (h : getnum v false = some (n, w)) :
    ∃ hour, v = hour ++ w ∧ (hour.length = 1 ∨ hour.length = 2) ∧ hour.all isDigit = true := by
  unfold getnum at h
  split at h
  · rename_i a rest
    split at h
    · simp at h
    · rename_i ha
      split at h
      · rename_i b rest1
        split at h
        · rename_i hb
          simp only [Option.some.injEq, Prod.mk.injEq] at h
          refine ⟨[a, b], by rw [h.2]; rfl, Or.inr rfl, ?_⟩
          simp_all
        · simp only [Bool.false_eq_true, if_false, Option.some.injEq, Prod.mk.injEq] at h
          refine ⟨[a], by rw [← h.2]; rfl, Or.inl rfl, ?_⟩
          simp_all
      · simp only [Bool.false_eq_true, if_false, Option.some.injEq, Prod.mk.injEq] at h
        refine ⟨[a], by rw [← h.2]; rfl, Or.inl rfl, ?_⟩
        simp_all
  · simp at h

theorem takeDigits_split (s : List Char) :
    s = (takeDigits s).1 ++ (takeDigits s).2 ∧ (takeDigits s).1.all isDigit = true := by
  induction s with
  | nil => simp [takeDigits]
  | cons c rest ih =>
    unfold takeDigits
    split
    · rename_i hc
      refine ⟨?_, ?_⟩
      · simp only [List.cons_append]; rw [← ih.1]
      · simp only [List.all_cons, hc, Bool.true_and]; exact ih.2
    · simp

theorem getFraction_split (v : List Char) :
    v = (getFraction v).2 ∨
      ∃ (p : Char) (ds : List Char), v = p :: ds ++ (getFraction v).2 ∧ commaOrPeriod p = true ∧
        ds ≠ [] ∧ ds.all isDigit = true := by
  unfold getFraction
  split
  · rename_i p d rest
    split
    · rename_i hc
      simp only [Bool.and_eq_true] at hc
      right
      have ht := takeDigits_split (d :: rest)
      refine ⟨p, (takeDigits (d :: rest)).1, ?_, hc.1, ?_, ht.2⟩
      · simp only [List.cons_append]; rw [← ht.1]
      · simp [takeDigits, hc.2]
    · left; rfl
  · left; rfl

theorem skipLit_after (v w : List Char) (h : skipLit ['Z', '"'] v = some w)
    (hw : (!w.isEmpty) = false) : v = ['Z', '"'] := by
  have hw0 : w = [] := by cases w <;> simp_all
  subst hw0
  cases v with
  | nil => simp [skipLit] at h
  | cons a r =>
    cases r with
    | nil =>
      simp only [skipLit] at h
      split at h <;> simp at h
    | cons b r2 =>
      simp only [skipLit] at h
      split at h
      · split at h
        · simp only [Option.some.injEq] at h
          subst_vars; rfl
        · simp at h
      · simp at h

theorem ite_none_some {α : Type} {c : Prop} [Decidable c] {x : Option α} {t : α}
    (h : (if c then none else x) = some t) : ¬ c ∧ x = some t := by
  by_cases hc : c
  · simp [hc] at h
  · simpa [hc] using h

theorem timeParse?_quoted_some (b : List Char) (t : Time)
    (h : timeParse? layoutQuoted b = some t) : LenientStamp b := by
  rw [timeParse?_eq] at h
  obtain ⟨v0, e0, h⟩ := Option.bind_eq_some.mp h
  obtain ⟨y, e1, h⟩ := Option.bind_eq_some.mp h
  obtain ⟨v2, e2, h⟩ := Option.bind_eq_some.mp h
  obtain ⟨m, e3, h⟩ := Option.bind_eq_some.mp h
  obtain ⟨-, h⟩ := ite_none_some h
  obtain ⟨v4, e4, h⟩ := Option.bind_eq_some.mp h
  obtain ⟨d, e5, h⟩ := Option.bind_eq_some.mp h
  obtain ⟨v6, e6, h⟩ := Option.bind_eq_some.mp h
  obtain ⟨hr, e7, h⟩ := Option.bind_eq_some.mp h
  obtain ⟨-, h⟩ := ite_none_some h
  obtain ⟨v8, e8, h⟩ := Option.bind_eq_some.mp h
  obtain ⟨n, e9, h⟩ := Option.bind_eq_some.mp h
  obtain ⟨-, h⟩ := ite_none_some h
  obtain ⟨v10, e10, h⟩ := Option.bind_eq_some.mp h
  obtain ⟨s, e11, h⟩ := Option.bind_eq_some.mp h
  obtain ⟨-, h⟩ := ite_none_some h
  obtain ⟨v13, e13, h⟩ := Option.bind_eq_some.mp h
  obtain ⟨hv, -⟩ := ite_none_some h
  clear h
  have q0 := skipLit_one _ _ _ e0
  obtain ⟨y1, y2, y3, y4, q1, dy⟩ := getYear_some v0 y.2 y.1 e1
  have q2 := skipLit_one _ _ _ e2
  obtain ⟨m1, m2, q3, dm⟩ := getnum_fixed_some v2 m.2 m.1 e3
  have q4 := skipLit_one _ _ _ e4
  obtain ⟨d1, d2, q5, dd⟩ := getnum_fixed_some v4 d.2 d.1 e5
  have q6 := skipLit_one _ _ _ e6
  obtain ⟨hour, q7, hl, dh⟩ := getnum_free_some v6 hr.2 hr.1 e7
  have q8 := skipLit_one _ _ _ e8
  obtain ⟨n1, n2, q9, dn⟩ := getnum_fixed_some v8 n.2 n.1 e9
  have q10 := skipLit_one _ _ _ e10
  obtain ⟨s1, s2, q11, ds⟩ := getnum_fixed_some v10 s.2 s.1 e11
  have q13 := skipLit_after _ _ e13 (by simpa using hv)
  have hb : ∀ frac : List Char, s.2 = frac ++ ['Z', '"'] →
      b = ['"', y1, y2, y3, y4, '-', m1, m2, '-', d1, d2, 'T'] ++ hour
          ++ [':', n1, n2, ':', s1, s2] ++ frac ++ ['Z', '"'] := by
    intro frac hf
    rw [q0, q1, q2, q3, q4, q5, q6, q7, q8, q9, q10, q11, hf]
    simp
  have hdig : [y1, y2, y3, y4, m1, m2, d1, d2, n1, n2, s1, s2].all isDigit = true := by
    simp only [List.all_cons, List.all_nil, Bool.and_true, Bool.and_eq_true] at dy dm dd dn ds ⊢
    exact ⟨dy.1, dy.2.1, dy.2.2.1, dy.2.2.2, dm.1, dm.2, dd.1, dd.2, dn.1, dn.2, ds.1, ds.2⟩
  rcases getFraction_split s.2 with hf | ⟨p, digits, hf, hp, hne, hds⟩
  · refine ⟨y1, y2, y3, y4, m1, m2, d1, d2, n1, n2, s1, s2, hour, [], ?_, hdig, hl, dh, Or.inl rfl⟩
    rw [List.append_nil]
    have := hb [] (by rw [hf, q13]; rfl)
    simpa using this
  · refine ⟨y1, y2, y3, y4, m1, m2, d1, d2, n1, n2, s1, s2, hour, p :: digits, ?_, hdig, hl, dh,
      Or.inr ⟨p, digits, rfl, hp, hne, hds⟩⟩
    exact hb (p :: digits) (by rw [q13] at hf; exact hf)

/-- C12: given the text `null`, `Date.UnmarshalJSON` returns no error and leaves the receiver
at the zero instant, whatever the receiver held before, also an instant stored by an earlier
successful call; `IsZero` is then true. -/
theorem Date_UnmarshalJSON_null (d : Date) :
    d.UnmarshalJSON "null".toList = ({ Time := Time.zero }, none) ∧
      (d.UnmarshalJSON "null".toList).1.Time.IsZero = true ∧
      ((Date.UnmarshalJSON {} sampleStamp).1.UnmarshalJSON "null".toList).1.Time.IsZero = true ∧
      (Date.UnmarshalJSON {} sampleStamp).1.Time.IsZero = false := by
  refine ⟨rfl, rfl, rfl, rfl⟩

/-- C13 fails as stated: a quoted stamp with a fractional second is accepted, and its half
second is stored; so is a quoted stamp whose hour has one digit. Neither text is `null` and
neither has the fixed pattern. -/
theorem Date_UnmarshalJSON_accepts_fraction :
    sampleFraction ≠ "null".toList ∧ ¬ StrictStamp sampleFraction ∧
      Date.UnmarshalJSON {} sampleFraction = ({ Time := ⟨1737582761, 500000000⟩ }, none) ∧
      sampleShortHour ≠ "null".toList ∧ ¬ StrictStamp sampleShortHour ∧
      Date.UnmarshalJSON {} sampleShortHour = ({ Time := ⟨1737510761, 0⟩ }, none) := by
  refine ⟨by decide, ?_, rfl, by decide, ?_, rfl⟩
  · rintro ⟨y1, y2, y3, y4, m1, m2, d1, d2, h1, h2, n1, n2, s1, s2, h, -⟩
    have h2 : (24 : Nat) = 22 := congrArg List.length h
    exact absurd h2 (by decide)
  · rintro ⟨y1, y2, y3, y4, m1, m2, d1, d2, h1, h2, n1, n2, s1, s2, h, -⟩
    have h2 : (21 : Nat) = 22 := congrArg List.length h
    exact absurd h2 (by decide)

/-- C13 (amended): every input of `Date.UnmarshalJSON` that is neither `null` nor a quoted
stamp of the lenient form (hour of one or two digits, optional fraction of a second, literal
`Z`) is rejected with a parse error that quotes the input, and the receiver is unchanged. -/
theorem Date_UnmarshalJSON_rejects (d : Date) (b : List Char) (hn : b ≠ "null".toList)
    (hl : ¬ LenientStamp b) :
    d.UnmarshalJSON b = (d, some (.parseError (String.mk b))) := by
  unfold Date.UnmarshalJSON timeParse
  simp only [hn, if_false]
  cases h : timeParse? layoutQuoted b with
  | none => rfl
  | some t => exact absurd (timeParse?_quoted_some b t h) hl

theorem Date_UnmarshalJSON_rejects_witness :
    Date.UnmarshalJSON {} "ABCD".toList = ({}, some (.parseError "ABCD")) ∧
      Date.UnmarshalJSON {} sampleOffset =
        ({}, some (.parseError "\"2025-01-22T21:52:41+01:00\"")) :=
  ⟨Date_UnmarshalJSON_rejects {} "ABCD".toList (by decide) (by
      rintro ⟨y1, y2, y3, y4, m1, m2, d1, d2, n1, n2, s1, s2, hour, frac, h, -⟩
      have h2 : some 'A' = some '"' := congrArg List.head? h
      exact absurd h2 (by decide)),
    rfl⟩

/-! ## The client: construction and guards -/

/-- C16: `NewClient` on the empty API key returns a nil client and `ErrEmptyAPIKey`; on every
other key it returns a client and no error, and the client holds the key, has an engine and
has made no call. -/
theorem NewClient_key (apiKey : String) (h : apiKey ≠ "") :
    NewClient "" = (none, some ErrEmptyAPIKey) ∧
      ∃ cl : Client, NewClient apiKey = (some cl, none) ∧ cl.apiKey = apiKey ∧
        cl.engine ≠ none ∧ cl.calls = 0 ∧ Client.Calls (some cl) = 0 := by
  refine ⟨rfl, ?_⟩
  refine ⟨{ engine := some (Engine.SetUserAgent {} "EK|Updown.go" "1" []), apiKey := apiKey },
    ?_, rfl, by simp, rfl, rfl⟩
  simp [NewClient, h, Client.SetUserAgent]

theorem NewClient_key_witness :
    NewClient "" = (none, some ErrEmptyAPIKey) ∧
      ∃ cl : Client, NewClient "test1234" = (some cl, none) ∧ cl.apiKey = "test1234" ∧
        cl.engine ≠ none ∧ cl.calls = 0 ∧ Client.Calls (some cl) = 0 :=
  NewClient_key "test1234" (by decide)

/-- C17 fails as stated: a client that is not nil but has no engine, such as `&Client{}`,
gets `ErrNilClient` from the three accessors when the token is empty, because the guard for
the engine comes first. -/
theorem GetCheck_empty_token_no_engine :
    (Client.GetCheck (fun _ _ _ => .error "down") (some {}) [] "" false).err =
        some ErrNilClient ∧
      (Client.GetDowntimes (netOfSize 0) (some {}) [] "" false).err = some ErrNilClient ∧
      (Client.GetMetrics (fun _ _ _ => .error "down") (some {}) [] "" {}).err =
        some ErrNilClient ∧
      ErrNilClient ≠ ErrEmptyToken :=
  ⟨rfl, rfl, rfl, by decide⟩

/-- C17 (amended): for every client that has an engine, `GetCheck`, `GetDowntimes` and
`GetMetrics` called with the empty token return a nil result and `ErrEmptyToken`, send no
request and leave the client, its call counter included, as it was. -/
theorem accessors_empty_token (cl : Client) (he : cl.engine ≠ none) (sent : List Request)
    (net1 : Transport (Option Check)) (net2 : Transport Downtimes)
    (net3 : Transport (Option Metrics)) (withMetrics detailed : Bool) (options : MetricsOptions) :
    Client.GetCheck net1 (some cl) sent "" withMetrics =
        ⟨some cl, sent, none, some ErrEmptyToken⟩ ∧
      Client.GetDowntimes net2 (some cl) sent "" detailed =
        ⟨some cl, sent, none, some ErrEmptyToken⟩ ∧
      Client.GetMetrics net3 (some cl) sent "" options =
        ⟨some cl, sent, none, some ErrEmptyToken⟩ ∧
      Client.Calls (Client.GetCheck net1 (some cl) sent "" withMetrics).client =
        Client.Calls (some cl) ∧
      Client.Calls (Client.GetDowntimes net2 (some cl) sent "" detailed).client =
        Client.Calls (some cl) ∧
      Client.Calls (Client.GetMetrics net3 (some cl) sent "" options).client =
        Client.Calls (some cl) := by
  have e1 : Client.GetCheck net1 (some cl) sent "" withMetrics =
      ⟨some cl, sent, none, some ErrEmptyToken⟩ := by
    simp [Client.GetCheck, he]
  have e2 : Client.GetDowntimes net2 (some cl) sent "" detailed =
      ⟨some cl, sent, none, some ErrEmptyToken⟩ := by
    simp [Client.GetDowntimes, he]
  have e3 : Client.GetMetrics net3 (some cl) sent "" options =
      ⟨some cl, sent, none, some ErrEmptyToken⟩ := by
    simp [Client.GetMetrics, he]
  refine ⟨e1, e2, e3, ?_, ?_, ?_⟩
  · rw [e1]
  · rw [e2]
  · rw [e3]

theorem accessors_empty_token_witness :
    ∃ cl : Client, NewClient "test1234" = (some cl, none) ∧
      Client.GetCheck (fun _ _ _ => .error "unreachable") (some cl) [] "" false =
        ⟨some cl, [], none, some ErrEmptyToken⟩ ∧
      Client.Calls (Client.GetCheck (fun _ _ _ => .error "unreachable") (some cl) [] ""
        false).client = 0 :=
  ⟨{ engine := some (Engine.SetUserAgent {} "EK|Updown.go" "1" []), apiKey := "test1234" }, rfl,
    (accessors_empty_token _ (by decide) [] (fun _ _ _ => .error "unreachable")
      (fun _ _ _ => .error "unreachable") (fun _ _ _ => .error "unreachable") false false {}).1,
    (accessors_empty_token _ (by decide) [] (fun _ _ _ => .error "unreachable")
      (fun _ _ _ => .error "unreachable") (fun _ _ _ => .error "unreachable") false false
      {}).2.2.2.1⟩

/-- C18: on a nil client handle, and on a client that has no engine, each of the ten
accessors returns a nil result and `ErrNilClient`, sends no request and leaves the client as
it was; `Calls` on a nil client is 0 and `SetUserAgent` on a nil client does nothing. -/
theorem accessors_nil_client (c : Option Client)
    (h : c = none ∨ ∃ cl : Client, c = some cl ∧ cl.engine = none) (sent : List Request)
    (token app version : String) (flag : Bool) (options : MetricsOptions)
    (n1 : Transport Checks) (n2 : Transport (Option Check)) (n3 : Transport Downtimes)
    (n4 : Transport (Option Metrics)) (n5 : Transport Nodes)
    (n6 : Transport (Option (List String))) (n7 : Transport Recipients)
    (n8 : Transport StatusPages) :
    Client.GetChecks n1 c sent = ⟨c, sent, none, some ErrNilClient⟩ ∧
      Client.GetCheck n2 c sent token flag = ⟨c, sent, none, some ErrNilClient⟩ ∧
      Client.GetDowntimes n3 c sent token flag = ⟨c, sent, none, some ErrNilClient⟩ ∧
      Client.GetMetrics n4 c sent token options = ⟨c, sent, none, some ErrNilClient⟩ ∧
      Client.GetNodes n5 c sent = ⟨c, sent, none, some ErrNilClient⟩ ∧
      Client.GetNodesIPs n6 c sent = ⟨c, sent, none, some ErrNilClient⟩ ∧
      Client.GetNodesIPsV4 n6 c sent = ⟨c, sent, none, some ErrNilClient⟩ ∧
      Client.GetNodesIPsV6 n6 c sent = ⟨c, sent, none, some ErrNilClient⟩ ∧
      Client.GetRecipients n7 c sent = ⟨c, sent, none, some ErrNilClient⟩ ∧
      Client.GetStatusPages n8 c sent = ⟨c, sent, none, some ErrNilClient⟩ ∧
      Client.Calls none = 0 ∧ Client.SetUserAgent none app version = none ∧
      Client.SetUserAgent c app version = c := by
  rcases h with h | ⟨cl, h, he⟩
  · subst h
    exact ⟨rfl, rfl, rfl, rfl, rfl, rfl, rfl, rfl, rfl, rfl, rfl, rfl, rfl⟩
  · subst h
    refine ⟨?_, ?_, ?_, ?_, ?_, ?_, ?_, ?_, ?_, ?_, rfl, rfl, ?_⟩
    · simp [Client.GetChecks, he]
    · simp [Client.GetCheck, he]
    · simp [Client.GetDowntimes, he]
    · simp [Client.GetMetrics, he]
    · simp [Client.GetNodes, he]
    · simp [Client.GetNodesIPs, he]
    · simp [Client.GetNodesIPsV4, he]
    · simp [Client.GetNodesIPsV6, he]
    · simp [Client.GetRecipients, he]
    · simp [Client.GetStatusPages, he]
    · simp [Client.SetUserAgent, he]

theorem accessors_nil_client_witness :
    Client.GetChecks (fun _ _ _ => .error "unreachable") none [] =
        ⟨none, [], none, some ErrNilClient⟩ ∧
      Client.GetDowntimes (netOfSize 3) none [] "ngg8" false =
        ⟨none, [], none, some ErrNilClient⟩ ∧
      Client.GetDowntimes (netOfSize 3) (some {}) [] "ngg8" false =
        ⟨some {}, [], none, some ErrNilClient⟩ ∧
      Client.Calls none = 0 ∧ Client.SetUserAgent none "test" "1" = none :=
  have a := accessors_nil_client none (Or.inl rfl) [] "ngg8" "test" "1" false {}
    (fun _ _ _ => .error "unreachable") (fun _ _ _ => .error "unreachable") (netOfSize 3)
    (fun _ _ _ => .error "unreachable") (fun _ _ _ => .error "unreachable")
    (fun _ _ _ => .error "unreachable") (fun _ _ _ => .error "unreachable")
    (fun _ _ _ => .error "unreachable")
  have b := accessors_nil_client (some {}) (Or.inr ⟨{}, rfl, rfl⟩) [] "ngg8" "test" "1" false {}
    (fun _ _ _ => .error "unreachable") (fun _ _ _ => .error "unreachable") (netOfSize 3)
    (fun _ _ _ => .error "unreachable") (fun _ _ _ => .error "unreachable")
    (fun _ _ _ => .error "unreachable") (fun _ _ _ => .error "unreachable")
    (fun _ _ _ => .error "unreachable")
  ⟨a.1, a.2.2.1, b.2.2.1, a.2.2.2.2.2.2.2.2.2.2.1, a.2.2.2.2.2.2.2.2.2.2.2.1⟩

/-! ## GetDowntimes: the loop over the pages -/

theorem insert_page_start (detailed : Bool) (p : Nat) :
    GoMap.insert "page" (.int p)
        (if detailed then GoMap.insert "results" (.bool true) ([] : GoMap QueryValue) else []) =
      pageQuery detailed p := by
  cases detailed <;> simp [GoMap.insert, pageQuery]

theorem insert_page_next (detailed : Bool) (p0 p : Nat) :
    GoMap.insert "page" (.int p) (pageQuery detailed p0) = pageQuery detailed p := by
  cases detailed <;> simp [GoMap.insert, pageQuery]

theorem pageRequests_succ (apiKey token : String) (detailed : Bool) (k : Nat) :
    pageRequests apiKey token detailed (k + 1) =
      pageRequests apiKey token detailed k ++ [pageRequest apiKey token detailed (k + 1)] := by
  simp [pageRequests, List.range'_concat, Nat.add_comm]

theorem mod_succ_add (a d : Nat) :
    ((a + 1) % uintSize + d) % uintSize = (a + (d + 1)) % uintSize := by
  unfold uintSize
  omega

/-- One round of the loop: the request for page `p` is sent after the requests for the pages
before it, and the outcome is the transport's answer to it. -/
theorem sendRequest_page (net : Transport Downtimes) (e : Option Engine) (sent : List Request)
    (apiKey token : String) (detailed : Bool) (calls p : Nat) (hp : 1 ≤ p) :
    (Client.sendRequest net ⟨e, apiKey, calls⟩
        (sent ++ pageRequests apiKey token detailed (p - 1)) GET
        ("/checks/" ++ token ++ "/downtimes") (some (some [])) (some (pageQuery detailed p))) =
      match net e (sent ++ pageRequests apiKey token detailed (p - 1))
          (pageRequest apiKey token detailed p) with
      | .error err =>
        ⟨⟨e, apiKey, (calls + 1) % uintSize⟩, sent ++ pageRequests apiKey token detailed p,
          some (some []), some (.cantSend err)⟩
      | .ok resp =>
        if resp.StatusCode ≠ 200 then
          ⟨⟨e, apiKey, (calls + 1) % uintSize⟩, sent ++ pageRequests apiKey token detailed p,
            some (some []), some (.badStatus resp.StatusCode)⟩
        else
          ⟨⟨e, apiKey, (calls + 1) % uintSize⟩, sent ++ pageRequests apiKey token detailed p,
            some (resp.JSON (some [])).1, (resp.JSON (some [])).2.map .cantDecode⟩ := by
  have hr : Request.mk GET (apiURL ++ ("/checks/" ++ token ++ "/downtimes"))
      (some (pageQuery detailed p)) CONTENT_TYPE_JSON defaultHeaders apiKey =
      pageRequest apiKey token detailed p := by
    have hu : "https://updown.io/api" ++ "/checks/" = "https://updown.io/api/checks/" := by
      decide
    simp only [pageRequest, GET, apiURL, CONTENT_TYPE_JSON, defaultHeaders]
    rw [← String.append_assoc, ← String.append_assoc, hu]
  have hs : sent ++ pageRequests apiKey token detailed (p - 1) ++
      [pageRequest apiKey token detailed p] = sent ++ pageRequests apiKey token detailed p := by
    obtain ⟨q, rfl⟩ : ∃ q, p = q + 1 := ⟨p - 1, by omega⟩
    rw [pageRequests_succ, List.append_assoc]
    simp
  unfold Client.sendRequest
  simp only [hr]
  cases hn : net e (sent ++ pageRequests apiKey token detailed (p - 1))
      (pageRequest apiKey token detailed p) with
  | error err => simp only [hs]
  | ok resp =>
    simp only [hs, STATUS_OK]
    split
    · rfl
    · cases hj : (resp.JSON (some [])).2 <;> simp [hj]

theorem sendRequest_page_ok (net : Transport Downtimes) (e : Option Engine)
    (sent : List Request) (apiKey token : String) (detailed : Bool) (calls p : Nat) (hp : 1 ≤ p)
    (ds : Downtimes) (hds : pageRecords net e sent apiKey token detailed p = some ds) :
    (Client.sendRequest net ⟨e, apiKey, calls⟩
        (sent ++ pageRequests apiKey token detailed (p - 1)) GET
        ("/checks/" ++ token ++ "/downtimes") (some (some [])) (some (pageQuery detailed p))) =
      ⟨⟨e, apiKey, (calls + 1) % uintSize⟩, sent ++ pageRequests apiKey token detailed p,
        some ds, none⟩ := by
  rw [sendRequest_page net e sent apiKey token detailed calls p hp]
  unfold pageRecords at hds
  cases hn : net e (sent ++ pageRequests apiKey token detailed (p - 1))
      (pageRequest apiKey token detailed p) with
  | error err => simp [hn] at hds
  | ok resp =>
    simp only [hn] at hds ⊢
    by_cases hc : resp.StatusCode = 200
    · simp only [hc, if_true] at hds
      simp only [hc, ne_eq, not_true_eq_false, if_false]
      cases hj : (resp.JSON (some [])).2 with
      | some err => simp [hj] at hds
      | none =>
        simp only [hj, Option.some.injEq] at hds
        simp [hds]
    · simp [hc] at hds

theorem pagesFrom_one (net : Transport Downtimes) (e : Option Engine) (sent : List Request)
    (apiKey token : String) (detailed : Bool) (result ds : Downtimes) (p : Nat)
    (hds : pageRecords net e sent apiKey token detailed p = some ds) :
    pagesFrom net e sent apiKey token detailed result p 1 = sliceAppend result ds := by
  simp [pagesFrom, List.range', hds]

theorem pagesFrom_succ (net : Transport Downtimes) (e : Option Engine) (sent : List Request)
    (apiKey token : String) (detailed : Bool) (result ds : Downtimes) (p n : Nat)
    (hds : pageRecords net e sent apiKey token detailed p = some ds) :
    pagesFrom net e sent apiKey token detailed result p (n + 1) =
      pagesFrom net e sent apiKey token detailed (sliceAppend result ds) (p + 1) n := by
  simp [pagesFrom, List.range', hds]

/-- The loop when the pages `p` to `k` answer, the pages before `k` hold exactly 100 records
and page `k` does not or is page 99: the loop sends the requests up to page `k` and returns
their records in page order. -/
theorem downtimesLoop_pages (net : Transport Downtimes) (e : Option Engine)
    (sent : List Request) (apiKey token : String) (detailed : Bool) (k : Nat) (hk : k ≤ 99)
    (hall : ∀ j, 1 ≤ j → j ≤ k → ∃ ds, pageRecords net e sent apiKey token detailed j = some ds)
    (hfull : ∀ j, 1 ≤ j → j < k →
      sliceLen ((pageRecords net e sent apiKey token detailed j).getD none) = 100)
    (hlast : sliceLen ((pageRecords net e sent apiKey token detailed k).getD none) ≠ 100 ∨
      k = 99) :
    ∀ (d p : Nat), p + d = k → 1 ≤ p → ∀ (calls : Nat) (q : GoMap QueryValue)
      (result : Downtimes),
      (∀ p1 : Nat, GoMap.insert "page" (.int p1) q = pageQuery detailed p1) →
      Client.downtimesLoop net token (List.range' p (100 - p)) ⟨e, apiKey, calls⟩
          (sent ++ pageRequests apiKey token detailed (p - 1)) q result =
        ⟨some ⟨e, apiKey, (calls + (d + 1)) % uintSize⟩,
          sent ++ pageRequests apiKey token detailed k,
          pagesFrom net e sent apiKey token detailed result p (d + 1), none⟩ := by
  intro d
  induction d with
  | zero =>
    intro p hpk hp calls q result hq
    have hpk2 : p = k := by omega
    subst hpk2
    obtain ⟨ds, hds⟩ := hall p hp (Nat.le_refl _)
    have hlist : List.range' p (100 - p) = p :: List.range' (p + 1) (99 - p) := by
      have : 100 - p = (99 - p) + 1 := by omega
      rw [this, List.range'_succ]
    rw [hlist]
    simp only [Client.downtimesLoop, hq p,
      sendRequest_page_ok net e sent apiKey token detailed calls p hp ds hds, Option.getD_some]
    rw [pagesFrom_one net e sent apiKey token detailed result ds p hds]
    rw [hds, Option.getD_some] at hlast
    by_cases hlen : sliceLen ds = 100
    · have h99 : p = 99 := by
        rcases hlast with h | h
        · exact absurd hlen h
        · exact h
      subst h99
      simp [hlen, Client.downtimesLoop]
    · simp [hlen]
  | succ d ih =>
    intro p hpk hp calls q result hq
    have hlt : p < k := by omega
    obtain ⟨ds, hds⟩ := hall p hp (Nat.le_of_lt hlt)
    have hlen := hfull p hp hlt
    rw [hds, Option.getD_some] at hlen
    have hlist : List.range' p (100 - p) = p :: List.range' (p + 1) (100 - (p + 1)) := by
      have : 100 - p = (100 - (p + 1)) + 1 := by omega
      rw [this, List.range'_succ]
    rw [hlist]
    simp only [Client.downtimesLoop, hq p,
      sendRequest_page_ok net e sent apiKey token detailed calls p hp ds hds, Option.getD_some]
    simp only [hlen, ne_eq, not_true_eq_false, if_false]
    have hnext := ih (p + 1) (by omega) (by omega) ((calls + 1) % uintSize)
      (pageQuery detailed p) (sliceAppend result ds) (insert_page_next detailed p)
    simp only [Nat.add_sub_cancel] at hnext
    rw [hnext, mod_succ_add, pagesFrom_succ net e sent apiKey token detailed result ds p (d + 1) hds]

theorem GetDowntimes_pages (net : Transport Downtimes) (cl : Client) (he : cl.engine ≠ none)
    (sent : List Request) (token : String) (ht : token ≠ "") (detailed : Bool) (k : Nat)
    (hk1 : 1 ≤ k) (hk : k ≤ 99)
    (hall : ∀ j, 1 ≤ j → j ≤ k →
      ∃ ds, pageRecords net cl.engine sent cl.apiKey token detailed j = some ds)
    (hfull : ∀ j, 1 ≤ j → j < k →
      sliceLen ((pageRecords net cl.engine sent cl.apiKey token detailed j).getD none) = 100)
    (hlast : sliceLen ((pageRecords net cl.engine sent cl.apiKey token detailed k).getD none)
      ≠ 100 ∨ k = 99) :
    Client.GetDowntimes net (some cl) sent token detailed =
      ⟨some { cl with calls := (cl.calls + k) % uintSize },
        sent ++ pageRequests cl.apiKey token detailed k,
        pagesFrom net cl.engine sent cl.apiKey token detailed none 1 k, none⟩ := by
  obtain ⟨d, rfl⟩ : ∃ d, k = d + 1 := ⟨k - 1, by omega⟩
  have h := downtimesLoop_pages net cl.engine sent cl.apiKey token detailed (d + 1) hk hall hfull
    hlast d 1 (by omega) (Nat.le_refl _) cl.calls
    (if detailed then GoMap.insert "results" (.bool true) ([] : GoMap QueryValue) else [])
    none (insert_page_start detailed)
  have h0 : pageRequests cl.apiKey token detailed (1 - 1) = [] := rfl
  rw [h0, List.append_nil] at h
  simp only [Client.GetDowntimes, he, ht, if_false]
  exact h

theorem sendRequest_frame {α : Type} (net : Transport α) (c : Client) (sent : List Request)
    (method endpoint : String) (response : Option α) (query : Option (GoMap QueryValue)) :
    ∃ r : Request, (c.sendRequest net sent method endpoint response query).sent = sent ++ [r] ∧
      (c.sendRequest net sent method endpoint response query).client =
        { c with calls := (c.calls + 1) % uintSize } := by
  unfold Client.sendRequest
  refine ⟨⟨method, apiURL ++ endpoint, query, CONTENT_TYPE_JSON, defaultHeaders, c.apiKey⟩, ?_⟩
  dsimp only
  split
  · exact ⟨rfl, rfl⟩
  · split
    · exact ⟨rfl, rfl⟩
    · split
      · exact ⟨rfl, rfl⟩
      · split <;> exact ⟨rfl, rfl⟩

/-- The loop sends at most one request for each page it was given, whatever the transport
answers, and counts every request it sends. -/
theorem downtimesLoop_bound (net : Transport Downtimes) (token : String) :
    ∀ (pages : List Nat) (c : Client) (sent : List Request) (q : GoMap QueryValue)
      (result : Downtimes),
      ∃ (extra : List Request) (c1 : Client),
        (Client.downtimesLoop net token pages c sent q result).sent = sent ++ extra ∧
          extra.length ≤ pages.length ∧ (pages ≠ [] → extra ≠ []) ∧
          (Client.downtimesLoop net token pages c sent q result).client = some c1 ∧
          (extra = [] → c1 = c) ∧
          (extra ≠ [] → c1.calls = (c.calls + extra.length) % uintSize) := by
  intro pages
  induction pages with
  | nil =>
    intro c sent q result
    exact ⟨[], c, by simp [Client.downtimesLoop], Nat.le_refl _, fun h => absurd rfl h, rfl,
      fun _ => rfl, fun h => absurd rfl h⟩
  | cons page more ih =>
    intro c sent q result
    obtain ⟨r, hs, hc⟩ := sendRequest_frame net c sent GET ("/checks/" ++ token ++ "/downtimes")
      (some (some [])) (some (GoMap.insert "page" (.int page) q))
    have one : ∀ (res : Downtimes) (err : Option APIError),
        ∃ (extra : List Request) (c1 : Client),
          (Reply.mk (some (c.sendRequest net sent GET ("/checks/" ++ token ++ "/downtimes")
              (some (some [])) (some (GoMap.insert "page" (.int page) q))).client)
            (c.sendRequest net sent GET ("/checks/" ++ token ++ "/downtimes")
              (some (some [])) (some (GoMap.insert "page" (.int page) q))).sent res err).sent =
              sent ++ extra ∧
            extra.length ≤ (page :: more).length ∧ (page :: more ≠ [] → extra ≠ []) ∧
            (Reply.mk (some (c.sendRequest net sent GET ("/checks/" ++ token ++ "/downtimes")
              (some (some [])) (some (GoMap.insert "page" (.int page) q))).client)
            (c.sendRequest net sent GET ("/checks/" ++ token ++ "/downtimes")
              (some (some [])) (some (GoMap.insert "page" (.int page) q))).sent res err).client =
              some c1 ∧
            (extra = [] → c1 = c) ∧
            (extra ≠ [] → c1.calls = (c.calls + extra.length) % uintSize) := by
      intro res err
      refine ⟨[r], _, hs, by simp, fun _ => by simp, rfl, fun h => by simp at h, fun _ => ?_⟩
      rw [hc]
      rfl
    simp only [Client.downtimesLoop]
    split
    · exact one _ _
    · split
      · exact one _ _
      · obtain ⟨extra, c1, h1, h2, _, h4, h5, h6⟩ := ih
          (c.sendRequest net sent GET ("/checks/" ++ token ++ "/downtimes")
            (some (some [])) (some (GoMap.insert "page" (.int page) q))).client
          (c.sendRequest net sent GET ("/checks/" ++ token ++ "/downtimes")
            (some (some [])) (some (GoMap.insert "page" (.int page) q))).sent
          (GoMap.insert "page" (.int page) q)
          (sliceAppend result ((c.sendRequest net sent GET ("/checks/" ++ token ++ "/downtimes")
            (some (some [])) (some (GoMap.insert "page" (.int page) q))).response.getD (some [])))
        refine ⟨r :: extra, c1, ?_, by simp; omega, fun _ => by simp, h4, fun h => by simp at h,
          fun _ => ?_⟩
        · rw [h1, hs]; simp
        · by_cases hx : extra = []
          · rw [h5 hx, hc, hx]
            rfl
          · rw [h6 hx, hc]
            simp only [List.length_cons]
            exact mod_succ_add c.calls extra.length

theorem sliceLen_append {α : Type} (s t : Option (List α)) :
    sliceLen (sliceAppend s t) = sliceLen s + sliceLen t := by
  cases s <;> cases t <;> simp [sliceLen, sliceAppend]
  · rename_i xs
    cases xs <;> simp [sliceLen, sliceAppend]

theorem sliceLen_pagesFrom (net : Transport Downtimes) (e : Option Engine)
    (sent : List Request) (apiKey token : String) (detailed : Bool) :
    ∀ (n p : Nat) (result : Downtimes),
      (∀ j, p ≤ j → j < p + n →
        sliceLen ((pageRecords net e sent apiKey token detailed j).getD none) = 100) →
      sliceLen (pagesFrom net e sent apiKey token detailed result p n) =
        sliceLen result + 100 * n := by
  intro n
  induction n with
  | zero => intro p result _; simp [pagesFrom]
  | succ n ih =>
    intro p result h
    have h1 := h p (Nat.le_refl _) (by omega)
    have h2 := ih (p + 1)
      (sliceAppend result ((pageRecords net e sent apiKey token detailed p).getD none))
      (fun j hj1 hj2 => h j (by omega) (by omega))
    have e1 : pagesFrom net e sent apiKey token detailed result p (n + 1) =
        pagesFrom net e sent apiKey token detailed
          (sliceAppend result ((pageRecords net e sent apiKey token detailed p).getD none))
          (p + 1) n := by
      simp [pagesFrom, List.range']
    rw [e1, h2, sliceLen_append, h1]
    omega

/-! ## GetDowntimes: the claims -/

/-- C19 fails as stated: when every page holds 101 records, no page holds fewer than 100, so
the claim has the pages 1 to 99 requested; the loop stops after page 1, because it goes on
only after a page of exactly 100 records. -/
theorem GetDowntimes_stops_after_large_page :
    (∀ j, pageRecords (netOfSize 101) (some {}) [] "test1234" "ngg8" false j =
        some (some (List.replicate 101 none))) ∧
      ¬ (sliceLen (some (List.replicate 101 (none : Option Downtime))) < 100) ∧
      (Client.GetDowntimes (netOfSize 101) (some ⟨some {}, "test1234", 0⟩) [] "ngg8" false).sent =
        [pageRequest "test1234" "ngg8" false 1] ∧
      (Client.GetDowntimes (netOfSize 101) (some ⟨some {}, "test1234", 0⟩) [] "ngg8" false).err =
        none ∧
      sliceLen (Client.GetDowntimes (netOfSize 101) (some ⟨some {}, "test1234", 0⟩) [] "ngg8"
        false).result = 101 :=
  ⟨fun _ => rfl, by decide, rfl, rfl, rfl⟩

/-- C19 (amended): let every request for the pages 1 to `k` succeed, where `k` is the least
page number such that page `k` does not hold exactly 100 records or `k = 99`. Then
`GetDowntimes` sends the requests for the pages 1, 2, ..., `k` in this order and no other,
and returns the records of these pages appended in page order, with no error. -/
theorem GetDowntimes_page_order (net : Transport Downtimes) (cl : Client)
    (he : cl.engine ≠ none) (sent : List Request) (token : String) (ht : token ≠ "")
    (detailed : Bool) (k : Nat) (hk1 : 1 ≤ k) (hk : k ≤ 99)
    (hall : ∀ j, 1 ≤ j → j ≤ k →
      ∃ ds, pageRecords net cl.engine sent cl.apiKey token detailed j = some ds)
    (hfull : ∀ j, 1 ≤ j → j < k →
      sliceLen ((pageRecords net cl.engine sent cl.apiKey token detailed j).getD none) = 100)
    (hlast : sliceLen ((pageRecords net cl.engine sent cl.apiKey token detailed k).getD none)
      ≠ 100 ∨ k = 99) :
    (Client.GetDowntimes net (some cl) sent token detailed).sent =
        sent ++ (List.range' 1 k).map (pageRequest cl.apiKey token detailed) ∧
      (∀ j, (pageRequest cl.apiKey token detailed j).Query =
        some (pageQuery detailed j)) ∧
      (Client.GetDowntimes net (some cl) sent token detailed).result =
        ((List.range' 1 k).map
          (fun j => (pageRecords net cl.engine sent cl.apiKey token detailed j).getD none)).foldl
          sliceAppend none ∧
      (Client.GetDowntimes net (some cl) sent token detailed).err = none := by
  rw [GetDowntimes_pages net cl he sent token ht detailed k hk1 hk hall hfull hlast]
  exact ⟨rfl, fun _ => rfl, rfl, rfl⟩

theorem GetDowntimes_page_order_witness :
    (Client.GetDowntimes netThreePages (some ⟨some {}, "test1234", 0⟩) [] "ngg8" true).sent =
        [pageRequest "test1234" "ngg8" true 1, pageRequest "test1234" "ngg8" true 2,
          pageRequest "test1234" "ngg8" true 3] ∧
      sliceLen (Client.GetDowntimes netThreePages (some ⟨some {}, "test1234", 0⟩) [] "ngg8"
        true).result = 207 := by
  have h := GetDowntimes_page_order netThreePages ⟨some {}, "test1234", 0⟩ (by decide) [] "ngg8"
    (by decide) true 3 (by decide) (by decide)
    (fun j h1 h2 => by interval_cases j <;> exact ⟨_, rfl⟩)
    (fun j h1 h2 => by interval_cases j <;> rfl)
    (Or.inl (by decide))
  refine ⟨h.1, ?_⟩
  rw [h.2.2.1]
  rfl

/-- C20: whatever the transport answers, `GetDowntimes` returns after sending at most 99
requests, and the call counter has counted each of them (as a `uint`). When every page holds
exactly 100 records, it sends the 99 requests for the pages 1 to 99, returns 9900 records
and no error, and the call counter has gone up by 99. -/
theorem GetDowntimes_at_most_99 (net : Transport Downtimes) (c : Option Client)
    (sent : List Request) (token : String) (detailed : Bool) :
    (∃ extra : List Request,
        (Client.GetDowntimes net c sent token detailed).sent = sent ++ extra ∧
          extra.length ≤ 99 ∧
          Client.Calls (Client.GetDowntimes net c sent token detailed).client =
            if extra = [] then Client.Calls c
            else (Client.Calls c + extra.length) % uintSize) ∧
      ∀ cl : Client, c = some cl → cl.engine ≠ none → token ≠ "" →
        (∀ j, 1 ≤ j → j ≤ 99 →
          ∃ ds, pageRecords net cl.engine sent cl.apiKey token detailed j = some ds ∧
            sliceLen ds = 100) →
        (Client.GetDowntimes net c sent token detailed).sent =
            sent ++ pageRequests cl.apiKey token detailed 99 ∧
          (pageRequests cl.apiKey token detailed 99).length = 99 ∧
          (Client.GetDowntimes net c sent token detailed).err = none ∧
          sliceLen (Client.GetDowntimes net c sent token detailed).result = 9900 ∧
          Client.Calls (Client.GetDowntimes net c sent token detailed).client =
            (cl.calls + 99) % uintSize := by
  constructor
  · cases c with
    | none => exact ⟨[], by simp [Client.GetDowntimes], by decide, rfl⟩
    | some cl =>
      by_cases he : cl.engine = none
      · exact ⟨[], by simp [Client.GetDowntimes, he], by decide, by simp [Client.GetDowntimes, he]⟩
      · by_cases ht : token = ""
        · exact ⟨[], by simp [Client.GetDowntimes, he, ht], by decide,
            by simp [Client.GetDowntimes, he, ht]⟩
        · obtain ⟨extra, c1, h1, h2, h3, h4, _, h6⟩ := downtimesLoop_bound net token
            (List.range' 1 99) cl sent
            (if detailed then GoMap.insert "results" (.bool true) ([] : GoMap QueryValue) else [])
            none
          have hx : extra ≠ [] := h3 (by decide)
          refine ⟨extra, ?_, by simpa using h2, ?_⟩
          · simpa [Client.GetDowntimes, he, ht] using h1
          · have e : (Client.GetDowntimes net (some cl) sent token detailed).client = some c1 := by
              simpa [Client.GetDowntimes, he, ht] using h4
            rw [e, if_neg hx]
            exact h6 hx
  · intro cl hc he ht hpages
    subst hc
    have hall : ∀ j, 1 ≤ j → j ≤ 99 →
        ∃ ds, pageRecords net cl.engine sent cl.apiKey token detailed j = some ds :=
      fun j h1 h2 => (hpages j h1 h2).imp fun _ h => h.1
    have hlen : ∀ j, 1 ≤ j → j ≤ 99 →
        sliceLen ((pageRecords net cl.engine sent cl.apiKey token detailed j).getD none) = 100 := by
      intro j h1 h2
      obtain ⟨ds, hds, hl⟩ := hpages j h1 h2
      rw [hds]
      exact hl
    rw [GetDowntimes_pages net cl he sent token ht detailed 99 (by decide) (Nat.le_refl _) hall
      (fun j h1 h2 => hlen j h1 (Nat.le_of_lt h2)) (Or.inr rfl)]
    refine ⟨rfl, by simp [pageRequests], rfl, ?_, rfl⟩
    have := sliceLen_pagesFrom net cl.engine sent cl.apiKey token detailed 99 1 none
      (fun j h1 h2 => hlen j h1 (by omega))
    simpa [sliceLen] using this

theorem GetDowntimes_at_most_99_witness :
    (Client.GetDowntimes (netOfSize 100) (some ⟨some {}, "test1234", 0⟩) [] "ngg8" false).sent =
        pageRequests "test1234" "ngg8" false 99 ∧
      (Client.GetDowntimes (netOfSize 100) (some ⟨some {}, "test1234", 0⟩) [] "ngg8" false).err =
        none ∧
      sliceLen (Client.GetDowntimes (netOfSize 100) (some ⟨some {}, "test1234", 0⟩) [] "ngg8"
        false).result = 9900 ∧
      Client.Calls (Client.GetDowntimes (netOfSize 100) (some ⟨some {}, "test1234", 0⟩) []
        "ngg8" false).client = 99 := by
  have h := (GetDowntimes_at_most_99 (netOfSize 100) (some ⟨some {}, "test1234", 0⟩) [] "ngg8"
    false).2 ⟨some {}, "test1234", 0⟩ rfl (by decide) (by decide)
    (fun j _ _ => ⟨some (List.replicate 100 none), rfl, rfl⟩)
  exact ⟨by simpa using h.1, h.2.2.1, h.2.2.2.1, h.2.2.2.2⟩

/-! ## The decoder: what a run that was not stopped went through -/

theorem lookupField_some_mem {σ : Type} (fields : List (String × Decoder σ)) (k : String)
    (dec : Decoder σ) (h : lookupField fields k = some dec) :
    ∃ f ∈ fields, f.2 = dec ∧ foldName f.1 = foldName k := by
  unfold lookupField at h
  split at h
  · rename_i f hf
    simp only [Option.some.injEq] at h
    have h1 := List.find?_some hf
    simp only [decide_eq_true_eq] at h1
    exact ⟨f, List.mem_of_find?_eq_some hf, h, by rw [h1]⟩
  · split at h
    · rename_i f hf
      simp only [Option.some.injEq] at h
      have h1 := List.find?_some hf
      simp only [decide_eq_true_eq] at h1
      exact ⟨f, List.mem_of_find?_eq_some hf, h, h1⟩
    · simp at h

theorem lookupField_isSome {σ : Type} (fields : List (String × Decoder σ)) (k : String)
    (f : String × Decoder σ) (hf : f ∈ fields) (hk : foldName f.1 = foldName k) :
    ∃ dec, lookupField fields k = some dec := by
  unfold lookupField
  split
  · exact ⟨_, rfl⟩
  · split
    · exact ⟨_, rfl⟩
    · rename_i h
      rw [List.find?_eq_none] at h
      exact absurd (by simpa using hk) (h f hf)

theorem decodeMembers_halted {σ : Type} (fields : List (String × Decoder σ))
    (ms : List (String × JVal)) (s : σ) (st : Dec) (e : Halt) (h : st.halt = some e) :
    decodeMembers fields ms s st = (s, st) := by
  cases ms with
  | nil => rfl
  | cons m rest =>
    obtain ⟨k, v⟩ := m
    simp only [decodeMembers, h]

/-- A property of the struct that every member keeps is kept by the whole object, when the
decoding of the object was not stopped. -/
theorem decodeMembers_running_inv {σ : Type} (fields : List (String × Decoder σ))
    (I : σ → Prop) :
    ∀ (ms : List (String × JVal)) (s : σ) (st : Dec),
      (decodeMembers fields ms s st).2.halt = none →
      (∀ m ∈ ms, ∀ dec, lookupField fields m.1 = some dec → ∀ s1 st1, st1.halt = none →
        (dec m.2 s1 st1).2.halt = none → I s1 → I (dec m.2 s1 st1).1) →
      I s → I (decodeMembers fields ms s st).1 := by
  intro ms
  induction ms with
  | nil => intro s st _ _ hI; exact hI
  | cons m rest ih =>
    intro s st hrun hstep hI
    obtain ⟨k, v⟩ := m
    cases hst : st.halt with
    | some e => rw [decodeMembers_halted fields _ s st e hst]; exact hI
    | none =>
      simp only [decodeMembers, hst] at hrun ⊢
      cases hl : lookupField fields k with
      | none =>
        simp only [hl] at hrun ⊢
        exact ih s st hrun (fun m hm => hstep m (List.mem_cons_of_mem _ hm)) hI
      | some dec =>
        simp only [hl] at hrun ⊢
        have hr : (dec v s st).2.halt = none := by
          cases hh : (dec v s st).2.halt with
          | none => rfl
          | some e =>
            rw [decodeMembers_halted fields rest _ _ e hh] at hrun
            rw [hh] at hrun
            exact absurd hrun (by simp)
        exact ih _ _ hrun (fun m hm => hstep m (List.mem_cons_of_mem _ hm))
          (hstep (k, v) (List.mem_cons_self _ _) dec hl s st hst hr hI)

/-- A property `J` that every member keeps, and that some member brings about from a state
with the kept property `I`, holds after the whole object, when the decoding of the object was
not stopped. -/
theorem decodeMembers_running_hit {σ : Type} (fields : List (String × Decoder σ))
    (I J : σ → Prop) :
    ∀ (ms : List (String × JVal)) (s : σ) (st : Dec),
      (decodeMembers fields ms s st).2.halt = none →
      (∀ m ∈ ms, ∀ dec, lookupField fields m.1 = some dec → ∀ s1 st1, st1.halt = none →
        (dec m.2 s1 st1).2.halt = none → I s1 → I (dec m.2 s1 st1).1) →
      (∀ m ∈ ms, ∀ dec, lookupField fields m.1 = some dec → ∀ s1 st1, st1.halt = none →
        (dec m.2 s1 st1).2.halt = none → J s1 → J (dec m.2 s1 st1).1) →
      (∃ m ∈ ms, ∃ dec, lookupField fields m.1 = some dec ∧ ∀ s1 st1, st1.halt = none →
        (dec m.2 s1 st1).2.halt = none → I s1 → J (dec m.2 s1 st1).1) →
      I s → J (decodeMembers fields ms s st).1 := by
  intro ms
  induction ms with
  | nil => intro s st _ _ _ hhit; obtain ⟨m, hm, _⟩ := hhit; simp at hm
  | cons m rest ih =>
    intro s st hrun hI hJ hhit hs
    obtain ⟨k, v⟩ := m
    cases hst : st.halt with
    | some e =>
      rw [decodeMembers_halted fields _ s st e hst] at hrun
      rw [hst] at hrun
      exact absurd hrun (by simp)
    | none =>
      obtain ⟨m0, hm0, dec0, hl0, hset⟩ := hhit
      simp only [decodeMembers, hst] at hrun ⊢
      rcases List.mem_cons.mp hm0 with rfl | hm0
      · simp only [hl0] at hrun ⊢
        have hr : (dec0 v s st).2.halt = none := by
          cases hh : (dec0 v s st).2.halt with
          | none => rfl
          | some e =>
            rw [decodeMembers_halted fields rest _ _ e hh] at hrun
            rw [hh] at hrun
            exact absurd hrun (by simp)
        exact decodeMembers_running_inv fields J rest _ _ hrun
          (fun m hm => hJ m (List.mem_cons_of_mem _ hm)) (hset s st hst hr hs)
      · cases hl : lookupField fields k with
        | none =>
          simp only [hl] at hrun ⊢
          exact ih s st hrun (fun m hm => hI m (List.mem_cons_of_mem _ hm))
            (fun m hm => hJ m (List.mem_cons_of_mem _ hm)) ⟨m0, hm0, dec0, hl0, hset⟩ hs
        | some dec =>
          simp only [hl] at hrun ⊢
          have hr : (dec v s st).2.halt = none := by
            cases hh : (dec v s st).2.halt with
            | none => rfl
            | some e =>
              rw [decodeMembers_halted fields rest _ _ e hh] at hrun
              rw [hh] at hrun
              exact absurd hrun (by simp)
          exact ih _ _ hrun (fun m hm => hI m (List.mem_cons_of_mem _ hm))
            (fun m hm => hJ m (List.mem_cons_of_mem _ hm)) ⟨m0, hm0, dec0, hl0, hset⟩
            (hI (k, v) (List.mem_cons_self _ _) dec hl s st hst hr hs)

theorem decodeItems_halted {α : Type} (zero : α) (dec : Decoder α) (items : List JVal)
    (old : List α) (st : Dec) (e : Halt) (h : st.halt = some e) :
    decodeItems zero dec items old st = (old, 0, st) := by
  cases items with
  | nil => rfl
  | cons v rest => simp only [decodeItems, h]

/-! ## Decoding an open downtime -/

theorem validStamp_iff (y1 y2 y3 y4 m1 m2 d1 d2 h1 h2 n1 n2 s1 s2 : Char)
    (h : validStamp y1 y2 y3 y4 m1 m2 d1 d2 h1 h2 n1 n2 s1 s2 = true) :
    [y1, y2, y3, y4, m1, m2, d1, d2, h1, h2, n1, n2, s1, s2].all isDigit = true ∧
      (1 ≤ num2 m1 m2 ∧ num2 m1 m2 ≤ 12) ∧
      (1 ≤ num2 d1 d2 ∧ num2 d1 d2 ≤ daysIn (num2 m1 m2) (num4 y1 y2 y3 y4)) ∧
      num2 h1 h2 < 24 ∧ num2 n1 n2 < 60 ∧ num2 s1 s2 < 60 := by
  unfold validStamp at h
  simp only [Bool.and_eq_true, decide_eq_true_eq] at h
  obtain ⟨⟨⟨⟨⟨⟨⟨a, b⟩, c⟩, d⟩, e⟩, f⟩, g⟩, i⟩ := h
  exact ⟨a, ⟨b, c⟩, ⟨d, e⟩, f, g, i⟩

theorem isNull_eq {v : JVal} (h : v.isNull = true) : v = .null := by
  cases v <;> simp [JVal.isNull] at h ⊢

theorem decodeDate_null (d : Date) (st : Dec) : decodeDate .null d st = ({}, st) := rfl

theorem decodeDate_of_raw (v : JVal) (d d1 : Date) (st : Dec)
    (h : d.UnmarshalJSON v.raw = (d1, none)) : decodeDate v d st = (d1, st) := by
  simp only [decodeDate, h]

theorem Downtime_member_open (ms : List (String × JVal))
    (hnull : ms.all (fun m =>
      !(keyIs "ended_at" m || keyIs "duration" m || keyIs "partial" m) || m.2.isNull) = true) :
    ∀ m ∈ ms, ∀ dec, lookupField Downtime.fields m.1 = some dec → ∀ (s1 : Downtime) (st1 : Dec),
      st1.halt = none → (dec m.2 s1 st1).2.halt = none → s1.isOpen →
      (dec m.2 s1 st1).1.isOpen := by
  intro m hm dec hl s1 st1 _ _ hI
  obtain ⟨f, hf, rfl, hk⟩ := lookupField_some_mem _ _ _ hl
  have hm1 := List.all_eq_true.mp hnull m hm
  simp only [keyIs, Bool.or_eq_true, Bool.not_eq_true', decide_eq_true_eq,
    Bool.or_eq_false_iff, decide_eq_false_iff_not] at hm1
  simp only [Downtime.fields, List.mem_cons, List.mem_singleton, List.not_mem_nil,
    or_false] at hf
  rcases hf with rfl | rfl | rfl | rfl | rfl | rfl | rfl | rfl | rfl
  · exact hI
  · exact hI
  · exact hI
  · exact hI
  · have hn : m.2 = .null := by
      rcases hm1 with h | h
      · exact absurd hk.symm h.1.1
      · exact isNull_eq h
    rw [hn]
    exact ⟨rfl, hI.2.1, hI.2.2⟩
  · have hn : m.2 = .null := by
      rcases hm1 with h | h
      · exact absurd hk.symm h.1.2
      · exact isNull_eq h
    rw [hn]
    exact hI
  · have hn : m.2 = .null := by
      rcases hm1 with h | h
      · exact absurd hk.symm h.2
      · exact isNull_eq h
    rw [hn]
    exact hI
  · exact hI
  · exact hI

theorem Downtime_member_started (stamp : List Char) (t : Date)
    (hstamp : ∀ d : Date, d.UnmarshalJSON stamp = (t, none)) (ms : List (String × JVal))
    (hraw : ms.all (fun m => !keyIs "started_at" m || decide (m.2.raw = stamp)) = true) :
    ∀ m ∈ ms, ∀ dec, lookupField Downtime.fields m.1 = some dec → ∀ (s1 : Downtime) (st1 : Dec),
      st1.halt = none → (dec m.2 s1 st1).2.halt = none →
      (s1.StartedAt = t ∨ keyIs "started_at" m = true) → (dec m.2 s1 st1).1.StartedAt = t := by
  intro m hm dec hl s1 st1 _ _ hI
  obtain ⟨f, hf, rfl, hk⟩ := lookupField_some_mem _ _ _ hl
  have hm1 := List.all_eq_true.mp hraw m hm
  simp only [keyIs, Bool.or_eq_true, Bool.not_eq_true', decide_eq_true_eq,
    decide_eq_false_iff_not] at hm1 hI
  simp only [Downtime.fields, List.mem_cons, List.mem_singleton, List.not_mem_nil,
    or_false] at hf
  have other : ∀ name : String, foldName name = foldName m.1 →
      foldName name ≠ foldName "started_at" → s1.StartedAt = t := by
    intro name h1 h2
    rcases hI with h | h
    · exact h
    · exact absurd (h1.trans h) h2
  rcases hf with rfl | rfl | rfl | rfl | rfl | rfl | rfl | rfl | rfl
  · exact other "id" hk (by decide)
  · exact other "details_url" hk (by decide)
  · exact other "error" hk (by decide)
  · have hr : m.2.raw = stamp := by
      rcases hm1 with h | h
      · exact absurd hk.symm h
      · exact h
    show (decodeDate m.2 s1.StartedAt st1).1 = t
    rw [decodeDate_of_raw m.2 s1.StartedAt t st1 (by rw [hr]; exact hstamp _)]
  · exact other "ended_at" hk (by decide)
  · exact other "duration" hk (by decide)
  · exact other "partial" hk (by decide)
  · exact other "down_results" hk (by decide)
  · exact other "up_results" hk (by decide)

theorem Downtime_decode_open (stamp : List Char) (t : Date)
    (hstamp : ∀ d : Date, d.UnmarshalJSON stamp = (t, none)) (dv : JVal)
    (hopen : isOpenDowntime stamp dv = true) (d0 : Downtime) (h0 : d0.isOpen) (st : Dec)
    (hrun : (Downtime.decode dv d0 st).2.halt = none) :
    (Downtime.decode dv d0 st).1.isOpen ∧ (Downtime.decode dv d0 st).1.StartedAt = t := by
  cases dv with
  | obj r ms =>
    simp only [isOpenDowntime, Bool.and_eq_true] at hopen
    obtain ⟨⟨hnull, hraw⟩, hany⟩ := hopen
    have e : Downtime.decode (.obj r ms) d0 st = decodeMembers Downtime.fields ms d0 st := rfl
    rw [e] at hrun ⊢
    refine ⟨decodeMembers_running_inv Downtime.fields Downtime.isOpen ms d0 st hrun
      (Downtime_member_open ms hnull) h0, ?_⟩
    obtain ⟨m, hm, hkey⟩ := List.any_eq_true.mp hany
    have hk : foldName "started_at" = foldName m.1 := by
      simpa [keyIs, eq_comm] using hkey
    obtain ⟨dec, hdec⟩ := lookupField_isSome Downtime.fields m.1
      ("started_at", field (fun s => s.StartedAt) (fun s x => { s with StartedAt := x })
        decodeDate) (by simp [Downtime.fields]) hk
    exact decodeMembers_running_hit Downtime.fields (fun _ => True)
      (fun d => d.StartedAt = t) ms d0 st hrun (fun _ _ _ _ _ _ _ _ _ => trivial)
      (fun m hm dec hl s1 st1 h1 h2 h3 =>
        Downtime_member_started stamp t hstamp ms hraw m hm dec hl s1 st1 h1 h2 (Or.inl h3))
      ⟨m, hm, dec, hdec, fun s1 st1 h1 h2 _ =>
        Downtime_member_started stamp t hstamp ms hraw m hm dec hdec s1 st1 h1 h2 (Or.inr hkey)⟩
      trivial
  | null => simp [isOpenDowntime] at hopen
  | bool b => simp [isOpenDowntime] at hopen
  | num l => simp [isOpenDowntime] at hopen
  | str r x => simp [isOpenDowntime] at hopen
  | arr r x => simp [isOpenDowntime] at hopen

theorem decodePtr_Downtime_open (stamp : List Char) (t : Date)
    (hstamp : ∀ d : Date, d.UnmarshalJSON stamp = (t, none)) (dv : JVal)
    (hopen : isOpenDowntime stamp dv = true) (p : Option Downtime) (st : Dec)
    (hp : p = none ∨ ∃ dt, p = some dt ∧ dt.isOpen ∧ dt.StartedAt = t)
    (hrun : (decodePtr {} Downtime.decode dv p st).2.halt = none) :
    ∃ dt, (decodePtr {} Downtime.decode dv p st).1 = some dt ∧ dt.isOpen ∧ dt.StartedAt = t := by
  have hz : (p.getD {}).isOpen := by
    rcases hp with rfl | ⟨dt, rfl, h1, _⟩
    · exact ⟨rfl, rfl, rfl⟩
    · exact h1
  have hne : dv ≠ .null := by
    intro h; rw [h] at hopen; simp [isOpenDowntime] at hopen
  have e : decodePtr {} Downtime.decode dv p st =
      (some (Downtime.decode dv (p.getD {}) st).1, (Downtime.decode dv (p.getD {}) st).2) := by
    cases dv <;> first | exact absurd rfl hne | rfl
  rw [e] at hrun ⊢
  obtain ⟨h1, h2⟩ := Downtime_decode_open stamp t hstamp dv hopen _ hz st hrun
  exact ⟨_, rfl, h1, h2⟩

theorem EventDown_member_downtime (stamp : List Char) (t : Date)
    (hstamp : ∀ d : Date, d.UnmarshalJSON stamp = (t, none)) (ms : List (String × JVal))
    (hall : ms.all (fun m => !keyIs "downtime" m || isOpenDowntime stamp m.2) = true) :
    ∀ m ∈ ms, ∀ dec, lookupField EventDown.fields m.1 = some dec → ∀ (s1 : EventDown) (st1 : Dec),
      st1.halt = none → (dec m.2 s1 st1).2.halt = none →
      (s1.Downtime = none ∨ ∃ dt, s1.Downtime = some dt ∧ dt.isOpen ∧ dt.StartedAt = t) →
      ((dec m.2 s1 st1).1.Downtime = s1.Downtime ∧ keyIs "downtime" m = false) ∨
        ∃ dt, (dec m.2 s1 st1).1.Downtime = some dt ∧ dt.isOpen ∧ dt.StartedAt = t := by
  intro m hm dec hl s1 st1 _ hrun hI
  obtain ⟨f, hf, rfl, hk⟩ := lookupField_some_mem _ _ _ hl
  have hm1 := List.all_eq_true.mp hall m hm
  simp only [keyIs, Bool.or_eq_true, Bool.not_eq_true', decide_eq_true_eq,
    decide_eq_false_iff_not] at hm1
  simp only [EventDown.fields, Event.fields, List.map, List.cons_append, List.nil_append,
    List.mem_cons, List.mem_singleton, List.not_mem_nil, or_false] at hf
  have other : ∀ name : String, foldName name = foldName m.1 →
      foldName name ≠ foldName "downtime" → keyIs "downtime" m = false := by
    intro name h1 h2
    simp only [keyIs, decide_eq_false_iff_not]
    exact fun h => h2 (h1.trans h)
  rcases hf with rfl | rfl | rfl | rfl | rfl
  · exact Or.inl ⟨rfl, other "event" hk (by decide)⟩
  · exact Or.inl ⟨rfl, other "time" hk (by decide)⟩
  · exact Or.inl ⟨rfl, other "description" hk (by decide)⟩
  · exact Or.inl ⟨rfl, other "check" hk (by decide)⟩
  · right
    have ho : isOpenDowntime stamp m.2 = true := by
      rcases hm1 with h | h
      · exact absurd hk.symm h
      · exact h
    exact decodePtr_Downtime_open stamp t hstamp m.2 ho s1.Downtime st1 hI hrun

theorem EventDown_decode_open (stamp : List Char) (t : Date)
    (hstamp : ∀ d : Date, d.UnmarshalJSON stamp = (t, none)) (w : JVal)
    (hopen : hasOpenDowntime stamp w = true) (st : Dec)
    (hrun : (EventDown.decode w {} st).2.halt = none) :
    ∃ dt, (EventDown.decode w {} st).1.Downtime = some dt ∧ dt.isOpen ∧ dt.StartedAt = t := by
  cases w with
  | obj r ms =>
    simp only [hasOpenDowntime, Bool.and_eq_true] at hopen
    obtain ⟨hall, hany⟩ := hopen
    have e : EventDown.decode (.obj r ms) {} st = decodeMembers EventDown.fields ms {} st := rfl
    rw [e] at hrun ⊢
    obtain ⟨m, hm, hkey⟩ := List.any_eq_true.mp hany
    have hk : foldName "downtime" = foldName m.1 := by
      simpa [keyIs, eq_comm] using hkey
    obtain ⟨dec, hdec⟩ := lookupField_isSome EventDown.fields m.1
      ("downtime", field (fun s => s.Downtime) (fun s x => { s with Downtime := x })
        (decodePtr {} Downtime.decode))
      (by unfold EventDown.fields; exact List.mem_append_right _ (List.mem_singleton.mpr rfl)) hk
    have step := EventDown_member_downtime stamp t hstamp ms hall
    refine decodeMembers_running_hit EventDown.fields
      (fun s => s.Downtime = none ∨ ∃ dt, s.Downtime = some dt ∧ dt.isOpen ∧ dt.StartedAt = t)
      (fun s => ∃ dt, s.Downtime = some dt ∧ dt.isOpen ∧ dt.StartedAt = t) ms {} st hrun
      ?_ ?_ ⟨m, hm, dec, hdec, ?_⟩ (Or.inl rfl)
    · intro m1 hm1 dec1 hl1 s1 st1 h1 h2 h3
      rcases step m1 hm1 dec1 hl1 s1 st1 h1 h2 h3 with ⟨h, _⟩ | h
      · rw [h]; exact h3
      · exact Or.inr h
    · intro m1 hm1 dec1 hl1 s1 st1 h1 h2 h3
      rcases step m1 hm1 dec1 hl1 s1 st1 h1 h2 (Or.inr h3) with ⟨h, _⟩ | h
      · rw [h]; exact h3
      · exact h
    · intro s1 st1 h1 h2 h3
      rcases step m hm dec hdec s1 st1 h1 h2 h3 with ⟨_, h⟩ | h
      · rw [hkey] at h; exact absurd h (by simp)
      · exact h
  | null => simp [hasOpenDowntime] at hopen
  | bool b => simp [hasOpenDowntime] at hopen
  | num l => simp [hasOpenDowntime] at hopen
  | str r x => simp [hasOpenDowntime] at hopen
  | arr r x => simp [hasOpenDowntime] at hopen

theorem EventUp_member_downtime (stamp : List Char) (t : Date)
    (hstamp : ∀ d : Date, d.UnmarshalJSON stamp = (t, none)) (ms : List (String × JVal))
    (hall : ms.all (fun m => !keyIs "downtime" m || isOpenDowntime stamp m.2) = true) :
    ∀ m ∈ ms, ∀ dec, lookupField EventUp.fields m.1 = some dec → ∀ (s1 : EventUp) (st1 : Dec),
      st1.halt = none → (dec m.2 s1 st1).2.halt = none →
      (s1.Downtime = none ∨ ∃ dt, s1.Downtime = some dt ∧ dt.isOpen ∧ dt.StartedAt = t) →
      ((dec m.2 s1 st1).1.Downtime = s1.Downtime ∧ keyIs "downtime" m = false) ∨
        ∃ dt, (dec m.2 s1 st1).1.Downtime = some dt ∧ dt.isOpen ∧ dt.StartedAt = t := by
  intro m hm dec hl s1 st1 _ hrun hI
  obtain ⟨f, hf, rfl, hk⟩ := lookupField_some_mem _ _ _ hl
  have hm1 := List.all_eq_true.mp hall m hm
  simp only [keyIs, Bool.or_eq_true, Bool.not_eq_true', decide_eq_true_eq,
    decide_eq_false_iff_not] at hm1
  simp only [EventUp.fields, Event.fields, List.map, List.cons_append, List.nil_append,
    List.mem_cons, List.mem_singleton, List.not_mem_nil, or_false] at hf
  have other : ∀ name : String, foldName name = foldName m.1 →
      foldName name ≠ foldName "downtime" → keyIs "downtime" m = false := by
    intro name h1 h2
    simp only [keyIs, decide_eq_false_iff_not]
    exact fun h => h2 (h1.trans h)
  rcases hf with rfl | rfl | rfl | rfl | rfl
  · exact Or.inl ⟨rfl, other "event" hk (by decide)⟩
  · exact Or.inl ⟨rfl, other "time" hk (by decide)⟩
  · exact Or.inl ⟨rfl, other "description" hk (by decide)⟩
  · exact Or.inl ⟨rfl, other "check" hk (by decide)⟩
  · right
    have ho : isOpenDowntime stamp m.2 = true := by
      rcases hm1 with h | h
      · exact absurd hk.symm h
      · exact h
    exact decodePtr_Downtime_open stamp t hstamp m.2 ho s1.Downtime st1 hI hrun

theorem EventUp_decode_open (stamp : List Char) (t : Date)
    (hstamp : ∀ d : Date, d.UnmarshalJSON stamp = (t, none)) (w : JVal)
    (hopen : hasOpenDowntime stamp w = true) (st : Dec)
    (hrun : (EventUp.decode w {} st).2.halt = none) :
    ∃ dt, (EventUp.decode w {} st).1.Downtime = some dt ∧ dt.isOpen ∧ dt.StartedAt = t := by
  cases w with
  | obj r ms =>
    simp only [hasOpenDowntime, Bool.and_eq_true] at hopen
    obtain ⟨hall, hany⟩ := hopen
    have e : EventUp.decode (.obj r ms) {} st = decodeMembers EventUp.fields ms {} st := rfl
    rw [e] at hrun ⊢
    obtain ⟨m, hm, hkey⟩ := List.any_eq_true.mp hany
    have hk : foldName "downtime" = foldName m.1 := by
      simpa [keyIs, eq_comm] using hkey
    obtain ⟨dec, hdec⟩ := lookupField_isSome EventUp.fields m.1
      ("downtime", field (fun s => s.Downtime) (fun s x => { s with Downtime := x })
        (decodePtr {} Downtime.decode))
      (by unfold EventUp.fields; exact List.mem_append_right _ (List.mem_singleton.mpr rfl)) hk
    have step := EventUp_member_downtime stamp t hstamp ms hall
    refine decodeMembers_running_hit EventUp.fields
      (fun s => s.Downtime = none ∨ ∃ dt, s.Downtime = some dt ∧ dt.isOpen ∧ dt.StartedAt = t)
      (fun s => ∃ dt, s.Downtime = some dt ∧ dt.isOpen ∧ dt.StartedAt = t) ms {} st hrun
      ?_ ?_ ⟨m, hm, dec, hdec, ?_⟩ (Or.inl rfl)
    · intro m1 hm1 dec1 hl1 s1 st1 h1 h2 h3
      rcases step m1 hm1 dec1 hl1 s1 st1 h1 h2 h3 with ⟨h, _⟩ | h
      · rw [h]; exact h3
      · exact Or.inr h
    · intro m1 hm1 dec1 hl1 s1 st1 h1 h2 h3
      rcases step m1 hm1 dec1 hl1 s1 st1 h1 h2 (Or.inr h3) with ⟨h, _⟩ | h
      · rw [h]; exact h3
      · exact h
    · intro s1 st1 h1 h2 h3
      rcases step m hm dec hdec s1 st1 h1 h2 h3 with ⟨_, h⟩ | h
      · rw [hkey] at h; exact absurd h (by simp)
      · exact h
  | null => simp [hasOpenDowntime] at hopen
  | bool b => simp [hasOpenDowntime] at hopen
  | num l => simp [hasOpenDowntime] at hopen
  | str r x => simp [hasOpenDowntime] at hopen
  | arr r x => simp [hasOpenDowntime] at hopen

/-! ## The decoder: what a step does to the state -/

theorem join_empty (st : Dec) (h : st.halt = none) : st.join {} = st := by
  cases st with
  | mk e hl =>
    simp only at h
    subst h
    cases e <;> rfl

theorem join_saveError (st : Dec) (h : st.halt = none) (e : GoError) :
    st.join (Dec.saveError {} e) = st.saveError e := by
  cases st with
  | mk e0 hl =>
    simp only at h
    subst h
    cases e0 <;> rfl

theorem join_stop (st : Dec) (x : Halt) : st.join (Dec.stop {} x) = st.stop x := by
  cases st with
  | mk e0 hl => cases e0 <;> rfl

theorem join_join (a b c : Dec) : (a.join b).join c = a.join (b.join c) := by
  cases a with
  | mk ea ha =>
    cases b with
    | mk eb hb =>
      cases c with
      | mk ec hc => cases ea <;> cases eb <;> rfl

theorem join_halt (a b : Dec) : (a.join b).halt = b.halt := rfl

/-- A joined state holds no error only when neither part does. -/
theorem join_saved_none (a b : Dec) (h : (a.join b).savedError = none) :
    a.savedError = none ∧ b.savedError = none := by
  cases a with
  | mk ea ha =>
    cases ea with
    | none => exact ⟨rfl, h⟩
    | some e => simp [Dec.join] at h

theorem tame_decodeString : Decoder.Tame decodeString := by
  intro v s st h
  cases v <;> simp only [decodeString, join_empty st h, join_saveError st h]

theorem tame_decodeBool : Decoder.Tame decodeBool := by
  intro v s st h
  cases v <;> simp only [decodeBool, join_empty st h, join_saveError st h]

theorem tame_decodeInt : Decoder.Tame decodeInt := by
  intro v s st h
  cases v <;> simp only [decodeInt, join_empty st h, join_saveError st h]
  split <;> simp only [join_empty st h, join_saveError st h]

theorem tame_decodeFloat64 : Decoder.Tame decodeFloat64 := by
  intro v s st h
  cases v <;> simp only [decodeFloat64, join_empty st h, join_saveError st h]
  split <;> simp only [join_empty st h, join_saveError st h]

theorem tame_decodeDate : Decoder.Tame decodeDate := by
  intro v s st h
  simp only [decodeDate]
  split <;> simp only [join_empty st h, join_saveError st h]

theorem tame_decodePerformanceMetrics (rt : Runtime) :
    Decoder.Tame (decodePerformanceMetrics rt) := by
  intro v s st h
  simp only [decodePerformanceMetrics]
  split <;> simp only [join_empty st h, join_saveError st h, join_stop]

theorem tame_field {σ α : Type} (get : σ → α) (set : σ → α → σ) (dec : Decoder α)
    (h : Decoder.Tame dec) : Decoder.Tame (field get set dec) := by
  intro v s st hst
  simp only [field]
  rw [h v (get s) st hst]

theorem tame_decodePtr {α : Type} (zero : α) (dec : Decoder α) (h : Decoder.Tame dec) :
    Decoder.Tame (decodePtr zero dec) := by
  intro v s st hst
  cases v <;> simp only [decodePtr, join_empty st hst] <;> rw [h _ _ st hst]

/-- The members of an object, stored by decoders that are tame. -/
theorem tame_decodeMembers {σ : Type} (fields : List (String × Decoder σ))
    (hf : ∀ f ∈ fields, Decoder.Tame f.2) :
    ∀ (ms : List (String × JVal)) (s : σ) (st : Dec), st.halt = none →
      decodeMembers fields ms s st =
        ((decodeMembers fields ms s {}).1, st.join (decodeMembers fields ms s {}).2) := by
  intro ms
  induction ms with
  | nil => intro s st h; simp only [decodeMembers, join_empty st h]
  | cons m rest ih =>
    intro s st h
    obtain ⟨k, v⟩ := m
    have h0 : ({} : Dec).halt = none := rfl
    simp only [decodeMembers, h, h0]
    cases hl : lookupField fields k with
    | none => simp only [hl]; exact ih s st h
    | some dec =>
      simp only [hl]
      obtain ⟨f, hfm, hfd, _⟩ := lookupField_some_mem fields k dec hl
      have ht : Decoder.Tame dec := hfd ▸ hf f hfm
      rw [ht v s st h]
      cases hh : (dec v s {}).2.halt with
      | some e =>
        rw [decodeMembers_halted fields rest _ _ e (by rw [join_halt]; exact hh),
          decodeMembers_halted fields rest _ _ e hh]
      | none =>
        rw [ih _ _ (by rw [join_halt]; exact hh), ih _ (dec v s {}).2 hh, join_join]

theorem tame_decodeStruct {σ : Type} (goType : String) (fields : List (String × Decoder σ))
    (hf : ∀ f ∈ fields, Decoder.Tame f.2) : Decoder.Tame (decodeStruct goType fields) := by
  intro v s st h
  cases v <;> simp only [decodeStruct, join_empty st h, join_saveError st h]
  exact tame_decodeMembers fields hf _ s st h

theorem tame_decodeItems {α : Type} (zero : α) (dec : Decoder α) (hd : Decoder.Tame dec) :
    ∀ (items : List JVal) (old : List α) (st : Dec), st.halt = none →
      decodeItems zero dec items old st =
        ((decodeItems zero dec items old {}).1, (decodeItems zero dec items old {}).2.1,
          st.join (decodeItems zero dec items old {}).2.2) := by
  intro items
  induction items with
  | nil => intro old st h; simp only [decodeItems, join_empty st h]
  | cons v rest ih =>
    intro old st h
    have h0 : ({} : Dec).halt = none := rfl
    simp only [decodeItems, h, h0]
    rw [hd v _ st h]
    cases hh : (dec v (old.headD zero) {}).2.halt with
    | some e =>
      rw [decodeItems_halted zero dec rest _ _ e (by rw [join_halt]; exact hh),
        decodeItems_halted zero dec rest _ _ e hh]
    | none =>
      rw [ih _ _ (by rw [join_halt]; exact hh), ih _ (dec v (old.headD zero) {}).2 hh,
        join_join]

theorem tame_decodeSlice {α : Type} (goType : String) (zero : α) (dec : Decoder α)
    (hd : Decoder.Tame dec) : Decoder.Tame (decodeSlice goType zero dec) := by
  intro v s st h
  cases v <;> simp only [decodeSlice, join_empty st h, join_saveError st h]
  rw [tame_decodeItems zero dec hd _ _ st h]
  simp only [join_halt]
  split
  · rfl
  · split <;> rfl

theorem decodeEntries_halted {β : Type} (zero : β) (dec : Decoder β)
    (ms : List (String × JVal)) (m : GoMap β) (st : Dec) (e : Halt) (h : st.halt = some e) :
    decodeEntries zero dec ms m st = (m, st) := by
  cases ms with
  | nil => rfl
  | cons kv rest =>
    obtain ⟨k, v⟩ := kv
    simp only [decodeEntries, h]

theorem tame_decodeEntries {β : Type} (zero : β) (dec : Decoder β) (hd : Decoder.Tame dec) :
    ∀ (ms : List (String × JVal)) (m : GoMap β) (st : Dec), st.halt = none →
      decodeEntries zero dec ms m st =
        ((decodeEntries zero dec ms m {}).1, st.join (decodeEntries zero dec ms m {}).2) := by
  intro ms
  induction ms with
  | nil => intro m st h; simp only [decodeEntries, join_empty st h]
  | cons kv rest ih =>
    intro m st h
    obtain ⟨k, v⟩ := kv
    have h0 : ({} : Dec).halt = none := rfl
    simp only [decodeEntries, h, h0]
    rw [hd v zero st h]
    simp only [join_halt]
    cases hh : (dec v zero {}).2.halt with
    | some e => rfl
    | none =>
      simp only
      rw [ih _ _ (by rw [join_halt]; exact hh), ih _ (dec v zero {}).2 hh, join_join]

theorem tame_decodeMap {β : Type} (goType : String) (zero : β) (dec : Decoder β)
    (hd : Decoder.Tame dec) : Decoder.Tame (decodeMap goType zero dec) := by
  intro v s st h
  cases v <;> simp only [decodeMap, join_empty st h, join_saveError st h]
  exact tame_decodeEntries zero dec hd _ s st h

theorem tame_nil {σ : Type} : ∀ f ∈ ([] : List (String × Decoder σ)), Decoder.Tame f.2 := by
  intro f hf
  cases hf

theorem tame_cons {σ : Type} (k : String) (dec : Decoder σ) (rest : List (String × Decoder σ))
    (h1 : Decoder.Tame dec) (h2 : ∀ f ∈ rest, Decoder.Tame f.2) :
    ∀ f ∈ (k, dec) :: rest, Decoder.Tame f.2 := by
  intro f hf
  rcases List.mem_cons.mp hf with rfl | hf
  · exact h1
  · exact h2 f hf

theorem tame_append {σ : Type} (a b : List (String × Decoder σ))
    (h1 : ∀ f ∈ a, Decoder.Tame f.2) (h2 : ∀ f ∈ b, Decoder.Tame f.2) :
    ∀ f ∈ a ++ b, Decoder.Tame f.2 := by
  intro f hf
  rcases List.mem_append.mp hf with hf | hf
  · exact h1 f hf
  · exact h2 f hf

theorem tame_lift {σ τ : Type} (get : τ → σ) (set : τ → σ → τ)
    (a : List (String × Decoder σ)) (h : ∀ f ∈ a, Decoder.Tame f.2) :
    ∀ g ∈ a.map (fun f => (f.1, field get set f.2)), Decoder.Tame g.2 := by
  intro g hg
  obtain ⟨f, hf, rfl⟩ := List.mem_map.mp hg
  exact tame_field get set f.2 (h f hf)

/-! ## The decoders of the data model are tame -/

theorem tame_SSLStatus_fields : ∀ f ∈ SSLStatus.fields, Decoder.Tame f.2 := by
  unfold SSLStatus.fields
  repeat
    first
    | exact tame_nil
    | exact tame_decodeString
    | exact tame_decodeBool
    | exact tame_decodeInt
    | exact tame_decodeFloat64
    | exact tame_decodeDate
    | apply tame_append
    | apply tame_lift
    | apply tame_cons
    | apply tame_field
    | apply tame_decodePtr
    | apply tame_decodeSlice
    | apply tame_decodeMap

theorem tame_SSLStatus_decode : Decoder.Tame SSLStatus.decode :=
  tame_decodeStruct _ _ (tame_SSLStatus_fields)

theorem tame_TimingStats_fields : ∀ f ∈ TimingStats.fields, Decoder.Tame f.2 := by
  unfold TimingStats.fields
  repeat
    first
    | exact tame_nil
    | exact tame_decodeString
    | exact tame_decodeBool
    | exact tame_decodeInt
    | exact tame_decodeFloat64
    | exact tame_decodeDate
    | exact tame_SSLStatus_decode
    | apply tame_append
    | apply tame_lift
    | apply tame_cons
    | apply tame_field
    | apply tame_decodePtr
    | apply tame_decodeSlice
    | apply tame_decodeMap

theorem tame_TimingStats_decode : Decoder.Tame TimingStats.decode :=
  tame_decodeStruct _ _ (tame_TimingStats_fields)

theorem tame_ResponseTimeStats_fields : ∀ f ∈ ResponseTimeStats.fields, Decoder.Tame f.2 := by
  unfold ResponseTimeStats.fields
  repeat
    first
    | exact tame_nil
    | exact tame_decodeString
    | exact tame_decodeBool
    | exact tame_decodeInt
    | exact tame_decodeFloat64
    | exact tame_decodeDate
    | exact tame_SSLStatus_decode
    | exact tame_TimingStats_decode
    | apply tame_append
    | apply tame_lift
    | apply tame_cons
    | apply tame_field
    | apply tame_decodePtr
    | apply tame_decodeSlice
    | apply tame_decodeMap

theorem tame_ResponseTimeStats_decode : Decoder.Tame ResponseTimeStats.decode :=
  tame_decodeStruct _ _ (tame_ResponseTimeStats_fields)

theorem tame_RequestStats_fields : ∀ f ∈ RequestStats.fields, Decoder.Tame f.2 := by
  unfold RequestStats.fields
  repeat
    first
    | exact tame_nil
    | exact tame_decodeString
    | exact tame_decodeBool
    | exact tame_decodeInt
    | exact tame_decodeFloat64
    | exact tame_decodeDate
    | exact tame_SSLStatus_decode
    | exact tame_TimingStats_decode
    | exact tame_ResponseTimeStats_decode
    | apply tame_append
    | apply tame_lift
    | apply tame_cons
    | apply tame_field
    | apply tame_decodePtr
    | apply tame_decodeSlice
    | apply tame_decodeMap

theorem tame_RequestStats_decode : Decoder.Tame RequestStats.decode :=
  tame_decodeStruct _ _ (tame_RequestStats_fields)

theorem tame_Metrics_fields : ∀ f ∈ Metrics.fields, Decoder.Tame f.2 := by
  unfold Metrics.fields
  repeat
    first
    | exact tame_nil
    | exact tame_decodeString
    | exact tame_decodeBool
    | exact tame_decodeInt
    | exact tame_decodeFloat64
    | exact tame_decodeDate
    | exact tame_SSLStatus_decode
    | exact tame_TimingStats_decode
    | exact tame_ResponseTimeStats_decode
    | exact tame_RequestStats_decode
    | apply tame_append
    | apply tame_lift
    | apply tame_cons
    | apply tame_field
    | apply tame_decodePtr
    | apply tame_decodeSlice
    | apply tame_decodeMap

theorem tame_Metrics_decode : Decoder.Tame Metrics.decode :=
  tame_decodeStruct _ _ (tame_Metrics_fields)

theorem tame_Check_fields : ∀ f ∈ Check.fields, Decoder.Tame f.2 := by
  unfold Check.fields
  repeat
    first
    | exact tame_nil
    | exact tame_decodeString
    | exact tame_decodeBool
    | exact tame_decodeInt
    | exact tame_decodeFloat64
    | exact tame_decodeDate
    | exact tame_SSLStatus_decode
    | exact tame_TimingStats_decode
    | exact tame_ResponseTimeStats_decode
    | exact tame_RequestStats_decode
    | exact tame_Metrics_decode
    | apply tame_append
    | apply tame_lift
    | apply tame_cons
    | apply tame_field
    | apply tame_decodePtr
    | apply tame_decodeSlice
    | apply tame_decodeMap

theorem tame_Check_decode : Decoder.Tame Check.decode :=
  tame_decodeStruct _ _ (tame_Check_fields)

theorem tame_DowntimeRequest_fields : ∀ f ∈ DowntimeRequest.fields, Decoder.Tame f.2 := by
  unfold DowntimeRequest.fields
  repeat
    first
    | exact tame_nil
    | exact tame_decodeString
    | exact tame_decodeBool
    | exact tame_decodeInt
    | exact tame_decodeFloat64
    | exact tame_decodeDate
    | exact tame_SSLStatus_decode
    | exact tame_TimingStats_decode
    | exact tame_ResponseTimeStats_decode
    | exact tame_RequestStats_decode
    | exact tame_Metrics_decode
    | exact tame_Check_decode
    | apply tame_append
    | apply tame_lift
    | apply tame_cons
    | apply tame_field
    | apply tame_decodePtr
    | apply tame_decodeSlice
    | apply tame_decodeMap

theorem tame_DowntimeRequest_decode : Decoder.Tame DowntimeRequest.decode :=
  tame_decodeStruct _ _ (tame_DowntimeRequest_fields)

theorem tame_DowntimeResponse_fields : ∀ f ∈ DowntimeResponse.fields, Decoder.Tame f.2 := by
  unfold DowntimeResponse.fields
  repeat
    first
    | exact tame_nil
    | exact tame_decodeString
    | exact tame_decodeBool
    | exact tame_decodeInt
    | exact tame_decodeFloat64
    | exact tame_decodeDate
    | exact tame_SSLStatus_decode
    | exact tame_TimingStats_decode
    | exact tame_ResponseTimeStats_decode
    | exact tame_RequestStats_decode
    | exact tame_Metrics_decode
    | exact tame_Check_decode
    | exact tame_DowntimeRequest_decode
    | apply tame_append
    | apply tame_lift
    | apply tame_cons
    | apply tame_field
    | apply tame_decodePtr
    | apply tame_decodeSlice
    | apply tame_decodeMap

theorem tame_DowntimeResponse_decode : Decoder.Tame DowntimeResponse.decode :=
  tame_decodeStruct _ _ (tame_DowntimeResponse_fields)

theorem tame_DowntimeCheck_fields : ∀ f ∈ DowntimeCheck.fields, Decoder.Tame f.2 := by
  unfold DowntimeCheck.fields
  repeat
    first
    | exact tame_nil
    | exact tame_decodeString
    | exact tame_decodeBool
    | exact tame_decodeInt
    | exact tame_decodeFloat64
    | exact tame_decodeDate
    | exact tame_SSLStatus_decode
    | exact tame_TimingStats_decode
    | exact tame_ResponseTimeStats_decode
    | exact tame_RequestStats_decode
    | exact tame_Metrics_decode
    | exact tame_Check_decode
    | exact tame_DowntimeRequest_decode
    | exact tame_DowntimeResponse_decode
    | apply tame_append
    | apply tame_lift
    | apply tame_cons
    | apply tame_field
    | apply tame_decodePtr
    | apply tame_decodeSlice
    | apply tame_decodeMap

theorem tame_DowntimeCheck_decode : Decoder.Tame DowntimeCheck.decode :=
  tame_decodeStruct _ _ (tame_DowntimeCheck_fields)

theorem tame_Downtime_fields : ∀ f ∈ Downtime.fields, Decoder.Tame f.2 := by
  unfold Downtime.fields
  repeat
    first
    | exact tame_nil
    | exact tame_decodeString
    | exact tame_decodeBool
    | exact tame_decodeInt
    | exact tame_decodeFloat64
    | exact tame_decodeDate
    | exact tame_SSLStatus_decode
    | exact tame_TimingStats_decode
    | exact tame_ResponseTimeStats_decode
    | exact tame_RequestStats_decode
    | exact tame_Metrics_decode
    | exact tame_Check_decode
    | exact tame_DowntimeRequest_decode
    | exact tame_DowntimeResponse_decode
    | exact tame_DowntimeCheck_decode
    | apply tame_append
    | apply tame_lift
    | apply tame_cons
    | apply tame_field
    | apply tame_decodePtr
    | apply tame_decodeSlice
    | apply tame_decodeMap

theorem tame_Downtime_decode : Decoder.Tame Downtime.decode :=
  tame_decodeStruct _ _ (tame_Downtime_fields)

theorem tame_Cert_fields : ∀ f ∈ Cert.fields, Decoder.Tame f.2 := by
  unfold Cert.fields
  repeat
    first
    | exact tame_nil
    | exact tame_decodeString
    | exact tame_decodeBool
    | exact tame_decodeInt
    | exact tame_decodeFloat64
    | exact tame_decodeDate
    | exact tame_SSLStatus_decode
    | exact tame_TimingStats_decode
    | exact tame_ResponseTimeStats_decode
    | exact tame_RequestStats_decode
    | exact tame_Metrics_decode
    | exact tame_Check_decode
    | exact tame_DowntimeRequest_decode
    | exact tame_DowntimeResponse_decode
    | exact tame_DowntimeCheck_decode
    | exact tame_Downtime_decode
    | apply tame_append
    | apply tame_lift
    | apply tame_cons
    | apply tame_field
    | apply tame_decodePtr
    | apply tame_decodeSlice
    | apply tame_decodeMap

theorem tame_Cert_decode : Decoder.Tame Cert.decode :=
  tame_decodeStruct _ _ (tame_Cert_fields)

theorem tame_SSL_fields : ∀ f ∈ SSL.fields, Decoder.Tame f.2 := by
  unfold SSL.fields
  repeat
    first
    | exact tame_nil
    | exact tame_decodeString
    | exact tame_decodeBool
    | exact tame_decodeInt
    | exact tame_decodeFloat64
    | exact tame_decodeDate
    | exact tame_SSLStatus_decode
    | exact tame_TimingStats_decode
    | exact tame_ResponseTimeStats_decode
    | exact tame_RequestStats_decode
    | exact tame_Metrics_decode
    | exact tame_Check_decode
    | exact tame_DowntimeRequest_decode
    | exact tame_DowntimeResponse_decode
    | exact tame_DowntimeCheck_decode
    | exact tame_Downtime_decode
    | exact tame_Cert_decode
    | apply tame_append
    | apply tame_lift
    | apply tame_cons
    | apply tame_field
    | apply tame_decodePtr
    | apply tame_decodeSlice
    | apply tame_decodeMap

theorem tame_SSL_decode : Decoder.Tame SSL.decode :=
  tame_decodeStruct _ _ (tame_SSL_fields)

theorem tame_SSLRenew_fields : ∀ f ∈ SSLRenew.fields, Decoder.Tame f.2 := by
  unfold SSLRenew.fields
  repeat
    first
    | exact tame_nil
    | exact tame_decodeString
    | exact tame_decodeBool
    | exact tame_decodeInt
    | exact tame_decodeFloat64
    | exact tame_decodeDate
    | exact tame_SSLStatus_decode
    | exact tame_TimingStats_decode
    | exact tame_ResponseTimeStats_decode
    | exact tame_RequestStats_decode
    | exact tame_Metrics_decode
    | exact tame_Check_decode
    | exact tame_DowntimeRequest_decode
    | exact tame_DowntimeResponse_decode
    | exact tame_DowntimeCheck_decode
    | exact tame_Downtime_decode
    | exact tame_Cert_decode
    | exact tame_SSL_decode
    | apply tame_append
    | apply tame_lift
    | apply tame_cons
    | apply tame_field
    | apply tame_decodePtr
    | apply tame_decodeSlice
    | apply tame_decodeMap

theorem tame_SSLRenew_decode : Decoder.Tame SSLRenew.decode :=
  tame_decodeStruct _ _ (tame_SSLRenew_fields)

theorem tame_Event_fields : ∀ f ∈ Event.fields, Decoder.Tame f.2 := by
  unfold Event.fields
  repeat
    first
    | exact tame_nil
    | exact tame_decodeString
    | exact tame_decodeBool
    | exact tame_decodeInt
    | exact tame_decodeFloat64
    | exact tame_decodeDate
    | exact tame_SSLStatus_decode
    | exact tame_TimingStats_decode
    | exact tame_ResponseTimeStats_decode
    | exact tame_RequestStats_decode
    | exact tame_Metrics_decode
    | exact tame_Check_decode
    | exact tame_DowntimeRequest_decode
    | exact tame_DowntimeResponse_decode
    | exact tame_DowntimeCheck_decode
    | exact tame_Downtime_decode
    | exact tame_Cert_decode
    | exact tame_SSL_decode
    | exact tame_SSLRenew_decode
    | apply tame_append
    | apply tame_lift
    | apply tame_cons
    | apply tame_field
    | apply tame_decodePtr
    | apply tame_decodeSlice
    | apply tame_decodeMap

theorem tame_Event_decode : Decoder.Tame Event.decode :=
  tame_decodeStruct _ _ (tame_Event_fields)

theorem tame_EventDown_fields : ∀ f ∈ EventDown.fields, Decoder.Tame f.2 := by
  unfold EventDown.fields
  repeat
    first
    | exact tame_nil
    | exact tame_decodeString
    | exact tame_decodeBool
    | exact tame_decodeInt
    | exact tame_decodeFloat64
    | exact tame_decodeDate
    | exact tame_SSLStatus_decode
    | exact tame_TimingStats_decode
    | exact tame_ResponseTimeStats_decode
    | exact tame_RequestStats_decode
    | exact tame_Metrics_decode
    | exact tame_Check_decode
    | exact tame_DowntimeRequest_decode
    | exact tame_DowntimeResponse_decode
    | exact tame_DowntimeCheck_decode
    | exact tame_Downtime_decode
    | exact tame_Cert_decode
    | exact tame_SSL_decode
    | exact tame_SSLRenew_decode
    | exact tame_Event_decode
    | exact tame_Event_fields
    | apply tame_append
    | apply tame_lift
    | apply tame_cons
    | apply tame_field
    | apply tame_decodePtr
    | apply tame_decodeSlice
    | apply tame_decodeMap

theorem tame_EventDown_decode : Decoder.Tame EventDown.decode :=
  tame_decodeStruct _ _ (tame_EventDown_fields)

theorem tame_EventUp_fields : ∀ f ∈ EventUp.fields, Decoder.Tame f.2 := by
  unfold EventUp.fields
  repeat
    first
    | exact tame_nil
    | exact tame_decodeString
    | exact tame_decodeBool
    | exact tame_decodeInt
    | exact tame_decodeFloat64
    | exact tame_decodeDate
    | exact tame_SSLStatus_decode
    | exact tame_TimingStats_decode
    | exact tame_ResponseTimeStats_decode
    | exact tame_RequestStats_decode
    | exact tame_Metrics_decode
    | exact tame_Check_decode
    | exact tame_DowntimeRequest_decode
    | exact tame_DowntimeResponse_decode
    | exact tame_DowntimeCheck_decode
    | exact tame_Downtime_decode
    | exact tame_Cert_decode
    | exact tame_SSL_decode
    | exact tame_SSLRenew_decode
    | exact tame_Event_decode
    | exact tame_EventDown_decode
    | exact tame_Event_fields
    | apply tame_append
    | apply tame_lift
    | apply tame_cons
    | apply tame_field
    | apply tame_decodePtr
    | apply tame_decodeSlice
    | apply tame_decodeMap

theorem tame_EventUp_decode : Decoder.Tame EventUp.decode :=
  tame_decodeStruct _ _ (tame_EventUp_fields)

theorem tame_EventSSLInvalid_fields : ∀ f ∈ EventSSLInvalid.fields, Decoder.Tame f.2 := by
  unfold EventSSLInvalid.fields
  repeat
    first
    | exact tame_nil
    | exact tame_decodeString
    | exact tame_decodeBool
    | exact tame_decodeInt
    | exact tame_decodeFloat64
    | exact tame_decodeDate
    | exact tame_SSLStatus_decode
    | exact tame_TimingStats_decode
    | exact tame_ResponseTimeStats_decode
    | exact tame_RequestStats_decode
    | exact tame_Metrics_decode
    | exact tame_Check_decode
    | exact tame_DowntimeRequest_decode
    | exact tame_DowntimeResponse_decode
    | exact tame_DowntimeCheck_decode
    | exact tame_Downtime_decode
    | exact tame_Cert_decode
    | exact tame_SSL_decode
    | exact tame_SSLRenew_decode
    | exact tame_Event_decode
    | exact tame_EventDown_decode
    | exact tame_EventUp_decode
    | exact tame_Event_fields
    | apply tame_append
    | apply tame_lift
    | apply tame_cons
    | apply tame_field
    | apply tame_decodePtr
    | apply tame_decodeSlice
    | apply tame_decodeMap

theorem tame_EventSSLInvalid_decode : Decoder.Tame EventSSLInvalid.decode :=
  tame_decodeStruct _ _ (tame_EventSSLInvalid_fields)

theorem tame_EventSSLValid_fields : ∀ f ∈ EventSSLValid.fields, Decoder.Tame f.2 := by
  unfold EventSSLValid.fields
  repeat
    first
    | exact tame_nil
    | exact tame_decodeString
    | exact tame_decodeBool
    | exact tame_decodeInt
    | exact tame_decodeFloat64
    | exact tame_decodeDate
    | exact tame_SSLStatus_decode
    | exact tame_TimingStats_decode
    | exact tame_ResponseTimeStats_decode
    | exact tame_RequestStats_decode
    | exact tame_Metrics_decode
    | exact tame_Check_decode
    | exact tame_DowntimeRequest_decode
    | exact tame_DowntimeResponse_decode
    | exact tame_DowntimeCheck_decode
    | exact tame_Downtime_decode
    | exact tame_Cert_decode
    | exact tame_SSL_decode
    | exact tame_SSLRenew_decode
    | exact tame_Event_decode
    | exact tame_EventDown_decode
    | exact tame_EventUp_decode
    | exact tame_EventSSLInvalid_decode
    | exact tame_Event_fields
    | apply tame_append
    | apply tame_lift
    | apply tame_cons
    | apply tame_field
    | apply tame_decodePtr
    | apply tame_decodeSlice
    | apply tame_decodeMap

theorem tame_EventSSLValid_decode : Decoder.Tame EventSSLValid.decode :=
  tame_decodeStruct _ _ (tame_EventSSLValid_fields)

theorem tame_EventSSLExpiration_fields : ∀ f ∈ EventSSLExpiration.fields, Decoder.Tame f.2 := by
  unfold EventSSLExpiration.fields
  repeat
    first
    | exact tame_nil
    | exact tame_decodeString
    | exact tame_decodeBool
    | exact tame_decodeInt
    | exact tame_decodeFloat64
    | exact tame_decodeDate
    | exact tame_SSLStatus_decode
    | exact tame_TimingStats_decode
    | exact tame_ResponseTimeStats_decode
    | exact tame_RequestStats_decode
    | exact tame_Metrics_decode
    | exact tame_Check_decode
    | exact tame_DowntimeRequest_decode
    | exact tame_DowntimeResponse_decode
    | exact tame_DowntimeCheck_decode
    | exact tame_Downtime_decode
    | exact tame_Cert_decode
    | exact tame_SSL_decode
    | exact tame_SSLRenew_decode
    | exact tame_Event_decode
    | exact tame_EventDown_decode
    | exact tame_EventUp_decode
    | exact tame_EventSSLInvalid_decode
    | exact tame_EventSSLValid_decode
    | exact tame_Event_fields
    | apply tame_append
    | apply tame_lift
    | apply tame_cons
    | apply tame_field
    | apply tame_decodePtr
    | apply tame_decodeSlice
    | apply tame_decodeMap

theorem tame_EventSSLExpiration_decode : Decoder.Tame EventSSLExpiration.decode :=
  tame_decodeStruct _ _ (tame_EventSSLExpiration_fields)

theorem tame_EventSSLRenewed_fields : ∀ f ∈ EventSSLRenewed.fields, Decoder.Tame f.2 := by
  unfold EventSSLRenewed.fields
  repeat
    first
    | exact tame_nil
    | exact tame_decodeString
    | exact tame_decodeBool
    | exact tame_decodeInt
    | exact tame_decodeFloat64
    | exact tame_decodeDate
    | exact tame_SSLStatus_decode
    | exact tame_TimingStats_decode
    | exact tame_ResponseTimeStats_decode
    | exact tame_RequestStats_decode
    | exact tame_Metrics_decode
    | exact tame_Check_decode
    | exact tame_DowntimeRequest_decode
    | exact tame_DowntimeResponse_decode
    | exact tame_DowntimeCheck_decode
    | exact tame_Downtime_decode
    | exact tame_Cert_decode
    | exact tame_SSL_decode
    | exact tame_SSLRenew_decode
    | exact tame_Event_decode
    | exact tame_EventDown_decode
    | exact tame_EventUp_decode
    | exact tame_EventSSLInvalid_decode
    | exact tame_EventSSLValid_decode
    | exact tame_EventSSLExpiration_decode
    | exact tame_Event_fields
    | apply tame_append
    | apply tame_lift
    | apply tame_cons
    | apply tame_field
    | apply tame_decodePtr
    | apply tame_decodeSlice
    | apply tame_decodeMap

theorem tame_EventSSLRenewed_decode : Decoder.Tame EventSSLRenewed.decode :=
  tame_decodeStruct _ _ (tame_EventSSLRenewed_fields)

theorem tame_basicEvent_fields : ∀ f ∈ basicEvent.fields, Decoder.Tame f.2 := by
  unfold basicEvent.fields
  repeat
    first
    | exact tame_nil
    | exact tame_decodeString
    | exact tame_decodeBool
    | exact tame_decodeInt
    | exact tame_decodeFloat64
    | exact tame_decodeDate
    | exact tame_SSLStatus_decode
    | exact tame_TimingStats_decode
    | exact tame_ResponseTimeStats_decode
    | exact tame_RequestStats_decode
    | exact tame_Metrics_decode
    | exact tame_Check_decode
    | exact tame_DowntimeRequest_decode
    | exact tame_DowntimeResponse_decode
    | exact tame_DowntimeCheck_decode
    | exact tame_Downtime_decode
    | exact tame_Cert_decode
    | exact tame_SSL_decode
    | exact tame_SSLRenew_decode
    | exact tame_Event_decode
    | exact tame_EventDown_decode
    | exact tame_EventUp_decode
    | exact tame_EventSSLInvalid_decode
    | exact tame_EventSSLValid_decode
    | exact tame_EventSSLExpiration_decode
    | exact tame_EventSSLRenewed_decode
    | exact tame_Event_fields
    | apply tame_append
    | apply tame_lift
    | apply tame_cons
    | apply tame_field
    | apply tame_decodePtr
    | apply tame_decodeSlice
    | apply tame_decodeMap

theorem tame_basicEvent_decode : Decoder.Tame basicEvent.decode :=
  tame_decodeStruct _ _ (tame_basicEvent_fields)

theorem tame_apdexInfo_fields : ∀ f ∈ apdexInfo.fields, Decoder.Tame f.2 := by
  unfold apdexInfo.fields
  repeat
    first
    | exact tame_nil
    | exact tame_decodeString
    | exact tame_decodeBool
    | exact tame_decodeInt
    | exact tame_decodeFloat64
    | exact tame_decodeDate
    | exact tame_SSLStatus_decode
    | exact tame_TimingStats_decode
    | exact tame_ResponseTimeStats_decode
    | exact tame_RequestStats_decode
    | exact tame_Metrics_decode
    | exact tame_Check_decode
    | exact tame_DowntimeRequest_decode
    | exact tame_DowntimeResponse_decode
    | exact tame_DowntimeCheck_decode
    | exact tame_Downtime_decode
    | exact tame_Cert_decode
    | exact tame_SSL_decode
    | exact tame_SSLRenew_decode
    | exact tame_Event_decode
    | exact tame_EventDown_decode
    | exact tame_EventUp_decode
    | exact tame_EventSSLInvalid_decode
    | exact tame_EventSSLValid_decode
    | exact tame_EventSSLExpiration_decode
    | exact tame_EventSSLRenewed_decode
    | exact tame_basicEvent_decode
    | exact tame_Event_fields
    | apply tame_append
    | apply tame_lift
    | apply tame_cons
    | apply tame_field
    | apply tame_decodePtr
    | apply tame_decodeSlice
    | apply tame_decodeMap

theorem tame_apdexInfo_decode : Decoder.Tame apdexInfo.decode :=
  tame_decodeStruct _ _ (tame_apdexInfo_fields)

theorem tame_EventPerformanceDrop_fields (rt : Runtime) : ∀ f ∈ (EventPerformanceDrop.fields rt), Decoder.Tame f.2 := by
  unfold EventPerformanceDrop.fields
  repeat
    first
    | exact tame_nil
    | exact tame_decodeString
    | exact tame_decodeBool
    | exact tame_decodeInt
    | exact tame_decodeFloat64
    | exact tame_decodeDate
    | exact tame_decodePerformanceMetrics rt
    | exact tame_SSLStatus_decode
    | exact tame_TimingStats_decode
    | exact tame_ResponseTimeStats_decode
    | exact tame_RequestStats_decode
    | exact tame_Metrics_decode
    | exact tame_Check_decode
    | exact tame_DowntimeRequest_decode
    | exact tame_DowntimeResponse_decode
    | exact tame_DowntimeCheck_decode
    | exact tame_Downtime_decode
    | exact tame_Cert_decode
    | exact tame_SSL_decode
    | exact tame_SSLRenew_decode
    | exact tame_Event_decode
    | exact tame_EventDown_decode
    | exact tame_EventUp_decode
    | exact tame_EventSSLInvalid_decode
    | exact tame_EventSSLValid_decode
    | exact tame_EventSSLExpiration_decode
    | exact tame_EventSSLRenewed_decode
    | exact tame_basicEvent_decode
    | exact tame_apdexInfo_decode
    | exact tame_Event_fields
    | apply tame_append
    | apply tame_lift
    | apply tame_cons
    | apply tame_field
    | apply tame_decodePtr
    | apply tame_decodeSlice
    | apply tame_decodeMap

theorem tame_EventPerformanceDrop_decode (rt : Runtime) : Decoder.Tame (EventPerformanceDrop.decode rt) :=
  tame_decodeStruct _ _ (tame_EventPerformanceDrop_fields rt)

theorem tame_decodeAny (rt : Runtime) : Decoder.Tame (decodeAny rt) := by
  intro v s st h
  have t1 := tame_EventDown_decode v
  have t2 := tame_EventUp_decode v
  have t3 := tame_EventSSLInvalid_decode v
  have t4 := tame_EventSSLValid_decode v
  have t5 := tame_EventSSLRenewed_decode v
  have t6 := tame_EventSSLExpiration_decode v
  have t7 := tame_EventPerformanceDrop_decode rt v
  cases s <;> cases v <;> simp only [decodeAny, join_empty st h] <;>
    first
    | rw [t1 _ st h]
    | rw [t2 _ st h]
    | rw [t3 _ st h]
    | rw [t4 _ st h]
    | rw [t5 _ st h]
    | rw [t6 _ st h]
    | rw [t7 _ st h]
    | (split <;> simp only [join_empty st h, join_saveError st h])

theorem tame_decodeEvents (rt : Runtime) : Decoder.Tame (decodeEvents rt) :=
  tame_decodeSlice _ _ _ (tame_decodeAny rt)

/-! ## What a tame decoder leaves, read off a run from the empty state -/

theorem tame_value {α : Type} (dec : Decoder α) (hd : Decoder.Tame dec) (v : JVal) (s : α)
    (st : Dec) (h : st.halt = none) : (dec v s st).1 = (dec v s {}).1 := by
  rw [hd v s st h]

theorem tame_halt {α : Type} (dec : Decoder α) (hd : Decoder.Tame dec) (v : JVal) (s : α)
    (st : Dec) (h : st.halt = none) : (dec v s st).2.halt = (dec v s {}).2.halt := by
  rw [hd v s st h]
  rfl

/-- A tame decoder keeps a recorded error: when it leaves none, there was none before it,
and it records none when started in the empty state. -/
theorem tame_saved {α : Type} (dec : Decoder α) (hd : Decoder.Tame dec) (v : JVal) (s : α)
    (st : Dec) (h : st.halt = none) (hs : (dec v s st).2.savedError = none) :
    st.savedError = none ∧ (dec v s {}).2.savedError = none := by
  rw [hd v s st h] at hs
  exact join_saved_none _ _ hs

theorem decodeMembers_saved {σ : Type} (fields : List (String × Decoder σ))
    (hf : ∀ f ∈ fields, Decoder.Tame f.2) (ms : List (String × JVal)) (s : σ) (st : Dec)
    (h : st.halt = none) (hs : (decodeMembers fields ms s st).2.savedError = none) :
    st.savedError = none := by
  rw [tame_decodeMembers fields hf ms s st h] at hs
  exact (join_saved_none _ _ hs).1

/-- The element at an index of an array whose decoding was not stopped, by a tame decoder:
it is what the decoder stores from the empty state, the decoder does not stop on it, and it
records no error on it when the whole decoding leaves none. -/
theorem decodeItems_tame_get {α : Type} (zero : α) (dec : Decoder α) (hd : Decoder.Tame dec) :
    ∀ (items : List JVal) (old : List α) (st : Dec), st.halt = none →
      (decodeItems zero dec items old st).2.2.halt = none →
      ∀ (i : Nat) (w : JVal), items[i]? = some w →
        (decodeItems zero dec items old st).1[i]? = some (dec w (old.getD i zero) {}).1 ∧
          (dec w (old.getD i zero) {}).2.halt = none ∧
          ((decodeItems zero dec items old st).2.2.savedError = none →
            (dec w (old.getD i zero) {}).2.savedError = none) := by
  intro items
  induction items with
  | nil => intro old st _ _ i w hi; simp at hi
  | cons v rest ih =>
    intro old st hst hrun i w hi
    simp only [decodeItems, hst] at hrun ⊢
    have hr : (dec v (old.headD zero) st).2.halt = none := by
      cases hh : (dec v (old.headD zero) st).2.halt with
      | none => rfl
      | some e =>
        rw [decodeItems_halted zero dec rest _ _ e hh] at hrun
        rw [hh] at hrun
        exact absurd hrun (by simp)
    have hsaved : (decodeItems zero dec rest old.tail (dec v (old.headD zero) st).2).2.2.savedError
        = none → (dec v (old.headD zero) {}).2.savedError = none := by
      intro hs
      rw [tame_decodeItems zero dec hd rest old.tail _ hr] at hs
      exact (tame_saved dec hd v _ st hst (join_saved_none _ _ hs).1).2
    cases i with
    | zero =>
      simp only [List.getElem?_cons_zero, Option.some.injEq] at hi
      subst hi
      have hg : old.getD 0 zero = old.headD zero := by cases old <;> rfl
      rw [hg]
      refine ⟨?_, ?_, hsaved⟩
      · simp only [List.getElem?_cons_zero]
        rw [tame_value dec hd v _ st hst]
      · rw [← tame_halt dec hd v _ st hst]
        exact hr
    | succ j =>
      simp only [List.getElem?_cons_succ] at hi
      have hg : old.getD (j + 1) zero = old.tail.getD j zero := by cases old <;> simp
      rw [hg]
      obtain ⟨h1, h2, h3⟩ := ih old.tail _ hr hrun j w hi
      exact ⟨by simpa using h1, h2, h3⟩

/-- The value of `events` at an index after a second pass that was not stopped: it is what
`decodeAny` stores from the empty state, `decodeAny` does not stop on the element, and it
records no error on it when the pass leaves none. -/
theorem decodeEvents_tame_get (rt : Runtime) (v : JVal) (events : List AnyEvent)
    (hrun : (decodeEvents rt v ⟨events, events.length⟩ {}).2.halt = none) (i : Nat) (w : JVal)
    (hi : (elements v)[i]? = some w) :
    (decodeEvents rt v ⟨events, events.length⟩ {}).1.elems[i]? =
        some (decodeAny rt w (events.getD i .nil) {}).1 ∧
      (decodeAny rt w (events.getD i .nil) {}).2.halt = none ∧
      ((decodeEvents rt v ⟨events, events.length⟩ {}).2.savedError = none →
        (decodeAny rt w (events.getD i .nil) {}).2.savedError = none) := by
  cases v with
  | arr raw items =>
    simp only [elements] at hi
    have hlt : i < items.length := by
      rcases Nat.lt_or_ge i items.length with h | h
      · exact h
      · rw [List.getElem?_eq_none h] at hi; simp at hi
    have e : decodeEvents rt (.arr raw items) ⟨events, events.length⟩ {} =
        (match (decodeItems .nil (decodeAny rt) items events {}).2.2.halt with
          | some _ => (⟨(decodeItems .nil (decodeAny rt) items events {}).1,
              max events.length (decodeItems .nil (decodeAny rt) items events {}).2.1⟩,
              (decodeItems .nil (decodeAny rt) items events {}).2.2)
          | none =>
            if (decodeItems .nil (decodeAny rt) items events {}).2.1 = 0 then
              ({}, (decodeItems .nil (decodeAny rt) items events {}).2.2)
            else (⟨(decodeItems .nil (decodeAny rt) items events {}).1,
              (decodeItems .nil (decodeAny rt) items events {}).2.1⟩,
              (decodeItems .nil (decodeAny rt) items events {}).2.2)) := rfl
    rw [e] at hrun ⊢
    cases hh : (decodeItems .nil (decodeAny rt) items events {}).2.2.halt with
    | some x =>
      simp only [hh] at hrun
      simp at hrun
    | none =>
      have hc := decodeItems_count_of_running .nil (decodeAny rt) items events {} hh
      obtain ⟨h1, h2, h3⟩ :=
        decodeItems_tame_get .nil (decodeAny rt) (tame_decodeAny rt) items events {} rfl hh
          i w hi
      refine ⟨?_, h2, ?_⟩
      · simp only [hc, if_neg (by omega : ¬ items.length = 0), GoSlice.elems]
        rw [List.getElem?_take_of_lt hlt]
        exact h1
      · simp only [hc, if_neg (by omega : ¬ items.length = 0)]
        exact h3
  | null => simp [elements] at hi
  | bool b => simp [elements] at hi
  | num l => simp [elements] at hi
  | str r x => simp [elements] at hi
  | obj r x => simp [elements] at hi

/-! ## ParseWebhook: the payload of an element -/

theorem secondPass_some (rt : Runtime) (data : List Char) (decoded : GoSlice AnyEvent)
    (err : Option GoError) (h : secondPass rt data = some (.ok (decoded, err))) :
    ∃ v, parseJSON data = .ok v ∧ (∀ w ∈ elements v, isEventObject w = true) ∧
      decoded = (decodeEvents rt v
        ⟨(elements v).map (fun w => newEvent (eventKind w)), (elements v).length⟩ {}).1 ∧
      (decodeEvents rt v
        ⟨(elements v).map (fun w => newEvent (eventKind w)), (elements v).length⟩ {}).2.halt
          = none ∧
      err = (decodeEvents rt v
        ⟨(elements v).map (fun w => newEvent (eventKind w)), (elements v).length⟩
          {}).2.savedError ∧
      ParseWebhook rt data = .ok (envelopes (elements v) decoded.elems, none) := by
  cases hp : parseJSON data with
  | error m => simp [secondPass, jsonUnmarshal, hp] at h
  | ok v =>
    obtain ⟨f1, f2, _⟩ := firstPass_ok v
    unfold secondPass at h
    unfold ParseWebhook
    rw [jsonUnmarshal_of_parse _ _ _ _ hp, f1] at h ⊢
    cases hs : (decodeTypes v {} {}).2.savedError with
    | some e => simp [hs] at h
    | none =>
      obtain ⟨g1, g2⟩ := f2 hs
      simp only [hs, g2] at h ⊢
      cases hn : newEvents ((elements v).map firstPassEntry) [] with
      | panic => simp [hn] at h
      | ok events =>
        obtain ⟨n1, n2⟩ := newEvents_ok _ _ _ hn
        simp only [List.nil_append] at n2
        simp only [hn, Option.some.injEq] at h ⊢
        rw [jsonUnmarshal_of_parse _ _ _ _ hp] at h ⊢
        have hl : (elements v).length = events.length := by simp [n2]
        have hsh := decodeEvents_shape rt v events {} n1 hl
        have hty : (elements v).map firstPassEntry =
            (elements v).map (fun w => some ⟨eventKind w⟩) :=
          List.map_congr_left (fun w hw => firstPassEntry_of_ne_null (n1 w hw))
        have hl2 : (elements v).length =
            ((decodeEvents rt v ⟨events, events.length⟩ {}).1.elems).length := by
          have := congrArg List.length hsh
          simp only [List.length_map] at this
          omega
        have hc := collect_eq (elements v) []
          ((decodeEvents rt v ⟨events, events.length⟩ {}).1.elems) [] hl2
        simp only [List.length_nil, List.nil_append] at hc
        have hev : (⟨(elements v).map (fun w => newEvent (eventKind w)), (elements v).length⟩ :
            GoSlice AnyEvent) = ⟨events, events.length⟩ := by
          rw [hl, n2]
        refine ⟨v, rfl, ?_, ?_⟩
        · intro w hw
          have : firstPassOk w = true := (List.all_eq_true.mp g1) w hw
          exact firstPassOk_of_ne_null (n1 w hw) this
        · rw [hev, hty]
          cases hh : (decodeEvents rt v ⟨events, events.length⟩ {}).2.halt with
          | some x =>
            cases x with
            | panic => simp [hh] at h
          | none =>
            simp only [hh, Ret.ok.injEq, Prod.mk.injEq] at h
            obtain ⟨h1, h2⟩ := h
            subst h1
            exact ⟨rfl, rfl, h2.symm, by simp only [hc]⟩

theorem mem_envelopes (items : List JVal) (events : List AnyEvent) (i : Nat) (w : JVal)
    (e : AnyEvent) (hw : items[i]? = some w) (he : events[i]? = some e)
    (hk : isKnown (eventKind w) = true) :
    (⟨eventKind w, e⟩ : WebhookEvent) ∈ envelopes items events := by
  have hz : (items.zip events)[i]? = some (w, e) := by
    rw [List.getElem?_zip_eq_some]
    exact ⟨hw, he⟩
  have hm : (w, e) ∈ items.zip events := List.getElem?_mem hz
  unfold envelopes
  rw [List.mem_filterMap]
  exact ⟨(w, e), hm, by simp [hk]⟩

theorem secondPassClean_some (rt : Runtime) (data : List Char)
    (h : secondPassClean rt data = true) :
    ∃ decoded, secondPass rt data = some (.ok (decoded, none)) ∧
      secondPassEvents rt data = decoded.elems := by
  unfold secondPassClean at h
  unfold secondPassEvents
  split at h
  · rename_i decoded hs
    exact ⟨decoded, hs, by rw [hs]⟩
  · simp at h

/-- What a second pass without error leaves for an element of the array: `ParseWebhook`
returns no error, and the value at the index of the element was decoded from the element
into a fresh struct of its kind, in a run that was not stopped before the element nor by it
and recorded no error on it, and is in the envelope of the element when the kind is known. -/
theorem secondPass_element (rt : Runtime) (data : List Char)
    (h : secondPassClean rt data = true) (i : Nat) (w : JVal)
    (hi : (elementsOf data)[i]? = some w) :
    ParseWebhook rt data =
        .ok (envelopes (elementsOf data) (secondPassEvents rt data), none) ∧
      w ≠ .null ∧
      ∃ st1 : Dec, st1.halt = none ∧
        (decodeAny rt w (newEvent (eventKind w)) st1).2.halt = none ∧
        (secondPassEvents rt data)[i]? = some (decodeAny rt w (newEvent (eventKind w)) st1).1 ∧
        (isKnown (eventKind w) = true →
          (⟨eventKind w, (decodeAny rt w (newEvent (eventKind w)) st1).1⟩ : WebhookEvent) ∈
            envelopes (elementsOf data) (secondPassEvents rt data)) ∧
        (decodeAny rt w (newEvent (eventKind w)) st1).2.savedError = none := by
  obtain ⟨decoded, hs, he⟩ := secondPassClean_some rt data h
  obtain ⟨v, hp, hobj, hd, hrun, herr, hpw⟩ := secondPass_some rt data decoded none hs
  have hel : elementsOf data = elements v := by simp [elementsOf, hp]
  rw [hel] at hi ⊢
  rw [he]
  have hlen : ((elements v).map (fun w => newEvent (eventKind w))).length =
      (elements v).length := List.length_map _ _
  rw [← hlen] at hrun hd herr
  obtain ⟨h1, h2, h3⟩ := decodeEvents_tame_get rt v _ hrun i w hi
  have hg : ((elements v).map (fun w => newEvent (eventKind w))).getD i .nil =
      newEvent (eventKind w) := by
    simp [List.getD, List.getElem?_map, hi]
  rw [hg] at h1 h2 h3
  rw [← hd] at h1
  refine ⟨hpw, isEventObject_ne_null (hobj w (List.getElem?_mem hi)), {}, rfl, h2, h1, ?_,
    h3 herr.symm⟩
  intro hk
  exact mem_envelopes (elements v) decoded.elems i w _ hi h1 hk

/-- A call of `ParseWebhook` that returns without an error got to its second pass, and the
pass returned. -/
theorem ParseWebhook_second_pass (rt : Runtime) (data : List Char) (result : Webhook)
    (h : ParseWebhook rt data = .ok (result, none)) :
    ∃ decoded err, secondPass rt data = some (.ok (decoded, err)) := by
  unfold ParseWebhook at h
  unfold secondPass
  cases h1 : jsonUnmarshal decodeTypes data {} with
  | panic => simp [h1] at h
  | ok p =>
    obtain ⟨types, e⟩ := p
    cases e with
    | some err => simp [h1] at h
    | none =>
      simp only [h1] at h ⊢
      cases h2 : newEvents types.elems [] with
      | panic => simp [h2] at h
      | ok events =>
        simp only [h2] at h ⊢
        cases h3 : jsonUnmarshal (decodeEvents rt) data ⟨events, events.length⟩ with
        | panic => simp [h3] at h
        | ok q => exact ⟨q.1, q.2, rfl⟩

/-- The envelopes over values that are each a function of the element at their index: one
per element of a known kind, in the order of the array. -/
theorem envelopes_of_get (f : JVal → AnyEvent) :
    ∀ (items : List JVal) (events : List AnyEvent),
      (∀ (i : Nat) (w : JVal), items[i]? = some w → events[i]? = some (f w)) →
      envelopes items events =
        (items.filter (fun w => isKnown (eventKind w))).map
          (fun w => (⟨eventKind w, f w⟩ : WebhookEvent)) := by
  intro items
  induction items with
  | nil => intro events _; simp [envelopes]
  | cons w rest ih =>
    intro events h
    cases events with
    | nil =>
      have h0 := h 0 w (by simp)
      simp at h0
    | cons e tl =>
      have h0 := h 0 w (by simp)
      simp only [List.getElem?_cons_zero, Option.some.injEq] at h0
      subst h0
      have hrest := ih tl (fun i w1 hi => by
        have := h (i + 1) w1 (by simpa using hi)
        simpa using this)
      unfold envelopes at hrest ⊢
      by_cases hk : isKnown (eventKind w) = true
      · simp [List.filter_cons, hk, hrest]
      · simp [List.filter_cons, hk, hrest]

/-- What a call of `ParseWebhook` that returns without an error returns: one envelope per
element of a known kind, in the order of the array, with the kind of the element and the
payload the element decodes to on its own. No element is null, and none stops the
decoder. -/
theorem ParseWebhook_elements (rt : Runtime) (data : List Char) (result : Webhook)
    (h : ParseWebhook rt data = .ok (result, none)) :
    result =
        ((elementsOf data).filter (fun w => isKnown (eventKind w))).map
          (fun w => (⟨eventKind w, payloadOf rt w⟩ : WebhookEvent)) ∧
      ∀ w ∈ elementsOf data, w ≠ .null ∧
        (decodeAny rt w (newEvent (eventKind w)) {}).2.halt = none := by
  obtain ⟨decoded, err, hs⟩ := ParseWebhook_second_pass rt data result h
  obtain ⟨v, hp, hobj, hd, hrun, _, hpw⟩ := secondPass_some rt data decoded err hs
  have hel : elementsOf data = elements v := by simp [elementsOf, hp]
  have hlen : ((elements v).map (fun w => newEvent (eventKind w))).length =
      (elements v).length := List.length_map _ _
  rw [← hlen] at hrun hd
  have hget : ∀ (i : Nat) (w : JVal), (elements v)[i]? = some w →
      decoded.elems[i]? = some (payloadOf rt w) ∧
        (decodeAny rt w (newEvent (eventKind w)) {}).2.halt = none := by
    intro i w hi
    obtain ⟨h1, h2, _⟩ := decodeEvents_tame_get rt v _ hrun i w hi
    have hg : ((elements v).map (fun w => newEvent (eventKind w))).getD i .nil =
        newEvent (eventKind w) := by
      simp [List.getD, List.getElem?_map, hi]
    rw [hg] at h1 h2
    rw [← hd] at h1
    exact ⟨h1, h2⟩
  rw [hel]
  refine ⟨?_, ?_⟩
  · rw [h] at hpw
    simp only [Ret.ok.injEq, Prod.mk.injEq, and_true] at hpw
    rw [hpw]
    exact envelopes_of_get (payloadOf rt) _ _ (fun i w hi => (hget i w hi).1)
  · intro w hw
    obtain ⟨i, hi⟩ := List.getElem?_of_mem hw
    exact ⟨isEventObject_ne_null (hobj w hw), (hget i w hi).2⟩

/-- C3: for every input on which `ParseWebhook` succeeds, the Types of the envelopes are the
known kinds of the elements of the input array, in the order of the array, and the i-th
envelope carries the payload decoded from the i-th element of a known kind: what the decoder
stores from that element into a fresh struct of its kind. -/
theorem ParseWebhook_payload_of_element (rt : Runtime) (data : List Char) (result : Webhook)
    (h : ParseWebhook rt data = .ok (result, none)) :
    result.map (fun x => x.Type_) = ((elementsOf data).map eventKind).filter isKnown ∧
      result.map (fun x => x.Event) =
        ((elementsOf data).filter (fun w => isKnown (eventKind w))).map (payloadOf rt) ∧
      ∀ (i : Nat) (x : WebhookEvent), result[i]? = some x →
        ∃ w, ((elementsOf data).filter (fun w => isKnown (eventKind w)))[i]? = some w ∧
          x = ⟨eventKind w, payloadOf rt w⟩ := by
  obtain ⟨hres, _⟩ := ParseWebhook_elements rt data result h
  subst hres
  refine ⟨?_, ?_, ?_⟩
  · rw [List.map_map, List.filter_map]
    rfl
  · rw [List.map_map]
    rfl
  · intro i x hx
    rw [List.getElem?_map] at hx
    cases hw : ((elementsOf data).filter (fun w => isKnown (eventKind w)))[i]? with
    | none => rw [hw] at hx; simp at hx
    | some w =>
      rw [hw] at hx
      simp only [Option.map_some', Option.some.injEq] at hx
      exact ⟨w, rfl, hx.symm⟩

theorem ParseWebhook_payload_of_element_witness :
    ParseWebhook stdRuntime sampleBadTimeThenUp =
        .ok ([⟨"check.down", .down { Type_ := "check.down" }⟩,
          ⟨"check.up", .up { Type_ := "check.up", Description := "back up" }⟩], none) ∧
      (elementsOf sampleBadTimeThenUp).map eventKind = ["check.down", "check.up"] ∧
      [AnyEvent.down { Type_ := "check.down" },
          AnyEvent.up { Type_ := "check.up", Description := "back up" }] =
        ((elementsOf sampleBadTimeThenUp).filter (fun w => isKnown (eventKind w))).map
          (payloadOf stdRuntime) :=
  ⟨rfl, by decide,
    (ParseWebhook_payload_of_element stdRuntime sampleBadTimeThenUp
      [⟨"check.down", .down { Type_ := "check.down" }⟩,
        ⟨"check.up", .up { Type_ := "check.up", Description := "back up" }⟩] rfl).2.1⟩

theorem decodeAny_down (rt : Runtime) (w : JVal) (hw : w ≠ .null) (e : EventDown) (st : Dec) :
    decodeAny rt w (.down e) st = (.down (EventDown.decode w e st).1, (EventDown.decode w e st).2) := by
  cases w <;> first | exact absurd rfl hw | rfl

theorem decodeAny_up (rt : Runtime) (w : JVal) (hw : w ≠ .null) (e : EventUp) (st : Dec) :
    decodeAny rt w (.up e) st = (.up (EventUp.decode w e st).1, (EventUp.decode w e st).2) := by
  cases w <;> first | exact absurd rfl hw | rfl

/-- C14 fails as stated: when a `check.down` element with an open downtime comes after an
element that is a number, `ParseWebhook` does not succeed: it returns the error of the first
pass and no envelope. -/
theorem ParseWebhook_open_downtime_lost :
    (elementsOf sampleDownAfterNumber).map eventKind = ["", "check.down"] ∧
      (elementsOf sampleDownAfterNumber).map
        (hasOpenDowntime "\"2025-02-14T09:16:44Z\"".toList) = [false, true] ∧
      ParseWebhook stdRuntime sampleDownAfterNumber =
        .ok ([], some (.unmarshalType "number" "updown.basicEvent")) :=
  ⟨by decide, by decide, rfl⟩

/-- C14 (amended): let the second decoding pass of `ParseWebhook` return no error. Then
`ParseWebhook` returns no error, and for every `check.down` or `check.up` element that has a
member named `downtime`, each of them an object in which `ended_at`, `duration` and `partial`
hold null and `started_at` holds a valid stamp, the envelope of the element carries a downtime
with the zero end instant, duration 0, the partial flag false, and the instant of the stamp
as its start. -/
theorem ParseWebhook_open_downtime (rt : Runtime) (data : List Char)
    (h : secondPassClean rt data = true)
    (y1 y2 y3 y4 m1 m2 d1 d2 h1 h2 n1 n2 s1 s2 : Char)
    (hv : validStamp y1 y2 y3 y4 m1 m2 d1 d2 h1 h2 n1 n2 s1 s2 = true) (i : Nat) (w : JVal)
    (hi : (elementsOf data)[i]? = some w)
    (hkind : eventKind w = EVENT_DOWN ∨ eventKind w = EVENT_UP)
    (hopen : hasOpenDowntime (stampText y1 y2 y3 y4 m1 m2 d1 d2 h1 h2 n1 n2 s1 s2) w = true) :
    ParseWebhook rt data =
        .ok (envelopes (elementsOf data) (secondPassEvents rt data), none) ∧
      ∃ (e : AnyEvent) (dt : Downtime),
        (secondPassEvents rt data)[i]? = some e ∧
          (⟨eventKind w, e⟩ : WebhookEvent) ∈
            envelopes (elementsOf data) (secondPassEvents rt data) ∧
          e.shape = some (eventKind w) ∧ e.downtime = some dt ∧
          dt.EndedAt.Time.IsZero = true ∧ dt.Duration = 0 ∧ dt.IsPartial = false ∧
          dt.StartedAt.Time.Unix =
            epochSeconds (num4 y1 y2 y3 y4) (num2 m1 m2) (num2 d1 d2) (num2 h1 h2)
              (num2 n1 n2) (num2 s1 s2) := by
  obtain ⟨a, b, c, d, e, f⟩ := validStamp_iff y1 y2 y3 y4 m1 m2 d1 d2 h1 h2 n1 n2 s1 s2 hv
  have hstamp := fun dd : Date =>
    UnmarshalJSON_stampText dd y1 y2 y3 y4 m1 m2 d1 d2 h1 h2 n1 n2 s1 s2 a b c d e f
  obtain ⟨hpw, hne, st1, hst1, hrun, hget, hmem, hsaved⟩ :=
    secondPass_element rt data h i w hi
  refine ⟨hpw, ?_⟩
  rcases hkind with hk | hk
  · have hnew : newEvent (eventKind w) = .down {} := by rw [hk]; rfl
    have hknown : isKnown (eventKind w) = true := by rw [hk]; rfl
    rw [hnew, decodeAny_down rt w hne] at hrun hget hmem
    obtain ⟨dt, e1, e2, e3⟩ := EventDown_decode_open _ _ hstamp w hopen st1 hrun
    refine ⟨_, dt, hget, hmem hknown, by rw [hk]; rfl, e1, ?_, e2.2.1, e2.2.2, ?_⟩
    · rw [e2.1]; rfl
    · rw [e3]; rfl
  · have hnew : newEvent (eventKind w) = .up {} := by rw [hk]; rfl
    have hknown : isKnown (eventKind w) = true := by rw [hk]; rfl
    rw [hnew, decodeAny_up rt w hne] at hrun hget hmem
    obtain ⟨dt, e1, e2, e3⟩ := EventUp_decode_open _ _ hstamp w hopen st1 hrun
    refine ⟨_, dt, hget, hmem hknown, by rw [hk]; rfl, e1, ?_, e2.2.1, e2.2.2, ?_⟩
    · rw [e2.1]; rfl
    · rw [e3]; rfl

theorem ParseWebhook_open_downtime_witness :
    epochSeconds 2025 2 14 9 16 44 = 1739524604 ∧
      ParseWebhook stdRuntime sampleDown =
        .ok (envelopes (elementsOf sampleDown) (secondPassEvents stdRuntime sampleDown), none) ∧
      ∃ (e : AnyEvent) (dt : Downtime),
        (secondPassEvents stdRuntime sampleDown)[0]? = some e ∧
          (⟨"check.down", e⟩ : WebhookEvent) ∈
            envelopes (elementsOf sampleDown) (secondPassEvents stdRuntime sampleDown) ∧
          e.shape = some "check.down" ∧ e.downtime = some dt ∧
          dt.EndedAt.Time.IsZero = true ∧ dt.Duration = 0 ∧ dt.IsPartial = false ∧
          dt.StartedAt.Time.Unix = epochSeconds 2025 2 14 9 16 44 :=
  ⟨(civil_sec 2025 2 14 9 16 44 0 (by decide) (by decide)).symm.trans (by rfl),
    ParseWebhook_open_downtime stdRuntime sampleDown (by rfl)
      '2' '0' '2' '5' '0' '2' '1' '4' '0' '9' '1' '6' '4' '4' (by decide) 0
      ((elementsOf sampleDown).headD .null) (by rfl) (Or.inl (by rfl)) (by rfl)⟩

/-! ## Decoding a performance drop -/

theorem decodeMembers_append {σ : Type} (fields : List (String × Decoder σ))
    (a b : List (String × JVal)) :
    ∀ (s : σ) (st : Dec),
      decodeMembers fields (a ++ b) s st =
        decodeMembers fields b (decodeMembers fields a s st).1 (decodeMembers fields a s st).2 := by
  induction a with
  | nil => intro s st; rfl
  | cons m rest ih =>
    intro s st
    obtain ⟨k, v⟩ := m
    cases hst : st.halt with
    | some e =>
      rw [decodeMembers_halted fields _ s st e hst, decodeMembers_halted fields _ s st e hst,
        decodeMembers_halted fields _ s st e hst]
    | none =>
      simp only [List.cons_append, decodeMembers, hst]
      cases hl : lookupField fields k with
      | none => simp only [hl]; exact ih s st
      | some dec => simp only [hl]; exact ih _ _

theorem decodeMembers_running_prefix {σ : Type} (fields : List (String × Decoder σ))
    (a b : List (String × JVal)) (s : σ) (st : Dec)
    (h : (decodeMembers fields (a ++ b) s st).2.halt = none) :
    (decodeMembers fields a s st).2.halt = none := by
  rw [decodeMembers_append] at h
  cases hh : (decodeMembers fields a s st).2.halt with
  | none => rfl
  | some e =>
    rw [decodeMembers_halted fields b _ _ e hh, hh] at h
    exact absurd h (by simp)

theorem filter_singleton_split {α : Type} (p : α → Bool) :
    ∀ (l : List α) (m : α), l.filter p = [m] →
      ∃ pre post, l = pre ++ m :: post ∧ (∀ x ∈ pre, p x = false) ∧ p m = true ∧
        ∀ x ∈ post, p x = false := by
  intro l
  induction l with
  | nil => intro m h; simp at h
  | cons a rest ih =>
    intro m h
    cases hp : p a with
    | true =>
      rw [List.filter_cons_of_pos hp] at h
      simp only [List.cons.injEq] at h
      obtain ⟨rfl, h2⟩ := h
      refine ⟨[], rest, rfl, by simp, hp, ?_⟩
      intro x hx
      cases hx2 : p x with
      | false => rfl
      | true =>
        have : x ∈ rest.filter p := List.mem_filter.mpr ⟨hx, hx2⟩
        rw [h2] at this
        simp at this
    | false =>
      rw [List.filter_cons_of_neg (by simp [hp])] at h
      obtain ⟨pre, post, h1, h2, h3, h4⟩ := ih m h
      refine ⟨a :: pre, post, by rw [h1]; rfl, ?_, h3, h4⟩
      intro x hx
      rcases List.mem_cons.mp hx with rfl | hx
      · exact hp
      · exact h2 x hx

/-- What a member of a performance drop does to the two fields of the claim. -/
theorem EventPerformanceDrop_member (rt : Runtime) (m : String × JVal)
    (dec : Decoder EventPerformanceDrop)
    (hl : lookupField (EventPerformanceDrop.fields rt) m.1 = some dec)
    (s1 : EventPerformanceDrop) (st1 : Dec) :
    ((dec m.2 s1 st1).1.LastMetrics = s1.LastMetrics ∧ keyIs "last_metrics" m = false ∨
      dec = field (fun s => s.LastMetrics) (fun s x => { s with LastMetrics := x })
        (decodePtr {} (decodePerformanceMetrics rt)) ∧ keyIs "last_metrics" m = true) ∧
    ((dec m.2 s1 st1).1.ApdexDropped = s1.ApdexDropped ∧ keyIs "apdex_dropped" m = false ∨
      dec = field (fun s => s.ApdexDropped) (fun s x => { s with ApdexDropped := x })
        decodeString ∧ keyIs "apdex_dropped" m = true) := by
  obtain ⟨f, hf, rfl, hk⟩ := lookupField_some_mem _ _ _ hl
  simp only [EventPerformanceDrop.fields, Event.fields, List.map, List.cons_append,
    List.nil_append, List.mem_cons, List.mem_singleton, List.not_mem_nil, or_false] at hf
  have other : ∀ name target : String, foldName name = foldName m.1 →
      foldName name ≠ foldName target → keyIs target m = false := by
    intro name target h1 h2
    simp only [keyIs, decide_eq_false_iff_not]
    exact fun h => h2 (h1.trans h)
  rcases hf with rfl | rfl | rfl | rfl | rfl | rfl
  · exact ⟨Or.inl ⟨rfl, other "event" _ hk (by decide)⟩,
      Or.inl ⟨rfl, other "event" _ hk (by decide)⟩⟩
  · exact ⟨Or.inl ⟨rfl, other "time" _ hk (by decide)⟩,
      Or.inl ⟨rfl, other "time" _ hk (by decide)⟩⟩
  · exact ⟨Or.inl ⟨rfl, other "description" _ hk (by decide)⟩,
      Or.inl ⟨rfl, other "description" _ hk (by decide)⟩⟩
  · exact ⟨Or.inl ⟨rfl, other "check" _ hk (by decide)⟩,
      Or.inl ⟨rfl, other "check" _ hk (by decide)⟩⟩
  · exact ⟨Or.inl ⟨rfl, other "apdex_dropped" _ hk (by decide)⟩,
      Or.inr ⟨rfl, by simpa [keyIs, eq_comm] using hk⟩⟩
  · exact ⟨Or.inr ⟨rfl, by simpa [keyIs, eq_comm] using hk⟩,
      Or.inl ⟨rfl, other "last_metrics" _ hk (by decide)⟩⟩

theorem decodePerformanceMetrics_fresh (rt : Runtime) (v : JVal) (r : List Char)
    (entries : List (String × JVal)) (hp : parseJSON v.raw = .ok (.obj r entries))
    (hk : entries.all (fun kv => validKey kv.1) = true) (st : Dec)
    (hrun : (decodePerformanceMetrics rt v {} st).2.halt = none)
    (hsaved : (decodePerformanceMetrics rt v {} st).2.savedError = none) :
    ∃ series, (decodePerformanceMetrics rt v {} st).1 = ⟨series⟩ ∧
      series.Perm ((objectEntries entries).map pointOf) ∧ Ascending series := by
  have hk1 : ∀ kv ∈ entries, validKey kv.1 = true := fun kv h => List.all_eq_true.mp hk kv h
  unfold decodePerformanceMetrics at hrun hsaved ⊢
  rcases UnmarshalJSON_valid_keys rt v.raw r entries hp hk1 with ⟨e, h, _⟩ | ⟨h, _⟩ |
    ⟨series, h1, hperm, h3, hok, hnn⟩
  · simp only [h] at hsaved
    exact absurd hsaved (saveError_saved_ne st e)
  · simp [h, Dec.stop] at hrun
  · have hmap : (metricsOf entries).map entryPoint = (objectEntries entries).map pointOf := by
      simp only [metricsOf, List.map_map]
      refine List.map_congr_left (fun kv hkv => ?_)
      have hmem := mem_objectEntries entries kv hkv
      have h4 := List.all_eq_true.mp hok kv hmem
      have h5 : apdexEntry kv.2 ≠ none :=
        hnn (kv.1, apdexEntry kv.2) (by
          simp only [metricsOf, List.mem_map]
          exact ⟨kv, hkv, rfl⟩)
      apply entryPoint_apdexEntry
      cases hx : kv.2 with
      | null => rw [hx] at h5; exact absurd rfl h5
      | bool b => rw [hx] at h4; exact h4
      | num l => rw [hx] at h4; exact h4
      | str a b => rw [hx] at h4; exact h4
      | arr a b => rw [hx] at h4; exact h4
      | obj a b => rw [hx] at h4; exact h4
    rw [hmap] at hperm
    exact ⟨series, by simp only [h1], hperm, h3⟩

theorem decodePtr_metrics_fresh (rt : Runtime) (v : JVal) (r : List Char)
    (entries : List (String × JVal)) (hp : parseJSON v.raw = .ok (.obj r entries))
    (hk : entries.all (fun kv => validKey kv.1) = true) (st : Dec)
    (hrun : (decodePtr {} (decodePerformanceMetrics rt) v none st).2.halt = none)
    (hsaved : (decodePtr {} (decodePerformanceMetrics rt) v none st).2.savedError = none) :
    ∃ series, (decodePtr {} (decodePerformanceMetrics rt) v none st).1 = some ⟨series⟩ ∧
      series.Perm ((objectEntries entries).map pointOf) ∧ Ascending series := by
  have hne : v ≠ .null := by
    intro h
    rw [h] at hp
    have h2 : parseJSON JVal.null.raw = .ok .null := rfl
    rw [h2] at hp
    simp at hp
  have e : decodePtr {} (decodePerformanceMetrics rt) v none st =
      (some (decodePerformanceMetrics rt v {} st).1, (decodePerformanceMetrics rt v {} st).2) := by
    cases v <;> first | exact absurd rfl hne | rfl
  rw [e] at hrun hsaved ⊢
  obtain ⟨series, h1, h2, h3⟩ :=
    decodePerformanceMetrics_fresh rt v r entries hp hk st hrun hsaved
  exact ⟨series, by rw [h1], h2, h3⟩

theorem isString_eq {v : JVal} {s : String} (h : v.isString s = true) :
    ∃ r, v = .str r s := by
  cases v <;> simp [JVal.isString] at h
  rename_i r x
  exact ⟨r, by rw [h]⟩

theorem EventPerformanceDrop_apdexDropped (rt : Runtime) (ms : List (String × JVal))
    (s : String)
    (hall : ms.all (fun m => !keyIs "apdex_dropped" m || m.2.isString s) = true)
    (hany : ms.any (keyIs "apdex_dropped") = true) (s0 : EventPerformanceDrop) (st : Dec)
    (hrun : (decodeMembers (EventPerformanceDrop.fields rt) ms s0 st).2.halt = none) :
    (decodeMembers (EventPerformanceDrop.fields rt) ms s0 st).1.ApdexDropped = s := by
  have step : ∀ m ∈ ms, ∀ dec, lookupField (EventPerformanceDrop.fields rt) m.1 = some dec →
      ∀ (s1 : EventPerformanceDrop) (st1 : Dec),
        (s1.ApdexDropped = s ∨ keyIs "apdex_dropped" m = true) →
        (dec m.2 s1 st1).1.ApdexDropped = s := by
    intro m hm dec hl s1 st1 h
    have hm1 := List.all_eq_true.mp hall m hm
    rcases (EventPerformanceDrop_member rt m dec hl s1 st1).2 with ⟨h1, h2⟩ | ⟨h1, h2⟩
    · rw [h1]
      rcases h with h | h
      · exact h
      · rw [h2] at h; exact absurd h (by simp)
    · rw [h2] at hm1
      obtain ⟨r, hr⟩ := isString_eq (by simpa using hm1)
      rw [h1, hr]
      rfl
  obtain ⟨m, hm, hkey⟩ := List.any_eq_true.mp hany
  have hk : foldName "apdex_dropped" = foldName m.1 := by
    simpa [keyIs, eq_comm] using hkey
  obtain ⟨dec, hdec⟩ := lookupField_isSome (EventPerformanceDrop.fields rt) m.1
    ("apdex_dropped", field (fun s => s.ApdexDropped) (fun s x => { s with ApdexDropped := x })
      decodeString)
    (by unfold EventPerformanceDrop.fields
        exact List.mem_append_right _ (List.mem_cons_self _ _)) hk
  exact decodeMembers_running_hit (EventPerformanceDrop.fields rt) (fun _ => True)
    (fun e => e.ApdexDropped = s) ms s0 st hrun (fun _ _ _ _ _ _ _ _ _ => trivial)
    (fun m hm dec hl s1 st1 _ _ h3 => step m hm dec hl s1 st1 (Or.inl h3))
    ⟨m, hm, dec, hdec, fun s1 st1 _ _ _ => step m hm dec hdec s1 st1 (Or.inr hkey)⟩ trivial

theorem EventPerformanceDrop_lastMetrics (rt : Runtime) (ms : List (String × JVal))
    (lm : String × JVal) (hf : ms.filter (keyIs "last_metrics") = [lm]) (r : List Char)
    (entries : List (String × JVal)) (hp : parseJSON lm.2.raw = .ok (.obj r entries))
    (hk : entries.all (fun kv => validKey kv.1) = true) (st : Dec)
    (hrun : (decodeMembers (EventPerformanceDrop.fields rt) ms {} st).2.halt = none)
    (hsaved : (decodeMembers (EventPerformanceDrop.fields rt) ms {} st).2.savedError = none) :
    ∃ series,
      (decodeMembers (EventPerformanceDrop.fields rt) ms {} st).1.LastMetrics = some ⟨series⟩ ∧
      series.Perm ((objectEntries entries).map pointOf) ∧ Ascending series := by
  obtain ⟨pre, post, rfl, hpre, hlm, hpost⟩ := filter_singleton_split _ ms lm hf
  have keep : ∀ (l : List (String × JVal)), (∀ x ∈ l, keyIs "last_metrics" x = false) →
      ∀ (I : Option PerformanceMetrics), ∀ m ∈ l, ∀ dec,
        lookupField (EventPerformanceDrop.fields rt) m.1 = some dec →
        ∀ (s1 : EventPerformanceDrop) (st1 : Dec), st1.halt = none →
          (dec m.2 s1 st1).2.halt = none → s1.LastMetrics = I →
          (dec m.2 s1 st1).1.LastMetrics = I := by
    intro l hl I m hm dec hdec s1 st1 _ _ h
    rcases (EventPerformanceDrop_member rt m dec hdec s1 st1).1 with ⟨h1, _⟩ | ⟨_, h2⟩
    · rw [h1]; exact h
    · rw [hl m hm] at h2; exact absurd h2 (by simp)
  have hrunPre := decodeMembers_running_prefix _ pre (lm :: post) _ _ hrun
  have hnone := decodeMembers_running_inv (EventPerformanceDrop.fields rt)
    (fun e => e.LastMetrics = none) pre {} st hrunPre (keep pre hpre none) rfl
  rw [decodeMembers_append] at hrun hsaved ⊢
  generalize decodeMembers (EventPerformanceDrop.fields rt) pre {} st = mid
    at hrunPre hnone hrun hsaved ⊢
  obtain ⟨s1, st1⟩ := mid
  simp only at hrunPre hnone hrun hsaved ⊢
  have hkey : foldName "last_metrics" = foldName lm.1 := by
    simpa [keyIs, eq_comm] using hlm
  obtain ⟨dec, hdec⟩ := lookupField_isSome (EventPerformanceDrop.fields rt) lm.1
    ("last_metrics", field (fun s => s.LastMetrics) (fun s x => { s with LastMetrics := x })
      (decodePtr {} (decodePerformanceMetrics rt)))
    (by unfold EventPerformanceDrop.fields
        exact List.mem_append_right _ (List.mem_cons_of_mem _ (List.mem_singleton.mpr rfl))) hkey
  have hdec2 : dec = field (fun s => s.LastMetrics) (fun s x => { s with LastMetrics := x })
      (decodePtr {} (decodePerformanceMetrics rt)) := by
    rcases (EventPerformanceDrop_member rt lm dec hdec s1 st1).1 with ⟨_, h2⟩ | ⟨h1, _⟩
    · rw [hlm] at h2; exact absurd h2 (by simp)
    · exact h1
  obtain ⟨k, v⟩ := lm
  simp only [decodeMembers, hrunPre, hdec] at hrun hsaved ⊢
  have hr : (dec v s1 st1).2.halt = none := by
    cases hh : (dec v s1 st1).2.halt with
    | none => rfl
    | some e =>
      rw [decodeMembers_halted _ post _ _ e hh, hh] at hrun
      exact absurd hrun (by simp)
  have hval : (dec v s1 st1).1.LastMetrics =
      (decodePtr {} (decodePerformanceMetrics rt) v none st1).1 := by
    rw [hdec2]
    show (decodePtr {} (decodePerformanceMetrics rt) v s1.LastMetrics st1).1 = _
    rw [hnone]
  have hr2 : (decodePtr {} (decodePerformanceMetrics rt) v none st1).2.halt = none := by
    rw [hdec2] at hr
    have : (decodePtr {} (decodePerformanceMetrics rt) v s1.LastMetrics st1).2.halt = none := hr
    rw [hnone] at this
    exact this
  have hs2 : (decodePtr {} (decodePerformanceMetrics rt) v none st1).2.savedError = none := by
    have h1 := decodeMembers_saved (EventPerformanceDrop.fields rt)
      (tame_EventPerformanceDrop_fields rt) post _ _ hr hsaved
    rw [hdec2] at h1
    have : (decodePtr {} (decodePerformanceMetrics rt) v s1.LastMetrics st1).2.savedError
        = none := h1
    rw [hnone] at this
    exact this
  obtain ⟨series, e1, e2, e3⟩ := decodePtr_metrics_fresh rt v r entries hp hk st1 hr2 hs2
  refine ⟨series, ?_, e2, e3⟩
  exact decodeMembers_running_inv (EventPerformanceDrop.fields rt)
    (fun e => e.LastMetrics = some ⟨series⟩) post _ _ hrun (keep post hpost _)
    (show (dec v s1 st1).1.LastMetrics = some ⟨series⟩ by rw [hval, e1])

theorem decodeAny_performanceDrop (rt : Runtime) (w : JVal) (hw : w ≠ .null)
    (e : EventPerformanceDrop) (st : Dec) :
    decodeAny rt w (.performanceDrop e) st =
      (.performanceDrop (EventPerformanceDrop.decode rt w e st).1,
        (EventPerformanceDrop.decode rt w e st).2) := by
  cases w <;> first | exact absurd rfl hw | rfl

/-- C15 fails as stated: the key of the metrics object is a valid timestamp in both inputs.
With a number under the key, `ParseWebhook` returns no error and a series without entries;
with null under the key, `ParseWebhook` panics. -/
theorem ParseWebhook_metrics_lost :
    (elementsOf sampleDropNumber).map eventKind = ["check.performance_drop"] ∧
      (elementsOf sampleDropNumber).map
        (fun w => (lastMetricsOf w).map (fun ms => ms.map (fun kv => (kv.1, validKey kv.1)))) =
          [some [("2023-03-12T02:00:00Z", true)]] ∧
      ParseWebhook stdRuntime sampleDropNumber =
        .ok ([⟨"check.performance_drop",
          .performanceDrop { Type_ := "check.performance_drop", ApdexDropped := "47%",
                             LastMetrics := some ⟨[]⟩ }⟩], none) ∧
      (elementsOf sampleDropNull).map eventKind = ["check.performance_drop"] ∧
      (elementsOf sampleDropNull).map
        (fun w => (lastMetricsOf w).map (fun ms => ms.map (fun kv => (kv.1, validKey kv.1)))) =
          [some [("2023-03-12T02:00:00Z", true)]] ∧
      ParseWebhook stdRuntime sampleDropNull = .panic :=
  ⟨by decide, by decide, rfl, by decide, by decide, rfl⟩

/-- C15 (amended): let the second decoding pass of `ParseWebhook` return no error. Then
`ParseWebhook` returns no error, and for every `check.performance_drop` element that has
exactly one member named `last_metrics`, whose text is a JSON object with valid timestamp
keys, and in which the members named `apdex_dropped` hold the string `s`, the envelope of the
element carries an `EventPerformanceDrop` whose `ApdexDropped` is `s` and whose `LastMetrics`
series has exactly one entry per key of the object, with the instant of the key and the apdex
under it, in ascending time order. -/
theorem ParseWebhook_performance_drop (rt : Runtime) (data : List Char)
    (h : secondPassClean rt data = true) (i : Nat) (w : JVal)
    (hi : (elementsOf data)[i]? = some w) (hkind : eventKind w = EVENT_PERFORMANCE_DROP)
    (s : String) (hs : hasApdexDropped s w = true) (entries : List (String × JVal))
    (hlm : lastMetricsOf w = some entries)
    (hkeys : entries.all (fun kv => validKey kv.1) = true) :
    ParseWebhook rt data =
        .ok (envelopes (elementsOf data) (secondPassEvents rt data), none) ∧
      ∃ (e : EventPerformanceDrop) (series : List PerformanceApdex),
        (secondPassEvents rt data)[i]? = some (.performanceDrop e) ∧
          (⟨EVENT_PERFORMANCE_DROP, .performanceDrop e⟩ : WebhookEvent) ∈
            envelopes (elementsOf data) (secondPassEvents rt data) ∧
          e.ApdexDropped = s ∧ e.LastMetrics = some ⟨series⟩ ∧
          series.Perm ((objectEntries entries).map pointOf) ∧
          series.length = (objectEntries entries).length ∧ Ascending series := by
  obtain ⟨hpw, hne, st1, hst1, hrun, hget, hmem, hsaved⟩ :=
    secondPass_element rt data h i w hi
  refine ⟨hpw, ?_⟩
  have hnew : newEvent (eventKind w) = .performanceDrop {} := by rw [hkind]; rfl
  have hknown : isKnown (eventKind w) = true := by rw [hkind]; rfl
  rw [hnew, decodeAny_performanceDrop rt w hne] at hrun hget hmem hsaved
  have hmem2 := hmem hknown
  rw [hkind] at hmem2
  cases w with
  | obj r ms =>
    have e : EventPerformanceDrop.decode rt (.obj r ms) {} st1 =
        decodeMembers (EventPerformanceDrop.fields rt) ms {} st1 := rfl
    rw [e] at hrun hget hmem2 hsaved
    simp only [hasApdexDropped, Bool.and_eq_true] at hs
    have ha := EventPerformanceDrop_apdexDropped rt ms s hs.1 hs.2 {} st1 hrun
    simp only [lastMetricsOf, onlyMember] at hlm
    split at hlm
    · rename_i lm hlm1
      split at hlm1
      · rename_i m hfilter
        simp only [Option.some.injEq] at hlm1
        subst hlm1
        split at hlm
        · rename_i r1 entries1 hparse
          simp only [Option.some.injEq] at hlm
          subst hlm
          obtain ⟨series, e1, e2, e3⟩ :=
            EventPerformanceDrop_lastMetrics rt ms m hfilter r1 entries1 hparse hkeys st1 hrun
              hsaved
          exact ⟨_, series, hget, hmem2, ha, e1, e2, by simpa using e2.length_eq, e3⟩
        · simp at hlm
      · simp at hlm1
    · simp at hlm
  | null => simp [lastMetricsOf] at hlm
  | bool b => simp [lastMetricsOf] at hlm
  | num l => simp [lastMetricsOf] at hlm
  | str r x => simp [lastMetricsOf] at hlm
  | arr r x => simp [lastMetricsOf] at hlm

theorem ParseWebhook_performance_drop_witness :
    (∃ e : EventPerformanceDrop,
        ParseWebhook stdRuntime samplePerformanceDrop =
          .ok ([⟨"check.performance_drop", .performanceDrop e⟩], none) ∧
        e.ApdexDropped = "47%" ∧
        e.LastMetrics = some ⟨[⟨⟨1678586400, 0⟩, ⟨975, -3⟩⟩, ⟨⟨1678590000, 0⟩, ⟨1, 0⟩⟩,
          ⟨⟨1678593600, 0⟩, ⟨98, -2⟩⟩, ⟨⟨1678597200, 0⟩, ⟨1, 0⟩⟩,
          ⟨⟨1678600800, 0⟩, ⟨1, 0⟩⟩, ⟨⟨1678604400, 0⟩, ⟨51, -2⟩⟩]⟩) ∧
      (∃ e : EventPerformanceDrop,
        ParseWebhook revRuntime samplePerformanceDrop =
          .ok ([⟨"check.performance_drop", .performanceDrop e⟩], none) ∧
        e.ApdexDropped = "47%" ∧
        e.LastMetrics = some ⟨[⟨⟨1678586400, 0⟩, ⟨975, -3⟩⟩, ⟨⟨1678590000, 0⟩, ⟨1, 0⟩⟩,
          ⟨⟨1678593600, 0⟩, ⟨98, -2⟩⟩, ⟨⟨1678597200, 0⟩, ⟨1, 0⟩⟩,
          ⟨⟨1678600800, 0⟩, ⟨1, 0⟩⟩, ⟨⟨1678604400, 0⟩, ⟨51, -2⟩⟩]⟩) ∧
      ∃ (e : EventPerformanceDrop) (series : List PerformanceApdex),
        (secondPassEvents stdRuntime samplePerformanceDrop)[0]? = some (.performanceDrop e) ∧
          (⟨EVENT_PERFORMANCE_DROP, .performanceDrop e⟩ : WebhookEvent) ∈
            envelopes (elementsOf samplePerformanceDrop)
              (secondPassEvents stdRuntime samplePerformanceDrop) ∧
          e.ApdexDropped = "47%" ∧ e.LastMetrics = some ⟨series⟩ ∧
          series.Perm ((objectEntries sampleSixMembers).map pointOf) ∧
          series.length = (objectEntries sampleSixMembers).length ∧ Ascending series :=
  ⟨⟨_, rfl, rfl, rfl⟩, ⟨_, rfl, rfl, rfl⟩,
    (ParseWebhook_performance_drop stdRuntime samplePerformanceDrop (by rfl) 0
      ((elementsOf samplePerformanceDrop).headD .null) (by rfl) (by rfl) "47%" (by rfl)
      sampleSixMembers (by rfl) (by decide)).2⟩

/-! ## The accessors: one request and its outcome -/

theorem GetChecks_eq (net : Transport Checks) (cl : Client) (he : cl.engine ≠ none)
    (sent : List Request) :
    Client.GetChecks net (some cl) sent =
      (cl.sendRequest net sent GET "/checks" (some (some [])) none).reply (some []) := by
  simp only [Client.GetChecks, he, if_false, Sent.reply]
  try rfl

theorem GetNodes_eq (net : Transport Nodes) (cl : Client) (he : cl.engine ≠ none)
    (sent : List Request) :
    Client.GetNodes net (some cl) sent =
      (cl.sendRequest net sent GET "/nodes" (some (some [])) none).reply (some []) := by
  simp only [Client.GetNodes, he, if_false, Sent.reply]
  try rfl

theorem GetNodesIPs_eq (net : Transport (Option (List String))) (cl : Client) (he : cl.engine ≠ none)
    (sent : List Request) :
    Client.GetNodesIPs net (some cl) sent =
      (cl.sendRequest net sent GET "/nodes/ips" (some (some [])) none).reply (some []) := by
  simp only [Client.GetNodesIPs, he, if_false, Sent.reply]
  try rfl

theorem GetNodesIPsV4_eq (net : Transport (Option (List String))) (cl : Client) (he : cl.engine ≠ none)
    (sent : List Request) :
    Client.GetNodesIPsV4 net (some cl) sent =
      (cl.sendRequest net sent GET "/nodes/ipv4" (some (some [])) none).reply (some []) := by
  simp only [Client.GetNodesIPsV4, he, if_false, Sent.reply]
  try rfl

theorem GetNodesIPsV6_eq (net : Transport (Option (List String))) (cl : Client) (he : cl.engine ≠ none)
    (sent : List Request) :
    Client.GetNodesIPsV6 net (some cl) sent =
      (cl.sendRequest net sent GET "/nodes/ipv6" (some (some [])) none).reply (some []) := by
  simp only [Client.GetNodesIPsV6, he, if_false, Sent.reply]
  try rfl

theorem GetRecipients_eq (net : Transport Recipients) (cl : Client) (he : cl.engine ≠ none)
    (sent : List Request) :
    Client.GetRecipients net (some cl) sent =
      (cl.sendRequest net sent GET "/recipients" (some (some [])) none).reply (some []) := by
  simp only [Client.GetRecipients, he, if_false, Sent.reply]
  try rfl

theorem GetStatusPages_eq (net : Transport StatusPages) (cl : Client) (he : cl.engine ≠ none)
    (sent : List Request) :
    Client.GetStatusPages net (some cl) sent =
      (cl.sendRequest net sent GET "/status-pages" (some (some [])) none).reply (some []) := by
  simp only [Client.GetStatusPages, he, if_false, Sent.reply]
  try rfl

theorem GetCheck_eq (net : Transport (Option Check)) (cl : Client) (he : cl.engine ≠ none)
    (sent : List Request) (token : String) (ht : token ≠ "") (withMetrics : Bool) :
    Client.GetCheck net (some cl) sent token withMetrics =
      (cl.sendRequest net sent GET ("/checks/" ++ token) (some (some {}))
        (if withMetrics then some [("metrics", .bool true)] else none)).reply (some {}) := by
  simp only [Client.GetCheck, he, ht, if_false, Sent.reply]
  try rfl

theorem GetMetrics_eq (net : Transport (Option Metrics)) (cl : Client) (he : cl.engine ≠ none)
    (sent : List Request) (token : String) (ht : token ≠ "") (options : MetricsOptions) :
    Client.GetMetrics net (some cl) sent token options =
      (cl.sendRequest net sent GET ("/checks/" ++ token ++ "/metrics") (some (some {}))
        options.toQuery).reply (some {}) := by
  simp only [Client.GetMetrics, he, ht, if_false, Sent.reply]
  try rfl

/-- The four outcomes of `sendRequest`: the transport fails, the status is not 200, the
body does not decode, or the body decodes. In each of them the counter went up by one and
the request is the one request sent. -/
theorem sendRequest_cases {α : Type} (net : Transport α) (c : Client) (sent : List Request)
    (method endpoint : String) (zero : α) (query : Option (GoMap QueryValue)) :
    (c.sendRequest net sent method endpoint (some zero) query).client =
        { c with calls := (c.calls + 1) % uintSize } ∧
      (c.sendRequest net sent method endpoint (some zero) query).sent =
        sent ++ [⟨method, apiURL ++ endpoint, query, CONTENT_TYPE_JSON, defaultHeaders,
          c.apiKey⟩] ∧
      ((∃ cause, net c.engine sent
            ⟨method, apiURL ++ endpoint, query, CONTENT_TYPE_JSON, defaultHeaders, c.apiKey⟩ =
              .error cause ∧
          (c.sendRequest net sent method endpoint (some zero) query).err =
            some (.cantSend cause) ∧
          (c.sendRequest net sent method endpoint (some zero) query).response = some zero) ∨
        ∃ resp, net c.engine sent
            ⟨method, apiURL ++ endpoint, query, CONTENT_TYPE_JSON, defaultHeaders, c.apiKey⟩ =
              .ok resp ∧
          ((resp.StatusCode ≠ 200 ∧
            (c.sendRequest net sent method endpoint (some zero) query).err =
              some (.badStatus resp.StatusCode) ∧
            (c.sendRequest net sent method endpoint (some zero) query).response = some zero) ∨
          (resp.StatusCode = 200 ∧
            (c.sendRequest net sent method endpoint (some zero) query).err =
              (resp.JSON zero).2.map .cantDecode ∧
            (c.sendRequest net sent method endpoint (some zero) query).response =
              some (resp.JSON zero).1))) := by
  unfold Client.sendRequest
  dsimp only
  cases hn : net c.engine sent
      ⟨method, apiURL ++ endpoint, query, CONTENT_TYPE_JSON, defaultHeaders, c.apiKey⟩ with
  | error cause => exact ⟨rfl, rfl, Or.inl ⟨cause, rfl, rfl, rfl⟩⟩
  | ok resp =>
    dsimp only
    by_cases hs : resp.StatusCode = 200
    · have hne : ¬ (resp.StatusCode ≠ STATUS_OK) := by simp [hs, STATUS_OK]
      rw [if_neg hne]
      cases hj : (resp.JSON zero).2 with
      | none =>
        refine ⟨?_, ?_, Or.inr ⟨resp, rfl, Or.inr ⟨hs, ?_, ?_⟩⟩⟩ <;>
          first | rfl | (rw [hj]; rfl)
      | some cause =>
        refine ⟨?_, ?_, Or.inr ⟨resp, rfl, Or.inr ⟨hs, ?_, ?_⟩⟩⟩ <;>
          first | rfl | (rw [hj]; rfl)
    · have hne : resp.StatusCode ≠ STATUS_OK := hs
      rw [if_pos hne]
      refine ⟨?_, ?_, Or.inr ⟨resp, rfl, Or.inl ⟨hs, ?_, ?_⟩⟩⟩ <;> rfl

theorem reply_counts {β : Type} (net : Transport (Option β)) (c : Client)
    (sent : List Request) (method endpoint : String) (zero : Option β)
    (query : Option (GoMap QueryValue)) :
    Reply.counts (some c) sent
        ((c.sendRequest net sent method endpoint (some zero) query).reply zero) ∧
      ∃ r, ((c.sendRequest net sent method endpoint (some zero) query).reply zero).sent =
        sent ++ [r] := by
  obtain ⟨h1, h2, _⟩ := sendRequest_cases net c sent method endpoint zero query
  have hs : ((c.sendRequest net sent method endpoint (some zero) query).reply zero).sent =
      (c.sendRequest net sent method endpoint (some zero) query).sent := by
    unfold Sent.reply; split <;> rfl
  have hc : ((c.sendRequest net sent method endpoint (some zero) query).reply zero).client =
      some (c.sendRequest net sent method endpoint (some zero) query).client := by
    unfold Sent.reply; split <;> rfl
  refine ⟨⟨_, hs.trans h2, ?_⟩, _, hs.trans h2⟩
  rw [hc, h1]
  simp [Client.Calls]

theorem reply_outcome {β : Type} (net : Transport (Option β)) (c : Client)
    (sent : List Request) (method endpoint : String) (zero : Option β)
    (query : Option (GoMap QueryValue)) :
    Reply.decoded net (some c) sent zero
        ((c.sendRequest net sent method endpoint (some zero) query).reply zero) ∨
      Reply.failed ((c.sendRequest net sent method endpoint (some zero) query).reply zero) := by
  obtain ⟨_, h2, h3⟩ := sendRequest_cases net c sent method endpoint zero query
  have hfail : ∀ e, (c.sendRequest net sent method endpoint (some zero) query).err = some e →
      Reply.failed ((c.sendRequest net sent method endpoint (some zero) query).reply zero) := by
    intro e he
    unfold Sent.reply Reply.failed
    rw [he]
    exact ⟨by simp, rfl⟩
  rcases h3 with ⟨cause, _, he, _⟩ | ⟨resp, hn, ⟨_, he, _⟩ | ⟨hs, he, hr⟩⟩
  · exact Or.inr (hfail _ he)
  · exact Or.inr (hfail _ he)
  · cases hj : (resp.JSON zero).2 with
    | some cause =>
      rw [hj] at he
      exact Or.inr (hfail _ he)
    | none =>
      rw [hj] at he
      have he1 : (c.sendRequest net sent method endpoint (some zero) query).err = none := he
      left
      unfold Sent.reply Reply.decoded
      rw [he1]
      refine ⟨rfl, c, _, resp, rfl, hn, hs, ?_, h2⟩
      simp only [hr, Option.getD_some]
      rw [← hj]

theorem reply_status {β : Type} (net : Transport (Option β)) (c : Client)
    (sent : List Request) (method endpoint : String) (zero : Option β)
    (query : Option (GoMap QueryValue)) (code : Int) (hnet : net.delivers c.engine code) :
    Reply.statusRule code
      ((c.sendRequest net sent method endpoint (some zero) query).reply zero) := by
  obtain ⟨_, _, h3⟩ := sendRequest_cases net c sent method endpoint zero query
  have herr : ∀ x, (c.sendRequest net sent method endpoint (some zero) query).err = x →
      ((c.sendRequest net sent method endpoint (some zero) query).reply zero).err = x := by
    intro x hx
    unfold Sent.reply
    rw [hx]
    cases x <;> rfl
  have hres : ∀ e, (c.sendRequest net sent method endpoint (some zero) query).err = some e →
      ((c.sendRequest net sent method endpoint (some zero) query).reply zero).result =
        none := by
    intro e he
    unfold Sent.reply
    rw [he]
  obtain ⟨resp, hresp, hcode⟩ := hnet sent
    ⟨method, apiURL ++ endpoint, query, CONTENT_TYPE_JSON, defaultHeaders, c.apiKey⟩
  unfold Reply.statusRule
  rcases h3 with ⟨cause, hn, _, _⟩ | ⟨resp1, hn, ⟨hs, he, _⟩ | ⟨hs, he, _⟩⟩
  · rw [hresp] at hn; cases hn
  · rw [hresp] at hn
    cases hn
    rw [hcode] at hs he
    exact ⟨⟨fun _ => hs, fun _ => herr _ he⟩, fun _ => hres _ he⟩
  · rw [hresp] at hn
    cases hn
    rw [hcode] at hs
    refine ⟨⟨fun h => ?_, fun h => absurd hs h⟩, fun h => absurd hs h⟩
    rw [herr _ he] at h
    cases hj : (resp.JSON zero).2 <;> rw [hj] at h <;> simp at h

/-! ## GetDowntimes: every outcome of the loop -/

theorem page_cases (net : Transport Downtimes) (e : Option Engine) (sent : List Request)
    (apiKey token : String) (detailed : Bool) (p : Nat) :
    (∃ ds, pageRecords net e sent apiKey token detailed p = some ds ∧
        pageError net e sent apiKey token detailed p = none) ∨
      (∃ err, pageError net e sent apiKey token detailed p = some err ∧
        pageRecords net e sent apiKey token detailed p = none) := by
  unfold pageRecords pageError
  cases net e (sent ++ pageRequests apiKey token detailed (p - 1))
      (pageRequest apiKey token detailed p) with
  | error err => exact Or.inr ⟨_, rfl, rfl⟩
  | ok resp =>
    dsimp only
    by_cases hs : resp.StatusCode = 200
    · rw [if_pos hs, if_pos hs]
      cases hj : (resp.JSON (some [])).2 with
      | none => exact Or.inl ⟨_, rfl, rfl⟩
      | some cause => exact Or.inr ⟨_, rfl, rfl⟩
    · rw [if_neg hs, if_neg hs]
      exact Or.inr ⟨_, rfl, rfl⟩

theorem sendRequest_page_err (net : Transport Downtimes) (e : Option Engine)
    (sent : List Request) (apiKey token : String) (detailed : Bool) (calls p : Nat)
    (hp : 1 ≤ p) :
    (Client.sendRequest net ⟨e, apiKey, calls⟩
        (sent ++ pageRequests apiKey token detailed (p - 1)) GET
        ("/checks/" ++ token ++ "/downtimes") (some (some []))
        (some (pageQuery detailed p))).err = pageError net e sent apiKey token detailed p ∧
      (Client.sendRequest net ⟨e, apiKey, calls⟩
        (sent ++ pageRequests apiKey token detailed (p - 1)) GET
        ("/checks/" ++ token ++ "/downtimes") (some (some []))
        (some (pageQuery detailed p))).client = ⟨e, apiKey, (calls + 1) % uintSize⟩ ∧
      (Client.sendRequest net ⟨e, apiKey, calls⟩
        (sent ++ pageRequests apiKey token detailed (p - 1)) GET
        ("/checks/" ++ token ++ "/downtimes") (some (some []))
        (some (pageQuery detailed p))).sent = sent ++ pageRequests apiKey token detailed p := by
  rw [sendRequest_page net e sent apiKey token detailed calls p hp]
  unfold pageError
  cases net e (sent ++ pageRequests apiKey token detailed (p - 1))
      (pageRequest apiKey token detailed p) with
  | error err => exact ⟨rfl, rfl, rfl⟩
  | ok resp =>
    dsimp only
    by_cases hs : resp.StatusCode = 200
    · rw [if_neg (by simpa using hs), if_pos hs]
      exact ⟨rfl, rfl, rfl⟩
    · rw [if_pos hs, if_neg hs]
      exact ⟨rfl, rfl, rfl⟩

/-- Every run of the loop of `GetDowntimes`: it ends at some page `k`, after the pages
before `k` held exactly 100 records each, either because page `k` answered with another
number of records or is page 99, or because the request for page `k` failed. -/
theorem downtimesLoop_outcome (net : Transport Downtimes) (e : Option Engine)
    (sent : List Request) (apiKey token : String) (detailed : Bool) :
    ∀ (n p : Nat), p + n = 100 → 1 ≤ p → 1 ≤ n → ∀ (calls : Nat) (q : GoMap QueryValue)
      (result : Downtimes),
      (∀ p1 : Nat, GoMap.insert "page" (.int p1) q = pageQuery detailed p1) →
      (∀ j, 1 ≤ j → j < p →
        ∃ ds, pageRecords net e sent apiKey token detailed j = some ds ∧ sliceLen ds = 100) →
      ∃ k, p ≤ k ∧ k ≤ 99 ∧
        (∀ j, 1 ≤ j → j < k →
          ∃ ds, pageRecords net e sent apiKey token detailed j = some ds ∧
            sliceLen ds = 100) ∧
        (Client.downtimesLoop net token (List.range' p n) ⟨e, apiKey, calls⟩
          (sent ++ pageRequests apiKey token detailed (p - 1)) q result).client =
            some ⟨e, apiKey, (calls + (k - p + 1)) % uintSize⟩ ∧
        (Client.downtimesLoop net token (List.range' p n) ⟨e, apiKey, calls⟩
          (sent ++ pageRequests apiKey token detailed (p - 1)) q result).sent =
            sent ++ pageRequests apiKey token detailed k ∧
        (((Client.downtimesLoop net token (List.range' p n) ⟨e, apiKey, calls⟩
            (sent ++ pageRequests apiKey token detailed (p - 1)) q result).err = none ∧
          (Client.downtimesLoop net token (List.range' p n) ⟨e, apiKey, calls⟩
            (sent ++ pageRequests apiKey token detailed (p - 1)) q result).result =
              pagesFrom net e sent apiKey token detailed result p (k - p + 1) ∧
          ∃ ds, pageRecords net e sent apiKey token detailed k = some ds ∧
            (sliceLen ds ≠ 100 ∨ k = 99)) ∨
         ((Client.downtimesLoop net token (List.range' p n) ⟨e, apiKey, calls⟩
            (sent ++ pageRequests apiKey token detailed (p - 1)) q result).result = none ∧
          (Client.downtimesLoop net token (List.range' p n) ⟨e, apiKey, calls⟩
            (sent ++ pageRequests apiKey token detailed (p - 1)) q result).err ≠ none ∧
          (Client.downtimesLoop net token (List.range' p n) ⟨e, apiKey, calls⟩
            (sent ++ pageRequests apiKey token detailed (p - 1)) q result).err =
              pageError net e sent apiKey token detailed k)) := by
  intro n
  induction n with
  | zero => intro p _ _ h; omega
  | succ m ih =>
    intro p hpn hp _ calls q result hq hprev
    have hlist : List.range' p (m + 1) = p :: List.range' (p + 1) m := List.range'_succ _ _ _
    rw [hlist]
    have hsub : p - p + 1 = 1 := by omega
    obtain ⟨h1, h2, h3⟩ := sendRequest_page_err net e sent apiKey token detailed calls p hp
    rcases page_cases net e sent apiKey token detailed p with ⟨ds, hds, _⟩ | ⟨err, herr, _⟩
    · have hok := sendRequest_page_ok net e sent apiKey token detailed calls p hp ds hds
      simp only [Client.downtimesLoop, hq p, hok, Option.getD_some]
      by_cases hlen : sliceLen ds = 100
      · simp only [hlen, ne_eq, not_true_eq_false, if_false]
        by_cases hm : m = 0
        · subst hm
          have h99 : p = 99 := by omega
          refine ⟨p, Nat.le_refl _, by omega, hprev, ?_, ?_, Or.inl ⟨?_, ?_, ds, hds, Or.inr h99⟩⟩
          · simp [Client.downtimesLoop, hsub]
          · simp [Client.downtimesLoop]
          · simp [Client.downtimesLoop]
          · simp only [List.range', Client.downtimesLoop, hsub]
            exact (pagesFrom_one net e sent apiKey token detailed result ds p hds).symm
        · have hprev2 : ∀ j, 1 ≤ j → j < p + 1 →
              ∃ ds, pageRecords net e sent apiKey token detailed j = some ds ∧
                sliceLen ds = 100 := by
            intro j hj1 hj2
            rcases Nat.lt_or_ge j p with h | h
            · exact hprev j hj1 h
            · have : j = p := by omega
              subst this
              exact ⟨ds, hds, hlen⟩
          obtain ⟨k, hk1, hk2, hk3, hc, hs, hout⟩ := ih (p + 1) (by omega) (by omega) (by omega)
            ((calls + 1) % uintSize) (pageQuery detailed p) (sliceAppend result ds)
            (insert_page_next detailed p) hprev2
          simp only [Nat.add_sub_cancel] at hc hs hout
          have hcalls : ((calls + 1) % uintSize + (k - (p + 1) + 1)) % uintSize =
              (calls + (k - p + 1)) % uintSize := by
            rw [mod_succ_add]
            congr 2
            omega
          have hpages : pagesFrom net e sent apiKey token detailed (sliceAppend result ds)
              (p + 1) (k - (p + 1) + 1) =
              pagesFrom net e sent apiKey token detailed result p (k - p + 1) := by
            have : k - p + 1 = (k - (p + 1) + 1) + 1 := by omega
            rw [this, pagesFrom_succ net e sent apiKey token detailed result ds p _ hds]
          rw [hcalls] at hc
          rw [hpages] at hout
          exact ⟨k, by omega, hk2, hk3, hc, hs, hout⟩
      · simp only [hlen, ne_eq, not_false_eq_true, if_true]
        refine ⟨p, Nat.le_refl _, by omega, hprev, ?_, rfl, Or.inl ⟨trivial, ?_, ds, hds, Or.inl hlen⟩⟩
        · rw [hsub]
        · rw [hsub, pagesFrom_one net e sent apiKey token detailed result ds p hds]
    · rw [herr] at h1
      refine ⟨p, Nat.le_refl _, by omega, hprev, ?_, ?_, Or.inr ⟨?_, ?_, ?_⟩⟩
      · simp only [Client.downtimesLoop, hq p, h1, h2, hsub]
      · simp only [Client.downtimesLoop, hq p, h1, h3]
      · simp only [Client.downtimesLoop, hq p, h1]
      · simp only [Client.downtimesLoop, hq p, h1]
        simp
      · simp only [Client.downtimesLoop, hq p, h1, herr]

theorem GetChecks_counts (net : Transport Checks) (c : Option Client) (sent : List Request) :
    Reply.counts c sent (Client.GetChecks net c sent) := by
  cases c with
  | none => exact ⟨[], by simp [Client.GetChecks], by simp [Client.GetChecks]⟩
  | some cl =>
    by_cases he : cl.engine = none
    · exact ⟨[], by simp [Client.GetChecks, he], by simp [Client.GetChecks, he]⟩
    · rw [GetChecks_eq net cl he sent]
      exact (reply_counts net cl sent _ _ _ _).1

theorem GetChecks_outcome (net : Transport Checks) (c : Option Client) (sent : List Request) :
    Reply.decoded net c sent (some []) (Client.GetChecks net c sent) ∨ Reply.failed (Client.GetChecks net c sent) := by
  cases c with
  | none => exact Or.inr (by simp [Client.GetChecks, Reply.failed, ErrNilClient, ErrEmptyToken])
  | some cl =>
    by_cases he : cl.engine = none
    · exact Or.inr (by simp [Client.GetChecks, he, Reply.failed, ErrNilClient, ErrEmptyToken])
    · rw [GetChecks_eq net cl he sent]
      exact reply_outcome net cl sent _ _ _ _

theorem GetNodes_counts (net : Transport Nodes) (c : Option Client) (sent : List Request) :
    Reply.counts c sent (Client.GetNodes net c sent) := by
  cases c with
  | none => exact ⟨[], by simp [Client.GetNodes], by simp [Client.GetNodes]⟩
  | some cl =>
    by_cases he : cl.engine = none
    · exact ⟨[], by simp [Client.GetNodes, he], by simp [Client.GetNodes, he]⟩
    · rw [GetNodes_eq net cl he sent]
      exact (reply_counts net cl sent _ _ _ _).1

theorem GetNodes_outcome (net : Transport Nodes) (c : Option Client) (sent : List Request) :
    Reply.decoded net c sent (some []) (Client.GetNodes net c sent) ∨ Reply.failed (Client.GetNodes net c sent) := by
  cases c with
  | none => exact Or.inr (by simp [Client.GetNodes, Reply.failed, ErrNilClient, ErrEmptyToken])
  | some cl =>
    by_cases he : cl.engine = none
    · exact Or.inr (by simp [Client.GetNodes, he, Reply.failed, ErrNilClient, ErrEmptyToken])
    · rw [GetNodes_eq net cl he sent]
      exact reply_outcome net cl sent _ _ _ _

theorem GetNodesIPs_counts (net : Transport (Option (List String))) (c : Option Client) (sent : List Request) :
    Reply.counts c sent (Client.GetNodesIPs net c sent) := by
  cases c with
  | none => exact ⟨[], by simp [Client.GetNodesIPs], by simp [Client.GetNodesIPs]⟩
  | some cl =>
    by_cases he : cl.engine = none
    · exact ⟨[], by simp [Client.GetNodesIPs, he], by simp [Client.GetNodesIPs, he]⟩
    · rw [GetNodesIPs_eq net cl he sent]
      exact (reply_counts net cl sent _ _ _ _).1

theorem GetNodesIPs_outcome (net : Transport (Option (List String))) (c : Option Client) (sent : List Request) :
    Reply.decoded net c sent (some []) (Client.GetNodesIPs net c sent) ∨ Reply.failed (Client.GetNodesIPs net c sent) := by
  cases c with
  | none => exact Or.inr (by simp [Client.GetNodesIPs, Reply.failed, ErrNilClient, ErrEmptyToken])
  | some cl =>
    by_cases he : cl.engine = none
    · exact Or.inr (by simp [Client.GetNodesIPs, he, Reply.failed, ErrNilClient, ErrEmptyToken])
    · rw [GetNodesIPs_eq net cl he sent]
      exact reply_outcome net cl sent _ _ _ _

theorem GetNodesIPsV4_counts (net : Transport (Option (List String))) (c : Option Client) (sent : List Request) :
    Reply.counts c sent (Client.GetNodesIPsV4 net c sent) := by
  cases c with
  | none => exact ⟨[], by simp [Client.GetNodesIPsV4], by simp [Client.GetNodesIPsV4]⟩
  | some cl =>
    by_cases he : cl.engine = none
    · exact ⟨[], by simp [Client.GetNodesIPsV4, he], by simp [Client.GetNodesIPsV4, he]⟩
    · rw [GetNodesIPsV4_eq net cl he sent]
      exact (reply_counts net cl sent _ _ _ _).1

theorem GetNodesIPsV4_outcome (net : Transport (Option (List String))) (c : Option Client) (sent : List Request) :
    Reply.decoded net c sent (some []) (Client.GetNodesIPsV4 net c sent) ∨ Reply.failed (Client.GetNodesIPsV4 net c sent) := by
  cases c with
  | none => exact Or.inr (by simp [Client.GetNodesIPsV4, Reply.failed, ErrNilClient, ErrEmptyToken])
  | some cl =>
    by_cases he : cl.engine = none
    · exact Or.inr (by simp [Client.GetNodesIPsV4, he, Reply.failed, ErrNilClient, ErrEmptyToken])
    · rw [GetNodesIPsV4_eq net cl he sent]
      exact reply_outcome net cl sent _ _ _ _

theorem GetNodesIPsV6_counts (net : Transport (Option (List String))) (c : Option Client) (sent : List Request) :
    Reply.counts c sent (Client.GetNodesIPsV6 net c sent) := by
  cases c with
  | none => exact ⟨[], by simp [Client.GetNodesIPsV6], by simp [Client.GetNodesIPsV6]⟩
  | some cl =>
    by_cases he : cl.engine = none
    · exact ⟨[], by simp [Client.GetNodesIPsV6, he], by simp [Client.GetNodesIPsV6, he]⟩
    · rw [GetNodesIPsV6_eq net cl he sent]
      exact (reply_counts net cl sent _ _ _ _).1

theorem GetNodesIPsV6_outcome (net : Transport (Option (List String))) (c : Option Client) (sent : List Request) :
    Reply.decoded net c sent (some []) (Client.GetNodesIPsV6 net c sent) ∨ Reply.failed (Client.GetNodesIPsV6 net c sent) := by
  cases c with
  | none => exact Or.inr (by simp [Client.GetNodesIPsV6, Reply.failed, ErrNilClient, ErrEmptyToken])
  | some cl =>
    by_cases he : cl.engine = none
    · exact Or.inr (by simp [Client.GetNodesIPsV6, he, Reply.failed, ErrNilClient, ErrEmptyToken])
    · rw [GetNodesIPsV6_eq net cl he sent]
      exact reply_outcome net cl sent _ _ _ _

theorem GetRecipients_counts (net : Transport Recipients) (c : Option Client) (sent : List Request) :
    Reply.counts c sent (Client.GetRecipients net c sent) := by
  cases c with
  | none => exact ⟨[], by simp [Client.GetRecipients], by simp [Client.GetRecipients]⟩
  | some cl =>
    by_cases he : cl.engine = none
    · exact ⟨[], by simp [Client.GetRecipients, he], by simp [Client.GetRecipients, he]⟩
    · rw [GetRecipients_eq net cl he sent]
      exact (reply_counts net cl sent _ _ _ _).1

theorem GetRecipients_outcome (net : Transport Recipients) (c : Option Client) (sent : List Request) :
    Reply.decoded net c sent (some []) (Client.GetRecipients net c sent) ∨ Reply.failed (Client.GetRecipients net c sent) := by
  cases c with
  | none => exact Or.inr (by simp [Client.GetRecipients, Reply.failed, ErrNilClient, ErrEmptyToken])
  | some cl =>
    by_cases he : cl.engine = none
    · exact Or.inr (by simp [Client.GetRecipients, he, Reply.failed, ErrNilClient, ErrEmptyToken])
    · rw [GetRecipients_eq net cl he sent]
      exact reply_outcome net cl sent _ _ _ _

theorem GetStatusPages_counts (net : Transport StatusPages) (c : Option Client) (sent : List Request) :
    Reply.counts c sent (Client.GetStatusPages net c sent) := by
  cases c with
  | none => exact ⟨[], by simp [Client.GetStatusPages], by simp [Client.GetStatusPages]⟩
  | some cl =>
    by_cases he : cl.engine = none
    · exact ⟨[], by simp [Client.GetStatusPages, he], by simp [Client.GetStatusPages, he]⟩
    · rw [GetStatusPages_eq net cl he sent]
      exact (reply_counts net cl sent _ _ _ _).1

theorem GetStatusPages_outcome (net : Transport StatusPages) (c : Option Client) (sent : List Request) :
    Reply.decoded net c sent (some []) (Client.GetStatusPages net c sent) ∨ Reply.failed (Client.GetStatusPages net c sent) := by
  cases c with
  | none => exact Or.inr (by simp [Client.GetStatusPages, Reply.failed, ErrNilClient, ErrEmptyToken])
  | some cl =>
    by_cases he : cl.engine = none
    · exact Or.inr (by simp [Client.GetStatusPages, he, Reply.failed, ErrNilClient, ErrEmptyToken])
    · rw [GetStatusPages_eq net cl he sent]
      exact reply_outcome net cl sent _ _ _ _

theorem GetCheck_counts (net : Transport (Option Check)) (c : Option Client) (sent : List Request) (token : String) (withMetrics : Bool) :
    Reply.counts c sent (Client.GetCheck net c sent token withMetrics) := by
  cases c with
  | none => exact ⟨[], by simp [Client.GetCheck], by simp [Client.GetCheck]⟩
  | some cl =>
    by_cases he : cl.engine = none
    · exact ⟨[], by simp [Client.GetCheck, he], by simp [Client.GetCheck, he]⟩
    · by_cases ht : token = ""
      · exact ⟨[], by simp [Client.GetCheck, he, ht], by simp [Client.GetCheck, he, ht]⟩
      · rw [GetCheck_eq net cl he sent token ht withMetrics]
        exact (reply_counts net cl sent _ _ _ _).1

theorem GetCheck_outcome (net : Transport (Option Check)) (c : Option Client) (sent : List Request) (token : String) (withMetrics : Bool) :
    Reply.decoded net c sent (some {}) (Client.GetCheck net c sent token withMetrics) ∨ Reply.failed (Client.GetCheck net c sent token withMetrics) := by
  cases c with
  | none => exact Or.inr (by simp [Client.GetCheck, Reply.failed, ErrNilClient, ErrEmptyToken])
  | some cl =>
    by_cases he : cl.engine = none
    · exact Or.inr (by simp [Client.GetCheck, he, Reply.failed, ErrNilClient, ErrEmptyToken])
    · by_cases ht : token = ""
      · exact Or.inr (by simp [Client.GetCheck, he, ht, Reply.failed, ErrNilClient, ErrEmptyToken])
      · rw [GetCheck_eq net cl he sent token ht withMetrics]
        exact reply_outcome net cl sent _ _ _ _

theorem GetMetrics_counts (net : Transport (Option Metrics)) (c : Option Client) (sent : List Request) (token : String) (options : MetricsOptions) :
    Reply.counts c sent (Client.GetMetrics net c sent token options) := by
  cases c with
  | none => exact ⟨[], by simp [Client.GetMetrics], by simp [Client.GetMetrics]⟩
  | some cl =>
    by_cases he : cl.engine = none
    · exact ⟨[], by simp [Client.GetMetrics, he], by simp [Client.GetMetrics, he]⟩
    · by_cases ht : token = ""
      · exact ⟨[], by simp [Client.GetMetrics, he, ht], by simp [Client.GetMetrics, he, ht]⟩
      · rw [GetMetrics_eq net cl he sent token ht options]
        exact (reply_counts net cl sent _ _ _ _).1

theorem GetMetrics_outcome (net : Transport (Option Metrics)) (c : Option Client) (sent : List Request) (token : String) (options : MetricsOptions) :
    Reply.decoded net c sent (some {}) (Client.GetMetrics net c sent token options) ∨ Reply.failed (Client.GetMetrics net c sent token options) := by
  cases c with
  | none => exact Or.inr (by simp [Client.GetMetrics, Reply.failed, ErrNilClient, ErrEmptyToken])
  | some cl =>
    by_cases he : cl.engine = none
    · exact Or.inr (by simp [Client.GetMetrics, he, Reply.failed, ErrNilClient, ErrEmptyToken])
    · by_cases ht : token = ""
      · exact Or.inr (by simp [Client.GetMetrics, he, ht, Reply.failed, ErrNilClient, ErrEmptyToken])
      · rw [GetMetrics_eq net cl he sent token ht options]
        exact reply_outcome net cl sent _ _ _ _

theorem GetDowntimes_outcome (net : Transport Downtimes) (cl : Client) (he : cl.engine ≠ none)
    (sent : List Request) (token : String) (ht : token ≠ "") (detailed : Bool) :
    ∃ k, 1 ≤ k ∧ k ≤ 99 ∧
      (Client.GetDowntimes net (some cl) sent token detailed).client =
        some { cl with calls := (cl.calls + k) % uintSize } ∧
      (Reply.fetched net cl sent token detailed k
          (Client.GetDowntimes net (some cl) sent token detailed) ∨
        Reply.brokeAt net cl sent token detailed k
          (Client.GetDowntimes net (some cl) sent token detailed)) := by
  obtain ⟨k, hk1, hk2, hprev, hc, hs, hout⟩ := downtimesLoop_outcome net cl.engine sent cl.apiKey
    token detailed 99 1 rfl (Nat.le_refl _) (by decide) cl.calls
    (if detailed then GoMap.insert "results" (.bool true) ([] : GoMap QueryValue) else [])
    none (insert_page_start detailed) (fun j h1 h2 => by omega)
  have h0 : pageRequests cl.apiKey token detailed (1 - 1) = [] := rfl
  rw [h0, List.append_nil] at hc hs hout
  have hk : k - 1 + 1 = k := by omega
  rw [hk] at hc hout
  have e : Client.GetDowntimes net (some cl) sent token detailed =
      Client.downtimesLoop net token (List.range' 1 99) cl sent
        (if detailed then GoMap.insert "results" (.bool true) ([] : GoMap QueryValue) else [])
        none := by
    simp only [Client.GetDowntimes, he, ht, if_false]
    try rfl
  rw [e]
  refine ⟨k, hk1, hk2, hc, ?_⟩
  rcases hout with ⟨a, b, c⟩ | ⟨a, b, c⟩
  · exact Or.inl ⟨a, hs, hprev, b, c⟩
  · exact Or.inr ⟨a, hs, hprev, b, c⟩

theorem GetDowntimes_counts (net : Transport Downtimes) (c : Option Client)
    (sent : List Request) (token : String) (detailed : Bool) :
    Reply.counts c sent (Client.GetDowntimes net c sent token detailed) := by
  cases c with
  | none => exact ⟨[], by simp [Client.GetDowntimes], by simp [Client.GetDowntimes]⟩
  | some cl =>
    by_cases he : cl.engine = none
    · exact ⟨[], by simp [Client.GetDowntimes, he], by simp [Client.GetDowntimes, he]⟩
    · by_cases ht : token = ""
      · exact ⟨[], by simp [Client.GetDowntimes, he, ht], by simp [Client.GetDowntimes, he, ht]⟩
      · obtain ⟨k, hk1, _, hc, hout⟩ := GetDowntimes_outcome net cl he sent token ht detailed
        have hs : (Client.GetDowntimes net (some cl) sent token detailed).sent =
            sent ++ pageRequests cl.apiKey token detailed k := by
          rcases hout with h | h
          · exact h.2.1
          · exact h.2.1
        have hl : (pageRequests cl.apiKey token detailed k).length = k := by
          simp [pageRequests]
        refine ⟨pageRequests cl.apiKey token detailed k, hs, ?_⟩
        have hne : pageRequests cl.apiKey token detailed k ≠ [] := by
          intro h
          rw [h] at hl
          simp at hl
          omega
        rw [if_neg hne, hc, hl]
        rfl

theorem GetDowntimes_failed_or_fetched (net : Transport Downtimes) (c : Option Client)
    (sent : List Request) (token : String) (detailed : Bool) :
    (∃ cl k, c = some cl ∧ 1 ≤ k ∧ k ≤ 99 ∧
        Reply.fetched net cl sent token detailed k
          (Client.GetDowntimes net c sent token detailed)) ∨
      Reply.failed (Client.GetDowntimes net c sent token detailed) := by
  cases c with
  | none => exact Or.inr (by simp [Client.GetDowntimes, Reply.failed, ErrNilClient])
  | some cl =>
    by_cases he : cl.engine = none
    · exact Or.inr (by simp [Client.GetDowntimes, he, Reply.failed, ErrNilClient])
    · by_cases ht : token = ""
      · exact Or.inr (by simp [Client.GetDowntimes, he, ht, Reply.failed, ErrEmptyToken])
      · obtain ⟨k, hk1, hk2, _, hout⟩ := GetDowntimes_outcome net cl he sent token ht detailed
        rcases hout with h | h
        · exact Or.inl ⟨cl, k, rfl, hk1, hk2, h⟩
        · exact Or.inr ⟨h.2.2.2.1, h.1⟩

/-- The page at which the loop breaks is the first page whose request fails, when the pages
before it held exactly 100 records each. -/
theorem GetDowntimes_breaks (net : Transport Downtimes) (cl : Client) (he : cl.engine ≠ none)
    (sent : List Request) (token : String) (ht : token ≠ "") (detailed : Bool) (k : Nat)
    (hk1 : 1 ≤ k) (hk : k ≤ 99)
    (hfull : ∀ j, 1 ≤ j → j < k →
      ∃ ds, pageRecords net cl.engine sent cl.apiKey token detailed j = some ds ∧
        sliceLen ds = 100)
    (hfail : pageError net cl.engine sent cl.apiKey token detailed k ≠ none) :
    Reply.brokeAt net cl sent token detailed k
        (Client.GetDowntimes net (some cl) sent token detailed) ∧
      (Client.GetDowntimes net (some cl) sent token detailed).client =
        some { cl with calls := (cl.calls + k) % uintSize } := by
  have hnone : pageRecords net cl.engine sent cl.apiKey token detailed k = none := by
    rcases page_cases net cl.engine sent cl.apiKey token detailed k with ⟨_, _, h⟩ | ⟨_, _, h⟩
    · exact absurd h hfail
    · exact h
  obtain ⟨k1, h1, h2, hc, hout⟩ := GetDowntimes_outcome net cl he sent token ht detailed
  have hprev : ∀ j, 1 ≤ j → j < k1 →
      ∃ ds, pageRecords net cl.engine sent cl.apiKey token detailed j = some ds ∧
        sliceLen ds = 100 := by
    rcases hout with h | h
    · exact h.2.2.1
    · exact h.2.2.1
  have hle : k1 ≤ k := by
    rcases Nat.lt_or_ge k k1 with h | h
    · obtain ⟨ds, hds, _⟩ := hprev k hk1 h
      rw [hnone] at hds
      cases hds
    · exact h
  have hge : k ≤ k1 := by
    rcases Nat.lt_or_ge k1 k with h | h
    · obtain ⟨ds, hds, hlen⟩ := hfull k1 h1 h
      rcases hout with ho | ho
      · obtain ⟨ds1, hds1, hor⟩ := ho.2.2.2.2
        rw [hds] at hds1
        cases hds1
        rcases hor with h3 | h3
        · exact absurd hlen h3
        · omega
      · have h4 := ho.2.2.2.2
        rcases page_cases net cl.engine sent cl.apiKey token detailed k1 with
          ⟨_, _, h5⟩ | ⟨_, _, h5⟩
        · rw [h5] at h4
          exact absurd h4 ho.2.2.2.1
        · rw [hds] at h5
          cases h5
    · exact h
  have hkk : k1 = k := Nat.le_antisymm hle hge
  subst hkk
  rcases hout with ho | ho
  · obtain ⟨ds1, hds1, _⟩ := ho.2.2.2.2
    rw [hnone] at hds1
    cases hds1
  · exact ⟨ho, hc⟩

/-! ## The accessors: the status rule -/

theorem GetChecks_status (net : Transport Checks) (cl : Client) (he : cl.engine ≠ none)
    (sent : List Request) (code : Int) (hnet : net.delivers cl.engine code) :
    Reply.statusRule code (Client.GetChecks net (some cl) sent) := by
  rw [GetChecks_eq net cl he sent]
  exact reply_status net cl sent _ _ _ _ code hnet

theorem GetNodes_status (net : Transport Nodes) (cl : Client) (he : cl.engine ≠ none)
    (sent : List Request) (code : Int) (hnet : net.delivers cl.engine code) :
    Reply.statusRule code (Client.GetNodes net (some cl) sent) := by
  rw [GetNodes_eq net cl he sent]
  exact reply_status net cl sent _ _ _ _ code hnet

theorem GetNodesIPs_status (net : Transport (Option (List String))) (cl : Client) (he : cl.engine ≠ none)
    (sent : List Request) (code : Int) (hnet : net.delivers cl.engine code) :
    Reply.statusRule code (Client.GetNodesIPs net (some cl) sent) := by
  rw [GetNodesIPs_eq net cl he sent]
  exact reply_status net cl sent _ _ _ _ code hnet

theorem GetNodesIPsV4_status (net : Transport (Option (List String))) (cl : Client) (he : cl.engine ≠ none)
    (sent : List Request) (code : Int) (hnet : net.delivers cl.engine code) :
    Reply.statusRule code (Client.GetNodesIPsV4 net (some cl) sent) := by
  rw [GetNodesIPsV4_eq net cl he sent]
  exact reply_status net cl sent _ _ _ _ code hnet

theorem GetNodesIPsV6_status (net : Transport (Option (List String))) (cl : Client) (he : cl.engine ≠ none)
    (sent : List Request) (code : Int) (hnet : net.delivers cl.engine code) :
    Reply.statusRule code (Client.GetNodesIPsV6 net (some cl) sent) := by
  rw [GetNodesIPsV6_eq net cl he sent]
  exact reply_status net cl sent _ _ _ _ code hnet

theorem GetRecipients_status (net : Transport Recipients) (cl : Client) (he : cl.engine ≠ none)
    (sent : List Request) (code : Int) (hnet : net.delivers cl.engine code) :
    Reply.statusRule code (Client.GetRecipients net (some cl) sent) := by
  rw [GetRecipients_eq net cl he sent]
  exact reply_status net cl sent _ _ _ _ code hnet

theorem GetStatusPages_status (net : Transport StatusPages) (cl : Client) (he : cl.engine ≠ none)
    (sent : List Request) (code : Int) (hnet : net.delivers cl.engine code) :
    Reply.statusRule code (Client.GetStatusPages net (some cl) sent) := by
  rw [GetStatusPages_eq net cl he sent]
  exact reply_status net cl sent _ _ _ _ code hnet

theorem GetCheck_status (net : Transport (Option Check)) (cl : Client) (he : cl.engine ≠ none)
    (sent : List Request) (token : String) (ht : token ≠ "") (withMetrics : Bool) (code : Int)
    (hnet : net.delivers cl.engine code) :
    Reply.statusRule code (Client.GetCheck net (some cl) sent token withMetrics) := by
  rw [GetCheck_eq net cl he sent token ht withMetrics]
  exact reply_status net cl sent _ _ _ _ code hnet

theorem GetMetrics_status (net : Transport (Option Metrics)) (cl : Client) (he : cl.engine ≠ none)
    (sent : List Request) (token : String) (ht : token ≠ "") (options : MetricsOptions) (code : Int)
    (hnet : net.delivers cl.engine code) :
    Reply.statusRule code (Client.GetMetrics net (some cl) sent token options) := by
  rw [GetMetrics_eq net cl he sent token ht options]
  exact reply_status net cl sent _ _ _ _ code hnet

theorem pageError_delivers (net : Transport Downtimes) (e : Option Engine)
    (sent : List Request) (apiKey token : String) (detailed : Bool) (code : Int)
    (hnet : net.delivers e code) (p : Nat) :
    (code ≠ 200 → pageError net e sent apiKey token detailed p = some (.badStatus code)) ∧
      (code = 200 → ∀ c1, pageError net e sent apiKey token detailed p ≠
        some (.badStatus c1)) := by
  obtain ⟨resp, hresp, hcode⟩ := hnet (sent ++ pageRequests apiKey token detailed (p - 1))
    (pageRequest apiKey token detailed p)
  unfold pageError
  rw [hresp]
  dsimp only
  rw [hcode]
  constructor
  · intro h
    rw [if_neg h]
  · intro h c1
    rw [if_pos h]
    cases (resp.JSON (some [])).2 <;> simp

theorem GetDowntimes_status (net : Transport Downtimes) (cl : Client) (he : cl.engine ≠ none)
    (sent : List Request) (token : String) (ht : token ≠ "") (detailed : Bool) (code : Int)
    (hnet : net.delivers cl.engine code) :
    Reply.statusRule code (Client.GetDowntimes net (some cl) sent token detailed) := by
  unfold Reply.statusRule
  by_cases hc : code = 200
  · refine ⟨⟨fun h => ?_, fun h => absurd hc h⟩, fun h => absurd hc h⟩
    obtain ⟨k, _, _, _, hout⟩ := GetDowntimes_outcome net cl he sent token ht detailed
    rcases hout with ho | ho
    · rw [ho.1] at h
      cases h
    · rw [ho.2.2.2.2] at h
      exact absurd h
        ((pageError_delivers net cl.engine sent cl.apiKey token detailed code hnet k).2 hc code)
  · have hp := (pageError_delivers net cl.engine sent cl.apiKey token detailed code hnet 1).1 hc
    obtain ⟨hb, _⟩ := GetDowntimes_breaks net cl he sent token ht detailed 1 (Nat.le_refl _)
      (by decide) (fun j h1 h2 => by omega) (by rw [hp]; simp)
    have herr : (Client.GetDowntimes net (some cl) sent token detailed).err =
        some (.badStatus code) := by rw [hb.2.2.2.2, hp]
    exact ⟨⟨fun _ => hc, fun _ => herr⟩, fun _ => hb.1⟩

/-! ## The accessors: the claims -/

/-- C21: `sendRequest` raises the call counter (a `uint`) by one and sends one request,
whatever the transport then answers; each of the ten accessors counts exactly the requests
it sends; `SetUserAgent` leaves the counter alone, a new client starts at 0, and `GetChecks`
on a new client that succeeds leaves `Calls` at 1. -/
theorem calls_count_requests (c : Option Client) (sent : List Request)
    (token app version : String) (flag : Bool) (options : MetricsOptions)
    (n1 : Transport Checks) (n2 : Transport (Option Check)) (n3 : Transport Downtimes)
    (n4 : Transport (Option Metrics)) (n5 : Transport Nodes)
    (n6 : Transport (Option (List String))) (n7 : Transport Recipients)
    (n8 : Transport StatusPages) :
    (∀ (α : Type) (net : Transport α) (cl : Client) (method endpoint : String)
        (response : Option α) (query : Option (GoMap QueryValue)),
        (cl.sendRequest net sent method endpoint response query).client =
            { cl with calls := (cl.calls + 1) % uintSize } ∧
          ((cl.calls + 1 < uintSize) →
            Client.Calls (some (cl.sendRequest net sent method endpoint response query).client)
              = Client.Calls (some cl) + 1) ∧
          ∃ r, (cl.sendRequest net sent method endpoint response query).sent = sent ++ [r]) ∧
      Reply.counts c sent (Client.GetChecks n1 c sent) ∧
      Reply.counts c sent (Client.GetCheck n2 c sent token flag) ∧
      Reply.counts c sent (Client.GetDowntimes n3 c sent token flag) ∧
      Reply.counts c sent (Client.GetMetrics n4 c sent token options) ∧
      Reply.counts c sent (Client.GetNodes n5 c sent) ∧
      Reply.counts c sent (Client.GetNodesIPs n6 c sent) ∧
      Reply.counts c sent (Client.GetNodesIPsV4 n6 c sent) ∧
      Reply.counts c sent (Client.GetNodesIPsV6 n6 c sent) ∧
      Reply.counts c sent (Client.GetRecipients n7 c sent) ∧
      Reply.counts c sent (Client.GetStatusPages n8 c sent) ∧
      Client.Calls (Client.SetUserAgent c app version) = Client.Calls c ∧
      (∀ key, Client.Calls (NewClient key).1 = 0) ∧
      (Client.GetChecks netChecks (NewClient "test1234").1 []).err = none ∧
      Client.Calls (Client.GetChecks netChecks (NewClient "test1234").1 []).client = 1 := by
  refine ⟨?_, GetChecks_counts n1 c sent, GetCheck_counts n2 c sent token flag,
    GetDowntimes_counts n3 c sent token flag, GetMetrics_counts n4 c sent token options,
    GetNodes_counts n5 c sent, GetNodesIPs_counts n6 c sent, GetNodesIPsV4_counts n6 c sent,
    GetNodesIPsV6_counts n6 c sent, GetRecipients_counts n7 c sent,
    GetStatusPages_counts n8 c sent, ?_, ?_, rfl, rfl⟩
  · intro α net cl method endpoint response query
    obtain ⟨r, h1, h2⟩ := sendRequest_frame net cl sent method endpoint response query
    refine ⟨h2, fun hlt => ?_, r, h1⟩
    rw [h2]
    simp only [Client.Calls]
    exact Nat.mod_eq_of_lt hlt
  · cases c with
    | none => rfl
    | some cl =>
      cases he : cl.engine with
      | none => simp [Client.SetUserAgent, he]
      | some e =>
        by_cases h : (app = "" || version = "") = true
        · simp [Client.SetUserAgent, he, h, Client.Calls]
        · simp [Client.SetUserAgent, he, h, Client.Calls]
  · intro key
    by_cases hk : key = ""
    · simp [NewClient, hk, Client.Calls]
    · simp [NewClient, hk, Client.SetUserAgent, Client.Calls]

theorem calls_count_requests_witness :
    (Client.GetChecks netChecks (some sampleClient) []).err = none ∧
      Client.Calls (Client.GetChecks netChecks (some sampleClient) []).client = 1 ∧
      Reply.counts (some sampleClient) []
        (Client.GetDowntimes netFailsSecond (some sampleClient) [] "ngg8" false) ∧
      Client.Calls
        (Client.GetDowntimes netFailsSecond (some sampleClient) [] "ngg8" false).client = 2 :=
  have h := calls_count_requests (some sampleClient) [] "ngg8" "" "" false {} netChecks
    netNull netFailsSecond netNull (netStatus 200) (netStatus 200) (netStatus 200)
    (netStatus 200)
  ⟨h.2.2.2.2.2.2.2.2.2.2.2.2.2.1, h.2.2.2.2.2.2.2.2.2.2.2.2.2.2, h.2.2.2.1, rfl⟩

/-- C22: when the transport answers the request with a response, `sendRequest` returns the
status error that carries the status code of the response if and only if the code is not
200, and it then returns without reading the body: the value behind the response pointer
is untouched. Every accessor of a client with an engine, called with a token that is not
empty, follows the same rule and returns a nil result with that error. The message for
code 503 is the one the tests expect. -/
theorem status_error_iff (cl : Client) (he : cl.engine ≠ none) (sent : List Request)
    (token : String) (ht : token ≠ "") (flag : Bool) (options : MetricsOptions) (code : Int)
    (n1 : Transport Checks) (n2 : Transport (Option Check)) (n3 : Transport Downtimes)
    (n4 : Transport (Option Metrics)) (n5 : Transport Nodes)
    (n6 : Transport (Option (List String))) (n7 : Transport Recipients)
    (n8 : Transport StatusPages)
    (h1 : n1.delivers cl.engine code) (h2 : n2.delivers cl.engine code)
    (h3 : n3.delivers cl.engine code) (h4 : n4.delivers cl.engine code)
    (h5 : n5.delivers cl.engine code) (h6 : n6.delivers cl.engine code)
    (h7 : n7.delivers cl.engine code) (h8 : n8.delivers cl.engine code) :
    (∀ (α : Type) (net : Transport α) (c : Client) (method endpoint : String)
        (response : Option α) (query : Option (GoMap QueryValue)) (resp : Response α),
        net c.engine sent
            ⟨method, apiURL ++ endpoint, query, CONTENT_TYPE_JSON, defaultHeaders, c.apiKey⟩ =
          .ok resp →
        ((c.sendRequest net sent method endpoint response query).err =
            some (.badStatus resp.StatusCode) ↔ resp.StatusCode ≠ 200) ∧
          (resp.StatusCode ≠ 200 →
            (c.sendRequest net sent method endpoint response query).response = response)) ∧
      Reply.statusRule code (Client.GetChecks n1 (some cl) sent) ∧
      Reply.statusRule code (Client.GetCheck n2 (some cl) sent token flag) ∧
      Reply.statusRule code (Client.GetDowntimes n3 (some cl) sent token flag) ∧
      Reply.statusRule code (Client.GetMetrics n4 (some cl) sent token options) ∧
      Reply.statusRule code (Client.GetNodes n5 (some cl) sent) ∧
      Reply.statusRule code (Client.GetNodesIPs n6 (some cl) sent) ∧
      Reply.statusRule code (Client.GetNodesIPsV4 n6 (some cl) sent) ∧
      Reply.statusRule code (Client.GetNodesIPsV6 n6 (some cl) sent) ∧
      Reply.statusRule code (Client.GetRecipients n7 (some cl) sent) ∧
      Reply.statusRule code (Client.GetStatusPages n8 (some cl) sent) ∧
      (APIError.badStatus 503).Error = "API returned non-ok status code 503" := by
  refine ⟨?_, GetChecks_status n1 cl he sent code h1,
    GetCheck_status n2 cl he sent token ht flag code h2,
    GetDowntimes_status n3 cl he sent token ht flag code h3,
    GetMetrics_status n4 cl he sent token ht options code h4,
    GetNodes_status n5 cl he sent code h5, GetNodesIPs_status n6 cl he sent code h6,
    GetNodesIPsV4_status n6 cl he sent code h6, GetNodesIPsV6_status n6 cl he sent code h6,
    GetRecipients_status n7 cl he sent code h7, GetStatusPages_status n8 cl he sent code h8,
    by decide⟩
  intro α net c method endpoint response query resp hresp
  unfold Client.sendRequest
  dsimp only
  rw [hresp]
  dsimp only
  by_cases hs : resp.StatusCode = 200
  · have hne : ¬ (resp.StatusCode ≠ STATUS_OK) := by simp [hs, STATUS_OK]
    rw [if_neg hne]
    refine ⟨⟨fun h => ?_, fun h => absurd hs h⟩, fun h => absurd hs h⟩
    cases response with
    | none => simp at h
    | some v =>
      dsimp only at h
      cases hj : (resp.JSON v).2 <;> rw [hj] at h <;> simp at h
  · have hne : resp.StatusCode ≠ STATUS_OK := hs
    rw [if_pos hne]
    exact ⟨⟨fun _ => hs, fun _ => rfl⟩, fun _ => rfl⟩

theorem status_error_iff_witness :
    Client.GetChecks (netStatus 503) (some sampleClient) [] =
        ⟨some { sampleClient with calls := 1 },
          [⟨"GET", "https://updown.io/api/checks", none, "application/json",
            [("Accept-Encoding", "gzip")], "test1234"⟩],
          none, some (.badStatus 503)⟩ ∧
      Reply.statusRule 503 (Client.GetDowntimes (netStatus 503) (some sampleClient) [] "ngg8"
        false) ∧
      Reply.statusRule 200 (Client.GetChecks (netStatus 200) (some sampleClient) []) ∧
      (APIError.badStatus 503).Error = "API returned non-ok status code 503" :=
  have d503 : ∀ α : Type, (netStatus 503 : Transport α).delivers sampleClient.engine 503 :=
    fun _ _ _ => ⟨_, rfl, rfl⟩
  have d200 : ∀ α : Type, (netStatus 200 : Transport α).delivers sampleClient.engine 200 :=
    fun _ _ _ => ⟨_, rfl, rfl⟩
  have a := status_error_iff sampleClient (by decide) [] "ngg8" (by decide) false {} 503
    (netStatus 503) (netStatus 503) (netStatus 503) (netStatus 503) (netStatus 503)
    (netStatus 503) (netStatus 503) (netStatus 503) (d503 _) (d503 _) (d503 _) (d503 _)
    (d503 _) (d503 _) (d503 _) (d503 _)
  have b := status_error_iff sampleClient (by decide) [] "ngg8" (by decide) false {} 200
    (netStatus 200) (netStatus 200) (netStatus 200) (netStatus 200) (netStatus 200)
    (netStatus 200) (netStatus 200) (netStatus 200) (d200 _) (d200 _) (d200 _) (d200 _)
    (d200 _) (d200 _) (d200 _) (d200 _)
  ⟨rfl, a.2.2.2.1, b.2.1, a.2.2.2.2.2.2.2.2.2.2.2⟩

/-- C23 fails as stated: with status 200 and the body `null`, `GetCheck` returns a nil
result and a nil error; and when the first page holds no record, `GetDowntimes` returns a
nil slice and a nil error. Neither return is a result with a nil error or a nil result with
an error. -/
theorem GetCheck_nil_result_nil_error :
    (Client.GetCheck netNull (some sampleClient) [] "ngg8" false).result = none ∧
      (Client.GetCheck netNull (some sampleClient) [] "ngg8" false).err = none ∧
      pageRecords (netOfSize 0) sampleClient.engine [] "test1234" "ngg8" false 1 =
        some (some []) ∧
      (Client.GetDowntimes (netOfSize 0) (some sampleClient) [] "ngg8" false).result = none ∧
      (Client.GetDowntimes (netOfSize 0) (some sampleClient) [] "ngg8" false).err = none :=
  ⟨rfl, rfl, rfl, rfl, rfl⟩

/-- C23 (amended): every accessor either returns no error and the result its response
decoded to (for `GetDowntimes`: the records of the pages 1 to `k` in page order), which can
be nil, or returns an error and a nil result; it never returns both a result and an error.
When `GetDowntimes` has fetched the pages before `k` with 100 records each and the request
for page `k` fails, it returns a nil result and the error of that request, after the
requests for the pages 1 to `k`. -/
theorem accessors_result_or_error (c : Option Client) (sent : List Request) (token : String)
    (flag : Bool) (options : MetricsOptions)
    (n1 : Transport Checks) (n2 : Transport (Option Check)) (n3 : Transport Downtimes)
    (n4 : Transport (Option Metrics)) (n5 : Transport Nodes)
    (n6 : Transport (Option (List String))) (n7 : Transport Recipients)
    (n8 : Transport StatusPages) :
    (Reply.decoded n1 c sent (some []) (Client.GetChecks n1 c sent) ∨
        Reply.failed (Client.GetChecks n1 c sent)) ∧
      (Reply.decoded n2 c sent (some {}) (Client.GetCheck n2 c sent token flag) ∨
        Reply.failed (Client.GetCheck n2 c sent token flag)) ∧
      ((∃ cl k, c = some cl ∧ 1 ≤ k ∧ k ≤ 99 ∧
          Reply.fetched n3 cl sent token flag k (Client.GetDowntimes n3 c sent token flag)) ∨
        Reply.failed (Client.GetDowntimes n3 c sent token flag)) ∧
      (Reply.decoded n4 c sent (some {}) (Client.GetMetrics n4 c sent token options) ∨
        Reply.failed (Client.GetMetrics n4 c sent token options)) ∧
      (Reply.decoded n5 c sent (some []) (Client.GetNodes n5 c sent) ∨
        Reply.failed (Client.GetNodes n5 c sent)) ∧
      (Reply.decoded n6 c sent (some []) (Client.GetNodesIPs n6 c sent) ∨
        Reply.failed (Client.GetNodesIPs n6 c sent)) ∧
      (Reply.decoded n6 c sent (some []) (Client.GetNodesIPsV4 n6 c sent) ∨
        Reply.failed (Client.GetNodesIPsV4 n6 c sent)) ∧
      (Reply.decoded n6 c sent (some []) (Client.GetNodesIPsV6 n6 c sent) ∨
        Reply.failed (Client.GetNodesIPsV6 n6 c sent)) ∧
      (Reply.decoded n7 c sent (some []) (Client.GetRecipients n7 c sent) ∨
        Reply.failed (Client.GetRecipients n7 c sent)) ∧
      (Reply.decoded n8 c sent (some []) (Client.GetStatusPages n8 c sent) ∨
        Reply.failed (Client.GetStatusPages n8 c sent)) ∧
      ∀ (cl : Client) (k : Nat), c = some cl → cl.engine ≠ none → token ≠ "" → 1 ≤ k →
        k ≤ 99 →
        (∀ j, 1 ≤ j → j < k →
          ∃ ds, pageRecords n3 cl.engine sent cl.apiKey token flag j = some ds ∧
            sliceLen ds = 100) →
        pageError n3 cl.engine sent cl.apiKey token flag k ≠ none →
        Reply.brokeAt n3 cl sent token flag k (Client.GetDowntimes n3 c sent token flag) ∧
          Reply.failed (Client.GetDowntimes n3 c sent token flag) := by
  refine ⟨GetChecks_outcome n1 c sent, GetCheck_outcome n2 c sent token flag,
    GetDowntimes_failed_or_fetched n3 c sent token flag,
    GetMetrics_outcome n4 c sent token options, GetNodes_outcome n5 c sent,
    GetNodesIPs_outcome n6 c sent, GetNodesIPsV4_outcome n6 c sent,
    GetNodesIPsV6_outcome n6 c sent, GetRecipients_outcome n7 c sent,
    GetStatusPages_outcome n8 c sent, ?_⟩
  intro cl k hc he ht hk1 hk hfull hfail
  subst hc
  obtain ⟨hb, _⟩ := GetDowntimes_breaks n3 cl he sent token ht flag k hk1 hk hfull hfail
  exact ⟨hb, hb.2.2.2.1, hb.1⟩

theorem accessors_result_or_error_witness :
    pageRecords netFailsSecond sampleClient.engine [] "test1234" "ngg8" false 1 =
        some (some (List.replicate 100 none)) ∧
      pageError netFailsSecond sampleClient.engine [] "test1234" "ngg8" false 2 =
        some (.cantSend "timeout") ∧
      Reply.brokeAt netFailsSecond sampleClient [] "ngg8" false 2
        (Client.GetDowntimes netFailsSecond (some sampleClient) [] "ngg8" false) ∧
      Reply.failed (Client.GetDowntimes netFailsSecond (some sampleClient) [] "ngg8" false) ∧
      (Reply.decoded netChecks (some sampleClient) [] (some [])
          (Client.GetChecks netChecks (some sampleClient) []) ∨
        Reply.failed (Client.GetChecks netChecks (some sampleClient) [])) :=
  have h := accessors_result_or_error (some sampleClient) [] "ngg8" false {} netChecks
    netNull netFailsSecond netNull (netStatus 200) (netStatus 200) (netStatus 200)
    (netStatus 200)
  have g := h.2.2.2.2.2.2.2.2.2.2 sampleClient 2 rfl (by decide) (by decide) (by decide)
    (by decide)
    (fun j h1 h2 => by
      have : j = 1 := by omega
      subst this
      exact ⟨_, rfl, rfl⟩)
    (by decide)
  ⟨rfl, rfl, g.1, g.2, h.1⟩

/-- The query `toQuery` returns, by the three tests it makes. -/
theorem toQuery_eq (o : MetricsOptions) :
    o.toQuery =
      if o.From.IsZero = true ∧ o.To.IsZero = true ∧ o.GroupBy = "" then none
      else if o.From.IsZero = true then
        (if o.GroupBy = "" then some [] else some [("group", .str o.GroupBy)])
      else if o.GroupBy = "" then
        some [("from", .formatted ISO8601 o.From), ("to", .formatted ISO8601 o.To)]
      else some [("group", .str o.GroupBy), ("from", .formatted ISO8601 o.From),
        ("to", .formatted ISO8601 o.To)] := by
  unfold MetricsOptions.toQuery
  by_cases hg : o.GroupBy = "" <;> cases hf : o.From.IsZero <;> cases ht : o.To.IsZero <;>
    simp [hg, GoMap.insert]

/-- The zero instant is the only instant `IsZero` accepts. -/
theorem IsZero_eq_zero (t : Time) (h : t.IsZero = true) : t = Time.zero := by
  cases t with
  | mk s n =>
    simp only [Time.IsZero, Bool.and_eq_true, decide_eq_true_eq] at h
    obtain ⟨h1, h2⟩ := h
    subst h1
    subst h2
    rfl

/-- C25: `toQuery` puts "to" in the query exactly when From is not the zero instant, and
then its value is To formatted with the ISO 8601 layout; so a zero From with a non-zero To
gives a query without "to", and a non-zero From with a zero To gives a "to" formatted from
the zero instant. -/
theorem toQuery_to_tests_from (o : MetricsOptions) :
    (queryGet o.toQuery "to" ≠ none ↔ o.From.IsZero = false) ∧
      ("to" ∈ queryKeys o.toQuery ↔ o.From.IsZero = false) ∧
      (o.From.IsZero = false →
        queryGet o.toQuery "to" = some (.formatted ISO8601 o.To)) ∧
      (o.From.IsZero = true → o.To.IsZero = false →
        o.toQuery ≠ none ∧ queryGet o.toQuery "to" = none ∧
          ¬ "to" ∈ queryKeys o.toQuery) ∧
      (o.From.IsZero = false → o.To.IsZero = true →
        queryGet o.toQuery "to" = some (.formatted ISO8601 Time.zero)) := by
  have hz : o.To.IsZero = true → o.To = Time.zero := IsZero_eq_zero o.To
  rw [toQuery_eq]
  by_cases hg : o.GroupBy = "" <;> cases hf : o.From.IsZero <;> cases ht : o.To.IsZero <;>
    simp [hg, queryGet, queryKeys, List.lookup] <;> exact hz ht

theorem toQuery_to_tests_from_witness :
    queryGet (MetricsOptions.toQuery { To := sampleInstant }) "to" = none ∧
      MetricsOptions.toQuery { To := sampleInstant } = some [] ∧
      queryGet (MetricsOptions.toQuery { From := sampleInstant }) "to" =
        some (.formatted ISO8601 Time.zero) :=
  ⟨((toQuery_to_tests_from { To := sampleInstant }).2.2.2.1 rfl rfl).2.1, rfl,
    (toQuery_to_tests_from { From := sampleInstant }).2.2.2.2 rfl rfl⟩

/-- C26: `toQuery` returns nil exactly when From is zero, To is zero and GroupBy is empty;
a query it returns holds "group" exactly when GroupBy is not empty, with GroupBy as the
value, holds "from" exactly when From is not zero, and holds no key other than "group",
"from" and "to". -/
theorem toQuery_keys (o : MetricsOptions) :
    (o.toQuery = none ↔ o.From.IsZero = true ∧ o.To.IsZero = true ∧ o.GroupBy = "") ∧
      ∀ m, o.toQuery = some m →
        (List.lookup "group" m ≠ none ↔ o.GroupBy ≠ "") ∧
          ("group" ∈ m.map (fun kv => kv.1) ↔ o.GroupBy ≠ "") ∧
          (o.GroupBy ≠ "" → List.lookup "group" m = some (.str o.GroupBy)) ∧
          (List.lookup "from" m ≠ none ↔ o.From.IsZero = false) ∧
          ("from" ∈ m.map (fun kv => kv.1) ↔ o.From.IsZero = false) ∧
          (m.map (fun kv => kv.1)).Nodup ∧
          ∀ k, k ∈ m.map (fun kv => kv.1) → k = "group" ∨ k = "from" ∨ k = "to" := by
  rw [toQuery_eq]
  by_cases hg : o.GroupBy = "" <;> cases hf : o.From.IsZero <;> cases ht : o.To.IsZero <;>
    simp [hg, List.lookup] <;> intro k x h <;> tauto

theorem toQuery_keys_witness :
    MetricsOptions.toQuery { GroupBy := "host" } = some [("group", .str "host")] ∧
      List.lookup "group" [("group", QueryValue.str "host")] = some (.str "host") ∧
      (MetricsOptions.toQuery {} = none ↔
        Time.zero.IsZero = true ∧ Time.zero.IsZero = true ∧ "" = "") :=
  ⟨rfl, ((toQuery_keys { GroupBy := "host" }).2 _ rfl).2.2.1 (by decide),
    (toQuery_keys {}).1⟩

/-- A nil entry left by the first pass makes the loop that reads `ev.Type` panic. -/
theorem newEvents_nil_entry (types : List (Option basicEvent)) (h : none ∈ types)
    (events : List AnyEvent) : newEvents types events = .panic := by
  induction types generalizing events with
  | nil => cases h
  | cons t rest ih =>
    cases t with
    | none => rfl
    | some ev =>
      have h1 : none ∈ rest := by
        rcases List.mem_cons.mp h with h | h
        · cases h
        · exact h
      exact ih h1 _

/-- C27 fails in the code: on `[null]` and on `[null, {"event": "check.down"}]` the first
pass succeeds and stores a nil entry, and `ParseWebhook` panics when it reads the Type of
that entry; it returns neither a result nor an error. -/
theorem ParseWebhook_null_element_panics :
    jsonUnmarshal decodeTypes "[null]".toList {} = .ok (⟨[none], 1⟩, none) ∧
      ParseWebhook stdRuntime "[null]".toList = .panic ∧
      ParseWebhook revRuntime "[null]".toList = .panic ∧
      ParseWebhook stdRuntime "[null, \x7b\"event\": \"check.down\"\x7d]".toList = .panic ∧
      ParseWebhook revRuntime "[null, \x7b\"event\": \"check.down\"\x7d]".toList = .panic :=
  ⟨rfl, rfl, rfl, rfl, rfl⟩

/-! ## The Type inside a payload -/

theorem kindOfMembers_cons (m : String × JVal) (rest : List (String × JVal)) (kind : String) :
    kindOfMembers (m :: rest) kind = kindOfMembers rest (kindOfMembers [m] kind) := by
  obtain ⟨k, v⟩ := m
  cases v <;> simp only [kindOfMembers]
  split <;> rfl

theorem kindOfMembers_other (k : String) (v : JVal) (kind : String)
    (h : foldName k ≠ "EVENT") : kindOfMembers [(k, v)] kind = kind := by
  cases v <;> simp only [kindOfMembers]
  rw [if_neg h]

theorem kindOfMembers_event (k : String) (v : JVal) (kind : String) (st : Dec)
    (h : foldName k = "EVENT") :
    kindOfMembers [(k, v)] kind = (decodeString v kind st).1 := by
  cases v <;> simp only [kindOfMembers, decodeString]
  rw [if_pos h]

/-- When every field decoder treats the Type as the first pass treats the kind, a decoding
of an object that was not stopped leaves the kind of the object in the Type. -/
theorem decodeMembers_kind {σ : Type} (fields : List (String × Decoder σ)) (get : σ → String)
    (hev : ∃ f ∈ fields, foldName f.1 = "EVENT")
    (hstep : ∀ k dec, lookupField fields k = some dec → ∀ v s st,
      get (dec v s st).1 = kindOfMembers [(k, v)] (get s)) :
    ∀ (ms : List (String × JVal)) (s : σ) (st : Dec),
      (decodeMembers fields ms s st).2.halt = none →
      get (decodeMembers fields ms s st).1 = kindOfMembers ms (get s) := by
  intro ms
  induction ms with
  | nil => intro s st _; rfl
  | cons m rest ih =>
    intro s st hrun
    obtain ⟨k, v⟩ := m
    cases hst : st.halt with
    | some e =>
      rw [decodeMembers_halted fields _ s st e hst] at hrun
      rw [hst] at hrun
      exact absurd hrun (by simp)
    | none =>
      rw [kindOfMembers_cons]
      simp only [decodeMembers, hst] at hrun ⊢
      cases hl : lookupField fields k with
      | none =>
        simp only [hl] at hrun ⊢
        have hk : foldName k ≠ "EVENT" := by
          intro hk
          obtain ⟨f, hf, hfe⟩ := hev
          obtain ⟨dec, hd⟩ := lookupField_isSome fields k f hf (hfe.trans hk.symm)
          rw [hl] at hd
          exact absurd hd (by simp)
        rw [kindOfMembers_other k v _ hk]
        exact ih s st hrun
      | some dec =>
        simp only [hl] at hrun ⊢
        rw [ih _ _ hrun, hstep k dec hl v s st]

theorem EventDown_member_kind (k : String) (dec : Decoder EventDown)
    (hl : lookupField EventDown.fields k = some dec) (v : JVal) (s : EventDown) (st : Dec) :
    (dec v s st).1.Type_ = kindOfMembers [(k, v)] s.Type_ := by
  obtain ⟨f, hf, rfl, hk⟩ := lookupField_some_mem _ _ _ hl
  simp only [EventDown.fields, Event.fields, List.map, List.cons_append, List.nil_append,
    List.mem_cons, List.mem_singleton, List.not_mem_nil, or_false] at hf
  have other : ∀ name : String, foldName name = foldName k → foldName name ≠ "EVENT" →
      foldName k ≠ "EVENT" := fun name h1 h2 h3 => h2 (h1.trans h3)
  rcases hf with rfl | rfl | rfl | rfl | rfl
  · rw [kindOfMembers_event k v _ st (hk.symm.trans (by decide))]; rfl
  · rw [kindOfMembers_other k v _ (other "time" hk (by decide))]; rfl
  · rw [kindOfMembers_other k v _ (other "description" hk (by decide))]; rfl
  · rw [kindOfMembers_other k v _ (other "check" hk (by decide))]; rfl
  · rw [kindOfMembers_other k v _ (other "downtime" hk (by decide))]; rfl

/-- A decoding into a `EventDown` that was not stopped leaves the kind of the element in the
Type of the struct. -/
theorem EventDown_decode_kind (w : JVal) (st : Dec)
    (hrun : (EventDown.decode w {} st).2.halt = none) :
    (EventDown.decode w {} st).1.Type_ = eventKind w := by
  cases w with
  | obj r ms =>
    exact decodeMembers_kind EventDown.fields (fun s => s.Type_)
      ⟨_, by unfold EventDown.fields Event.fields; exact List.mem_append_left _ (List.mem_cons_self _ _),
        by decide⟩
      (fun k dec hl v s st1 => EventDown_member_kind k dec hl v s st1) ms {} st hrun
  | null => rfl
  | bool b => rfl
  | num l => rfl
  | str r x => rfl
  | arr r x => rfl

theorem EventUp_member_kind (k : String) (dec : Decoder EventUp)
    (hl : lookupField EventUp.fields k = some dec) (v : JVal) (s : EventUp) (st : Dec) :
    (dec v s st).1.Type_ = kindOfMembers [(k, v)] s.Type_ := by
  obtain ⟨f, hf, rfl, hk⟩ := lookupField_some_mem _ _ _ hl
  simp only [EventUp.fields, Event.fields, List.map, List.cons_append, List.nil_append,
    List.mem_cons, List.mem_singleton, List.not_mem_nil, or_false] at hf
  have other : ∀ name : String, foldName name = foldName k → foldName name ≠ "EVENT" →
      foldName k ≠ "EVENT" := fun name h1 h2 h3 => h2 (h1.trans h3)
  rcases hf with rfl | rfl | rfl | rfl | rfl
  · rw [kindOfMembers_event k v _ st (hk.symm.trans (by decide))]; rfl
  · rw [kindOfMembers_other k v _ (other "time" hk (by decide))]; rfl
  · rw [kindOfMembers_other k v _ (other "description" hk (by decide))]; rfl
  · rw [kindOfMembers_other k v _ (other "check" hk (by decide))]; rfl
  · rw [kindOfMembers_other k v _ (other "downtime" hk (by decide))]; rfl

/-- A decoding into a `EventUp` that was not stopped leaves the kind of the element in the
Type of the struct. -/
theorem EventUp_decode_kind (w : JVal) (st : Dec)
    (hrun : (EventUp.decode w {} st).2.halt = none) :
    (EventUp.decode w {} st).1.Type_ = eventKind w := by
  cases w with
  | obj r ms =>
    exact decodeMembers_kind EventUp.fields (fun s => s.Type_)
      ⟨_, by unfold EventUp.fields Event.fields; exact List.mem_append_left _ (List.mem_cons_self _ _),
        by decide⟩
      (fun k dec hl v s st1 => EventUp_member_kind k dec hl v s st1) ms {} st hrun
  | null => rfl
  | bool b => rfl
  | num l => rfl
  | str r x => rfl
  | arr r x => rfl

theorem EventSSLInvalid_member_kind (k : String) (dec : Decoder EventSSLInvalid)
    (hl : lookupField EventSSLInvalid.fields k = some dec) (v : JVal) (s : EventSSLInvalid) (st : Dec) :
    (dec v s st).1.Type_ = kindOfMembers [(k, v)] s.Type_ := by
  obtain ⟨f, hf, rfl, hk⟩ := lookupField_some_mem _ _ _ hl
  simp only [EventSSLInvalid.fields, Event.fields, List.map, List.cons_append, List.nil_append,
    List.mem_cons, List.mem_singleton, List.not_mem_nil, or_false] at hf
  have other : ∀ name : String, foldName name = foldName k → foldName name ≠ "EVENT" →
      foldName k ≠ "EVENT" := fun name h1 h2 h3 => h2 (h1.trans h3)
  rcases hf with rfl | rfl | rfl | rfl | rfl
  · rw [kindOfMembers_event k v _ st (hk.symm.trans (by decide))]; rfl
  · rw [kindOfMembers_other k v _ (other "time" hk (by decide))]; rfl
  · rw [kindOfMembers_other k v _ (other "description" hk (by decide))]; rfl
  · rw [kindOfMembers_other k v _ (other "check" hk (by decide))]; rfl
  · rw [kindOfMembers_other k v _ (other "ssl" hk (by decide))]; rfl

/-- A decoding into a `EventSSLInvalid` that was not stopped leaves the kind of the element in the
Type of the struct. -/
theorem EventSSLInvalid_decode_kind (w : JVal) (st : Dec)
    (hrun : (EventSSLInvalid.decode w {} st).2.halt = none) :
    (EventSSLInvalid.decode w {} st).1.Type_ = eventKind w := by
  cases w with
  | obj r ms =>
    exact decodeMembers_kind EventSSLInvalid.fields (fun s => s.Type_)
      ⟨_, by unfold EventSSLInvalid.fields Event.fields; exact List.mem_append_left _ (List.mem_cons_self _ _),
        by decide⟩
      (fun k dec hl v s st1 => EventSSLInvalid_member_kind k dec hl v s st1) ms {} st hrun
  | null => rfl
  | bool b => rfl
  | num l => rfl
  | str r x => rfl
  | arr r x => rfl

theorem EventSSLValid_member_kind (k : String) (dec : Decoder EventSSLValid)
    (hl : lookupField EventSSLValid.fields k = some dec) (v : JVal) (s : EventSSLValid) (st : Dec) :
    (dec v s st).1.Type_ = kindOfMembers [(k, v)] s.Type_ := by
  obtain ⟨f, hf, rfl, hk⟩ := lookupField_some_mem _ _ _ hl
  simp only [EventSSLValid.fields, Event.fields, List.map, List.cons_append, List.nil_append,
    List.mem_cons, List.mem_singleton, List.not_mem_nil, or_false] at hf
  have other : ∀ name : String, foldName name = foldName k → foldName name ≠ "EVENT" →
      foldName k ≠ "EVENT" := fun name h1 h2 h3 => h2 (h1.trans h3)
  rcases hf with rfl | rfl | rfl | rfl | rfl
  · rw [kindOfMembers_event k v _ st (hk.symm.trans (by decide))]; rfl
  · rw [kindOfMembers_other k v _ (other "time" hk (by decide))]; rfl
  · rw [kindOfMembers_other k v _ (other "description" hk (by decide))]; rfl
  · rw [kindOfMembers_other k v _ (other "check" hk (by decide))]; rfl
  · rw [kindOfMembers_other k v _ (other "ssl" hk (by decide))]; rfl

/-- A decoding into a `EventSSLValid` that was not stopped leaves the kind of the element in the
Type of the struct. -/
theorem EventSSLValid_decode_kind (w : JVal) (st : Dec)
    (hrun : (EventSSLValid.decode w {} st).2.halt = none) :
    (EventSSLValid.decode w {} st).1.Type_ = eventKind w := by
  cases w with
  | obj r ms =>
    exact decodeMembers_kind EventSSLValid.fields (fun s => s.Type_)
      ⟨_, by unfold EventSSLValid.fields Event.fields; exact List.mem_append_left _ (List.mem_cons_self _ _),
        by decide⟩
      (fun k dec hl v s st1 => EventSSLValid_member_kind k dec hl v s st1) ms {} st hrun
  | null => rfl
  | bool b => rfl
  | num l => rfl
  | str r x => rfl
  | arr r x => rfl

theorem EventSSLRenewed_member_kind (k : String) (dec : Decoder EventSSLRenewed)
    (hl : lookupField EventSSLRenewed.fields k = some dec) (v : JVal) (s : EventSSLRenewed) (st : Dec) :
    (dec v s st).1.Type_ = kindOfMembers [(k, v)] s.Type_ := by
  obtain ⟨f, hf, rfl, hk⟩ := lookupField_some_mem _ _ _ hl
  simp only [EventSSLRenewed.fields, Event.fields, List.map, List.cons_append, List.nil_append,
    List.mem_cons, List.mem_singleton, List.not_mem_nil, or_false] at hf
  have other : ∀ name : String, foldName name = foldName k → foldName name ≠ "EVENT" →
      foldName k ≠ "EVENT" := fun name h1 h2 h3 => h2 (h1.trans h3)
  rcases hf with rfl | rfl | rfl | rfl | rfl
  · rw [kindOfMembers_event k v _ st (hk.symm.trans (by decide))]; rfl
  · rw [kindOfMembers_other k v _ (other "time" hk (by decide))]; rfl
  · rw [kindOfMembers_other k v _ (other "description" hk (by decide))]; rfl
  · rw [kindOfMembers_other k v _ (other "check" hk (by decide))]; rfl
  · rw [kindOfMembers_other k v _ (other "ssl" hk (by decide))]; rfl

/-- A decoding into a `EventSSLRenewed` that was not stopped leaves the kind of the element in the
Type of the struct. -/
theorem EventSSLRenewed_decode_kind (w : JVal) (st : Dec)
    (hrun : (EventSSLRenewed.decode w {} st).2.halt = none) :
    (EventSSLRenewed.decode w {} st).1.Type_ = eventKind w := by
  cases w with
  | obj r ms =>
    exact decodeMembers_kind EventSSLRenewed.fields (fun s => s.Type_)
      ⟨_, by unfold EventSSLRenewed.fields Event.fields; exact List.mem_append_left _ (List.mem_cons_self _ _),
        by decide⟩
      (fun k dec hl v s st1 => EventSSLRenewed_member_kind k dec hl v s st1) ms {} st hrun
  | null => rfl
  | bool b => rfl
  | num l => rfl
  | str r x => rfl
  | arr r x => rfl

theorem EventSSLExpiration_member_kind (k : String) (dec : Decoder EventSSLExpiration)
    (hl : lookupField EventSSLExpiration.fields k = some dec) (v : JVal) (s : EventSSLExpiration) (st : Dec) :
    (dec v s st).1.Type_ = kindOfMembers [(k, v)] s.Type_ := by
  obtain ⟨f, hf, rfl, hk⟩ := lookupField_some_mem _ _ _ hl
  simp only [EventSSLExpiration.fields, Event.fields, List.map, List.cons_append, List.nil_append,
    List.mem_cons, List.mem_singleton, List.not_mem_nil, or_false] at hf
  have other : ∀ name : String, foldName name = foldName k → foldName name ≠ "EVENT" →
      foldName k ≠ "EVENT" := fun name h1 h2 h3 => h2 (h1.trans h3)
  rcases hf with rfl | rfl | rfl | rfl | rfl
  · rw [kindOfMembers_event k v _ st (hk.symm.trans (by decide))]; rfl
  · rw [kindOfMembers_other k v _ (other "time" hk (by decide))]; rfl
  · rw [kindOfMembers_other k v _ (other "description" hk (by decide))]; rfl
  · rw [kindOfMembers_other k v _ (other "check" hk (by decide))]; rfl
  · rw [kindOfMembers_other k v _ (other "ssl" hk (by decide))]; rfl

/-- A decoding into a `EventSSLExpiration` that was not stopped leaves the kind of the element in the
Type of the struct. -/
theorem EventSSLExpiration_decode_kind (w : JVal) (st : Dec)
    (hrun : (EventSSLExpiration.decode w {} st).2.halt = none) :
    (EventSSLExpiration.decode w {} st).1.Type_ = eventKind w := by
  cases w with
  | obj r ms =>
    exact decodeMembers_kind EventSSLExpiration.fields (fun s => s.Type_)
      ⟨_, by unfold EventSSLExpiration.fields Event.fields; exact List.mem_append_left _ (List.mem_cons_self _ _),
        by decide⟩
      (fun k dec hl v s st1 => EventSSLExpiration_member_kind k dec hl v s st1) ms {} st hrun
  | null => rfl
  | bool b => rfl
  | num l => rfl
  | str r x => rfl
  | arr r x => rfl

theorem EventPerformanceDrop_member_kind (rt : Runtime) (k : String) (dec : Decoder EventPerformanceDrop)
    (hl : lookupField (EventPerformanceDrop.fields rt) k = some dec) (v : JVal) (s : EventPerformanceDrop) (st : Dec) :
    (dec v s st).1.Type_ = kindOfMembers [(k, v)] s.Type_ := by
  obtain ⟨f, hf, rfl, hk⟩ := lookupField_some_mem _ _ _ hl
  simp only [EventPerformanceDrop.fields, Event.fields, List.map, List.cons_append, List.nil_append,
    List.mem_cons, List.mem_singleton, List.not_mem_nil, or_false] at hf
  have other : ∀ name : String, foldName name = foldName k → foldName name ≠ "EVENT" →
      foldName k ≠ "EVENT" := fun name h1 h2 h3 => h2 (h1.trans h3)
  rcases hf with rfl | rfl | rfl | rfl | rfl | rfl
  · rw [kindOfMembers_event k v _ st (hk.symm.trans (by decide))]; rfl
  · rw [kindOfMembers_other k v _ (other "time" hk (by decide))]; rfl
  · rw [kindOfMembers_other k v _ (other "description" hk (by decide))]; rfl
  · rw [kindOfMembers_other k v _ (other "check" hk (by decide))]; rfl
  · rw [kindOfMembers_other k v _ (other "apdex_dropped" hk (by decide))]; rfl
  · rw [kindOfMembers_other k v _ (other "last_metrics" hk (by decide))]; rfl

/-- A decoding into a `EventPerformanceDrop` that was not stopped leaves the kind of the element in the
Type of the struct. -/
theorem EventPerformanceDrop_decode_kind (rt : Runtime) (w : JVal) (st : Dec)
    (hrun : (EventPerformanceDrop.decode rt w {} st).2.halt = none) :
    (EventPerformanceDrop.decode rt w {} st).1.Type_ = eventKind w := by
  cases w with
  | obj r ms =>
    exact decodeMembers_kind (EventPerformanceDrop.fields rt) (fun s => s.Type_)
      ⟨_, by unfold EventPerformanceDrop.fields Event.fields; exact List.mem_append_left _ (List.mem_cons_self _ _),
        by decide⟩
      (fun k dec hl v s st1 => EventPerformanceDrop_member_kind rt k dec hl v s st1) ms {} st hrun
  | null => rfl
  | bool b => rfl
  | num l => rfl
  | str r x => rfl
  | arr r x => rfl

theorem decodeAny_sslInvalid (rt : Runtime) (w : JVal) (hw : w ≠ .null) (e : EventSSLInvalid)
    (st : Dec) :
    decodeAny rt w (.sslInvalid e) st =
      (.sslInvalid (EventSSLInvalid.decode w e st).1, (EventSSLInvalid.decode w e st).2) := by
  cases w <;> first | exact absurd rfl hw | rfl

theorem decodeAny_sslValid (rt : Runtime) (w : JVal) (hw : w ≠ .null) (e : EventSSLValid)
    (st : Dec) :
    decodeAny rt w (.sslValid e) st =
      (.sslValid (EventSSLValid.decode w e st).1, (EventSSLValid.decode w e st).2) := by
  cases w <;> first | exact absurd rfl hw | rfl

theorem decodeAny_sslRenewed (rt : Runtime) (w : JVal) (hw : w ≠ .null) (e : EventSSLRenewed)
    (st : Dec) :
    decodeAny rt w (.sslRenewed e) st =
      (.sslRenewed (EventSSLRenewed.decode w e st).1, (EventSSLRenewed.decode w e st).2) := by
  cases w <;> first | exact absurd rfl hw | rfl

theorem decodeAny_sslExpiration (rt : Runtime) (w : JVal) (hw : w ≠ .null) (e : EventSSLExpiration)
    (st : Dec) :
    decodeAny rt w (.sslExpiration e) st =
      (.sslExpiration (EventSSLExpiration.decode w e st).1, (EventSSLExpiration.decode w e st).2) := by
  cases w <;> first | exact absurd rfl hw | rfl

theorem isKnown_cases (kind : String) (h : isKnown kind = true) :
    kind = EVENT_DOWN ∨ kind = EVENT_UP ∨ kind = EVENT_SSL_INVALID ∨ kind = EVENT_SSL_VALID ∨
      kind = EVENT_SSL_RENEWED ∨ kind = EVENT_SSL_EXPIRTAION ∨
      kind = EVENT_PERFORMANCE_DROP := by
  simpa [isKnown, or_assoc] using h

/-- A value of `events` decoded from an element of a known kind, in a run that the element
did not stop, holds the kind of the element as its Type. -/
theorem decodeAny_kind (rt : Runtime) (w : JVal) (hw : w ≠ .null)
    (hk : isKnown (eventKind w) = true) (st : Dec)
    (hrun : (decodeAny rt w (newEvent (eventKind w)) st).2.halt = none) :
    (decodeAny rt w (newEvent (eventKind w)) st).1.payloadType = some (eventKind w) := by
  rcases isKnown_cases _ hk with h | h | h | h | h | h | h
  · have hnew : newEvent (eventKind w) = .down {} := by rw [h]; rfl
    rw [hnew, decodeAny_down rt w hw] at hrun ⊢
    exact congrArg some (EventDown_decode_kind w st hrun)
  · have hnew : newEvent (eventKind w) = .up {} := by rw [h]; rfl
    rw [hnew, decodeAny_up rt w hw] at hrun ⊢
    exact congrArg some (EventUp_decode_kind w st hrun)
  · have hnew : newEvent (eventKind w) = .sslInvalid {} := by rw [h]; rfl
    rw [hnew, decodeAny_sslInvalid rt w hw] at hrun ⊢
    exact congrArg some (EventSSLInvalid_decode_kind w st hrun)
  · have hnew : newEvent (eventKind w) = .sslValid {} := by rw [h]; rfl
    rw [hnew, decodeAny_sslValid rt w hw] at hrun ⊢
    exact congrArg some (EventSSLValid_decode_kind w st hrun)
  · have hnew : newEvent (eventKind w) = .sslRenewed {} := by rw [h]; rfl
    rw [hnew, decodeAny_sslRenewed rt w hw] at hrun ⊢
    exact congrArg some (EventSSLRenewed_decode_kind w st hrun)
  · have hnew : newEvent (eventKind w) = .sslExpiration {} := by rw [h]; rfl
    rw [hnew, decodeAny_sslExpiration rt w hw] at hrun ⊢
    exact congrArg some (EventSSLExpiration_decode_kind w st hrun)
  · have hnew : newEvent (eventKind w) = .performanceDrop {} := by rw [h]; rfl
    rw [hnew, decodeAny_performanceDrop rt w hw] at hrun ⊢
    exact congrArg some (EventPerformanceDrop_decode_kind rt w st hrun)

/-- Every envelope stands for an element of a known kind and holds the value at the index
of that element. -/
theorem envelopes_mem (items : List JVal) (events : List AnyEvent) (x : WebhookEvent)
    (h : x ∈ envelopes items events) :
    ∃ (i : Nat) (w : JVal) (e : AnyEvent), items[i]? = some w ∧ events[i]? = some e ∧
      isKnown (eventKind w) = true ∧
      x = ⟨eventKind w, e⟩ := by
  unfold envelopes at h
  rw [List.mem_filterMap] at h
  obtain ⟨p, hp, hx⟩ := h
  obtain ⟨i, hi⟩ := List.getElem?_of_mem hp
  obtain ⟨w, e⟩ := p
  rw [List.getElem?_zip_eq_some] at hi
  by_cases hk : isKnown (eventKind w) = true
  · simp only [hk, if_true, Option.some.injEq] at hx
    exact ⟨i, w, e, hi.1, hi.2, hk, hx.symm⟩
  · simp [hk] at hx

/-- C24: for every envelope `ParseWebhook` returns, the Type of the envelope is the Type
stored inside the payload of the envelope. -/
theorem ParseWebhook_type_agrees (rt : Runtime) (data : List Char) (result : Webhook)
    (err : Option GoError) (h : ParseWebhook rt data = .ok (result, err)) :
    ∀ x ∈ result, x.Event.payloadType = some x.Type_ := by
  cases err with
  | some e =>
    rw [(ParseWebhook_error_nil rt data result e h).1]
    intro x hx
    cases hx
  | none =>
    obtain ⟨hres, hall⟩ := ParseWebhook_elements rt data result h
    intro x hx
    rw [hres] at hx
    obtain ⟨w, hw, rfl⟩ := List.mem_map.mp hx
    obtain ⟨hmem, hk⟩ := List.mem_filter.mp hw
    obtain ⟨hne, hrun⟩ := hall w hmem
    exact decodeAny_kind rt w hne (by simpa using hk) {} hrun

theorem ParseWebhook_type_agrees_witness :
    ParseWebhook stdRuntime sampleTimeBeforeEvent =
        .ok ([⟨"check.down", .down { Type_ := "check.down" }⟩], none) ∧
      ∀ x ∈ [(⟨"check.down", .down { Type_ := "check.down" }⟩ : WebhookEvent)],
        x.Event.payloadType = some x.Type_ :=
  ⟨rfl, ParseWebhook_type_agrees stdRuntime sampleTimeBeforeEvent _ none rfl⟩

/-! ## PerformanceMetrics.UnmarshalJSON: the receiver -/

/-- The loop only appends: what it returns starts with the series it was given. -/
theorem appendMetrics_prefix (vis : List (String × Option apdexInfo)) (d d1 : PerformanceMetrics)
    (err : Option GoError) (h : appendMetrics vis d = .ok (d1, err)) :
    ∃ n, n ≤ vis.length ∧ d1.Metrics = d.Metrics ++ (vis.take n).map entryPoint ∧
      (err = none → n = vis.length) := by
  induction vis generalizing d with
  | nil =>
    simp only [appendMetrics, Ret.ok.injEq, Prod.mk.injEq] at h
    obtain ⟨h1, _⟩ := h
    subst h1
    exact ⟨0, by simp⟩
  | cons e rest ih =>
    obtain ⟨k, v⟩ := e
    unfold appendMetrics at h
    cases ht : timeParse? layoutPlain k.data with
    | none =>
      simp only [timeParse, ht, Ret.ok.injEq, Prod.mk.injEq] at h
      obtain ⟨h1, h2⟩ := h
      subst h1
      exact ⟨0, by simp, by simp, fun he => by rw [he] at h2; simp at h2⟩
    | some t =>
      simp only [timeParse, ht] at h
      cases v with
      | none => simp at h
      | some info =>
        obtain ⟨n, hn, h1, h2⟩ := ih _ h
        refine ⟨n + 1, by simpa using hn, ?_, fun he => by simp [h2 he]⟩
        rw [h1]
        simp [entryPoint, keyInstant, ht]

/-- On any receiver and a JSON object whose keys all match the timestamp pattern and whose
values all have the shape `{apdex: number}`, UnmarshalJSON returns no error and leaves a
series in ascending order that is a permutation of what the receiver held followed by the
entries of the object. -/
theorem UnmarshalJSON_receiver (rt : Runtime) (d : PerformanceMetrics) (b raw : List Char)
    (ms : List (String × JVal)) (hp : parseJSON b = .ok (.obj raw ms))
    (hk : ∀ kv ∈ ms, validKey kv.1 = true) (hv : ∀ kv ∈ ms, isApdexObject kv.2 = true) :
    ∃ series, PerformanceMetrics.UnmarshalJSON rt d b = .ok (⟨series⟩, none) ∧
      series.Perm (d.Metrics ++ (objectEntries ms).map pointOf) ∧ Ascending series ∧
      series.length = d.Metrics.length + (objectEntries ms).length := by
  obtain ⟨err, hu, herr⟩ := unmarshal_apdexMap b raw ms hp
  have hall : ms.all (fun kv => apdexEntryOk kv.2) = true :=
    List.all_eq_true.mpr (fun kv hkv => by
      have := hv kv hkv
      cases hx : kv.2 <;> simp [hx, apdexEntryOk, isApdexObject] at this ⊢
      exact this)
  have he : err = none := herr.mpr hall
  subst he
  have hperm := rt.mapRange_perm (metricsOf ms)
  have hvalid : ∀ e ∈ rt.mapRange (metricsOf ms), validKey e.1 = true :=
    fun e he => metricsOf_keys_valid ms hk e (hperm.subset he)
  have hmap : (metricsOf ms).map entryPoint = (objectEntries ms).map pointOf := by
    simp only [metricsOf, List.map_map]
    exact List.map_congr_left (fun kv hkv =>
      entryPoint_apdexEntry kv (hv kv (mem_objectEntries ms kv hkv)))
  have hnn : ∀ e ∈ rt.mapRange (metricsOf ms), e.2 ≠ none := by
    intro e he
    have he2 := hperm.subset he
    simp only [metricsOf, List.mem_map] at he2
    obtain ⟨kv, hkv, rfl⟩ := he2
    have := hv kv (mem_objectEntries ms kv hkv)
    cases hx : kv.2 <;> simp [hx, apdexEntry, isApdexObject] at this ⊢
  unfold PerformanceMetrics.UnmarshalJSON
  rw [if_neg (by rw [not_null_input b raw ms hp]; simp), hu]
  rcases appendMetrics_valid (rt.mapRange (metricsOf ms)) d hvalid with
    ⟨_, e, he, h2⟩ | ⟨h1, _⟩
  · exact absurd h2 (hnn e he)
  · have hp2 : (rt.sortSlice (fun x y => x.Date.Before y.Date)
        (d.Metrics ++ (rt.mapRange (metricsOf ms)).map entryPoint)).Perm
        (d.Metrics ++ (objectEntries ms).map pointOf) := by
      rw [← hmap]
      exact (rt.sortSlice_perm _ _).trans (List.Perm.append_left _ (hperm.map entryPoint))
    refine ⟨rt.sortSlice (fun x y => x.Date.Before y.Date)
      (d.Metrics ++ (rt.mapRange (metricsOf ms)).map entryPoint), ?_, hp2, ?_, ?_⟩
    · simp only [h1]
    · exact rt.sortSlice_sorted _ _ before_strictWeak
    · simpa using hp2.length_eq

/-- An error of UnmarshalJSON leaves the series the receiver held at the front of its
series; an error of `json.Unmarshal` leaves the receiver as it was. -/
theorem UnmarshalJSON_error_receiver (rt : Runtime) (d d1 : PerformanceMetrics) (b : List Char)
    (err : GoError) (h : PerformanceMetrics.UnmarshalJSON rt d b = .ok (d1, some err)) :
    (∃ extra, d1.Metrics = d.Metrics ++ extra) ∧
      ((∀ m, jsonUnmarshal apdexMap.decode b [] ≠ .ok (m, none)) → d1 = d) := by
  unfold PerformanceMetrics.UnmarshalJSON at h
  split at h
  · simp at h
  · split at h
    · simp at h
    · simp only [Ret.ok.injEq, Prod.mk.injEq] at h
      exact ⟨⟨[], by rw [← h.1]; simp⟩, fun _ => h.1.symm⟩
    · rename_i metrics hj
      refine ⟨?_, fun hno => absurd hj (hno metrics)⟩
      split at h
      · simp at h
      · rename_i d2 e2 ha
        simp only [Ret.ok.injEq, Prod.mk.injEq] at h
        obtain ⟨n, _, h1, _⟩ := appendMetrics_prefix _ _ _ _ ha
        rw [← h.1]
        exact ⟨_, h1⟩
      · simp at h

/-- C28 fails in the code: the loop appends to the series the receiver holds. Decoding the
six-key object of the test into a fresh receiver leaves six elements; decoding it again into
that receiver leaves twelve, each element twice. -/
theorem UnmarshalJSON_twice_accumulates :
    PerformanceMetrics.UnmarshalJSON stdRuntime {} sampleSix =
        .ok (⟨sampleSixSeries⟩, none) ∧
      (objectEntries sampleSixMembers).length = 6 ∧
      PerformanceMetrics.UnmarshalJSON stdRuntime ⟨sampleSixSeries⟩ sampleSix =
        .ok (⟨sampleSixSeries.flatMap (fun p => [p, p])⟩, none) ∧
      (sampleSixSeries.flatMap (fun p => [p, p])).length = 12 ∧
      PerformanceMetrics.UnmarshalJSON revRuntime ⟨sampleSixSeries⟩ sampleSix =
        .ok (⟨sampleSixSeries.flatMap (fun p => [p, p])⟩, none) :=
  ⟨rfl, rfl, rfl, rfl, rfl⟩

/-- C29 fails in the code: the loop appends to the series of the receiver before a later
key is looked at. With a key that matches the timestamp pattern visited before one that
does not, UnmarshalJSON returns the error and the receiver holds one element more than
before; visited in the other order the receiver is as it was. -/
theorem UnmarshalJSON_error_after_append :
    validKey "2023-03-12T02:00:00Z" = true ∧ validKey "2023-03-12K02:00:00Z" = false ∧
      PerformanceMetrics.UnmarshalJSON stdRuntime {} sampleValidThenBadKey =
        .ok (⟨[⟨⟨1678586400, 0⟩, ⟨975, -3⟩⟩]⟩, some (.parseError "2023-03-12K02:00:00Z")) ∧
      PerformanceMetrics.UnmarshalJSON stdRuntime ⟨sampleSixSeries⟩ sampleValidThenBadKey =
        .ok (⟨sampleSixSeries ++ [⟨⟨1678586400, 0⟩, ⟨975, -3⟩⟩]⟩,
          some (.parseError "2023-03-12K02:00:00Z")) ∧
      PerformanceMetrics.UnmarshalJSON revRuntime {} sampleValidThenBadKey =
        .ok ({}, some (.parseError "2023-03-12K02:00:00Z")) :=
  ⟨by decide, by decide, rfl, rfl, rfl⟩

end Updown
